import Mathlib

/-!
# Trial reconciler of redskyops-controller

A shallow embedding of `controllers/trial_controller.go` and
`controllers/trial_job_controller.go`.

* Instants (`metav1.Time`) and durations (`time.Duration`) are integers counting
  nanoseconds; instant `0` is the zero time.
* A pointer that may be nil is an `Option`.
* Every call that leaves the process (object store, stability probe, metric capture) is a
  field of `Env`; its answer is arbitrary.  Every such call, every `ApplyCondition` and every
  job handed to status observation is recorded, in program order, in the trace of the pass.
* A reconcile pass is a total function from the fetched trial to an `Outcome`: the
  `ctrl.Result`, the returned error, the in-memory trial at return and the trace.
-/

set_option linter.dupNamespace false

namespace Redsky

/-! ## Data model -/

abbrev Time := Int
abbrev Duration := Int

/-- One second, `time.Second`, in nanoseconds. -/
def Second : Duration := 1000000000

/-- The method `(*metav1.Time).IsZero`: nil or the zero instant. -/
def IsZero : Option Time → Bool
  | none => true
  | some t => t == 0

/-- The method `(*metav1.Time).Before`: false as soon as one side is nil. -/
def Before : Option Time → Option Time → Bool
  | some t, some u => decide (t < u)
  | _, _ => false

/-- Go `error` values, with the two structured errors the controllers type-assert on and the
two object-store errors the `controller` helpers tell apart.  `text` is what `Error()`
returns. -/
inductive Error
  | StabilityError (RetryAfter : Duration) (text : String)
  | CaptureError (RetryAfter : Duration) (Address Query : String) (CompletionTime : Time)
      (text : String)
  | Conflict (text : String)
  | NotFound (text : String)
  | Other (text : String)
  deriving DecidableEq, Repr

/-- The method `Error()`. -/
def Error.text : Error → String
  | .StabilityError _ s => s
  | .CaptureError _ _ _ _ s => s
  | .Conflict s => s
  | .NotFound s => s
  | .Other s => s

/-- The type assertion `err.(*redskytrial.StabilityError)`; the retry delay when it holds. -/
def Error.asStabilityError : Error → Option Duration
  | .StabilityError d _ => some d
  | _ => none

/-- The type assertion `err.(*metric.CaptureError)`; the retry delay when it holds. -/
def Error.asCaptureError : Error → Option Duration
  | .CaptureError d _ _ _ _ => some d
  | _ => none

inductive ConditionStatus
  | ConditionTrue
  | ConditionFalse
  | ConditionUnknown
  deriving DecidableEq, Repr

export ConditionStatus (ConditionTrue ConditionFalse ConditionUnknown)

inductive TrialConditionType
  | TrialStable
  | TrialPatched
  | TrialObserved
  | TrialFailed
  | TrialComplete
  deriving DecidableEq, Repr

export TrialConditionType (TrialStable TrialPatched TrialObserved TrialFailed TrialComplete)

structure TrialCondition where
  Type_ : TrialConditionType
  Status : ConditionStatus
  Reason : String
  Message : String
  LastTransitionTime : Time
  deriving DecidableEq, Repr

structure PatchOperation where
  TargetRef : String
  Wait : Bool
  deriving DecidableEq, Repr

structure Value where
  Name : String
  Value : String
  Error : String
  AttemptsRemaining : Int
  deriving DecidableEq, Repr

/-- A `metav1.LabelSelector`, kept abstract. -/
structure LabelSelector where
  key : String
  deriving DecidableEq, Repr

/-- The list option built by `meta.MatchingSelector`, kept abstract. -/
structure Selector where
  key : String
  deriving DecidableEq, Repr

structure TrialSpec where
  TargetNamespace : String
  PatchOperations : List PatchOperation
  Values : List Value
  StartTimeOffset : Option Duration
  deriving DecidableEq, Repr

structure TrialStatus where
  StartTime : Option Time
  CompletionTime : Option Time
  Conditions : List TrialCondition
  deriving DecidableEq, Repr

structure Trial where
  Namespace : String
  DeletionTimestamp : Option Time
  Spec : TrialSpec
  Status : TrialStatus
  deriving DecidableEq, Repr

/-- The Go zero value `Trial{}`. -/
def Trial.zero : Trial :=
  { Namespace := "", DeletionTimestamp := none,
    Spec := { TargetNamespace := "", PatchOperations := [], Values := [],
              StartTimeOffset := none },
    Status := { StartTime := none, CompletionTime := none, Conditions := [] } }

inductive JobConditionType
  | JobComplete
  | JobFailed
  deriving DecidableEq, Repr

export JobConditionType (JobComplete JobFailed)

structure JobCondition where
  Type_ : JobConditionType
  Status : ConditionStatus
  Reason : String
  Message : String
  deriving DecidableEq, Repr

structure JobStatus where
  StartTime : Option Time
  CompletionTime : Option Time
  Conditions : List JobCondition
  deriving DecidableEq, Repr

structure Job where
  Namespace : String
  Labels : List (String × String)
  Selector : Option LabelSelector
  Status : JobStatus
  deriving DecidableEq, Repr

/-- Go map indexing `m[k]` on a `map[string]string`: the empty string when the key is
absent. -/
def mapIndex : List (String × String) → String → String
  | [], _ => ""
  | (k, v) :: rest, key => if k = key then v else mapIndex rest key

/-- The constant `redskyv1alpha1.LabelTrialRole`, the key of the role label. Its declaration is
not among the sources; only the identity of the key matters here. -/
def LabelTrialRole : String := "redskyops.dev/trial-role"

structure ContainerStateRunning where
  StartedAt : Time
  deriving DecidableEq, Repr

structure ContainerStateTerminated where
  StartedAt : Time
  FinishedAt : Time
  deriving DecidableEq, Repr

structure ContainerState where
  Running : Option ContainerStateRunning
  Terminated : Option ContainerStateTerminated
  deriving DecidableEq, Repr

inductive PodPhase
  | PodPending
  | PodRunning
  | PodSucceeded
  | PodFailed
  | PodUnknown
  deriving DecidableEq, Repr

export PodPhase (PodPending PodRunning PodSucceeded PodFailed PodUnknown)

structure Pod where
  Phase : PodPhase
  Reason : String
  ContainerStatuses : List ContainerState
  deriving DecidableEq, Repr

structure Service where
  Name : String
  deriving DecidableEq, Repr

inductive MetricType
  | MetricLocal
  | MetricPods
  | MetricPrometheus
  | MetricJSONPath
  deriving DecidableEq, Repr

export MetricType (MetricLocal MetricPods MetricPrometheus MetricJSONPath)

structure Metric where
  Name : String
  Type_ : MetricType
  Selector : Option LabelSelector
  deriving DecidableEq, Repr

structure Experiment where
  Metrics : List Metric
  deriving DecidableEq, Repr

/-- What `getMetricTarget` hands to the capture: a pod list or a service list. -/
inductive Target
  | PodList (items : List Pod)
  | ServiceList (items : List Service)
  deriving DecidableEq, Repr

/-- A `float64`, by its IEEE 754 bit pattern. -/
structure Float64 where
  bits : Nat
  deriving DecidableEq, Repr

/-- The comparison `x != 0` on a `float64`: false exactly on the two zeros. -/
def Float64.nonZero (x : Float64) : Bool :=
  !(x.bits % 2 ^ 64 == 0 || x.bits % 2 ^ 64 == 2 ^ 63)

/-- The Go struct `ctrl.Result`. -/
structure Result where
  Requeue : Bool
  RequeueAfter : Duration
  deriving DecidableEq, Repr

/-- The Go value `ctrl.Result{}`. -/
def Result.empty : Result := { Requeue := false, RequeueAfter := 0 }

/-! ## Trace of a pass -/

inductive Event
  | WaitForStableState (i : Nat)
  | ApplyCondition (kind : TrialConditionType) (status : ConditionStatus)
      (reason message : String)
  | Update (t : Trial)
  | ListJobs
  | applyJobStatus (job : Job)
  | ListPods
  | ListServices
  | Create (job : Job)
  | GetExperiment
  | CaptureMetric (name : String)
  deriving DecidableEq, Repr

/-- Writes to the object store: the trial `Update` and the job `Create`. -/
def Event.isWrite : Event → Bool
  | .Update _ => true
  | .Create _ => true
  | _ => false

def Event.isUpdate : Event → Bool
  | .Update _ => true
  | _ => false

def Event.isCreate : Event → Bool
  | .Create _ => true
  | _ => false

def Event.isProbe : Event → Bool
  | .WaitForStableState _ => true
  | _ => false

def Event.isApplyCondition : Event → Bool
  | .ApplyCondition _ _ _ _ => true
  | _ => false

/-- What one reconcile pass returns and leaves behind. -/
structure Outcome where
  result : Result
  err : Option Error
  trial : Trial
  trace : List Event
  deriving DecidableEq, Repr

/-- The same outcome, reached after the events `es`. -/
def Outcome.after (es : List Event) (o : Outcome) : Outcome :=
  { o with trace := es ++ o.trace }

/-- The world outside the pass. The natural-number argument of a call is the position, in the
list being scanned, of the item the call is made for, so that two calls may answer
differently. -/
structure Env where
  WaitForStableState : Nat → PatchOperation → Option Error
  MatchingSelector : Option LabelSelector → Except Error Selector
  GetJobSelector : Trial → Option LabelSelector
  ListJobs : Selector → Except Error (List Job)
  ListPods : Nat → String → Selector → Except Error (List Pod)
  ListServices : Nat → Selector → Except Error (List Service)
  NewJob : Trial → Job
  SetControllerReference : Trial → Job → Except Error Job
  Create : Job → Option Error
  Update : Trial → Option Error
  GetExperiment : Trial → Except Error Experiment
  CaptureMetric : Metric → Trial → Option Target → Except Error (Float64 × Float64)
  FormatFloat : Float64 → String
  HasInitializer : Trial → Bool

/-! ## Condition ledger and the helpers of package `controller` -/

/-- Modelled from the spec: the condition `trial.ApplyCondition` stores, with `now` as its
transition time. -/
def newCondition (kind : TrialConditionType) (status : ConditionStatus) (reason message : String)
    (now : Time) : TrialCondition :=
  { Type_ := kind, Status := status, Reason := reason, Message := message,
    LastTransitionTime := now }

/-- Modelled from the spec: the upsert of `trial.ApplyCondition` on the condition list. -/
def upsertCondition (kind : TrialConditionType) (status : ConditionStatus)
    (reason message : String) (now : Time) : List TrialCondition → List TrialCondition
  | [] => [newCondition kind status reason message now]
  | c :: cs =>
    if c.Type_ = kind then
      if c.Status = status ∧ c.Reason = reason ∧ c.Message = message then c :: cs
      else newCondition kind status reason message now :: cs
    else c :: upsertCondition kind status reason message now cs

/-- Modelled from the spec: `trial.ApplyCondition` of package `internal/trial`, which is not
among the sources.  It upserts the condition of the given kind: nothing changes when status,
reason and message equal the stored ones, otherwise the four fields are replaced, with `now`
as the transition time; an absent kind is added. -/
def ApplyCondition (s : TrialStatus) (kind : TrialConditionType) (status : ConditionStatus)
    (reason message : String) (now : Time) : TrialStatus :=
  { s with Conditions := upsertCondition kind status reason message now s.Conditions }

/-- Modelled from the spec: the stored condition of a kind, the one `trial.ApplyCondition`
upserts and `trial.CheckCondition` reads. -/
def findCondition (s : TrialStatus) (kind : TrialConditionType) : Option TrialCondition :=
  s.Conditions.find? fun c => decide (c.Type_ = kind)

/-- Modelled from the spec: `trial.CheckCondition` of package `internal/trial`, in the form
`trial_controller.go` calls it.  The second component tells whether the kind has ever been
set, the first whether its status is the requested one. -/
def CheckCondition (s : TrialStatus) (kind : TrialConditionType) (status : ConditionStatus) :
    Bool × Bool :=
  match findCondition s kind with
  | some c => (decide (c.Status = status), true)
  | none => (false, false)

/-- Modelled from the spec: `trial.CheckCondition` in the one-result form
`trial_job_controller.go` calls it: the kind is set and has the requested status. -/
def CheckConditionIs (s : TrialStatus) (kind : TrialConditionType) (status : ConditionStatus) :
    Bool :=
  (CheckCondition s kind status).1 && (CheckCondition s kind status).2

/-- Modelled from the spec: `trial.IsFinished` of package `internal/trial`: `Failed=True` and
`Complete=True` are the terminal conditions. -/
def IsFinished (t : Trial) : Bool :=
  t.Status.Conditions.any fun c =>
    decide (c.Status = ConditionTrue) && (decide (c.Type_ = TrialComplete) || decide (c.Type_ = TrialFailed))

/-- Modelled from the spec: `trial.UpdateStatus` of package `internal/trial`.  The spec gives
it no effect on any attribute of the data model. -/
def UpdateStatus (t : Trial) : Trial := t

/-- Modelled from the spec: `controller.RequeueConflict` of package `internal/controller`.  A
conflicting commit is discarded and the pass is requeued without error; any other outcome of
the commit is handed back with an empty result. -/
def RequeueConflict : Option Error → Result × Option Error
  | some (.Conflict _) => ({ Requeue := true, RequeueAfter := 0 }, none)
  | e => (Result.empty, e)

/-- Modelled from the spec: `controller.IgnoreNotFound` of package `internal/controller`: a
not-found error is dropped, every other error is kept. -/
def IgnoreNotFound : Option Error → Option Error
  | some (.NotFound _) => none
  | e => e

/-! ## Workload status aggregation -/

def earliestTime (c n : Option Time) : Option Time × Bool :=
  if n ≠ none ∧ (c = none ∨ Before n c) then (n, true) else (c, false)

def latestTime (c n : Option Time) (offset : Option Duration) : Option Time × Bool :=
  if n ≠ none ∧ (c = none ∨ Before c n) then
    match offset with
    | some d => (n.map (· + d), true)
    | none => (n, true)
  else (c, false)

/-- The body of the inner loop of `containerTime`, for one container state. -/
def containerTimeStep (acc : Option Time × Option Time) (s : ContainerState) :
    Option Time × Option Time :=
  match s.Running with
  | some running => ((earliestTime acc.1 (some running.StartedAt)).1, acc.2)
  | none =>
    match s.Terminated with
    | some terminated =>
      ((earliestTime acc.1 (some terminated.StartedAt)).1,
       (latestTime acc.2 (some terminated.FinishedAt) none).1)
    | none => acc

def containerTime (pods : List Pod) : Option Time × Option Time :=
  pods.foldl (fun acc pod => pod.ContainerStatuses.foldl containerTimeStep acc) (none, none)

/-- What `applyJobStatus` returns and does: the trial after the call, the two results and the
events of the call. -/
structure JobStatusResult where
  trial : Trial
  update : Bool
  requeue : Bool
  trace : List Event
  deriving DecidableEq, Repr

/-- The merge of the two times into the trial, shared by both `applyJobStatus`. -/
def mergeTimes (t : Trial) (startedAt finishedAt : Option Time) (dirty : Bool) : Trial × Bool :=
  let s := latestTime t.Status.StartTime startedAt t.Spec.StartTimeOffset
  let t1 : Trial := if s.2 then { t with Status := { t.Status with StartTime := s.1 } } else t
  let c := earliestTime t1.Status.CompletionTime finishedAt
  let t2 : Trial := if c.2 then { t1 with Status := { t1.Status with CompletionTime := c.1 } } else t1
  (t2, dirty || s.2 || c.2)

/-- The loop over `job.Status.Conditions` that fails the trial when the job failed. -/
def applyJobConditions (now : Time) :
    List JobCondition → Trial × Bool × List Event → Trial × Bool × List Event
  | [], acc => acc
  | c :: cs, (t, dirty, es) =>
    if c.Type_ = JobFailed ∧ c.Status = ConditionTrue then
      applyJobConditions now cs
        ({ t with Status := ApplyCondition t.Status TrialFailed ConditionTrue c.Reason c.Message now },
         true, es ++ [Event.ApplyCondition TrialFailed ConditionTrue c.Reason c.Message])
    else applyJobConditions now cs (t, dirty, es)

/-- The tail of both `applyJobStatus`: merge the times, look at the job conditions, report. -/
def finishJobStatus (t : Trial) (job : Job) (now : Time) (startedAt finishedAt : Option Time)
    (dirty : Bool) (es : List Event) : JobStatusResult :=
  let m := mergeTimes t startedAt finishedAt dirty
  let r := applyJobConditions now job.Status.Conditions (m.1, m.2, es)
  { trial := r.1, update := r.2.1, requeue := false, trace := r.2.2 }

/-- The function `applyJobStatus` of `trial_controller.go`; `list` is the pod listing of the
reader it is given. -/
def applyJobStatus (matching : Option LabelSelector → Except Error Selector)
    (list : String → Selector → Except Error (List Pod))
    (t : Trial) (job : Job) (now : Time) : JobStatusResult :=
  match matching job.Selector with
  | .ok sel =>
    match list job.Namespace sel with
    | .ok pods =>
      let ct := containerTime pods
      if (ct.1 = none ∧ job.Status.StartTime ≠ none) ∨
          (ct.2 = none ∧ job.Status.CompletionTime ≠ none) then
        { trial := t, update := false, requeue := true, trace := [Event.ListPods] }
      else finishJobStatus t job now ct.1 ct.2 false [Event.ListPods]
    | .error _ =>
      finishJobStatus t job now job.Status.StartTime job.Status.CompletionTime false
        [Event.ListPods]
  | .error _ =>
    finishJobStatus t job now job.Status.StartTime job.Status.CompletionTime false []

/-! ## The trial reconciler, `trial_controller.go` -/

/-- How a loop of the pass ends: the pass returned from inside it, or the loop ran to its end
with its local variable `a`, the trial `t` and the events of the loop. -/
inductive Scan (α : Type)
  | returned (o : Outcome)
  | finished (a : α) (t : Trial) (trace : List Event)

/-- The same end of a loop, reached after the events `es`. -/
def Scan.after {α : Type} (es : List Event) : Scan α → Scan α
  | .returned o => .returned (o.after es)
  | .finished a t tr => .finished a t (es ++ tr)

/-- The pass after a loop: the outcome of the loop when the pass returned from inside it,
otherwise what the rest of the pass `k` does with the local variable and the trial. -/
def Scan.andThen {α : Type} (s : Scan α) (k : α → Trial → Outcome) : Outcome :=
  match s with
  | .returned o => o
  | .finished a t es => (k a t).after es

/-- The assignment `p.Wait = false` through the pointer to operation `i`. -/
def clearWait : Nat → List PatchOperation → List PatchOperation
  | _, [] => []
  | 0, p :: ps => { p with Wait := false } :: ps
  | i + 1, p :: ps => p :: clearWait i ps

/-- The test `ok && serr.RetryAfter > 0` on the error of a probe; the delay when it holds. -/
def stabilityRetry (err : Error) : Option Duration :=
  match err.asStabilityError with
  | some d => if d > 0 then some d else none
  | none => none

/-- The test `ok && merr.RetryAfter > 0` on the error of a capture; the delay when it holds. -/
def captureRetry (err : Error) : Option Duration :=
  match err.asCaptureError with
  | some d => if d > 0 then some d else none
  | none => none

/-- The trial with its status replaced by the result of `ApplyCondition`. -/
def Trial.apply (t : Trial) (kind : TrialConditionType) (status : ConditionStatus)
    (reason message : String) (now : Time) : Trial :=
  { t with Status := ApplyCondition t.Status kind status reason message now }

namespace TrialReconciler

def forTrialUpdate (r : Env) (t : Trial) : Outcome :=
  let t1 := UpdateStatus t
  let rc := RequeueConflict (r.Update t1)
  { result := rc.1, err := rc.2, trial := t1, trace := [Event.Update t1] }

/-- The loop over `t.Spec.PatchOperations`, from operation `i` on; `w` is
`waitForStability`. -/
def stabilityLoop (r : Env) (now : Time) :
    Nat → List PatchOperation → Trial → Duration → Scan Duration
  | _, [], t, w => .finished w t []
  | i, p :: ps, t, w =>
    if p.Wait = false then stabilityLoop r now (i + 1) ps t w
    else
      match r.WaitForStableState i p with
      | some err =>
        match stabilityRetry err with
        | some d =>
          if d > w then
            (stabilityLoop r now (i + 1) ps
              (t.apply TrialStable ConditionFalse "Waiting" err.text now) d).after
              [Event.WaitForStableState i,
               Event.ApplyCondition TrialStable ConditionFalse "Waiting" err.text]
          else (stabilityLoop r now (i + 1) ps t w).after [Event.WaitForStableState i]
        | none =>
          .returned ((forTrialUpdate r
              (t.apply TrialFailed ConditionTrue "WaitFailed" err.text now)).after
            [Event.WaitForStableState i,
             Event.ApplyCondition TrialFailed ConditionTrue "WaitFailed" err.text])
      | none =>
        .returned ((forTrialUpdate r
            (Trial.apply
              { t with Spec := { t.Spec with
                  PatchOperations := clearWait i t.Spec.PatchOperations } }
              TrialStable ConditionFalse "" "" now)).after
          [Event.WaitForStableState i, Event.ApplyCondition TrialStable ConditionFalse "" ""])

/-- The loop over the listed jobs, from job `i` on; the local variable is `needsJob`. -/
def jobLoop (r : Env) (now : Time) : Nat → List Job → Trial → Bool → Scan Bool
  | _, [], t, needsJob => .finished needsJob t []
  | i, job :: jobs, t, needsJob =>
    if mapIndex job.Labels LabelTrialRole ≠ "trialSetup" then
      let s := applyJobStatus r.MatchingSelector (r.ListPods i) t job now
      if s.update then
        .returned ((forTrialUpdate r s.trial).after (Event.applyJobStatus job :: s.trace))
      else if s.requeue then
        .returned { result := { Requeue := true, RequeueAfter := 0 }, err := none,
                    trial := s.trial, trace := Event.applyJobStatus job :: s.trace }
      else (jobLoop r now (i + 1) jobs s.trial false).after (Event.applyJobStatus job :: s.trace)
    else jobLoop r now (i + 1) jobs t needsJob

end TrialReconciler

/-- The result of `findOrCreateValue`: the trial after the call and the position in
`Spec.Values` the returned pointer refers to. -/
def findOrCreateValue (t : Trial) (name : String) : Trial × Nat :=
  match t.Spec.Values.findIdx? (fun v => decide (v.Name = name)) with
  | some i => (t, i)
  | none =>
    ({ t with Spec := { t.Spec with Values := t.Spec.Values ++
        [{ Name := name, Value := "", Error := "", AttemptsRemaining := 3 }] } },
     t.Spec.Values.length)

/-- The value a pointer into `Spec.Values` refers to. -/
def valueAt (t : Trial) (idx : Nat) : Value :=
  (t.Spec.Values.get? idx).getD { Name := "", Value := "", Error := "", AttemptsRemaining := 0 }

/-- A write through a pointer into `Spec.Values`. -/
def setValue (t : Trial) (idx : Nat) (v : Value) : Trial :=
  { t with Spec := { t.Spec with Values := t.Spec.Values.set idx v } }

/-- The function `getMetricTarget`, with the events of its calls. -/
def getMetricTarget (matching : Option LabelSelector → Except Error Selector)
    (listPods : String → Selector → Except Error (List Pod))
    (listServices : Selector → Except Error (List Service))
    (ns : String) (m : Metric) : Except Error (Option Target) × List Event :=
  match m.Type_ with
  | MetricPods =>
    match matching m.Selector with
    | .error err => (.error err, [])
    | .ok sel =>
      match listPods ns sel with
      | .error err => (.error err, [Event.ListPods])
      | .ok pods => (.ok (some (Target.PodList pods)), [Event.ListPods])
  | MetricPrometheus | MetricJSONPath =>
    match matching m.Selector with
    | .error err => (.error err, [])
    | .ok sel =>
      match listServices sel with
      | .error err => (.error err, [Event.ListServices])
      | .ok services => (.ok (some (Target.ServiceList services)), [Event.ListServices])
  | MetricLocal => (.ok none, [])

namespace TrialReconciler

/-- The end of the body of the metric loop, from `Handle any errors` on: `captureError` is the
error of the attempt, `idx` the position of the value `v` points to. -/
def finishCapture (r : Env) (now : Time) (t : Trial) (idx : Nat) (captureError : Option Error) :
    Outcome :=
  match captureError with
  | some err =>
    if (valueAt t idx).AttemptsRemaining > 0 then
      let t1 := setValue t idx
        { valueAt t idx with AttemptsRemaining := (valueAt t idx).AttemptsRemaining - 1 }
      if (valueAt t1 idx).AttemptsRemaining = 0 then
        (forTrialUpdate r
          ((t1.apply TrialFailed ConditionTrue "MetricFailed" err.text now).apply
            TrialObserved ConditionFalse "" "" now)).after
          [Event.ApplyCondition TrialFailed ConditionTrue "MetricFailed" err.text,
           Event.ApplyCondition TrialObserved ConditionFalse "" ""]
      else
        (forTrialUpdate r (t1.apply TrialObserved ConditionFalse "" "" now)).after
          [Event.ApplyCondition TrialObserved ConditionFalse "" ""]
    else
      (forTrialUpdate r (t.apply TrialObserved ConditionFalse "" "" now)).after
        [Event.ApplyCondition TrialObserved ConditionFalse "" ""]
  | none =>
    (forTrialUpdate r (t.apply TrialObserved ConditionFalse "" "" now)).after
      [Event.ApplyCondition TrialObserved ConditionFalse "" ""]

/-- The body of the metric loop for a metric whose value, at position `idx`, has attempts
left; `i` is the position of the metric. -/
def captureStep (r : Env) (now : Time) (ns : String) (i : Nat) (m : Metric) (t : Trial)
    (idx : Nat) : Outcome :=
  let target := getMetricTarget r.MatchingSelector (r.ListPods i) (r.ListServices i) ns m
  match target.1 with
  | .error err => (finishCapture r now t idx (some err)).after target.2
  | .ok tgt =>
    match r.CaptureMetric m t tgt with
    | .error err =>
      match captureRetry err with
      | some d =>
        { result := { Requeue := false, RequeueAfter := d }, err := none, trial := t,
          trace := target.2 ++ [Event.CaptureMetric m.Name] }
      | none =>
        (finishCapture r now t idx (some err)).after (target.2 ++ [Event.CaptureMetric m.Name])
    | .ok (value, stddev) =>
      let v := valueAt t idx
      let t1 := setValue t idx
        { v with AttemptsRemaining := 0, Value := r.FormatFloat value,
                 Error := if stddev.nonZero then r.FormatFloat stddev else v.Error }
      (finishCapture r now t1 idx none).after (target.2 ++ [Event.CaptureMetric m.Name])

/-- The loop over `e.Spec.Metrics`, from metric `i` on. -/
def metricLoop (r : Env) (now : Time) (ns : String) : Nat → List Metric → Trial → Scan Unit
  | _, [], t => .finished () t []
  | i, m :: ms, t =>
    let f := findOrCreateValue t m.Name
    if (valueAt f.1 f.2).AttemptsRemaining = 0 then metricLoop r now ns (i + 1) ms f.1
    else .returned (captureStep r now ns i m f.1 f.2)

/-- The namespace used to get metric targets. -/
def metricNamespace (t : Trial) : String :=
  if t.Spec.TargetNamespace = "" then t.Namespace else t.Spec.TargetNamespace

/-- The pass after the metric loop: finish the observation and complete the trial. -/
def completeTrial (r : Env) (now : Time) (t : Trial) : Outcome :=
  if (CheckCondition t.Status TrialObserved ConditionTrue).2 = true ∧
      (CheckCondition t.Status TrialObserved ConditionTrue).1 = false then
    (forTrialUpdate r
      ((t.apply TrialObserved ConditionTrue "" "" now).apply
        TrialComplete ConditionTrue "" "" now)).after
      [Event.ApplyCondition TrialObserved ConditionTrue "" "",
       Event.ApplyCondition TrialComplete ConditionTrue "" ""]
  else
    (forTrialUpdate r (t.apply TrialComplete ConditionTrue "" "" now)).after
      [Event.ApplyCondition TrialComplete ConditionTrue "" ""]

/-- The pass once the experiment `e` is fetched. -/
def observe (r : Env) (now : Time) (t : Trial) (e : Experiment) : Outcome :=
  if e.Metrics.length > 0 ∧ (CheckCondition t.Status TrialObserved ConditionUnknown).2 = false
  then
    (forTrialUpdate r (t.apply TrialObserved ConditionUnknown "" "" now)).after
      [Event.ApplyCondition TrialObserved ConditionUnknown "" ""]
  else
    (metricLoop r now (metricNamespace t) 0 e.Metrics t).andThen
      fun _ t1 => completeTrial r now t1

/-- The pass from `The completion time will be non-nil` on. -/
def reconcileMetrics (r : Env) (now : Time) (t : Trial) : Outcome :=
  if t.Status.CompletionTime ≠ none then
    match r.GetExperiment t with
    | .error err => { result := Result.empty, err := some err, trial := t,
                      trace := [Event.GetExperiment] }
    | .ok e => (observe r now t e).after [Event.GetExperiment]
  else { result := Result.empty, err := none, trial := t, trace := [] }

/-- The pass from `Create a trial run job if needed` on. -/
def createOrObserve (r : Env) (now : Time) (needsJob : Bool) (t : Trial) : Outcome :=
  if needsJob then
    match r.SetControllerReference t (r.NewJob t) with
    | .error err => { result := Result.empty, err := some err, trial := t, trace := [] }
    | .ok job => { result := Result.empty, err := r.Create job, trial := t,
                   trace := [Event.Create job] }
  else reconcileMetrics r now t

/-- The pass from `Find jobs labeled for this trial` on. -/
def reconcileJobs (r : Env) (now : Time) (t : Trial) : Outcome :=
  match r.MatchingSelector (r.GetJobSelector t) with
  | .error err => { result := Result.empty, err := some err, trial := t, trace := [] }
  | .ok sel =>
    match r.ListJobs sel with
    | .error err => { result := Result.empty, err := some err, trial := t,
                      trace := [Event.ListJobs] }
    | .ok items =>
      ((jobLoop r now 0 items t true).andThen (createOrObserve r now)).after [Event.ListJobs]

/-- The anti-flicker test: some `Stable` condition made its last transition less than one
second before `now`. -/
def recentlyStable (t : Trial) (now : Time) : Bool :=
  t.Status.Conditions.any fun c =>
    decide (c.Type_ = TrialStable) && decide (now < c.LastTransitionTime + 1 * Second)

/-- The pass from the anti-flicker guard on. -/
def reconcileGuard (r : Env) (now : Time) (t : Trial) : Outcome :=
  if recentlyStable t now then
    { result := { Requeue := false, RequeueAfter := 1 * Second }, err := none, trial := t,
      trace := [] }
  else reconcileJobs r now t

/-- The pass from `If there is a stable condition that is not yet true` on. -/
def reconcileStable (r : Env) (now : Time) (t : Trial) : Outcome :=
  if (CheckCondition t.Status TrialStable ConditionTrue).2 = true ∧
      (CheckCondition t.Status TrialStable ConditionTrue).1 = false then
    (forTrialUpdate r (t.apply TrialStable ConditionTrue "" "" now)).after
      [Event.ApplyCondition TrialStable ConditionTrue "" ""]
  else reconcileGuard r now t

/-- The adjustment `if re == nil { rr.RequeueAfter = waitForStability }` of the response. -/
def adjustResponse (o : Outcome) (waitForStability : Duration) : Outcome :=
  if o.err = none then { o with result := { o.result with RequeueAfter := waitForStability } }
  else o

/-- The pass after the stabilization loop, with its `waitForStability`. -/
def afterWait (r : Env) (now : Time) (waitForStability : Duration) (t : Trial) : Outcome :=
  if waitForStability > 0 then adjustResponse (forTrialUpdate r t) waitForStability
  else reconcileStable r now t

/-- The pass on a fetched trial that is neither finished nor deleted. -/
def reconcileWait (r : Env) (now : Time) (t : Trial) : Outcome :=
  (stabilityLoop r now 0 t.Spec.PatchOperations t 0).andThen (afterWait r now)

/-- The method `TrialReconciler.Reconcile`: `get` is the answer of `r.Get` for the requested
trial, `now` the value of `metav1.Now()`. -/
def Reconcile (r : Env) (now : Time) (get : Except Error Trial) : Outcome :=
  match get with
  | .error err => { result := Result.empty, err := IgnoreNotFound (some err),
                    trial := Trial.zero, trace := [] }
  | .ok t =>
    if IsFinished t || !IsZero t.DeletionTimestamp then
      { result := Result.empty, err := none, trial := t, trace := [] }
    else reconcileWait r now t

end TrialReconciler

/-! ## The trial job reconciler, `trial_job_controller.go` -/

namespace TrialJobReconciler

def ignoreTrial (r : Env) (t : Trial) : Bool :=
  if !IsZero t.DeletionTimestamp then true
  else if CheckConditionIs t.Status TrialFailed ConditionTrue then true
  else if t.Status.StartTime ≠ none ∧ t.Status.CompletionTime ≠ none then true
  else if r.HasInitializer t then true
  else if CheckConditionIs t.Status TrialPatched ConditionUnknown then true
  else t.Spec.PatchOperations.any fun p => p.Wait

/-- The filter loop of `listJobs`, which appends to `items := jobList.Items[:0]` and so
writes into the array it reads: `n` iterations are left, `i` is the index read next, `arr`
the shared backing array and `k` the length of `items`. -/
def filterLoop : Nat → Nat → List Job → Nat → List Job × Nat
  | 0, _, arr, k => (arr, k)
  | n + 1, i, arr, k =>
    match arr.get? i with
    | some job =>
      if mapIndex job.Labels LabelTrialRole ≠ "trialSetup" then
        filterLoop n (i + 1) (arr.set k job) (k + 1)
      else filterLoop n (i + 1) arr k
    | none => (arr, k)

/-- The method `listJobs`: the error, or the new `jobList.Items`. -/
def listJobs (r : Env) (t : Trial) : Except Error (List Job) × List Event :=
  match r.MatchingSelector (r.GetJobSelector t) with
  | .error err => (.error err, [])
  | .ok sel =>
    match r.ListJobs sel with
    | .error err => (.error err, [Event.ListJobs])
    | .ok items =>
      let f := filterLoop items.length 0 items 0
      (.ok (f.1.take f.2), [Event.ListJobs])

/-- The loop over the pods that fails the trial for a pod in the failed phase. -/
def applyPodFailures (now : Time) :
    List Pod → Trial × Bool × List Event → Trial × Bool × List Event
  | [], acc => acc
  | pod :: pods, (t, dirty, es) =>
    if pod.Phase = PodFailed then
      applyPodFailures now pods
        (t.apply TrialFailed ConditionTrue pod.Reason "" now, true,
         es ++ [Event.ApplyCondition TrialFailed ConditionTrue pod.Reason ""])
    else applyPodFailures now pods (t, dirty, es)

/-- The method `applyJobStatus` of `trial_job_controller.go`; `list` is the pod listing of
the client. -/
def applyJobStatus (matching : Option LabelSelector → Except Error Selector)
    (list : String → Selector → Except Error (List Pod))
    (t : Trial) (job : Job) (now : Time) : JobStatusResult :=
  match matching job.Selector with
  | .ok sel =>
    match list job.Namespace sel with
    | .ok pods =>
      let ct := containerTime pods
      if (ct.1 = none ∧ job.Status.StartTime ≠ none) ∨
          (ct.2 = none ∧ job.Status.CompletionTime ≠ none) then
        { trial := t, update := false, requeue := true, trace := [Event.ListPods] }
      else
        let f := applyPodFailures now pods (t, false, [Event.ListPods])
        finishJobStatus f.1 job now ct.1 ct.2 f.2.1 f.2.2
    | .error _ =>
      finishJobStatus t job now job.Status.StartTime job.Status.CompletionTime false
        [Event.ListPods]
  | .error _ =>
    finishJobStatus t job now job.Status.StartTime job.Status.CompletionTime false []

/-- What `runTrialJob` returns and leaves behind; `result` is the `*ctrl.Result`. -/
structure JobOutcome where
  result : Option Result
  err : Option Error
  trial : Trial
  trace : List Event
  deriving DecidableEq, Repr

/-- The same outcome, reached after the events `es`. -/
def JobOutcome.after (es : List Event) (o : JobOutcome) : JobOutcome :=
  { o with trace := es ++ o.trace }

/-- The loop of `runTrialJob` over the listed jobs, from job `i` on. -/
def jobLoop (r : Env) (now : Time) : Nat → List Job → Trial → JobOutcome
  | _, [], t => { result := none, err := none, trial := t, trace := [] }
  | i, job :: jobs, t =>
    let s := applyJobStatus r.MatchingSelector (r.ListPods i) t job now
    if s.update then
      { result := some (RequeueConflict (r.Update s.trial)).1,
        err := (RequeueConflict (r.Update s.trial)).2, trial := s.trial,
        trace := Event.applyJobStatus job :: s.trace ++ [Event.Update s.trial] }
    else if s.requeue then
      { result := some { Requeue := true, RequeueAfter := 0 }, err := none, trial := s.trial,
        trace := Event.applyJobStatus job :: s.trace }
    else (jobLoop r now (i + 1) jobs s.trial).after (Event.applyJobStatus job :: s.trace)

/-- The method `runTrialJob` from `List the trial jobs` on. -/
def runJobs (r : Env) (t : Trial) (probeTime : Time) : JobOutcome :=
  match (listJobs r t).1 with
  | .error err => { result := some Result.empty, err := some err, trial := t,
                    trace := (listJobs r t).2 }
  | .ok items =>
    if items.length = 0 then
      match r.SetControllerReference t (r.NewJob t) with
      | .error err => { result := some Result.empty, err := some err, trial := t,
                        trace := (listJobs r t).2 }
      | .ok job => { result := some Result.empty, err := r.Create job, trial := t,
                     trace := (listJobs r t).2 ++ [Event.Create job] }
    else (jobLoop r probeTime 0 items t).after (listJobs r t).2

def runTrialJob (r : Env) (t : Trial) (probeTime : Time) : JobOutcome :=
  if t.Status.Conditions.any (fun c =>
      decide (c.Type_ = TrialStable) && decide (probeTime < c.LastTransitionTime + 1 * Second))
  then
    { result := some { Requeue := false, RequeueAfter := 1 * Second }, err := none, trial := t,
      trace := [] }
  else runJobs r t probeTime

/-- The method `TrialJobReconciler.Reconcile`: `get` is the answer of `r.Get` for the
requested trial, `now` the value of `metav1.Now()`. -/
def Reconcile (r : Env) (now : Time) (get : Except Error Trial) : Outcome :=
  match get with
  | .error err => { result := Result.empty, err := IgnoreNotFound (some err),
                    trial := Trial.zero, trace := [] }
  | .ok t =>
    if ignoreTrial r t then
      { result := Result.empty, err := IgnoreNotFound none, trial := t, trace := [] }
    else
      let o := runTrialJob r t now
      match o.result with
      | some result => { result := result, err := o.err, trial := o.trial, trace := o.trace }
      | none => { result := Result.empty, err := none, trial := o.trial, trace := o.trace }

end TrialJobReconciler

/-! ## Vocabulary of the proofs -/

/-- The events of status observation: pod listings and condition updates that fail the
trial. -/
def Event.isObservation : Event → Bool
  | .ListPods => true
  | .ApplyCondition TrialFailed ConditionTrue _ _ => true
  | _ => false

/-- Events a pass can produce once patch stabilization is over: no probe and no update of
the `Stable` condition. -/
def Event.isLate : Event → Bool
  | .WaitForStableState _ => false
  | .ApplyCondition TrialStable _ _ _ => false
  | _ => true

/-- Events of metric collection and of the commit: no probe, no update of the `Stable`
condition, no job listing, no job handed to status observation and no job creation. -/
def Event.isCollection : Event → Bool
  | .WaitForStableState _ => false
  | .ApplyCondition TrialStable _ _ _ => false
  | .ListJobs => false
  | .applyJobStatus _ => false
  | .Create _ => false
  | _ => true

/-- The trace of a loop, however it ended. -/
def Scan.trace {α : Type} : Scan α → List Event
  | .returned o => o.trace
  | .finished _ _ es => es

/-- The write budget of a loop: at most one write when the pass returned from inside it, none
when it ran to its end. -/
def Scan.Writes {α : Type} : Scan α → Prop
  | .returned o => o.trace.countP Event.isWrite ≤ 1
  | .finished _ _ es => es.countP Event.isWrite = 0

/-- Events of patch stabilization: probes, `Stable=False` and `Failed=True` updates and the
commit. -/
def Event.isEarly : Event → Bool
  | .WaitForStableState _ => true
  | .ApplyCondition TrialStable ConditionFalse _ _ => true
  | .ApplyCondition TrialFailed ConditionTrue _ _ => true
  | .Update _ => true
  | _ => false

/-- Operation `q`, probed as operation `i`, does not end the scan of the patch operations:
it is not waiting, or its probe returns a `StabilityError` with a positive `RetryAfter`. -/
def Passes (r : Env) (i : Nat) (q : PatchOperation) : Prop :=
  q.Wait = false ∨
    ∃ d text, r.WaitForStableState i q = some (Error.StabilityError d text) ∧ 0 < d

/-- The trial, `waitForStability` and the events after the scan of a run of operations none
of which ends the scan, starting at operation `i`. -/
def retryScan (r : Env) (now : Time) :
    Nat → List PatchOperation → Trial → Duration → Trial × Duration × List Event
  | _, [], t, w => (t, w, [])
  | i, p :: ps, t, w =>
    if p.Wait = false then retryScan r now (i + 1) ps t w
    else
      match r.WaitForStableState i p with
      | some err =>
        match stabilityRetry err with
        | some d =>
          if d > w then
            ((retryScan r now (i + 1) ps
                (t.apply TrialStable ConditionFalse "Waiting" err.text now) d).1,
             (retryScan r now (i + 1) ps
                (t.apply TrialStable ConditionFalse "Waiting" err.text now) d).2.1,
             Event.WaitForStableState i ::
               Event.ApplyCondition TrialStable ConditionFalse "Waiting" err.text ::
               (retryScan r now (i + 1) ps
                (t.apply TrialStable ConditionFalse "Waiting" err.text now) d).2.2)
          else
            ((retryScan r now (i + 1) ps t w).1, (retryScan r now (i + 1) ps t w).2.1,
             Event.WaitForStableState i :: (retryScan r now (i + 1) ps t w).2.2)
        | none => (t, w, [])
      | none => (t, w, [])

/-- The conditions of one kind, in order. -/
def conditionsOf (kind : TrialConditionType) (t : Trial) : List TrialCondition :=
  t.Status.Conditions.filter fun c => decide (c.Type_ = kind)

/-- What the pass leaves alone once patch stabilization is over: the patch operations and the
`Stable` conditions. -/
def LateFrame (t t' : Trial) : Prop :=
  t'.Spec.PatchOperations = t.Spec.PatchOperations ∧
    conditionsOf TrialStable t' = conditionsOf TrialStable t

/-- `LateFrame` for a loop, however it ended. -/
def Scan.Frame {α : Type} (t : Trial) : Scan α → Prop
  | .returned o => LateFrame t o.trial
  | .finished _ t' _ => LateFrame t t'

/-- What a scan of the operations `ops`, starting at operation `i`, does to the patch
operations of the trial: nothing, unless the pass returns on the successful probe of a
waiting operation `k` all of whose predecessors did not end the scan; then it clears the
wait flag of that operation. -/
def ScanOps (r : Env) (i : Nat) (ops : List PatchOperation) (t : Trial) :
    Scan Duration → Prop
  | .finished _ t1 _ => t1.Spec.PatchOperations = t.Spec.PatchOperations
  | .returned o =>
    o.trial.Spec.PatchOperations = t.Spec.PatchOperations ∨
      ∃ k p, ops.get? k = some p ∧ p.Wait = true ∧ r.WaitForStableState (i + k) p = none ∧
        (∀ j q, j < k → ops.get? j = some q → Passes r (i + j) q) ∧
        o.trial.Spec.PatchOperations = clearWait (i + k) t.Spec.PatchOperations

/-! ## Sample worlds and trials -/

namespace Sample

/-- A world in which every call succeeds and finds nothing. -/
def quiet : Env :=
  { WaitForStableState := fun _ _ => none
    MatchingSelector := fun _ => .ok { key := "" }
    GetJobSelector := fun _ => none
    ListJobs := fun _ => .ok []
    ListPods := fun _ _ _ => .ok []
    ListServices := fun _ _ => .ok []
    NewJob := fun _ => { Namespace := "", Labels := [], Selector := none,
                         Status := { StartTime := none, CompletionTime := none,
                                     Conditions := [] } }
    SetControllerReference := fun _ job => .ok job
    Create := fun _ => none
    Update := fun _ => none
    GetExperiment := fun _ => .ok { Metrics := [] }
    CaptureMetric := fun _ _ _ => .ok ({ bits := 0 }, { bits := 0 })
    FormatFloat := fun _ => "0"
    HasInitializer := fun _ => false }

/-- A trial with the given patch operations and conditions and nothing else. -/
def trialWith (ops : List PatchOperation) (conditions : List TrialCondition) : Trial :=
  { Trial.zero with
    Spec := { Trial.zero.Spec with PatchOperations := ops }
    Status := { Trial.zero.Status with Conditions := conditions } }

/-- Two operations, both waiting. -/
def twoWaiting : Trial :=
  trialWith [{ TargetRef := "a", Wait := true }, { TargetRef := "b", Wait := true }] []

/-- The probe of operation `0` asks to retry after `d`, every other probe succeeds. -/
def firstRetries (d : Duration) : Env :=
  { quiet with
    WaitForStableState := fun i _ =>
      if i = 0 then some (Error.StabilityError d "not ready") else none }

/-- The probe of operation `0` asks to retry after `d`, every other probe fails for good. -/
def retryThenFatal (d : Duration) : Env :=
  { quiet with
    WaitForStableState := fun i _ =>
      if i = 0 then some (Error.StabilityError d "not ready")
      else some (Error.Other "no such target") }

/-- The probe of operation `i` asks to retry after `5 - i` seconds. -/
def allRetry : Env :=
  { quiet with
    WaitForStableState := fun i _ =>
      some (Error.StabilityError ((5 - (i : Int)) * Second) (if i = 0 then "first" else "later")) }

end Sample

namespace Sample

/-- A `Stable` condition with the given status, last changed at instant `at_`. -/
def stable (status : ConditionStatus) (at_ : Time) : TrialCondition :=
  { Type_ := TrialStable, Status := status, Reason := "", Message := "",
    LastTransitionTime := at_ }

end Sample

namespace Sample

/-- A setup job: its role label is `trialSetup`. -/
def setupJob : Job :=
  { Namespace := "default", Labels := [(LabelTrialRole, "trialSetup")], Selector := none,
    Status := { StartTime := none, CompletionTime := none, Conditions := [] } }

/-- A world whose job listing holds one setup job. -/
def setupOnly : Env :=
  { quiet with ListJobs := fun _ => .ok [setupJob] }

/-- A world in which the controller reference cannot be set. -/
def noOwner : Env :=
  { quiet with SetControllerReference := fun _ _ => .error (Error.Other "no owner") }

/-- A trial marked for deletion at instant 5, without patch operations, whose `Stable`
condition is `False`. -/
def deleted : Trial :=
  { trialWith [] [stable ConditionFalse 0] with DeletionTimestamp := some 5 }

end Sample

/-! ## Vocabulary of the time bracket -/

/-- The instant `m` is the latest of the candidates: unset exactly when there is none. -/
def IsLatest (m : Option Time) (candidates : List Time) : Prop :=
  (∀ x, m = some x → x ∈ candidates ∧ ∀ y ∈ candidates, y ≤ x) ∧ (m = none → candidates = [])

/-- The instant `m` is the earliest of the candidates: unset exactly when there is none. -/
def IsEarliest (m : Option Time) (candidates : List Time) : Prop :=
  (∀ x, m = some x → x ∈ candidates ∧ ∀ y ∈ candidates, x ≤ y) ∧ (m = none → candidates = [])

/-- The observations `(start, finish)` merged into the trial one at a time, each as
`applyJobStatus` merges its candidates. -/
def mergeAll (t : Trial) (obs : List (Option Time × Option Time)) : Trial :=
  obs.foldl (fun t o => (mergeTimes t o.1 o.2 false).1) t

/-- The start instant `containerTime` reads from a container state: that of `Running` when
set, otherwise that of `Terminated` when set. -/
def startCandidate (s : ContainerState) : Option Time :=
  match s.Running with
  | some running => some running.StartedAt
  | none => s.Terminated.map fun terminated => terminated.StartedAt

/-- The finish instant `containerTime` reads from a container state: that of `Terminated`
when set and `Running` is not. -/
def finishCandidate (s : ContainerState) : Option Time :=
  match s.Running with
  | some _ => none
  | none => s.Terminated.map fun terminated => terminated.FinishedAt

/-- The container states of a pod list, pod by pod. -/
def containerStates (pods : List Pod) : List ContainerState :=
  (pods.map fun pod => pod.ContainerStatuses).flatten

namespace Sample

/-- A trial with the given recorded times and start-time offset and nothing else. -/
def timed (start completion : Option Time) (offset : Option Duration) : Trial :=
  { Trial.zero with
    Spec := { Trial.zero.Spec with StartTimeOffset := offset }
    Status := { Trial.zero.Status with StartTime := start, CompletionTime := completion } }

/-- A container state with both `Running` and `Terminated` set. -/
def restarted : ContainerState :=
  { Running := some { StartedAt := 5 * Second },
    Terminated := some { StartedAt := 1 * Second, FinishedAt := 9 * Second } }

end Sample

namespace Sample

/-- A pod list with one container, running since instant 11 seconds. -/
def runningPods : List Pod :=
  [{ Phase := PodRunning, Reason := "",
     ContainerStatuses := [{ Running := some { StartedAt := 11 * Second },
                             Terminated := none }] }]

/-- A run job without status, selector or labels. -/
def runJob : Job :=
  { Namespace := "default", Labels := [], Selector := none,
    Status := { StartTime := none, CompletionTime := none, Conditions := [] } }

end Sample

/-- The candidate times `applyJobStatus` merges when it does not ask for a requeue: those of
the container scan when the pods of the job are listed, otherwise those of the job status. -/
def observedTimes (matching : Option LabelSelector → Except Error Selector)
    (list : String → Selector → Except Error (List Pod)) (job : Job) :
    Option Time × Option Time :=
  match matching job.Selector with
  | .ok sel =>
    match list job.Namespace sel with
    | .ok pods => containerTime pods
    | .error _ => (job.Status.StartTime, job.Status.CompletionTime)
  | .error _ => (job.Status.StartTime, job.Status.CompletionTime)

namespace Sample

/-- A job that reports a start while the pods listed for it show no container. -/
def startedJob : Job :=
  { runJob with Status := { StartTime := some (3 * Second), CompletionTime := none,
                            Conditions := [] } }

/-- A world whose job listing holds `job` and whose pod listing holds `pods`. -/
def observing (job : Job) (pods : List Pod) : Env :=
  { quiet with ListJobs := fun _ => .ok [job], ListPods := fun _ _ _ => .ok pods }

/-- A pod list with one pod in the failed phase and no container state. -/
def failedPods : List Pod :=
  [{ Phase := PodFailed, Reason := "Evicted", ContainerStatuses := [] }]

/-- A job with a `Failed=True` condition. -/
def failedJob : Job :=
  { runJob with Status := { StartTime := none, CompletionTime := none,
                            Conditions := [{ Type_ := JobFailed, Status := ConditionTrue,
                                             Reason := "BackoffLimitExceeded",
                                             Message := "too many retries" }] } }

end Sample

/-! ## Vocabulary of metric collection -/

/-- The attempts the metric `name` has left on the trial: `AttemptsRemaining` of the value
`findOrCreateValue` returns, which is that of the stored value or the three of a new one. -/
def budget (t : Trial) (name : String) : Int :=
  (valueAt (findOrCreateValue t name).1 (findOrCreateValue t name).2).AttemptsRemaining

/-- Events that read the world and change nothing: listings, the job handed to status
observation and the fetch of the experiment. -/
def Event.isLookup : Event → Bool
  | .ListJobs => true
  | .ListPods => true
  | .ListServices => true
  | .GetExperiment => true
  | .applyJobStatus _ => true
  | _ => false

/-- The pass on `t` reaches metric collection and every metric the experiment declares before
`m` is closed: the experiment is fetched, its metrics are `pre`, `m` and some more, and the
metrics of `pre` have no attempt left. -/
def ReachesMetric (r : Env) (now : Time) (t : Trial) (pre : List Metric) (m : Metric) : Prop :=
  Event.GetExperiment ∈ (TrialReconciler.Reconcile r now (.ok t)).trace ∧
  (∃ post, r.GetExperiment t = .ok { Metrics := pre ++ m :: post }) ∧
  ∀ m1 ∈ pre, budget t m1.Name = 0

/-- The target of metric `m`, declared behind the metrics `pre`, as the pass on `t` resolves
it. -/
def metricTarget (r : Env) (t : Trial) (pre : List Metric) (m : Metric) :
    Except Error (Option Target) × List Event :=
  getMetricTarget r.MatchingSelector (r.ListPods pre.length) (r.ListServices pre.length)
    (TrialReconciler.metricNamespace t) m

/-- The attempt on metric `m` fails for good with `err`: its target is not resolved, or its
capture fails with an error that is no `CaptureError` with a positive `RetryAfter`. -/
def FailsFatally (r : Env) (t : Trial) (pre : List Metric) (m : Metric) (err : Error) : Prop :=
  (metricTarget r t pre m).1 = .error err ∨
  ∃ tgt, (metricTarget r t pre m).1 = .ok tgt ∧
    r.CaptureMetric m (findOrCreateValue t m.Name).1 tgt = .error err ∧ captureRetry err = none

/-- The capture of metric `m` fails with a `CaptureError` whose `RetryAfter` is `d > 0`. -/
def FailsRetry (r : Env) (t : Trial) (pre : List Metric) (m : Metric) (d : Duration) : Prop :=
  ∃ tgt address query completionTime text, (metricTarget r t pre m).1 = .ok tgt ∧
    r.CaptureMetric m (findOrCreateValue t m.Name).1 tgt =
      .error (Error.CaptureError d address query completionTime text) ∧ 0 < d

namespace Sample

/-- A trial whose run is over and whose observation has begun, with the given values. -/
def collecting (values : List Value) : Trial :=
  { Trial.zero with
    Spec := { Trial.zero.Spec with Values := values }
    Status := { Trial.zero.Status with
      StartTime := some (1 * Second), CompletionTime := some (9 * Second),
      Conditions := [{ Type_ := TrialObserved, Status := ConditionUnknown, Reason := "",
                       Message := "", LastTransitionTime := 10 * Second }] } }

/-- Two local metrics. -/
def cost : Metric := { Name := "cost", Type_ := MetricLocal, Selector := none }

def latency : Metric := { Name := "latency", Type_ := MetricLocal, Selector := none }

/-- A world with one finished run job, an experiment with the metrics `cost` and `latency`,
and the given answer of the capture. -/
def collector (capture : Metric → Except Error (Float64 × Float64)) : Env :=
  { observing runJob [] with
    GetExperiment := fun _ => .ok { Metrics := [cost, latency] }
    CaptureMetric := fun m _ _ => capture m
    FormatFloat := fun x => if x.bits = 0 then "0" else "1.5" }

/-- The capture fails for good. -/
def failing : Env := collector fun _ => .error (Error.Other "no data")

/-- The capture asks for a retry after five seconds. -/
def retrying : Env :=
  collector fun _ => .error (Error.CaptureError (5 * Second) "prometheus" "up" 0 "not yet")

/-- The capture measures a non-zero value with zero deviation. -/
def measuring : Env := collector fun _ => .ok ({ bits := 1 }, { bits := 0 })

end Sample

/-! ## The policy rules of `redskyctl generate rbac`, `rbac.go` -/

/-- The fields of `rbacv1.PolicyRule` the generator fills in. -/
structure PolicyRule where
  Verbs : List String
  APIGroups : List String
  Resources : List String
  ResourceNames : List String
  deriving DecidableEq, Repr

/-- The loop of `doesNotMatch` over the common indices: some position holds two different
strings. -/
def differsAt : List String → List String → Bool
  | a :: s1, b :: s2 => if a ≠ b then true else differsAt s1 s2
  | _, _ => false

/-- The function `doesNotMatch`: the two slices do not have the same ordered contents. -/
def doesNotMatch (s1 s2 : List String) : Bool :=
  if s1.length ≠ s2.length then true else differsAt s1 s2

/-- The function `appendMissing`: append a string only if it does not already exist. -/
def appendMissing (s : List String) (e : String) : List String :=
  if s.any (fun i => decide (i = e)) then s else s ++ [e]

/-- The call `sort.Strings` of the Go library: the strings in increasing order. -/
def sortStrings (s : List String) : List String :=
  s.insertionSort fun a b => ¬ b < a

/-- The body of the loop of `mergeRule` behind its three tests: the resources and the
resource names of the supplied rule are added to the rule `r` and sorted. -/
def mergeInto (r rule : PolicyRule) : PolicyRule :=
  { r with
    Resources := sortStrings (rule.Resources.foldl appendMissing r.Resources)
    ResourceNames := sortStrings (rule.ResourceNames.foldl appendMissing r.ResourceNames) }

/-- The function `mergeRule`: the rule is merged into the first rule that passes the three
tests, which is updated in place, or appended when there is none. -/
def mergeRule : List PolicyRule → PolicyRule → List PolicyRule
  | [], rule => [rule]
  | r :: rules, rule =>
    if doesNotMatch r.Verbs rule.Verbs then r :: mergeRule rules rule
    else if doesNotMatch r.APIGroups rule.APIGroups then r :: mergeRule rules rule
    else if r.ResourceNames.length > 0 && doesNotMatch r.Resources rule.Resources then
      r :: mergeRule rules rule
    else mergeInto r rule :: rules

/-- The rule grants the access: it lists the verb, the API group and the resource, and it
lists the resource name or no resource name at all. -/
def PolicyRule.grants (r : PolicyRule) (verb group resource name : String) : Prop :=
  verb ∈ r.Verbs ∧ group ∈ r.APIGroups ∧ resource ∈ r.Resources ∧
    (r.ResourceNames = [] ∨ name ∈ r.ResourceNames)

namespace Sample

/-- The rule for patching every deployment. -/
def patchAll : PolicyRule :=
  { Verbs := ["get", "patch"], APIGroups := ["apps"], Resources := ["deployments"],
    ResourceNames := [] }

/-- The rule for patching the deployment `web`. -/
def patchWeb : PolicyRule :=
  { Verbs := ["get", "patch"], APIGroups := ["apps"], Resources := ["deployments"],
    ResourceNames := ["web"] }

/-- Two pods of one job: the container of the first ran from 1s to 5s, that of the second is
running since 2s. -/
def oneDone : List Pod :=
  [{ Phase := PodSucceeded, Reason := "",
     ContainerStatuses := [{ Running := none,
                             Terminated := some { StartedAt := 1 * Second,
                                                  FinishedAt := 5 * Second } }] },
   { Phase := PodRunning, Reason := "",
     ContainerStatuses := [{ Running := some { StartedAt := 2 * Second },
                             Terminated := none }] }]

end Sample

/-! ## Vocabulary of the pass as a whole -/

/-- Events of the pass before it fetches the experiment: probes, updates of the `Stable` and
`Failed` conditions, the job listing, status observation, the job creation and the commit. -/
def Event.isDiscovery : Event → Bool
  | .WaitForStableState _ => true
  | .ApplyCondition TrialStable _ _ _ => true
  | .ApplyCondition TrialFailed _ _ _ => true
  | .Update _ => true
  | .ListJobs => true
  | .applyJobStatus _ => true
  | .ListPods => true
  | .Create _ => true
  | _ => false

/-- What the pass leaves alone before it fetches the experiment: the values and the
`Observed` and `Complete` conditions. -/
def EarlyFrame (t t' : Trial) : Prop :=
  t'.Spec.Values = t.Spec.Values ∧
    conditionsOf TrialObserved t' = conditionsOf TrialObserved t ∧
    conditionsOf TrialComplete t' = conditionsOf TrialComplete t

/-- `EarlyFrame` and events of discovery only, for a loop, however it ended. -/
def Scan.Early {α : Type} (t : Trial) : Scan α → Prop
  | .returned o => EarlyFrame t o.trial ∧ ∀ e ∈ o.trace, e.isDiscovery = true
  | .finished _ t' es => EarlyFrame t t' ∧ ∀ e ∈ es, e.isDiscovery = true

/-- The outcome of a pass that stayed before the fetch of the experiment, or fetched it. -/
def Outcome.Early (t : Trial) (o : Outcome) : Prop :=
  (EarlyFrame t o.trial ∧ ∀ e ∈ o.trace, e.isDiscovery = true) ∨
    Event.GetExperiment ∈ o.trace

/-- The condition of the kind is stored with status `True`. -/
def Holds (t : Trial) (kind : TrialConditionType) : Prop :=
  CheckConditionIs t.Status kind ConditionTrue = true

/-- The trial after a sequence of passes of `TrialReconciler.Reconcile`, each in its own
world and at its own instant, each on the trial the pass before left. -/
def iterate (passes : List (Env × Time)) (t : Trial) : Trial :=
  passes.foldl (fun t p => (TrialReconciler.Reconcile p.1 p.2 (.ok t)).trial) t

namespace Sample

/-- A world without any job in which the experiment declares the given metrics. -/
def declaring (metrics : List Metric) : Env :=
  { quiet with GetExperiment := fun _ => .ok { Metrics := metrics } }

/-- A trial whose run is over, with the given conditions and values. -/
def ended (conditions : List TrialCondition) (values : List Value) : Trial :=
  { Trial.zero with
    Spec := { Trial.zero.Spec with Values := values }
    Status := { Trial.zero.Status with
      StartTime := some (1 * Second), CompletionTime := some (9 * Second),
      Conditions := conditions } }

/-- An `Observed` condition with the given status, last changed at instant 10 seconds. -/
def observed (status : ConditionStatus) : TrialCondition :=
  { Type_ := TrialObserved, Status := status, Reason := "", Message := "",
    LastTransitionTime := 10 * Second }

/-- A closed value of the metric `name`. -/
def closed (name : String) : Value :=
  { Name := name, Value := "1.5", Error := "", AttemptsRemaining := 0 }

/-- A value of the metric `name` without result and with `n` attempts left. -/
def attempts (name : String) (n : Int) : Value :=
  { Name := name, Value := "", Error := "", AttemptsRemaining := n }

end Sample

namespace Sample

/-- A fresh trial: no patch operations, no conditions, no values, no times. -/
def fresh : Trial := { Trial.zero with Namespace := "default" }

/-- The measurement 12.3 as a `float64`. -/
def reading : Float64 := { bits := 0x402899999999999A }

/-- The pods of the run job while its container runs, started at instant 1 second. -/
def startedPods : List Pod :=
  [{ Phase := PodRunning, Reason := "",
     ContainerStatuses := [{ Running := some { StartedAt := 1 * Second },
                             Terminated := none }] }]

/-- The pods of the run job once its container, started at instant 1 second, has finished at
instant 5 seconds. -/
def finishedPods : List Pod :=
  [{ Phase := PodSucceeded, Reason := "",
     ContainerStatuses := [{ Running := none,
                             Terminated := some { StartedAt := 1 * Second,
                                                  FinishedAt := 5 * Second } }] }]

/-- A world of the end-to-end run: the experiment declares the single metric `latency`, the
capture measures 12.3 with zero deviation, new jobs are `runJob`; the job listing holds
`jobs` and the pod listing `pods`. -/
def endToEnd (jobs : List Job) (pods : List Pod) : Env :=
  { quiet with
    ListJobs := fun _ => .ok jobs
    ListPods := fun _ _ _ => .ok pods
    NewJob := fun _ => runJob
    GetExperiment := fun _ => .ok { Metrics := [latency] }
    CaptureMetric := fun _ _ _ => .ok (reading, { bits := 0 })
    FormatFloat := fun x => if x = reading then "12.3" else "0" }

/-- The passes of the end-to-end run: the job is created, observed running, observed
finished, then the observation begins, the metric is captured and the trial completed. -/
def run : List (Env × Time) :=
  [(endToEnd [] [], 0), (endToEnd [runJob] startedPods, 2 * Second),
   (endToEnd [runJob] finishedPods, 6 * Second), (endToEnd [runJob] finishedPods, 7 * Second),
   (endToEnd [runJob] finishedPods, 8 * Second), (endToEnd [runJob] finishedPods, 9 * Second)]

/-- The trial the end-to-end run ends with. -/
def final : Trial :=
  { fresh with
    Spec := { fresh.Spec with
      Values := [{ Name := "latency", Value := "12.3", Error := "", AttemptsRemaining := 0 }] }
    Status := { StartTime := some (1 * Second), CompletionTime := some (5 * Second),
                Conditions := [
                  { Type_ := TrialObserved, Status := ConditionTrue, Reason := "",
                    Message := "", LastTransitionTime := 9 * Second },
                  { Type_ := TrialComplete, Status := ConditionTrue, Reason := "",
                    Message := "", LastTransitionTime := 9 * Second }] } }

end Sample

/-! # Theorems -/

/-! ## Basic facts -/

@[simp] theorem Outcome.after_trace (es : List Event) (o : Outcome) :
    (o.after es).trace = es ++ o.trace := rfl

@[simp] theorem Outcome.after_trial (es : List Event) (o : Outcome) :
    (o.after es).trial = o.trial := rfl

@[simp] theorem Outcome.after_result (es : List Event) (o : Outcome) :
    (o.after es).result = o.result := rfl

@[simp] theorem Outcome.after_err (es : List Event) (o : Outcome) :
    (o.after es).err = o.err := rfl

@[simp] theorem Outcome.after_nil (o : Outcome) : o.after [] = o := rfl

@[simp] theorem forTrialUpdate_trace (r : Env) (t : Trial) :
    (TrialReconciler.forTrialUpdate r t).trace = [Event.Update t] := rfl

@[simp] theorem forTrialUpdate_trial (r : Env) (t : Trial) :
    (TrialReconciler.forTrialUpdate r t).trial = t := rfl

@[simp] theorem forTrialUpdate_result (r : Env) (t : Trial) :
    (TrialReconciler.forTrialUpdate r t).result = (RequeueConflict (r.Update t)).1 := rfl

@[simp] theorem forTrialUpdate_err (r : Env) (t : Trial) :
    (TrialReconciler.forTrialUpdate r t).err = (RequeueConflict (r.Update t)).2 := rfl

/-- The events `applyJobConditions` adds are condition updates that fail the trial. -/
theorem applyJobConditions_trace (now : Time) (cs : List JobCondition)
    (acc : Trial × Bool × List Event) :
    ∀ e ∈ (applyJobConditions now cs acc).2.2,
      e ∈ acc.2.2 ∨ ∃ reason message, e = Event.ApplyCondition TrialFailed ConditionTrue reason message := by
  induction cs generalizing acc with
  | nil => intro e he; exact Or.inl he
  | cons c cs ih =>
    obtain ⟨t, dirty, es⟩ := acc
    intro e he
    unfold applyJobConditions at he
    split_ifs at he
    · rcases ih _ e he with h | h
      · simp only [List.mem_append, List.mem_singleton] at h
        rcases h with h | h
        · exact Or.inl h
        · exact Or.inr ⟨_, _, h⟩
      · exact Or.inr h
    · exact ih _ e he

/-- The events `applyPodFailures` adds are condition updates that fail the trial. -/
theorem applyPodFailures_trace (now : Time) (pods : List Pod)
    (acc : Trial × Bool × List Event) :
    ∀ e ∈ (TrialJobReconciler.applyPodFailures now pods acc).2.2,
      e ∈ acc.2.2 ∨ ∃ reason message, e = Event.ApplyCondition TrialFailed ConditionTrue reason message := by
  induction pods generalizing acc with
  | nil => intro e he; exact Or.inl he
  | cons c cs ih =>
    obtain ⟨t, dirty, es⟩ := acc
    intro e he
    unfold TrialJobReconciler.applyPodFailures at he
    split_ifs at he
    · rcases ih _ e he with h | h
      · simp only [List.mem_append, List.mem_singleton] at h
        rcases h with h | h
        · exact Or.inl h
        · exact Or.inr ⟨_, _, h⟩
      · exact Or.inr h
    · exact ih _ e he

theorem finishJobStatus_trace (t : Trial) (job : Job) (now : Time) (s f : Option Time)
    (dirty : Bool) (es : List Event) (h : ∀ e ∈ es, e.isObservation = true) :
    ∀ e ∈ (finishJobStatus t job now s f dirty es).trace, e.isObservation = true := by
  intro e he
  rcases applyJobConditions_trace now job.Status.Conditions _ e he with h1 | ⟨a, b, rfl⟩
  · exact h e h1
  · rfl

theorem applyJobStatus_trace (m : Option LabelSelector → Except Error Selector)
    (l : String → Selector → Except Error (List Pod)) (t : Trial) (job : Job) (now : Time) :
    ∀ e ∈ (applyJobStatus m l t job now).trace, e.isObservation = true := by
  unfold applyJobStatus
  split
  · split
    · dsimp only
      split_ifs
      · simp [Event.isObservation]
      · exact finishJobStatus_trace _ _ _ _ _ _ _ (by simp [Event.isObservation])
    · exact finishJobStatus_trace _ _ _ _ _ _ _ (by simp [Event.isObservation])
  · exact finishJobStatus_trace _ _ _ _ _ _ _ (by simp)

theorem TrialJobReconciler.jobStatus_trace (m : Option LabelSelector → Except Error Selector)
    (l : String → Selector → Except Error (List Pod)) (t : Trial) (job : Job) (now : Time) :
    ∀ e ∈ (TrialJobReconciler.applyJobStatus m l t job now).trace, e.isObservation = true := by
  unfold TrialJobReconciler.applyJobStatus
  split
  · split
    · dsimp only
      split_ifs
      · simp [Event.isObservation]
      · refine finishJobStatus_trace _ _ _ _ _ _ _ ?_
        intro e he
        rcases applyPodFailures_trace now _ _ e he with h1 | ⟨a, b, rfl⟩
        · simp at h1; subst h1; rfl
        · rfl
    · exact finishJobStatus_trace _ _ _ _ _ _ _ (by simp [Event.isObservation])
  · exact finishJobStatus_trace _ _ _ _ _ _ _ (by simp)

@[simp] theorem Scan.trace_after {α : Type} (es : List Event) (s : Scan α) :
    (s.after es).trace = es ++ s.trace := by
  cases s <;> rfl

theorem Scan.after_writes {α : Type} (es : List Event) (s : Scan α)
    (h : es.countP Event.isWrite = 0) (hs : s.Writes) : (s.after es).Writes := by
  cases s with
  | returned o => simpa [Scan.after, Scan.Writes, List.countP_append, h] using hs
  | finished a t tr => simpa [Scan.after, Scan.Writes, List.countP_append, h] using hs

theorem isObservation_not_write {e : Event} (h : e.isObservation = true) : e.isWrite = false := by
  cases e <;> simp_all [Event.isObservation, Event.isWrite]

theorem isObservation_collection {e : Event} (h : e.isObservation = true) :
    e.isCollection = true := by
  cases e with
  | ApplyCondition k s a b =>
    cases k <;> cases s <;> simp_all [Event.isObservation, Event.isCollection]
  | _ => simp_all [Event.isObservation, Event.isCollection]

theorem isCollection_late {e : Event} (h : e.isCollection = true) : e.isLate = true := by
  cases e with
  | ApplyCondition k s a b => cases k <;> simp_all [Event.isCollection, Event.isLate]
  | _ => simp_all [Event.isCollection, Event.isLate]

theorem isCollection_not_create {e : Event} (h : e.isCollection = true) :
    e.isCreate = false := by
  cases e <;> simp_all [Event.isCollection, Event.isCreate]

theorem countP_write_observation {es : List Event} (h : ∀ e ∈ es, e.isObservation = true) :
    es.countP Event.isWrite = 0 := by
  rw [List.countP_eq_zero]
  intro e he
  simp [isObservation_not_write (h e he)]

theorem TrialReconciler.jobLoop_writes (r : Env) (now : Time) (jobs : List Job) :
    ∀ (i : Nat) (t : Trial) (needsJob : Bool),
      (TrialReconciler.jobLoop r now i jobs t needsJob).Writes := by
  induction jobs with
  | nil => intro i t n; simp [TrialReconciler.jobLoop, Scan.Writes]
  | cons job jobs ih =>
    intro i t n
    unfold TrialReconciler.jobLoop
    have hobs := applyJobStatus_trace r.MatchingSelector (r.ListPods i) t job now
    have h0 := countP_write_observation hobs
    split_ifs
    · dsimp only
      split_ifs
      · simp [Scan.Writes, List.countP_cons, List.countP_append, h0, Event.isWrite]
      · simp [Scan.Writes, List.countP_cons, h0, Event.isWrite]
      · exact Scan.after_writes _ _ (by simp [List.countP_cons, h0, Event.isWrite]) (ih _ _ _)
    · exact ih _ _ _

/-- The events of the job loop: the jobs handed to status observation, none of them a setup
job, and events of collection. -/
theorem TrialReconciler.jobLoop_trace (r : Env) (now : Time) (jobs : List Job) :
    ∀ (i : Nat) (t : Trial) (needsJob : Bool),
      ∀ e ∈ (TrialReconciler.jobLoop r now i jobs t needsJob).trace,
        (∃ job ∈ jobs, mapIndex job.Labels LabelTrialRole ≠ "trialSetup" ∧
          e = Event.applyJobStatus job) ∨ e.isCollection = true := by
  induction jobs with
  | nil => intro i t n; simp [TrialReconciler.jobLoop, Scan.trace]
  | cons job jobs ih =>
    intro i t n
    unfold TrialReconciler.jobLoop
    have hobs := applyJobStatus_trace r.MatchingSelector (r.ListPods i) t job now
    have htail : ∀ (i : Nat) (t : Trial) (n : Bool),
        ∀ e ∈ (TrialReconciler.jobLoop r now i jobs t n).trace,
          (∃ job1 ∈ job :: jobs, mapIndex job1.Labels LabelTrialRole ≠ "trialSetup" ∧
            e = Event.applyJobStatus job1) ∨ e.isCollection = true := by
      intro i t n e he
      rcases ih i t n e he with ⟨j, hj, h1, h2⟩ | h
      · exact Or.inl ⟨j, List.mem_cons_of_mem _ hj, h1, h2⟩
      · exact Or.inr h
    split_ifs with hlabel
    · dsimp only
      split_ifs
      · intro e he
        simp [Scan.trace] at he
        rcases he with rfl | he | rfl
        · exact Or.inl ⟨job, List.mem_cons_self _ _, hlabel, rfl⟩
        · exact Or.inr (isObservation_collection (hobs e he))
        · exact Or.inr rfl
      · intro e he
        simp [Scan.trace] at he
        rcases he with rfl | he
        · exact Or.inl ⟨job, List.mem_cons_self _ _, hlabel, rfl⟩
        · exact Or.inr (isObservation_collection (hobs e he))
      · intro e he
        simp at he
        rcases he with rfl | he | he
        · exact Or.inl ⟨job, List.mem_cons_self _ _, hlabel, rfl⟩
        · exact Or.inr (isObservation_collection (hobs e he))
        · exact htail _ _ _ e he
    · exact htail _ _ _

theorem TrialReconciler.jobLoop_late (r : Env) (now : Time) (jobs : List Job) (i : Nat)
    (t : Trial) (needsJob : Bool) :
    ∀ e ∈ (TrialReconciler.jobLoop r now i jobs t needsJob).trace, e.isLate = true := by
  intro e he
  rcases TrialReconciler.jobLoop_trace r now jobs i t needsJob e he with ⟨j, _, _, rfl⟩ | h
  · rfl
  · exact isCollection_late h

theorem getMetricTarget_trace (m : Option LabelSelector → Except Error Selector)
    (lp : String → Selector → Except Error (List Pod))
    (ls : Selector → Except Error (List Service)) (ns : String) (mt : Metric) :
    ∀ e ∈ (getMetricTarget m lp ls ns mt).2, e = Event.ListPods ∨ e = Event.ListServices := by
  unfold getMetricTarget
  intro e he
  split at he <;> (try split at he) <;> (try split at he) <;> simp_all

theorem TrialReconciler.finishCapture_writes (r : Env) (now : Time) (t : Trial) (idx : Nat)
    (ce : Option Error) :
    (TrialReconciler.finishCapture r now t idx ce).trace.countP Event.isWrite = 1 := by
  unfold TrialReconciler.finishCapture
  split
  · dsimp only
    split_ifs <;> simp [List.countP_cons, Event.isWrite]
  · simp [List.countP_cons, Event.isWrite]

theorem TrialReconciler.finishCapture_collection (r : Env) (now : Time) (t : Trial) (idx : Nat)
    (ce : Option Error) :
    ∀ e ∈ (TrialReconciler.finishCapture r now t idx ce).trace, e.isCollection = true := by
  unfold TrialReconciler.finishCapture
  intro e he
  split at he
  · dsimp only at he
    split_ifs at he <;> simp at he <;> rcases he with rfl | rfl | rfl <;> rfl
  · simp at he
    rcases he with rfl | rfl <;> rfl

theorem getMetricTarget_writes (m : Option LabelSelector → Except Error Selector)
    (lp : String → Selector → Except Error (List Pod))
    (ls : Selector → Except Error (List Service)) (ns : String) (mt : Metric) :
    (getMetricTarget m lp ls ns mt).2.countP Event.isWrite = 0 := by
  rw [List.countP_eq_zero]
  intro e he
  rcases getMetricTarget_trace m lp ls ns mt e he with rfl | rfl <;> simp [Event.isWrite]

theorem getMetricTarget_collection (m : Option LabelSelector → Except Error Selector)
    (lp : String → Selector → Except Error (List Pod))
    (ls : Selector → Except Error (List Service)) (ns : String) (mt : Metric) :
    ∀ e ∈ (getMetricTarget m lp ls ns mt).2, e.isCollection = true := by
  intro e he
  rcases getMetricTarget_trace m lp ls ns mt e he with rfl | rfl <;> rfl

theorem TrialReconciler.captureStep_writes (r : Env) (now : Time) (ns : String) (i : Nat)
    (m : Metric) (t : Trial) (idx : Nat) :
    (TrialReconciler.captureStep r now ns i m t idx).trace.countP Event.isWrite ≤ 1 := by
  unfold TrialReconciler.captureStep
  have h0 := getMetricTarget_writes r.MatchingSelector (r.ListPods i) (r.ListServices i) ns m
  dsimp only
  split
  · simp [List.countP_append, h0, TrialReconciler.finishCapture_writes]
  · split
    · split
      · simp [List.countP_append, h0, List.countP_cons, Event.isWrite]
      · simp [List.countP_append, h0, List.countP_cons, Event.isWrite,
          TrialReconciler.finishCapture_writes]
    · simp [List.countP_append, h0, List.countP_cons, Event.isWrite,
        TrialReconciler.finishCapture_writes]

theorem TrialReconciler.captureStep_collection (r : Env) (now : Time) (ns : String) (i : Nat)
    (m : Metric) (t : Trial) (idx : Nat) :
    ∀ e ∈ (TrialReconciler.captureStep r now ns i m t idx).trace, e.isCollection = true := by
  unfold TrialReconciler.captureStep
  have h0 := getMetricTarget_collection r.MatchingSelector (r.ListPods i) (r.ListServices i) ns m
  have hf := TrialReconciler.finishCapture_collection r now
  dsimp only
  intro e he
  split at he
  · simp only [Outcome.after_trace, List.mem_append] at he
    rcases he with he | he
    · exact h0 e he
    · exact hf _ _ _ e he
  · split at he
    · split at he
      · simp only [List.mem_append, List.mem_singleton] at he
        rcases he with he | rfl
        · exact h0 e he
        · rfl
      · simp only [Outcome.after_trace, List.mem_append, List.mem_singleton] at he
        rcases he with (he | rfl) | he
        · exact h0 e he
        · rfl
        · exact hf _ _ _ e he
    · simp only [Outcome.after_trace, List.mem_append, List.mem_singleton] at he
      rcases he with (he | rfl) | he
      · exact h0 e he
      · rfl
      · exact hf _ _ _ e he

theorem TrialReconciler.metricLoop_writes (r : Env) (now : Time) (ns : String)
    (ms : List Metric) :
    ∀ (i : Nat) (t : Trial), (TrialReconciler.metricLoop r now ns i ms t).Writes := by
  induction ms with
  | nil => intro i t; simp [TrialReconciler.metricLoop, Scan.Writes]
  | cons m ms ih =>
    intro i t
    unfold TrialReconciler.metricLoop
    dsimp only
    split_ifs
    · exact ih _ _
    · exact TrialReconciler.captureStep_writes _ _ _ _ _ _ _

theorem TrialReconciler.metricLoop_collection (r : Env) (now : Time) (ns : String)
    (ms : List Metric) :
    ∀ (i : Nat) (t : Trial),
      ∀ e ∈ (TrialReconciler.metricLoop r now ns i ms t).trace, e.isCollection = true := by
  induction ms with
  | nil => intro i t; simp [TrialReconciler.metricLoop, Scan.trace]
  | cons m ms ih =>
    intro i t
    unfold TrialReconciler.metricLoop
    dsimp only
    split_ifs
    · exact ih _ _
    · exact TrialReconciler.captureStep_collection _ _ _ _ _ _ _

theorem Scan.andThen_writes {α : Type} (s : Scan α) (k : α → Trial → Outcome) (hs : s.Writes)
    (hk : ∀ a t, (k a t).trace.countP Event.isWrite ≤ 1) :
    (s.andThen k).trace.countP Event.isWrite ≤ 1 := by
  cases s with
  | returned o => exact hs
  | finished a t es =>
    simp only [Scan.Writes] at hs
    simpa [Scan.andThen, List.countP_append, hs] using hk a t

theorem Scan.andThen_all {α : Type} (P : Event → Prop) (s : Scan α) (k : α → Trial → Outcome)
    (hs : ∀ e ∈ s.trace, P e) (hk : ∀ a t, ∀ e ∈ (k a t).trace, P e) :
    ∀ e ∈ (s.andThen k).trace, P e := by
  cases s with
  | returned o => exact hs
  | finished a t es =>
    intro e he
    simp only [Scan.andThen, Outcome.after_trace, List.mem_append] at he
    rcases he with he | he
    · exact hs e he
    · exact hk a t e he

theorem TrialReconciler.completeTrial_writes (r : Env) (now : Time) (t : Trial) :
    (TrialReconciler.completeTrial r now t).trace.countP Event.isWrite = 1 := by
  unfold TrialReconciler.completeTrial
  split_ifs <;> simp [List.countP_cons, Event.isWrite]

theorem TrialReconciler.completeTrial_collection (r : Env) (now : Time) (t : Trial) :
    ∀ e ∈ (TrialReconciler.completeTrial r now t).trace, e.isCollection = true := by
  unfold TrialReconciler.completeTrial
  intro e he
  split_ifs at he <;> simp at he
  · rcases he with rfl | rfl | rfl <;> rfl
  · rcases he with rfl | rfl <;> rfl

theorem TrialReconciler.observe_writes (r : Env) (now : Time) (t : Trial) (e : Experiment) :
    (TrialReconciler.observe r now t e).trace.countP Event.isWrite ≤ 1 := by
  unfold TrialReconciler.observe
  split_ifs
  · simp [List.countP_cons, Event.isWrite]
  · exact Scan.andThen_writes _ _ (TrialReconciler.metricLoop_writes _ _ _ _ _ _)
      (fun _ t1 => le_of_eq (TrialReconciler.completeTrial_writes r now t1))

theorem TrialReconciler.observe_collection (r : Env) (now : Time) (t : Trial) (e : Experiment) :
    ∀ ev ∈ (TrialReconciler.observe r now t e).trace, ev.isCollection = true := by
  unfold TrialReconciler.observe
  split_ifs
  · intro ev he
    simp at he
    rcases he with rfl | rfl <;> rfl
  · exact Scan.andThen_all _ _ _ (TrialReconciler.metricLoop_collection _ _ _ _ _ _)
      (fun _ t1 => TrialReconciler.completeTrial_collection r now t1)

theorem TrialReconciler.reconcileMetrics_writes (r : Env) (now : Time) (t : Trial) :
    (TrialReconciler.reconcileMetrics r now t).trace.countP Event.isWrite ≤ 1 := by
  unfold TrialReconciler.reconcileMetrics
  split_ifs
  · split
    · simp [List.countP_cons, Event.isWrite]
    · simpa [List.countP_cons, Event.isWrite] using TrialReconciler.observe_writes r now t _
  · simp

theorem TrialReconciler.reconcileMetrics_collection (r : Env) (now : Time) (t : Trial) :
    ∀ e ∈ (TrialReconciler.reconcileMetrics r now t).trace, e.isCollection = true := by
  unfold TrialReconciler.reconcileMetrics
  intro e he
  split_ifs at he
  · split at he
    · simp at he; subst he; rfl
    · simp at he
      rcases he with rfl | he
      · rfl
      · exact TrialReconciler.observe_collection r now t _ e he
  · simp at he

theorem TrialReconciler.createOrObserve_writes (r : Env) (now : Time) (n : Bool) (t : Trial) :
    (TrialReconciler.createOrObserve r now n t).trace.countP Event.isWrite ≤ 1 := by
  unfold TrialReconciler.createOrObserve
  split_ifs
  · split <;> simp [List.countP_cons, Event.isWrite]
  · exact TrialReconciler.reconcileMetrics_writes r now t

theorem TrialReconciler.createOrObserve_late (r : Env) (now : Time) (n : Bool) (t : Trial) :
    ∀ e ∈ (TrialReconciler.createOrObserve r now n t).trace, e.isLate = true := by
  unfold TrialReconciler.createOrObserve
  intro e he
  split_ifs at he
  · split at he <;> simp at he
    subst he; rfl
  · exact isCollection_late (TrialReconciler.reconcileMetrics_collection r now t e he)

theorem TrialReconciler.reconcileJobs_writes (r : Env) (now : Time) (t : Trial) :
    (TrialReconciler.reconcileJobs r now t).trace.countP Event.isWrite ≤ 1 := by
  unfold TrialReconciler.reconcileJobs
  split
  · simp
  · split
    · simp [List.countP_cons, Event.isWrite]
    · simpa [List.countP_cons, Event.isWrite] using
        Scan.andThen_writes _ _ (TrialReconciler.jobLoop_writes r now _ 0 t true)
          (TrialReconciler.createOrObserve_writes r now)

theorem TrialReconciler.reconcileJobs_late (r : Env) (now : Time) (t : Trial) :
    ∀ e ∈ (TrialReconciler.reconcileJobs r now t).trace, e.isLate = true := by
  unfold TrialReconciler.reconcileJobs
  intro e he
  split at he
  · simp at he
  · split at he
    · simp at he; subst he; rfl
    · simp at he
      rcases he with rfl | he
      · rfl
      · exact Scan.andThen_all _ _ _ (TrialReconciler.jobLoop_late r now _ 0 t true)
          (TrialReconciler.createOrObserve_late r now) e he

theorem TrialReconciler.reconcileGuard_writes (r : Env) (now : Time) (t : Trial) :
    (TrialReconciler.reconcileGuard r now t).trace.countP Event.isWrite ≤ 1 := by
  unfold TrialReconciler.reconcileGuard
  split_ifs
  · simp
  · exact TrialReconciler.reconcileJobs_writes r now t

theorem TrialReconciler.reconcileGuard_late (r : Env) (now : Time) (t : Trial) :
    ∀ e ∈ (TrialReconciler.reconcileGuard r now t).trace, e.isLate = true := by
  unfold TrialReconciler.reconcileGuard
  split_ifs
  · simp
  · exact TrialReconciler.reconcileJobs_late r now t

theorem TrialReconciler.reconcileStable_writes (r : Env) (now : Time) (t : Trial) :
    (TrialReconciler.reconcileStable r now t).trace.countP Event.isWrite ≤ 1 := by
  unfold TrialReconciler.reconcileStable
  split_ifs
  · simp [List.countP_cons, Event.isWrite]
  · exact TrialReconciler.reconcileGuard_writes r now t

@[simp] theorem adjustResponse_trace (o : Outcome) (w : Duration) :
    (TrialReconciler.adjustResponse o w).trace = o.trace := by
  unfold TrialReconciler.adjustResponse
  split_ifs <;> rfl

@[simp] theorem adjustResponse_trial (o : Outcome) (w : Duration) :
    (TrialReconciler.adjustResponse o w).trial = o.trial := by
  unfold TrialReconciler.adjustResponse
  split_ifs <;> rfl

theorem TrialReconciler.afterWait_writes (r : Env) (now : Time) (w : Duration) (t : Trial) :
    (TrialReconciler.afterWait r now w t).trace.countP Event.isWrite ≤ 1 := by
  unfold TrialReconciler.afterWait
  split_ifs
  · simp [List.countP_cons, Event.isWrite]
  · exact TrialReconciler.reconcileStable_writes r now t

theorem TrialReconciler.stabilityLoop_writes (r : Env) (now : Time) (ops : List PatchOperation) :
    ∀ (i : Nat) (t : Trial) (w : Duration),
      (TrialReconciler.stabilityLoop r now i ops t w).Writes := by
  induction ops with
  | nil => intro i t w; simp [TrialReconciler.stabilityLoop, Scan.Writes]
  | cons p ps ih =>
    intro i t w
    unfold TrialReconciler.stabilityLoop
    split_ifs
    · exact ih _ _ _
    · split
      · split
        · split_ifs
          · exact Scan.after_writes _ _ (by simp [List.countP_cons, Event.isWrite]) (ih _ _ _)
          · exact Scan.after_writes _ _ (by simp [List.countP_cons, Event.isWrite]) (ih _ _ _)
        · simp [Scan.Writes, List.countP_cons, Event.isWrite]
      · simp [Scan.Writes, List.countP_cons, Event.isWrite]

theorem TrialReconciler.Reconcile_writes (r : Env) (now : Time) (get : Except Error Trial) :
    (TrialReconciler.Reconcile r now get).trace.countP Event.isWrite ≤ 1 := by
  unfold TrialReconciler.Reconcile
  split
  · simp
  · split_ifs
    · simp
    · exact Scan.andThen_writes _ _ (TrialReconciler.stabilityLoop_writes r now _ 0 _ 0)
        (TrialReconciler.afterWait_writes r now)

theorem TrialJobReconciler.listJobs_trace (r : Env) (t : Trial) :
    (TrialJobReconciler.listJobs r t).2 = [] ∨
      (TrialJobReconciler.listJobs r t).2 = [Event.ListJobs] := by
  unfold TrialJobReconciler.listJobs
  split
  · exact Or.inl rfl
  · split
    · exact Or.inr rfl
    · exact Or.inr rfl

theorem TrialJobReconciler.listJobs_writes (r : Env) (t : Trial) :
    (TrialJobReconciler.listJobs r t).2.countP Event.isWrite = 0 := by
  rcases TrialJobReconciler.listJobs_trace r t with h | h <;> rw [h] <;> rfl

theorem TrialJobReconciler.runLoop_writes (r : Env) (now : Time) (jobs : List Job) :
    ∀ (i : Nat) (t : Trial),
      (TrialJobReconciler.jobLoop r now i jobs t).trace.countP Event.isWrite ≤ 1 := by
  induction jobs with
  | nil => intro i t; simp [TrialJobReconciler.jobLoop]
  | cons job jobs ih =>
    intro i t
    unfold TrialJobReconciler.jobLoop
    have hobs := TrialJobReconciler.jobStatus_trace r.MatchingSelector (r.ListPods i) t job now
    have h0 := countP_write_observation hobs
    dsimp only
    split_ifs
    · simp [List.countP_cons, List.countP_append, h0, Event.isWrite]
    · simp [List.countP_cons, h0, Event.isWrite]
    · simpa [TrialJobReconciler.JobOutcome.after, List.countP_cons, List.countP_append, h0,
        Event.isWrite] using ih (i + 1) _

theorem TrialJobReconciler.runJobs_writes (r : Env) (t : Trial) (now : Time) :
    (TrialJobReconciler.runJobs r t now).trace.countP Event.isWrite ≤ 1 := by
  unfold TrialJobReconciler.runJobs
  have h0 := TrialJobReconciler.listJobs_writes r t
  split
  · simp [h0]
  · split_ifs
    · split
      · simp [h0]
      · simp [List.countP_append, h0, List.countP_cons, Event.isWrite]
    · simpa [TrialJobReconciler.JobOutcome.after, List.countP_append, h0] using
        TrialJobReconciler.runLoop_writes r now _ 0 t

theorem TrialJobReconciler.runTrialJob_writes (r : Env) (t : Trial) (now : Time) :
    (TrialJobReconciler.runTrialJob r t now).trace.countP Event.isWrite ≤ 1 := by
  unfold TrialJobReconciler.runTrialJob
  split_ifs
  · simp
  · exact TrialJobReconciler.runJobs_writes r t now

theorem TrialJobReconciler.jobReconcile_writes (r : Env) (now : Time) (get : Except Error Trial) :
    (TrialJobReconciler.Reconcile r now get).trace.countP Event.isWrite ≤ 1 := by
  unfold TrialJobReconciler.Reconcile
  split
  · simp
  · split_ifs
    · simp
    · dsimp only
      split <;> exact TrialJobReconciler.runTrialJob_writes r _ now

/-- C1: one invocation of `TrialReconciler.Reconcile`, whatever the trial fetched and
whatever the probe, the listings, the capture and the commit answer, issues at most one write
to the object store (a trial `Update` or a job `Create`, so never both and never two); the
same holds for one invocation of `TrialJobReconciler.Reconcile`. -/
theorem C1_at_most_one_write (r : Env) (now : Time) (get : Except Error Trial) :
    ((TrialReconciler.Reconcile r now get).trace.filter Event.isWrite).length ≤ 1 ∧
    ((TrialJobReconciler.Reconcile r now get).trace.filter Event.isWrite).length ≤ 1 := by
  rw [← List.countP_eq_length_filter, ← List.countP_eq_length_filter]
  exact ⟨TrialReconciler.Reconcile_writes r now get, TrialJobReconciler.jobReconcile_writes r now get⟩

/-- C2: for a trial that is finished (`Complete=True` or `Failed=True`) or carries a non-zero
deletion timestamp, `TrialReconciler.Reconcile` returns the empty result and no error, with
an empty trace (no probe, no listing, no create, no capture, no update) and the trial as it
was fetched. -/
theorem C2_terminal_noop (r : Env) (now : Time) (t : Trial)
    (h : (∃ c ∈ t.Status.Conditions,
            c.Status = ConditionTrue ∧ (c.Type_ = TrialComplete ∨ c.Type_ = TrialFailed)) ∨
         (∃ d, t.DeletionTimestamp = some d ∧ d ≠ 0)) :
    TrialReconciler.Reconcile r now (.ok t) =
      { result := { Requeue := false, RequeueAfter := 0 }, err := none, trial := t,
        trace := [] } := by
  have hg : (IsFinished t || !IsZero t.DeletionTimestamp) = true := by
    rcases h with ⟨c, hc, hs, hk⟩ | ⟨d, hd, hne⟩
    · have : IsFinished t = true := by
        unfold IsFinished
        rw [List.any_eq_true]
        exact ⟨c, hc, by simpa [hs] using hk⟩
      simp [this]
    · simp [hd, IsZero, hne]
  simp only [TrialReconciler.Reconcile, hg, if_true, Result.empty]

/-- C2, witness: a trial whose `Failed` condition is `True`. -/
theorem C2_terminal_noop_witness :
    TrialReconciler.Reconcile Sample.quiet 7
        (.ok (Sample.trialWith [{ TargetRef := "a", Wait := true }]
          [{ Type_ := TrialFailed, Status := ConditionTrue, Reason := "WaitFailed",
             Message := "gone", LastTransitionTime := 3 }])) =
      { result := { Requeue := false, RequeueAfter := 0 }, err := none,
        trial := Sample.trialWith [{ TargetRef := "a", Wait := true }]
          [{ Type_ := TrialFailed, Status := ConditionTrue, Reason := "WaitFailed",
             Message := "gone", LastTransitionTime := 3 }],
        trace := [] } :=
  C2_terminal_noop Sample.quiet 7 _
    (Or.inl ⟨{ Type_ := TrialFailed, Status := ConditionTrue, Reason := "WaitFailed",
               Message := "gone", LastTransitionTime := 3 },
             List.mem_singleton.2 rfl, rfl, Or.inr rfl⟩)

/-! ## The scan of the patch operations -/

theorem stabilityRetry_eq_some {e : Error} {d : Duration} :
    stabilityRetry e = some d ↔ ∃ text, e = Error.StabilityError d text ∧ 0 < d := by
  cases e with
  | StabilityError d' text =>
    simp only [stabilityRetry, Error.asStabilityError]
    constructor
    · intro h
      split_ifs at h with hd
      cases h
      exact ⟨text, rfl, hd⟩
    · rintro ⟨text', h, hd⟩
      cases h
      simp [hd]
  | _ => simp [stabilityRetry, Error.asStabilityError]

theorem stabilityRetry_eq_none {e : Error} :
    stabilityRetry e = none ↔ ¬ ∃ d text, e = Error.StabilityError d text ∧ 0 < d := by
  cases e with
  | StabilityError d' text =>
    simp only [stabilityRetry, Error.asStabilityError]
    constructor
    · intro h
      split_ifs at h with hd
      rintro ⟨d, text', h', hd'⟩
      cases h'
      exact hd hd'
    · intro h
      split_ifs with hd
      · exact absurd ⟨d', text, rfl, hd⟩ h
      · rfl
  | _ => simp [stabilityRetry, Error.asStabilityError]

theorem stabilityLoop_cons (r : Env) (now : Time) (i : Nat) (p : PatchOperation)
    (ps : List PatchOperation) (t : Trial) (w : Duration) :
    TrialReconciler.stabilityLoop r now i (p :: ps) t w =
      if p.Wait = false then TrialReconciler.stabilityLoop r now (i + 1) ps t w
      else
        match r.WaitForStableState i p with
        | some err =>
          match stabilityRetry err with
          | some d =>
            if d > w then
              (TrialReconciler.stabilityLoop r now (i + 1) ps
                (t.apply TrialStable ConditionFalse "Waiting" err.text now) d).after
                [Event.WaitForStableState i,
                 Event.ApplyCondition TrialStable ConditionFalse "Waiting" err.text]
            else (TrialReconciler.stabilityLoop r now (i + 1) ps t w).after
              [Event.WaitForStableState i]
          | none =>
            .returned ((TrialReconciler.forTrialUpdate r
                (t.apply TrialFailed ConditionTrue "WaitFailed" err.text now)).after
              [Event.WaitForStableState i,
               Event.ApplyCondition TrialFailed ConditionTrue "WaitFailed" err.text])
        | none =>
          .returned ((TrialReconciler.forTrialUpdate r
              (Trial.apply
                { t with Spec := { t.Spec with
                    PatchOperations := clearWait i t.Spec.PatchOperations } }
                TrialStable ConditionFalse "" "" now)).after
            [Event.WaitForStableState i,
             Event.ApplyCondition TrialStable ConditionFalse "" ""]) := by
  rw [TrialReconciler.stabilityLoop]

theorem retryScan_cons (r : Env) (now : Time) (i : Nat) (p : PatchOperation)
    (ps : List PatchOperation) (t : Trial) (w : Duration) :
    retryScan r now i (p :: ps) t w =
      if p.Wait = false then retryScan r now (i + 1) ps t w
      else
        match r.WaitForStableState i p with
        | some err =>
          match stabilityRetry err with
          | some d =>
            if d > w then
              ((retryScan r now (i + 1) ps
                  (t.apply TrialStable ConditionFalse "Waiting" err.text now) d).1,
               (retryScan r now (i + 1) ps
                  (t.apply TrialStable ConditionFalse "Waiting" err.text now) d).2.1,
               Event.WaitForStableState i ::
                 Event.ApplyCondition TrialStable ConditionFalse "Waiting" err.text ::
                 (retryScan r now (i + 1) ps
                  (t.apply TrialStable ConditionFalse "Waiting" err.text now) d).2.2)
            else
              ((retryScan r now (i + 1) ps t w).1, (retryScan r now (i + 1) ps t w).2.1,
               Event.WaitForStableState i :: (retryScan r now (i + 1) ps t w).2.2)
          | none => (t, w, [])
        | none => (t, w, []) := by
  rw [retryScan]

theorem Scan.after_after {α : Type} (a b : List Event) (s : Scan α) :
    (s.after a).after b = s.after (b ++ a) := by
  cases s <;> simp [Scan.after, Outcome.after, List.append_assoc]

@[simp] theorem Scan.after_no_events {α : Type} (s : Scan α) : s.after [] = s := by
  cases s <;> simp [Scan.after, Outcome.after]

/-- A run of operations none of which ends the scan is scanned as `retryScan` says, and the
scan goes on behind it. -/
theorem stabilityLoop_append (r : Env) (now : Time) (pre rest : List PatchOperation) :
    ∀ (i : Nat) (t : Trial) (w : Duration),
      (∀ j q, pre.get? j = some q → Passes r (i + j) q) →
      TrialReconciler.stabilityLoop r now i (pre ++ rest) t w =
        (TrialReconciler.stabilityLoop r now (i + pre.length) rest
          (retryScan r now i pre t w).1 (retryScan r now i pre t w).2.1).after
          (retryScan r now i pre t w).2.2 := by
  induction pre with
  | nil => intro i t w _; simp [retryScan]
  | cons p ps ih =>
    intro i t w h
    have hp : Passes r i p := by simpa using h 0 p (by simp)
    have hps : ∀ j q, ps.get? j = some q → Passes r (i + 1 + j) q := by
      intro j q hq
      have := h (j + 1) q (by simpa using hq)
      rwa [show i + (j + 1) = i + 1 + j by omega] at this
    have hlen : i + (p :: ps).length = i + 1 + ps.length := by simp; omega
    rw [List.cons_append, hlen, stabilityLoop_cons, retryScan_cons]
    by_cases hw : p.Wait = false
    · rw [if_pos hw, if_pos hw]
      exact ih _ _ _ hps
    · rcases hp with hp | ⟨d, text, hprobe, hd⟩
      · exact absurd hp hw
      · have hr : stabilityRetry (Error.StabilityError d text) = some d :=
          stabilityRetry_eq_some.2 ⟨text, rfl, hd⟩
        rw [if_neg hw, if_neg hw]
        simp only [hprobe, hr]
        split_ifs
        · rw [ih _ _ _ hps, Scan.after_after]; simp
        · rw [ih _ _ _ hps, Scan.after_after]; simp

theorem retryScan_skip (r : Env) (now : Time) (pre : List PatchOperation) :
    ∀ (i : Nat) (t : Trial) (w : Duration), (∀ q ∈ pre, q.Wait = false) →
      retryScan r now i pre t w = (t, w, []) := by
  induction pre with
  | nil => intro i t w _; rfl
  | cons p ps ih =>
    intro i t w h
    rw [retryScan_cons, if_pos (h p (by simp))]
    exact ih _ _ _ (fun q hq => h q (by simp [hq]))

theorem clearWait_append (pre : List PatchOperation) (p : PatchOperation)
    (post : List PatchOperation) :
    clearWait pre.length (pre ++ p :: post) = pre ++ { p with Wait := false } :: post := by
  induction pre with
  | nil => rfl
  | cons q qs ih => simp [clearWait, ih]

/-! ## The condition ledger -/

@[simp] theorem Trial.apply_Spec (t : Trial) (k : TrialConditionType) (s : ConditionStatus)
    (a b : String) (now : Time) : (t.apply k s a b now).Spec = t.Spec := rfl

@[simp] theorem Trial.apply_StartTime (t : Trial) (k : TrialConditionType) (s : ConditionStatus)
    (a b : String) (now : Time) : (t.apply k s a b now).Status.StartTime = t.Status.StartTime := rfl

@[simp] theorem Trial.apply_CompletionTime (t : Trial) (k : TrialConditionType)
    (s : ConditionStatus) (a b : String) (now : Time) :
    (t.apply k s a b now).Status.CompletionTime = t.Status.CompletionTime := rfl

@[simp] theorem Trial.apply_Namespace (t : Trial) (k : TrialConditionType) (s : ConditionStatus)
    (a b : String) (now : Time) : (t.apply k s a b now).Namespace = t.Namespace := rfl

@[simp] theorem Trial.apply_DeletionTimestamp (t : Trial) (k : TrialConditionType)
    (s : ConditionStatus) (a b : String) (now : Time) :
    (t.apply k s a b now).DeletionTimestamp = t.DeletionTimestamp := rfl

@[simp] theorem Trial.apply_Conditions (t : Trial) (k : TrialConditionType) (s : ConditionStatus)
    (a b : String) (now : Time) :
    (t.apply k s a b now).Status.Conditions = upsertCondition k s a b now t.Status.Conditions :=
  rfl

/-- After an upsert the stored condition of the kind carries the status, reason and message
of the call. -/
theorem find_upsertCondition (k : TrialConditionType) (s : ConditionStatus) (a b : String)
    (now : Time) (cs : List TrialCondition) :
    ∃ c, (upsertCondition k s a b now cs).find? (fun c => decide (c.Type_ = k)) = some c ∧
      c.Type_ = k ∧ c.Status = s ∧ c.Reason = a ∧ c.Message = b := by
  induction cs with
  | nil => exact ⟨newCondition k s a b now, by simp [upsertCondition, newCondition]⟩
  | cons c cs ih =>
    unfold upsertCondition
    by_cases hk : c.Type_ = k
    · rw [if_pos hk]
      by_cases hs : c.Status = s ∧ c.Reason = a ∧ c.Message = b
      · rw [if_pos hs]
        exact ⟨c, by simp [hk], hk, hs.1, hs.2.1, hs.2.2⟩
      · rw [if_neg hs]
        exact ⟨newCondition k s a b now, by simp [newCondition]⟩
    · rw [if_neg hk]
      obtain ⟨c', h1, h2⟩ := ih
      exact ⟨c', by simp [List.find?, hk, h1], h2⟩

theorem findCondition_apply (t : Trial) (k : TrialConditionType) (s : ConditionStatus)
    (a b : String) (now : Time) :
    ∃ c, findCondition (t.apply k s a b now).Status k = some c ∧
      c.Type_ = k ∧ c.Status = s ∧ c.Reason = a ∧ c.Message = b :=
  find_upsertCondition k s a b now t.Status.Conditions

/-- An upsert of one kind leaves the conditions of every other kind as they are. -/
theorem filter_upsertCondition (k k' : TrialConditionType) (h : k' ≠ k) (s : ConditionStatus)
    (a b : String) (now : Time) (cs : List TrialCondition) :
    (upsertCondition k s a b now cs).filter (fun c => decide (c.Type_ = k')) =
      cs.filter (fun c => decide (c.Type_ = k')) := by
  induction cs with
  | nil => simp [upsertCondition, newCondition, Ne.symm h]
  | cons c cs ih =>
    unfold upsertCondition
    by_cases hk : c.Type_ = k
    · rw [if_pos hk]
      split_ifs
      · rfl
      · have : ¬ c.Type_ = k' := by rw [hk]; exact Ne.symm h
        simp [newCondition, Ne.symm h, this]
    · rw [if_neg hk]
      simp [List.filter_cons, ih]

theorem conditionsOf_apply (t : Trial) (k k' : TrialConditionType) (h : k' ≠ k)
    (s : ConditionStatus) (a b : String) (now : Time) :
    conditionsOf k' (t.apply k s a b now) = conditionsOf k' t :=
  filter_upsertCondition k k' h s a b now t.Status.Conditions

theorem find_eq_head_filter (k : TrialConditionType) (cs : List TrialCondition) :
    cs.find? (fun c => decide (c.Type_ = k)) =
      (cs.filter fun c => decide (c.Type_ = k)).head? := by
  induction cs with
  | nil => rfl
  | cons c cs ih =>
    by_cases hk : c.Type_ = k
    · rw [List.find?_cons_of_pos _ (by simpa using hk), List.filter_cons_of_pos (by simpa using hk)]
      rfl
    · rw [List.find?_cons_of_neg _ (by simpa using hk), List.filter_cons_of_neg (by simpa using hk)]
      exact ih

theorem findCondition_eq_head (s : TrialStatus) (k : TrialConditionType) :
    findCondition s k = (s.Conditions.filter fun c => decide (c.Type_ = k)).head? :=
  find_eq_head_filter k s.Conditions

/-! ## What `retryScan` leaves behind -/

/-- The scan changes nothing of the trial but its conditions, and of those only `Stable`. -/
theorem retryScan_frame (r : Env) (now : Time) (pre : List PatchOperation) :
    ∀ (i : Nat) (t : Trial) (w : Duration),
      (retryScan r now i pre t w).1.Spec = t.Spec ∧
      (retryScan r now i pre t w).1.Status.StartTime = t.Status.StartTime ∧
      (retryScan r now i pre t w).1.Status.CompletionTime = t.Status.CompletionTime ∧
      ∀ k, k ≠ TrialStable →
        conditionsOf k (retryScan r now i pre t w).1 = conditionsOf k t := by
  induction pre with
  | nil => intro i t w; simp [retryScan]
  | cons p ps ih =>
    intro i t w
    rw [retryScan_cons]
    split_ifs
    · exact ih _ _ _
    · split
      · split
        · split_ifs
          · obtain ⟨h1, h2, h3, h4⟩ := ih (i + 1)
              (t.apply TrialStable ConditionFalse "Waiting" (Error.text ‹Error›) now) ‹Duration›
            refine ⟨h1, h2, h3, fun k hk => ?_⟩
            rw [h4 k hk]
            exact conditionsOf_apply t TrialStable k hk _ _ _ _
          · exact ih _ _ _
        · simp
      · simp

/-- The events of the scan are probes of the operations scanned and `Stable=False` updates
with reason `Waiting`. -/
theorem retryScan_trace (r : Env) (now : Time) (pre : List PatchOperation) :
    ∀ (i : Nat) (t : Trial) (w : Duration), ∀ e ∈ (retryScan r now i pre t w).2.2,
      (∃ j, e = Event.WaitForStableState j ∧ i ≤ j ∧ j < i + pre.length) ∨
      ∃ text, e = Event.ApplyCondition TrialStable ConditionFalse "Waiting" text := by
  induction pre with
  | nil => intro i t w e he; simp [retryScan] at he
  | cons p ps ih =>
    intro i t w e he
    have shift : ∀ {t' : Trial} {w' : Duration}, e ∈ (retryScan r now (i + 1) ps t' w').2.2 →
        (∃ j, e = Event.WaitForStableState j ∧ i ≤ j ∧ j < i + (p :: ps).length) ∨
        ∃ text, e = Event.ApplyCondition TrialStable ConditionFalse "Waiting" text := by
      intro t' w' h
      rcases ih _ _ _ e h with ⟨j, hj, h1, h2⟩ | h
      · exact Or.inl ⟨j, hj, by omega, by simp; omega⟩
      · exact Or.inr h
    rw [retryScan_cons] at he
    split_ifs at he
    · exact shift he
    · split at he
      · split at he
        · split_ifs at he
          · simp only [List.mem_cons] at he
            rcases he with rfl | rfl | he
            · exact Or.inl ⟨i, rfl, le_refl _, by simp⟩
            · exact Or.inr ⟨_, rfl⟩
            · exact shift he
          · simp only [List.mem_cons] at he
            rcases he with rfl | he
            · exact Or.inl ⟨i, rfl, le_refl _, by simp⟩
            · exact shift he
        · simp at he
      · simp at he

/-! ## Patch stabilization -/

theorem Reconcile_unfinished (r : Env) (now : Time) (t : Trial) (hfin : IsFinished t = false)
    (hdel : IsZero t.DeletionTimestamp = true) :
    TrialReconciler.Reconcile r now (.ok t) = TrialReconciler.reconcileWait r now t := by
  simp [TrialReconciler.Reconcile, hfin, hdel]

theorem passes_of_not_waiting {r : Env} {pre : List PatchOperation}
    (h : ∀ q ∈ pre, q.Wait = false) (i : Nat) :
    ∀ j q, pre.get? j = some q → Passes r (i + j) q :=
  fun _ q hq => Or.inl (h q (List.get?_mem hq))

theorem RequeueConflict_after (e : Option Error) : (RequeueConflict e).1.RequeueAfter = 0 := by
  unfold RequeueConflict
  split <;> rfl

/-- C3: when the first patch operation with `wait=true` gets a successful probe, one pass of
`TrialReconciler.Reconcile` on the (unfinished, undeleted) trial sets that operation's `wait`
to false and leaves every other operation as it was, probes no other operation, applies
exactly one condition update, `Stable=False` with empty reason and message, and commits the
trial so changed. -/
theorem C3_single_patch_progression (r : Env) (now : Time) (t : Trial)
    (pre : List PatchOperation) (p : PatchOperation) (post : List PatchOperation)
    (hfin : IsFinished t = false) (hdel : IsZero t.DeletionTimestamp = true)
    (hops : t.Spec.PatchOperations = pre ++ p :: post)
    (hpre : ∀ q ∈ pre, q.Wait = false) (hp : p.Wait = true)
    (hprobe : r.WaitForStableState pre.length p = none) :
    (TrialReconciler.Reconcile r now (.ok t)).trial =
      { t with
        Spec := { t.Spec with PatchOperations := pre ++ { p with Wait := false } :: post }
        Status := ApplyCondition t.Status TrialStable ConditionFalse "" "" now } ∧
    (TrialReconciler.Reconcile r now (.ok t)).trace =
      [Event.WaitForStableState pre.length,
       Event.ApplyCondition TrialStable ConditionFalse "" "",
       Event.Update (TrialReconciler.Reconcile r now (.ok t)).trial] ∧
    ((TrialReconciler.Reconcile r now (.ok t)).result,
      (TrialReconciler.Reconcile r now (.ok t)).err) =
      RequeueConflict (r.Update (TrialReconciler.Reconcile r now (.ok t)).trial) := by
  have hw : ¬ p.Wait = false := by simp [hp]
  have hloop : TrialReconciler.stabilityLoop r now 0 t.Spec.PatchOperations t 0 =
      .returned ((TrialReconciler.forTrialUpdate r
        (Trial.apply { t with Spec := { t.Spec with
            PatchOperations := pre ++ { p with Wait := false } :: post } }
          TrialStable ConditionFalse "" "" now)).after
        [Event.WaitForStableState pre.length,
         Event.ApplyCondition TrialStable ConditionFalse "" ""]) := by
    rw [hops, stabilityLoop_append r now pre (p :: post) 0 t 0 (passes_of_not_waiting hpre 0),
      retryScan_skip r now pre 0 t 0 hpre, stabilityLoop_cons, if_neg hw]
    simp only [Nat.zero_add, hprobe, Scan.after_no_events]
    rw [hops, clearWait_append]
  rw [Reconcile_unfinished r now t hfin hdel, TrialReconciler.reconcileWait, hloop]
  exact ⟨rfl, rfl, rfl⟩

/-- C3, witness: two operations with `wait=true`, the probe of the first succeeds. -/
theorem C3_single_patch_progression_witness :
    (TrialReconciler.Reconcile Sample.quiet 7 (.ok Sample.twoWaiting)).trial.Spec.PatchOperations =
      [{ TargetRef := "a", Wait := false }, { TargetRef := "b", Wait := true }] ∧
    (TrialReconciler.Reconcile Sample.quiet 7 (.ok Sample.twoWaiting)).trace =
      [Event.WaitForStableState 0, Event.ApplyCondition TrialStable ConditionFalse "" "",
       Event.Update (TrialReconciler.Reconcile Sample.quiet 7 (.ok Sample.twoWaiting)).trial] := by
  have h := C3_single_patch_progression Sample.quiet 7 Sample.twoWaiting []
    { TargetRef := "a", Wait := true } [{ TargetRef := "b", Wait := true }]
    (by decide) (by decide) rfl (by simp) rfl rfl
  exact ⟨by rw [h.1]; rfl, h.2.1⟩

/-- What the scan of a run of operations none of which ends the scan accumulates:
`waitForStability` does not decrease and bounds every delay of the run; either nothing
changed, or it grew to the delay of some waiting operation of the run whose error text is
the message of the stored `Stable=False` condition, with reason `Waiting`. -/
theorem retryScan_max (r : Env) (now : Time) (pre : List PatchOperation) :
    ∀ (i : Nat) (t : Trial) (w : Duration),
      (∀ j q, pre.get? j = some q → Passes r (i + j) q) →
      w ≤ (retryScan r now i pre t w).2.1 ∧
      (∀ j q d text, pre.get? j = some q → q.Wait = true →
        r.WaitForStableState (i + j) q = some (Error.StabilityError d text) →
        d ≤ (retryScan r now i pre t w).2.1) ∧
      (((retryScan r now i pre t w).2.1 = w ∧ (retryScan r now i pre t w).1 = t) ∨
        (w < (retryScan r now i pre t w).2.1 ∧
          ∃ j q text c, pre.get? j = some q ∧ q.Wait = true ∧
            r.WaitForStableState (i + j) q =
              some (Error.StabilityError (retryScan r now i pre t w).2.1 text) ∧
            findCondition (retryScan r now i pre t w).1.Status TrialStable = some c ∧
            c.Status = ConditionFalse ∧ c.Reason = "Waiting" ∧ c.Message = text)) := by
  induction pre with
  | nil =>
    intro i t w _
    refine ⟨le_refl _, ?_, Or.inl ⟨rfl, rfl⟩⟩
    intro j q d text hq
    simp at hq
  | cons p ps ih =>
    intro i t w h
    have hp : Passes r i p := by simpa using h 0 p (by simp)
    have hps : ∀ j q, ps.get? j = some q → Passes r (i + 1 + j) q := by
      intro j q hq
      have := h (j + 1) q (by simpa using hq)
      rwa [show i + (j + 1) = i + 1 + j by omega] at this
    rw [retryScan_cons]
    by_cases hw : p.Wait = false
    · rw [if_pos hw]
      obtain ⟨ha, hb, hc⟩ := ih (i + 1) t w hps
      refine ⟨ha, ?_, ?_⟩
      · intro j q d text hq hqw hprobe
        cases j with
        | zero =>
          simp at hq; subst hq
          rw [hw] at hqw; cases hqw
        | succ j =>
          exact hb j q d text (by simpa using hq) hqw
            (by rwa [show i + (j + 1) = i + 1 + j by omega] at hprobe)
      · rcases hc with hc | ⟨hlt, j, q, text, c, hq, hqw, hprobe, hfind⟩
        · exact Or.inl hc
        · exact Or.inr ⟨hlt, j + 1, q, text, c, by simpa using hq, hqw,
            by rwa [show i + (j + 1) = i + 1 + j by omega], hfind⟩
    · rw [if_neg hw]
      rcases hp with hp | ⟨d, text, hprobe, hd⟩
      · exact absurd hp hw
      · have hr : stabilityRetry (Error.StabilityError d text) = some d :=
          stabilityRetry_eq_some.2 ⟨text, rfl, hd⟩
        simp only [hprobe, hr]
        by_cases hdw : d > w
        · rw [if_pos hdw]
          obtain ⟨ha, hb, hc⟩ := ih (i + 1)
            (t.apply TrialStable ConditionFalse "Waiting" (Error.StabilityError d text).text now)
            d hps
          refine ⟨le_trans (le_of_lt hdw) ha, ?_, Or.inr ⟨lt_of_lt_of_le hdw ha, ?_⟩⟩
          · intro j q d' text' hq hqw hprobe'
            cases j with
            | zero =>
              simp at hq; subst hq
              rw [Nat.add_zero, hprobe] at hprobe'
              cases hprobe'
              exact ha
            | succ j =>
              exact hb j q d' text' (by simpa using hq) hqw
                (by rwa [show i + (j + 1) = i + 1 + j by omega] at hprobe')
          · rcases hc with ⟨hc1, hc2⟩ | ⟨hlt, j, q, text', c, hq, hqw, hprobe', hfind⟩
            · obtain ⟨c, hfc, _, hs, hre, hm⟩ := findCondition_apply t TrialStable ConditionFalse
                "Waiting" (Error.StabilityError d text).text now
              refine ⟨0, p, text, c, by simp, by simpa using hw, ?_, ?_, hs, hre, hm⟩
              · dsimp only
                rw [hc1]; exact hprobe
              · dsimp only
                rw [hc2]; exact hfc
            · exact ⟨j + 1, q, text', c, by simpa using hq, hqw,
                by rwa [show i + (j + 1) = i + 1 + j by omega], hfind⟩
        · rw [if_neg hdw]
          obtain ⟨ha, hb, hc⟩ := ih (i + 1) t w hps
          refine ⟨ha, ?_, ?_⟩
          · intro j q d' text' hq hqw hprobe'
            cases j with
            | zero =>
              simp at hq; subst hq
              rw [Nat.add_zero, hprobe] at hprobe'
              cases hprobe'
              exact le_trans (not_lt.1 hdw) ha
            | succ j =>
              exact hb j q d' text' (by simpa using hq) hqw
                (by rwa [show i + (j + 1) = i + 1 + j by omega] at hprobe')
          · rcases hc with hc | ⟨hlt, j, q, text', c, hq, hqw, hprobe', hfind⟩
            · exact Or.inl hc
            · exact Or.inr ⟨hlt, j + 1, q, text', c, by simpa using hq, hqw,
                by rwa [show i + (j + 1) = i + 1 + j by omega], hfind⟩

theorem passes_of_retry {r : Env} {pre : List PatchOperation}
    (h : ∀ j q, pre.get? j = some q → q.Wait = true →
      ∃ d text, r.WaitForStableState j q = some (Error.StabilityError d text) ∧ 0 < d) :
    ∀ j q, pre.get? j = some q → Passes r (0 + j) q := by
  intro j q hq
  rw [Nat.zero_add]
  cases hw : q.Wait with
  | false => exact Or.inl hw
  | true => exact Or.inr (h j q hq hw)

/-- When no operation ends the scan, the pass goes on behind the loop with what `retryScan`
accumulated. -/
theorem reconcileWait_of_passes (r : Env) (now : Time) (t : Trial)
    (h : ∀ j q, t.Spec.PatchOperations.get? j = some q → Passes r (0 + j) q) :
    TrialReconciler.reconcileWait r now t =
      (TrialReconciler.afterWait r now (retryScan r now 0 t.Spec.PatchOperations t 0).2.1
        (retryScan r now 0 t.Spec.PatchOperations t 0).1).after
        (retryScan r now 0 t.Spec.PatchOperations t 0).2.2 := by
  have := stabilityLoop_append r now t.Spec.PatchOperations [] 0 t 0 h
  rw [List.append_nil] at this
  rw [TrialReconciler.reconcileWait, this]
  simp [TrialReconciler.stabilityLoop, Scan.after, Scan.andThen]

/-- C5: a fatal stability failure is not masked by earlier retryable ones. When the probe of
a waiting operation returns an error that is not a `StabilityError` with `RetryAfter > 0`,
and every waiting operation before it returned a `StabilityError` with `RetryAfter > 0`, the
pass stores `Failed=True` with reason `WaitFailed` and the error text as message, commits at
once (the update is the last event, right behind the probe and the condition update, and the
result carries no requeue delay), and probes no later operation. -/
theorem C5_fatal_not_masked (r : Env) (now : Time) (t : Trial)
    (pre : List PatchOperation) (p : PatchOperation) (post : List PatchOperation) (err : Error)
    (hfin : IsFinished t = false) (hdel : IsZero t.DeletionTimestamp = true)
    (hops : t.Spec.PatchOperations = pre ++ p :: post)
    (hpre : ∀ j q, pre.get? j = some q → q.Wait = true →
      ∃ d text, r.WaitForStableState j q = some (Error.StabilityError d text) ∧ 0 < d)
    (hp : p.Wait = true) (hprobe : r.WaitForStableState pre.length p = some err)
    (hfatal : ¬ ∃ d text, err = Error.StabilityError d text ∧ 0 < d) :
    (∃ c, findCondition (TrialReconciler.Reconcile r now (.ok t)).trial.Status TrialFailed =
        some c ∧ c.Status = ConditionTrue ∧ c.Reason = "WaitFailed" ∧ c.Message = err.text) ∧
    (∃ es, (TrialReconciler.Reconcile r now (.ok t)).trace =
        es ++ [Event.WaitForStableState pre.length,
               Event.ApplyCondition TrialFailed ConditionTrue "WaitFailed" err.text,
               Event.Update (TrialReconciler.Reconcile r now (.ok t)).trial] ∧
      ∀ e ∈ es, (∃ j, e = Event.WaitForStableState j ∧ j < pre.length) ∨
        ∃ text, e = Event.ApplyCondition TrialStable ConditionFalse "Waiting" text) ∧
    (∀ j, Event.WaitForStableState j ∈ (TrialReconciler.Reconcile r now (.ok t)).trace →
      j ≤ pre.length) ∧
    (TrialReconciler.Reconcile r now (.ok t)).result.RequeueAfter = 0 ∧
    ((TrialReconciler.Reconcile r now (.ok t)).result,
      (TrialReconciler.Reconcile r now (.ok t)).err) =
      RequeueConflict (r.Update (TrialReconciler.Reconcile r now (.ok t)).trial) ∧
    (TrialReconciler.Reconcile r now (.ok t)).trial.Spec = t.Spec := by
  have hw : ¬ p.Wait = false := by simp [hp]
  have hn : stabilityRetry err = none := stabilityRetry_eq_none.2 hfatal
  have hloop : TrialReconciler.stabilityLoop r now 0 t.Spec.PatchOperations t 0 =
      .returned ((TrialReconciler.forTrialUpdate r
        ((retryScan r now 0 pre t 0).1.apply TrialFailed ConditionTrue "WaitFailed"
          err.text now)).after
        ((retryScan r now 0 pre t 0).2.2 ++ [Event.WaitForStableState pre.length,
         Event.ApplyCondition TrialFailed ConditionTrue "WaitFailed" err.text])) := by
    rw [hops, stabilityLoop_append r now pre (p :: post) 0 t 0 (passes_of_retry hpre),
      stabilityLoop_cons, if_neg hw]
    simp only [Nat.zero_add, hprobe, hn, Scan.after, Outcome.after, List.append_assoc]
  have htrace := retryScan_trace r now pre 0 t 0
  have hes : ∀ e ∈ (retryScan r now 0 pre t 0).2.2,
      (∃ j, e = Event.WaitForStableState j ∧ j < pre.length) ∨
        ∃ text, e = Event.ApplyCondition TrialStable ConditionFalse "Waiting" text := by
    intro e he
    rcases htrace e he with ⟨j, hj, _, h2⟩ | h
    · exact Or.inl ⟨j, hj, by omega⟩
    · exact Or.inr h
  rw [Reconcile_unfinished r now t hfin hdel, TrialReconciler.reconcileWait, hloop]
  refine ⟨?_, ⟨_, ?_, hes⟩, ?_, RequeueConflict_after _, rfl, ?_⟩
  · obtain ⟨c, hc, _, h1, h2, h3⟩ := findCondition_apply (retryScan r now 0 pre t 0).1
      TrialFailed ConditionTrue "WaitFailed" err.text now
    exact ⟨c, hc, h1, h2, h3⟩
  · simp [Scan.andThen, List.append_assoc]
  · intro j hj
    simp only [Scan.andThen, Outcome.after_trace, forTrialUpdate_trace, List.append_assoc,
      List.mem_append, List.mem_cons, List.mem_singleton, List.not_mem_nil, or_false] at hj
    rcases hj with hj | hj
    · rcases hes _ hj with ⟨j', h1, h2⟩ | ⟨text, h⟩
      · cases h1; omega
      · cases h
    · simp at hj
      omega
  · show ((retryScan r now 0 pre t 0).1.apply TrialFailed ConditionTrue "WaitFailed"
      err.text now).Spec = t.Spec
    rw [Trial.apply_Spec]
    exact (retryScan_frame r now pre 0 t 0).1

/-- C5, witness: two waiting operations; the first probe asks to retry after 30 seconds, the
second fails for good. -/
theorem C5_fatal_not_masked_witness :
    (∃ c, findCondition
        (TrialReconciler.Reconcile (Sample.retryThenFatal (30 * Second)) 7
          (.ok Sample.twoWaiting)).trial.Status TrialFailed = some c ∧
      c.Status = ConditionTrue ∧ c.Reason = "WaitFailed" ∧ c.Message = "no such target") ∧
    (TrialReconciler.Reconcile (Sample.retryThenFatal (30 * Second)) 7
      (.ok Sample.twoWaiting)).result.RequeueAfter = 0 := by
  have h := C5_fatal_not_masked (Sample.retryThenFatal (30 * Second)) 7 Sample.twoWaiting
    [{ TargetRef := "a", Wait := true }] { TargetRef := "b", Wait := true } []
    (Error.Other "no such target") (by decide) (by decide) rfl
    (by
      intro j q hq _
      cases j with
      | zero => exact ⟨30 * Second, "not ready", rfl, by decide⟩
      | succ j => simp at hq)
    rfl rfl (by rintro ⟨d, text, h, _⟩; cases h)
  exact ⟨h.1, h.2.2.2.1⟩

theorem RequeueConflict_none : RequeueConflict none = (Result.empty, none) := rfl

/-- C6: when at least one patch operation is waiting and the probe of every waiting operation
returns a `StabilityError` with `RetryAfter > 0`, the pass changes no wait flag, stores
`Stable=False` with reason `Waiting` and the text of an error carrying the largest delay,
commits the trial (its one write, the last event), and on a successful commit returns no
error and `RequeueAfter` equal to the largest `RetryAfter` among those errors. -/
theorem C6_all_retryable (r : Env) (now : Time) (t : Trial)
    (hfin : IsFinished t = false) (hdel : IsZero t.DeletionTimestamp = true)
    (hall : ∀ j q, t.Spec.PatchOperations.get? j = some q → q.Wait = true →
      ∃ d text, r.WaitForStableState j q = some (Error.StabilityError d text) ∧ 0 < d)
    (hsome : ∃ q ∈ t.Spec.PatchOperations, q.Wait = true) :
    ∃ dmax j q text c,
      (t.Spec.PatchOperations.get? j = some q ∧ q.Wait = true ∧
        r.WaitForStableState j q = some (Error.StabilityError dmax text)) ∧
      (∀ j' q' d' text', t.Spec.PatchOperations.get? j' = some q' → q'.Wait = true →
        r.WaitForStableState j' q' = some (Error.StabilityError d' text') → d' ≤ dmax) ∧
      (TrialReconciler.Reconcile r now (.ok t)).trial.Spec = t.Spec ∧
      (findCondition (TrialReconciler.Reconcile r now (.ok t)).trial.Status TrialStable =
          some c ∧
        c.Status = ConditionFalse ∧ c.Reason = "Waiting" ∧ c.Message = text) ∧
      (∃ es, (TrialReconciler.Reconcile r now (.ok t)).trace =
          es ++ [Event.Update (TrialReconciler.Reconcile r now (.ok t)).trial] ∧
        ∀ e ∈ es, e.isWrite = false) ∧
      (r.Update (TrialReconciler.Reconcile r now (.ok t)).trial = none →
        (TrialReconciler.Reconcile r now (.ok t)).err = none ∧
        (TrialReconciler.Reconcile r now (.ok t)).result =
          { Requeue := false, RequeueAfter := dmax }) := by
  have hpass := passes_of_retry hall
  obtain ⟨_, hb, hc⟩ := retryScan_max r now t.Spec.PatchOperations 0 t 0 hpass
  simp only [Nat.zero_add] at hb hc
  -- some waiting operation has a positive delay, so `waitForStability` is positive
  have hpos : 0 < (retryScan r now 0 t.Spec.PatchOperations t 0).2.1 := by
    obtain ⟨q, hq, hqw⟩ := hsome
    obtain ⟨j, hj⟩ := List.get?_of_mem hq
    obtain ⟨d, text, hprobe, hd⟩ := hall j q hj hqw
    exact lt_of_lt_of_le hd (hb j q d text hj hqw hprobe)
  rcases hc with ⟨hc, _⟩ | ⟨_, j, q, text, c, hq, hqw, hprobe, hfind, hs, hre, hm⟩
  · rw [hc] at hpos; exact absurd hpos (lt_irrefl _)
  · have hrec : TrialReconciler.Reconcile r now (.ok t) =
        (TrialReconciler.adjustResponse
          (TrialReconciler.forTrialUpdate r (retryScan r now 0 t.Spec.PatchOperations t 0).1)
          (retryScan r now 0 t.Spec.PatchOperations t 0).2.1).after
          (retryScan r now 0 t.Spec.PatchOperations t 0).2.2 := by
      rw [Reconcile_unfinished r now t hfin hdel, reconcileWait_of_passes r now t hpass,
        TrialReconciler.afterWait, if_pos hpos]
    have htrial : (TrialReconciler.Reconcile r now (.ok t)).trial =
        (retryScan r now 0 t.Spec.PatchOperations t 0).1 := by
      rw [hrec]; simp
    refine ⟨_, j, q, text, c, ⟨hq, hqw, hprobe⟩, hb, ?_, ⟨?_, hs, hre, hm⟩,
      ⟨(retryScan r now 0 t.Spec.PatchOperations t 0).2.2, ?_, ?_⟩, ?_⟩
    · rw [htrial]; exact (retryScan_frame r now _ 0 t 0).1
    · rw [htrial]; exact hfind
    · rw [htrial, hrec]; simp
    · intro e he
      rcases retryScan_trace r now _ 0 t 0 e he with ⟨j, rfl, _⟩ | ⟨text, rfl⟩ <;> rfl
    · rw [htrial, hrec]
      intro hu
      simp [TrialReconciler.adjustResponse, hu, RequeueConflict_none, Result.empty]

/-- C6, witness: two waiting operations whose probes ask to retry after 5 and 4 seconds. -/
theorem C6_all_retryable_witness :
    ∃ c, findCondition
        (TrialReconciler.Reconcile Sample.allRetry 7 (.ok Sample.twoWaiting)).trial.Status
        TrialStable = some c ∧
      c.Status = ConditionFalse ∧ c.Reason = "Waiting" ∧ c.Message = "first" ∧
      (TrialReconciler.Reconcile Sample.allRetry 7 (.ok Sample.twoWaiting)).result =
        { Requeue := false, RequeueAfter := 5 * Second } := by
  obtain ⟨dmax, j, q, text, c, ⟨hq, _, hprobe⟩, hmax, _, ⟨hfind, hs, hr, hm⟩, _, hres⟩ :=
    C6_all_retryable Sample.allRetry 7 Sample.twoWaiting (by decide) (by decide)
      (fun j q _ _ => ⟨_, _, rfl, by
        have : j < 2 := by
          by_contra hj
          have : Sample.twoWaiting.Spec.PatchOperations.get? j = none :=
            List.get?_eq_none.2 (by simpa [Sample.twoWaiting, Sample.trialWith] using hj)
          simp_all
        interval_cases j <;> decide⟩)
      ⟨{ TargetRef := "a", Wait := true }, by decide, rfl⟩
  have h5 := hmax 0 { TargetRef := "a", Wait := true } (5 * Second) "first" rfl rfl rfl
  have hj : j = 0 := by
    have hjlt : j < 2 := by
      by_contra hj
      have : Sample.twoWaiting.Spec.PatchOperations.get? j = none :=
        List.get?_eq_none.2 (by simpa [Sample.twoWaiting, Sample.trialWith] using hj)
      simp_all
    interval_cases j
    · rfl
    · exfalso
      simp [Sample.allRetry] at hprobe
      have := hprobe.1
      rw [← this] at h5
      revert h5
      decide
  subst hj
  simp [Sample.allRetry] at hprobe
  obtain ⟨hd, ht⟩ := hprobe
  refine ⟨c, hfind, hs, hr, by rw [hm, ← ht], ?_⟩
  rw [(hres rfl).2, ← hd]

/-! ## What the pass leaves alone behind patch stabilization -/

theorem LateFrame.refl (t : Trial) : LateFrame t t := ⟨rfl, rfl⟩

theorem LateFrame.trans {a b c : Trial} (h1 : LateFrame a b) (h2 : LateFrame b c) :
    LateFrame a c := ⟨h2.1.trans h1.1, h2.2.trans h1.2⟩

theorem LateFrame.of_apply (t : Trial) (k : TrialConditionType) (hk : k ≠ TrialStable)
    (s : ConditionStatus) (a b : String) (now : Time) : LateFrame t (t.apply k s a b now) :=
  ⟨rfl, conditionsOf_apply t k TrialStable (Ne.symm hk) s a b now⟩

theorem LateFrame.of_setValue (t : Trial) (idx : Nat) (v : Value) : LateFrame t (setValue t idx v) :=
  ⟨rfl, rfl⟩

theorem LateFrame.of_findOrCreateValue (t : Trial) (name : String) :
    LateFrame t (findOrCreateValue t name).1 := by
  unfold Redsky.findOrCreateValue
  split <;> exact ⟨rfl, rfl⟩

theorem LateFrame.of_mergeTimes (t : Trial) (s f : Option Time) (d : Bool) :
    LateFrame t (mergeTimes t s f d).1 := by
  unfold Redsky.mergeTimes
  dsimp only
  split_ifs <;> exact ⟨rfl, rfl⟩

theorem LateFrame.of_applyJobConditions (now : Time) (cs : List JobCondition) :
    ∀ acc : Trial × Bool × List Event, LateFrame acc.1 (applyJobConditions now cs acc).1 := by
  induction cs with
  | nil => intro acc; exact LateFrame.refl _
  | cons c cs ih =>
    rintro ⟨t, dirty, es⟩
    unfold Redsky.applyJobConditions
    split_ifs
    · exact (LateFrame.of_apply t TrialFailed (by decide) ConditionTrue _ _ now).trans (ih _)
    · exact ih _

theorem LateFrame.of_finishJobStatus (t : Trial) (job : Job) (now : Time) (s f : Option Time)
    (d : Bool) (es : List Event) : LateFrame t (finishJobStatus t job now s f d es).trial :=
  (LateFrame.of_mergeTimes t s f d).trans (LateFrame.of_applyJobConditions now _ _)

theorem LateFrame.of_applyJobStatus (m : Option LabelSelector → Except Error Selector)
    (l : String → Selector → Except Error (List Pod)) (t : Trial) (job : Job) (now : Time) :
    LateFrame t (applyJobStatus m l t job now).trial := by
  unfold Redsky.applyJobStatus
  split
  · split
    · dsimp only
      split_ifs
      · exact LateFrame.refl _
      · exact LateFrame.of_finishJobStatus _ _ _ _ _ _ _
    · exact LateFrame.of_finishJobStatus _ _ _ _ _ _ _
  · exact LateFrame.of_finishJobStatus _ _ _ _ _ _ _

theorem Scan.Frame.after_events {α : Type} {t : Trial} (es : List Event) {s : Scan α}
    (h : s.Frame t) : (s.after es).Frame t := by
  cases s <;> exact h

theorem Scan.Frame.of_frame {α : Type} {a b : Trial} {s : Scan α} (h1 : LateFrame a b)
    (h2 : s.Frame b) : s.Frame a := by
  cases s <;> exact LateFrame.trans h1 h2

theorem Scan.Frame.and_then {α : Type} {t : Trial} {s : Scan α} (k : α → Trial → Outcome)
    (hs : s.Frame t) (hk : ∀ a t1, LateFrame t1 (k a t1).trial) :
    LateFrame t (s.andThen k).trial := by
  cases s with
  | returned o => exact hs
  | finished a t1 es => exact LateFrame.trans hs (hk a t1)

theorem TrialReconciler.jobLoop_frame (r : Env) (now : Time) (jobs : List Job) :
    ∀ (i : Nat) (t : Trial) (needsJob : Bool),
      (TrialReconciler.jobLoop r now i jobs t needsJob).Frame t := by
  induction jobs with
  | nil => intro i t n; exact LateFrame.refl t
  | cons job jobs ih =>
    intro i t n
    unfold TrialReconciler.jobLoop
    have hf := LateFrame.of_applyJobStatus r.MatchingSelector (r.ListPods i) t job now
    split_ifs
    · dsimp only
      split_ifs
      · exact hf
      · exact hf
      · exact Scan.Frame.of_frame hf (Scan.Frame.after_events _ (ih _ _ _))
    · exact ih _ _ _

theorem TrialReconciler.finishCapture_frame (r : Env) (now : Time) (t : Trial) (idx : Nat)
    (ce : Option Error) : LateFrame t (TrialReconciler.finishCapture r now t idx ce).trial := by
  unfold TrialReconciler.finishCapture
  split
  · dsimp only
    split_ifs
    · exact (LateFrame.of_setValue t idx _).trans
        ((LateFrame.of_apply _ TrialFailed (by decide) _ _ _ now).trans
          (LateFrame.of_apply _ TrialObserved (by decide) _ _ _ now))
    · exact (LateFrame.of_setValue t idx _).trans
        (LateFrame.of_apply _ TrialObserved (by decide) _ _ _ now)
    · exact LateFrame.of_apply _ TrialObserved (by decide) _ _ _ now
  · exact LateFrame.of_apply _ TrialObserved (by decide) _ _ _ now

theorem TrialReconciler.captureStep_frame (r : Env) (now : Time) (ns : String) (i : Nat)
    (m : Metric) (t : Trial) (idx : Nat) :
    LateFrame t (TrialReconciler.captureStep r now ns i m t idx).trial := by
  unfold TrialReconciler.captureStep
  dsimp only
  split
  · exact TrialReconciler.finishCapture_frame _ _ _ _ _
  · split
    · split
      · exact LateFrame.refl _
      · exact TrialReconciler.finishCapture_frame _ _ _ _ _
    · exact (LateFrame.of_setValue t idx _).trans (TrialReconciler.finishCapture_frame _ _ _ _ _)

theorem TrialReconciler.metricLoop_frame (r : Env) (now : Time) (ns : String)
    (ms : List Metric) :
    ∀ (i : Nat) (t : Trial), (TrialReconciler.metricLoop r now ns i ms t).Frame t := by
  induction ms with
  | nil => intro i t; exact LateFrame.refl t
  | cons m ms ih =>
    intro i t
    unfold TrialReconciler.metricLoop
    dsimp only
    split_ifs
    · exact Scan.Frame.of_frame (LateFrame.of_findOrCreateValue t m.Name) (ih _ _)
    · exact (LateFrame.of_findOrCreateValue t m.Name).trans
        (TrialReconciler.captureStep_frame _ _ _ _ _ _ _)

theorem TrialReconciler.completeTrial_frame (r : Env) (now : Time) (t : Trial) :
    LateFrame t (TrialReconciler.completeTrial r now t).trial := by
  unfold TrialReconciler.completeTrial
  split_ifs
  · exact (LateFrame.of_apply _ TrialObserved (by decide) _ _ _ now).trans
      (LateFrame.of_apply _ TrialComplete (by decide) _ _ _ now)
  · exact LateFrame.of_apply _ TrialComplete (by decide) _ _ _ now

theorem TrialReconciler.observe_frame (r : Env) (now : Time) (t : Trial) (e : Experiment) :
    LateFrame t (TrialReconciler.observe r now t e).trial := by
  unfold TrialReconciler.observe
  split_ifs
  · exact LateFrame.of_apply _ TrialObserved (by decide) _ _ _ now
  · exact Scan.Frame.and_then _ (TrialReconciler.metricLoop_frame _ _ _ _ _ _)
      (fun _ t1 => TrialReconciler.completeTrial_frame r now t1)

theorem TrialReconciler.reconcileMetrics_frame (r : Env) (now : Time) (t : Trial) :
    LateFrame t (TrialReconciler.reconcileMetrics r now t).trial := by
  unfold TrialReconciler.reconcileMetrics
  split_ifs
  · split
    · exact LateFrame.refl t
    · exact TrialReconciler.observe_frame r now t _
  · exact LateFrame.refl t

theorem TrialReconciler.createOrObserve_frame (r : Env) (now : Time) (n : Bool) (t : Trial) :
    LateFrame t (TrialReconciler.createOrObserve r now n t).trial := by
  unfold TrialReconciler.createOrObserve
  split_ifs
  · split <;> exact LateFrame.refl t
  · exact TrialReconciler.reconcileMetrics_frame r now t

theorem TrialReconciler.reconcileJobs_frame (r : Env) (now : Time) (t : Trial) :
    LateFrame t (TrialReconciler.reconcileJobs r now t).trial := by
  unfold TrialReconciler.reconcileJobs
  split
  · exact LateFrame.refl t
  · split
    · exact LateFrame.refl t
    · exact Scan.Frame.and_then _ (TrialReconciler.jobLoop_frame r now _ 0 t true)
        (TrialReconciler.createOrObserve_frame r now)

theorem TrialReconciler.reconcileGuard_frame (r : Env) (now : Time) (t : Trial) :
    LateFrame t (TrialReconciler.reconcileGuard r now t).trial := by
  unfold TrialReconciler.reconcileGuard
  split_ifs
  · exact LateFrame.refl t
  · exact TrialReconciler.reconcileJobs_frame r now t

/-- Behind the stabilization loop the pass does not touch the patch operations. -/
theorem TrialReconciler.afterWait_ops (r : Env) (now : Time) (w : Duration) (t : Trial) :
    (TrialReconciler.afterWait r now w t).trial.Spec.PatchOperations =
      t.Spec.PatchOperations := by
  unfold TrialReconciler.afterWait TrialReconciler.reconcileStable
  split_ifs
  · simp
  · rfl
  · exact (TrialReconciler.reconcileGuard_frame r now t).1

/-! ## The wait flags -/

theorem ScanOps.behind_events {r : Env} {i : Nat} {ops : List PatchOperation} {t : Trial}
    (es : List Event) {s : Scan Duration} (h : ScanOps r i ops t s) :
    ScanOps r i ops t (s.after es) := by
  cases s <;> exact h

theorem ScanOps.shift {r : Env} {i : Nat} {p : PatchOperation} {ps : List PatchOperation}
    {t t1 : Trial} {s : Scan Duration} (ht : t1.Spec.PatchOperations = t.Spec.PatchOperations)
    (hp : Passes r i p) (h : ScanOps r (i + 1) ps t1 s) : ScanOps r i (p :: ps) t s := by
  cases s with
  | finished w t2 es => exact Eq.trans h ht
  | returned o =>
    rcases h with h | ⟨k, q, hq, hqw, hprobe, hbefore, hclr⟩
    · exact Or.inl (h.trans ht)
    · refine Or.inr ⟨k + 1, q, by simpa using hq, hqw, ?_, ?_, ?_⟩
      · rwa [show i + (k + 1) = i + 1 + k by omega]
      · intro j q' hj hq'
        cases j with
        | zero =>
          simp at hq'; subst hq'
          exact hp
        | succ j =>
          rw [show i + (j + 1) = i + 1 + j by omega]
          exact hbefore j q' (by omega) (by simpa using hq')
      · rw [show i + (k + 1) = i + 1 + k by omega, hclr, ht]

theorem stabilityLoop_ops (r : Env) (now : Time) (ops : List PatchOperation) :
    ∀ (i : Nat) (t : Trial) (w : Duration),
      ScanOps r i ops t (TrialReconciler.stabilityLoop r now i ops t w) := by
  induction ops with
  | nil => intro i t w; exact rfl
  | cons p ps ih =>
    intro i t w
    rw [stabilityLoop_cons]
    by_cases hw : p.Wait = false
    · rw [if_pos hw]
      exact ScanOps.shift rfl (Or.inl hw) (ih _ _ _)
    · rw [if_neg hw]
      cases hprobe : r.WaitForStableState i p with
      | none =>
        exact Or.inr ⟨0, p, rfl, by simpa using hw, hprobe, fun j q hj => absurd hj (by omega),
          rfl⟩
      | some err =>
        dsimp only
        cases hr : stabilityRetry err with
        | none => exact Or.inl rfl
        | some d =>
          dsimp only
          obtain ⟨text, rfl, hd⟩ := stabilityRetry_eq_some.1 hr
          have hp : Passes r i p := Or.inr ⟨d, text, hprobe, hd⟩
          split_ifs
          · exact ScanOps.shift rfl hp (ScanOps.behind_events _ (ih _ _ _))
          · exact ScanOps.shift rfl hp (ScanOps.behind_events _ (ih _ _ _))

/-- One pass leaves the patch operations as they are, or clears the wait flag of the one
waiting operation whose probe succeeds behind operations that did not end the scan. -/
theorem Reconcile_ops (r : Env) (now : Time) (t : Trial) :
    (TrialReconciler.Reconcile r now (.ok t)).trial.Spec.PatchOperations =
        t.Spec.PatchOperations ∨
      ∃ k p, t.Spec.PatchOperations.get? k = some p ∧ p.Wait = true ∧
        r.WaitForStableState k p = none ∧
        (∀ j q, j < k → t.Spec.PatchOperations.get? j = some q → Passes r j q) ∧
        (TrialReconciler.Reconcile r now (.ok t)).trial.Spec.PatchOperations =
          clearWait k t.Spec.PatchOperations := by
  unfold TrialReconciler.Reconcile
  dsimp only
  split_ifs
  · exact Or.inl rfl
  · have h := stabilityLoop_ops r now t.Spec.PatchOperations 0 t 0
    unfold TrialReconciler.reconcileWait
    cases hs : TrialReconciler.stabilityLoop r now 0 t.Spec.PatchOperations t 0 with
    | finished w t1 es =>
      rw [hs] at h
      exact Or.inl ((TrialReconciler.afterWait_ops r now w t1).trans h)
    | returned o =>
      rw [hs] at h
      simpa only [ScanOps, Nat.zero_add, Scan.andThen] using h

theorem length_clearWait (k : Nat) (l : List PatchOperation) :
    (clearWait k l).length = l.length := by
  induction l generalizing k with
  | nil => simp [clearWait]
  | cons p ps ih => cases k <;> simp [clearWait, ih]

theorem get?_clearWait_ne (k j : Nat) (l : List PatchOperation) (h : j ≠ k) :
    (clearWait k l).get? j = l.get? j := by
  induction l generalizing k j with
  | nil => simp [clearWait]
  | cons p ps ih =>
    cases k with
    | zero =>
      cases j with
      | zero => exact absurd rfl h
      | succ j => rfl
    | succ k =>
      cases j with
      | zero => rfl
      | succ j => simpa [clearWait] using ih k j (by omega)

theorem get?_clearWait_eq (k : Nat) (l : List PatchOperation) :
    (clearWait k l).get? k = (l.get? k).map fun p => { p with Wait := false } := by
  induction l generalizing k with
  | nil => simp [clearWait]
  | cons p ps ih =>
    cases k with
    | zero => rfl
    | succ k => simpa [clearWait] using ih k

/-- C7: in one pass of `TrialReconciler.Reconcile` a wait flag that is false stays false, and
at most one operation's wait flag changes; the list keeps its length and every operation its
target. -/
theorem C7_wait_never_set (r : Env) (now : Time) (t : Trial) :
    (TrialReconciler.Reconcile r now (.ok t)).trial.Spec.PatchOperations.length =
      t.Spec.PatchOperations.length ∧
    (∀ i p, t.Spec.PatchOperations.get? i = some p → p.Wait = false →
      ∃ p1, (TrialReconciler.Reconcile r now (.ok t)).trial.Spec.PatchOperations.get? i =
        some p1 ∧ p1.Wait = false ∧ p1.TargetRef = p.TargetRef) ∧
    (∀ i j,
      ((TrialReconciler.Reconcile r now (.ok t)).trial.Spec.PatchOperations.get? i).map
          (fun p => p.Wait) ≠ (t.Spec.PatchOperations.get? i).map (fun p => p.Wait) →
      ((TrialReconciler.Reconcile r now (.ok t)).trial.Spec.PatchOperations.get? j).map
          (fun p => p.Wait) ≠ (t.Spec.PatchOperations.get? j).map (fun p => p.Wait) →
      i = j) := by
  rcases Reconcile_ops r now t with h | ⟨k, p, _, _, _, _, h⟩
  · rw [h]
    exact ⟨rfl, fun i p hp hw => ⟨p, hp, hw, rfl⟩, fun i j hi => absurd rfl hi⟩
  · rw [h]
    refine ⟨length_clearWait _ _, ?_, ?_⟩
    · intro i q hq hw
      by_cases hik : i = k
      · subst hik
        exact ⟨{ q with Wait := false }, by rw [get?_clearWait_eq, hq]; rfl, rfl, rfl⟩
      · exact ⟨q, by rw [get?_clearWait_ne k i _ hik, hq], hw, rfl⟩
    · intro i j hi hj
      have hik : i = k := by
        by_contra hne
        exact hi (by rw [get?_clearWait_ne k i _ hne])
      have hjk : j = k := by
        by_contra hne
        exact hj (by rw [get?_clearWait_ne k j _ hne])
      rw [hik, hjk]

/-- C4, counterexample: two waiting operations, the probe of the first asks to retry after
five seconds and the probe of the second succeeds; the pass clears the wait flag of the
second operation although the first had, and keeps, `wait=true`. -/
theorem C4_counterexample :
    Sample.twoWaiting.Spec.PatchOperations =
      [{ TargetRef := "a", Wait := true }, { TargetRef := "b", Wait := true }] ∧
    (Sample.firstRetries (5 * Second)).WaitForStableState 0 { TargetRef := "a", Wait := true } =
      some (Error.StabilityError (5 * Second) "not ready") ∧
    (TrialReconciler.Reconcile (Sample.firstRetries (5 * Second)) 7
      (.ok Sample.twoWaiting)).trial.Spec.PatchOperations =
      [{ TargetRef := "a", Wait := true }, { TargetRef := "b", Wait := false }] := by
  decide

/-- C4, as amended: when a pass of `TrialReconciler.Reconcile` clears the wait flag of a patch
operation, the probe of that operation succeeded and every operation before it in the list
either had `wait=false` before the pass or had its probe return a `StabilityError` with
`RetryAfter > 0` in the same pass. -/
theorem C4_cleared_behind_retryable (r : Env) (now : Time) (t : Trial) (i : Nat)
    (p p1 : PatchOperation) (hp : t.Spec.PatchOperations.get? i = some p) (hw : p.Wait = true)
    (hp1 : (TrialReconciler.Reconcile r now (.ok t)).trial.Spec.PatchOperations.get? i =
      some p1)
    (hw1 : p1.Wait = false) :
    r.WaitForStableState i p = none ∧
    ∀ j q, j < i → t.Spec.PatchOperations.get? j = some q →
      q.Wait = false ∨
        ∃ d text, r.WaitForStableState j q = some (Error.StabilityError d text) ∧ 0 < d := by
  rcases Reconcile_ops r now t with h | ⟨k, q, hq, _, hprobe, hbefore, h⟩
  · rw [h, hp] at hp1
    cases hp1
    rw [hw] at hw1
    cases hw1
  · have hik : i = k := by
      by_contra hne
      rw [h, get?_clearWait_ne k i _ hne, hp] at hp1
      cases hp1
      rw [hw] at hw1
      cases hw1
    subst hik
    rw [hp] at hq
    cases hq
    exact ⟨hprobe, hbefore⟩

/-- C4 as amended, witness: the second of two waiting operations is cleared behind a first
one whose probe asks to retry. -/
theorem C4_cleared_behind_retryable_witness :
    (Sample.firstRetries (5 * Second)).WaitForStableState 1 { TargetRef := "b", Wait := true } =
      none ∧
    ∀ j q, j < 1 → Sample.twoWaiting.Spec.PatchOperations.get? j = some q →
      q.Wait = false ∨
        ∃ d text, (Sample.firstRetries (5 * Second)).WaitForStableState j q =
          some (Error.StabilityError d text) ∧ 0 < d :=
  C4_cleared_behind_retryable (Sample.firstRetries (5 * Second)) 7 Sample.twoWaiting 1
    { TargetRef := "b", Wait := true } { TargetRef := "b", Wait := false } rfl rfl
    (by decide) rfl

/-! ## Stable promotion -/

theorem stabilityLoop_early (r : Env) (now : Time) (ops : List PatchOperation) :
    ∀ (i : Nat) (t : Trial) (w : Duration),
      ∀ e ∈ (TrialReconciler.stabilityLoop r now i ops t w).trace, e.isEarly = true := by
  induction ops with
  | nil => intro i t w; simp [TrialReconciler.stabilityLoop, Scan.trace]
  | cons p ps ih =>
    intro i t w
    rw [stabilityLoop_cons]
    split_ifs
    · exact ih _ _ _
    · split
      · split
        · split_ifs
          · intro e he
            simp only [Scan.trace_after, List.mem_append, List.mem_cons, List.mem_singleton,
              List.not_mem_nil, or_false] at he
            rcases he with (rfl | rfl) | he
            · rfl
            · rfl
            · exact ih _ _ _ e he
          · intro e he
            simp only [Scan.trace_after, List.mem_append, List.mem_singleton] at he
            rcases he with rfl | he
            · rfl
            · exact ih _ _ _ e he
        · intro e he
          simp [Scan.trace] at he
          rcases he with rfl | rfl | rfl <;> rfl
      · intro e he
        simp [Scan.trace] at he
        rcases he with rfl | rfl | rfl <;> rfl

theorem Scan.after_eq_finished {α : Type} {es0 es : List Event} {s : Scan α} {a : α}
    {t : Trial} (h : s.after es0 = .finished a t es) : ∃ es1, s = .finished a t es1 := by
  cases s with
  | returned o => simp [Scan.after] at h
  | finished a1 t1 es1 =>
    simp only [Scan.after, Scan.finished.injEq] at h
    exact ⟨es1, by rw [h.1, h.2.1]⟩

/-- A scan that runs to its end behind a waiting operation has recorded a positive delay. -/
theorem stabilityLoop_finished (r : Env) (now : Time) (ops : List PatchOperation) :
    ∀ (i : Nat) (t : Trial) (w w1 : Duration) (t1 : Trial) (es : List Event),
      TrialReconciler.stabilityLoop r now i ops t w = .finished w1 t1 es →
      w ≤ w1 ∧ ∀ p ∈ ops, p.Wait = true → 0 < w1 := by
  induction ops with
  | nil =>
    intro i t w w1 t1 es h
    simp only [TrialReconciler.stabilityLoop, Scan.finished.injEq] at h
    exact ⟨le_of_eq h.1, fun p hp => absurd hp (List.not_mem_nil p)⟩
  | cons p ps ih =>
    intro i t w w1 t1 es h
    rw [stabilityLoop_cons] at h
    by_cases hw : p.Wait = false
    · rw [if_pos hw] at h
      obtain ⟨h1, h2⟩ := ih _ _ _ _ _ _ h
      refine ⟨h1, fun q hq hqw => ?_⟩
      rcases List.mem_cons.1 hq with rfl | hq
      · rw [hw] at hqw; cases hqw
      · exact h2 q hq hqw
    · rw [if_neg hw] at h
      cases hprobe : r.WaitForStableState i p with
      | none => rw [hprobe] at h; cases h
      | some err =>
        rw [hprobe] at h
        dsimp only at h
        cases hr : stabilityRetry err with
        | none => rw [hr] at h; cases h
        | some d =>
          rw [hr] at h
          dsimp only at h
          obtain ⟨text, _, hd⟩ := stabilityRetry_eq_some.1 hr
          split_ifs at h with hdw
          · obtain ⟨es1, h⟩ := Scan.after_eq_finished h
            obtain ⟨h1, h2⟩ := ih _ _ _ _ _ _ h
            refine ⟨le_trans (le_of_lt hdw) h1, fun q hq hqw => ?_⟩
            rcases List.mem_cons.1 hq with rfl | hq
            · exact lt_of_lt_of_le hd h1
            · exact h2 q hq hqw
          · obtain ⟨es1, h⟩ := Scan.after_eq_finished h
            obtain ⟨h1, h2⟩ := ih _ _ _ _ _ _ h
            refine ⟨h1, fun q hq hqw => ?_⟩
            rcases List.mem_cons.1 hq with rfl | hq
            · exact lt_of_lt_of_le hd (le_trans (not_lt.1 hdw) h1)
            · exact h2 q hq hqw

theorem reconcileWait_not_waiting (r : Env) (now : Time) (t : Trial)
    (h : ∀ p ∈ t.Spec.PatchOperations, p.Wait = false) :
    TrialReconciler.reconcileWait r now t = TrialReconciler.reconcileStable r now t := by
  rw [reconcileWait_of_passes r now t (passes_of_not_waiting h 0),
    retryScan_skip r now _ 0 t 0 h]
  simp [TrialReconciler.afterWait]

theorem checkCondition_pending (s : TrialStatus) (k : TrialConditionType)
    (st : ConditionStatus) :
    ((CheckCondition s k st).2 = true ∧ (CheckCondition s k st).1 = false) ↔
      ∃ c, findCondition s k = some c ∧ c.Status ≠ st := by
  unfold CheckCondition
  cases findCondition s k with
  | none => simp
  | some c => simp

theorem findCondition_of_frame {t t1 : Trial} (h : LateFrame t t1) :
    findCondition t1.Status TrialStable = findCondition t.Status TrialStable := by
  have := h.2
  unfold conditionsOf at this
  rw [findCondition_eq_head, findCondition_eq_head, this]

/-- C8, counterexample: a trial with neither terminal condition and without patch operations,
whose `Stable` condition is `False`, but which is marked for deletion; the pass does nothing,
so it does not set `Stable=True`. -/
theorem C8_counterexample :
    IsFinished Sample.deleted = false ∧
    (∀ p ∈ Sample.deleted.Spec.PatchOperations, p.Wait = false) ∧
    findCondition Sample.deleted.Status TrialStable = some (Sample.stable ConditionFalse 0) ∧
    (TrialReconciler.Reconcile Sample.quiet 7 (.ok Sample.deleted)).trace = [] ∧
    (TrialReconciler.Reconcile Sample.quiet 7 (.ok Sample.deleted)).trial = Sample.deleted := by
  decide

/-- C8, as amended: on an unfinished trial that carries no deletion timestamp and none of
whose patch operations is waiting, the pass sets `Stable=True` with empty reason and message,
commits and returns, with no other event (no listing, no creation) and no other change of
the trial, if and only if a `Stable` condition is stored with a status other than `True`;
otherwise the pass applies no `Stable` update at all, and when no `Stable` condition is
stored none is stored after the pass. Consequently a pass that applies `Stable=True`, on any
trial, is a pass in which no operation is waiting. -/
theorem C8_stable_promotion (r : Env) (now : Time) :
    (∀ t : Trial, IsFinished t = false → IsZero t.DeletionTimestamp = true →
      (∀ p ∈ t.Spec.PatchOperations, p.Wait = false) →
      (((TrialReconciler.Reconcile r now (.ok t)).trace =
            [Event.ApplyCondition TrialStable ConditionTrue "" "",
             Event.Update (TrialReconciler.Reconcile r now (.ok t)).trial] ∧
          (TrialReconciler.Reconcile r now (.ok t)).trial =
            t.apply TrialStable ConditionTrue "" "" now) ↔
        ∃ c, findCondition t.Status TrialStable = some c ∧ c.Status ≠ ConditionTrue) ∧
      ((¬ ∃ c, findCondition t.Status TrialStable = some c ∧ c.Status ≠ ConditionTrue) →
        ∀ e ∈ (TrialReconciler.Reconcile r now (.ok t)).trace, e.isLate = true) ∧
      (findCondition t.Status TrialStable = none →
        findCondition (TrialReconciler.Reconcile r now (.ok t)).trial.Status TrialStable =
          none)) ∧
    (∀ (t : Trial) (reason message : String),
      Event.ApplyCondition TrialStable ConditionTrue reason message ∈
        (TrialReconciler.Reconcile r now (.ok t)).trace →
      ∀ p ∈ t.Spec.PatchOperations, p.Wait = false) := by
  constructor
  · intro t hfin hdel hwait
    have hrec : TrialReconciler.Reconcile r now (.ok t) =
        TrialReconciler.reconcileStable r now t := by
      rw [Reconcile_unfinished r now t hfin hdel, reconcileWait_not_waiting r now t hwait]
    have hguard : (¬ ∃ c, findCondition t.Status TrialStable = some c ∧
        c.Status ≠ ConditionTrue) →
        TrialReconciler.Reconcile r now (.ok t) = TrialReconciler.reconcileGuard r now t := by
      intro hB
      rw [hrec, TrialReconciler.reconcileStable,
        if_neg (fun h => hB ((checkCondition_pending _ _ _).1 h))]
    have hlate : (¬ ∃ c, findCondition t.Status TrialStable = some c ∧
        c.Status ≠ ConditionTrue) →
        ∀ e ∈ (TrialReconciler.Reconcile r now (.ok t)).trace, e.isLate = true := by
      intro hB
      rw [hguard hB]
      exact TrialReconciler.reconcileGuard_late r now t
    refine ⟨⟨?_, ?_⟩, hlate, ?_⟩
    · rintro ⟨htrace, _⟩
      by_contra hB
      have := hlate hB (Event.ApplyCondition TrialStable ConditionTrue "" "")
        (by rw [htrace]; exact List.mem_cons_self _ _)
      cases this
    · intro hB
      rw [hrec, TrialReconciler.reconcileStable, if_pos ((checkCondition_pending _ _ _).2 hB)]
      exact ⟨rfl, rfl⟩
    · intro hnone
      have hB : ¬ ∃ c, findCondition t.Status TrialStable = some c ∧
          c.Status ≠ ConditionTrue := by
        rintro ⟨c, hc, _⟩
        rw [hnone] at hc
        cases hc
      rw [hguard hB, findCondition_of_frame (TrialReconciler.reconcileGuard_frame r now t)]
      exact hnone
  · intro t reason message hmem
    unfold TrialReconciler.Reconcile at hmem
    dsimp only at hmem
    split_ifs at hmem
    · simp at hmem
    · unfold TrialReconciler.reconcileWait at hmem
      have hearly := stabilityLoop_early r now t.Spec.PatchOperations 0 t 0
      cases hs : TrialReconciler.stabilityLoop r now 0 t.Spec.PatchOperations t 0 with
      | returned o =>
        rw [hs] at hmem hearly
        have := hearly _ hmem
        cases this
      | finished w t1 es =>
        rw [hs] at hmem hearly
        obtain ⟨_, hpos⟩ := stabilityLoop_finished r now _ 0 t 0 w t1 es hs
        simp only [Scan.andThen, Outcome.after_trace, List.mem_append] at hmem
        rcases hmem with hmem | hmem
        · have := hearly _ hmem
          cases this
        · unfold TrialReconciler.afterWait at hmem
          split_ifs at hmem with hw
          · simp at hmem
          · intro p hp
            by_contra hpw
            have := hpos p hp (by simpa using hpw)
            exact hw this

/-- C8 as amended, witness: a trial without patch operations whose `Stable` condition is
`False`. -/
theorem C8_stable_promotion_witness :
    (TrialReconciler.Reconcile Sample.quiet 7
        (.ok (Sample.trialWith [] [Sample.stable ConditionFalse 0]))).trace =
      [Event.ApplyCondition TrialStable ConditionTrue "" "",
       Event.Update (TrialReconciler.Reconcile Sample.quiet 7
        (.ok (Sample.trialWith [] [Sample.stable ConditionFalse 0]))).trial] ∧
    (TrialReconciler.Reconcile Sample.quiet 7
        (.ok (Sample.trialWith [] [Sample.stable ConditionFalse 0]))).trial =
      (Sample.trialWith [] [Sample.stable ConditionFalse 0]).apply TrialStable ConditionTrue
        "" "" 7 :=
  (((C8_stable_promotion Sample.quiet 7).1
      (Sample.trialWith [] [Sample.stable ConditionFalse 0]) (by decide) (by decide)
      (by decide)).1).2 ⟨Sample.stable ConditionFalse 0, rfl, by decide⟩

/-- The `Stable` condition that triggers the anti-flicker guard at `now`. -/
theorem recentlyStable_iff (t : Trial) (now : Time) :
    TrialReconciler.recentlyStable t now = true ↔
      ∃ c ∈ t.Status.Conditions, c.Type_ = TrialStable ∧ now < c.LastTransitionTime + Second := by
  unfold TrialReconciler.recentlyStable
  rw [List.any_eq_true]
  simp

/-- C9: a pass of `TrialReconciler.Reconcile` reaches the anti-flicker guard when the trial is
unfinished, no operation is waiting and no `Stable` condition awaits promotion. If some
`Stable` condition made its last transition less than one second before `now`, the pass
returns `RequeueAfter` = 1 second and no error, with an empty trace (no write) and the trial
unchanged; if none did, the pass goes on to workload discovery. `runTrialJob` does the same
with its probe time. -/
theorem C9_anti_flicker (r : Env) (now : Time) (t : Trial) :
    (IsFinished t = false → IsZero t.DeletionTimestamp = true →
      (∀ p ∈ t.Spec.PatchOperations, p.Wait = false) →
      (¬ ∃ c, findCondition t.Status TrialStable = some c ∧ c.Status ≠ ConditionTrue) →
      ((∃ c ∈ t.Status.Conditions, c.Type_ = TrialStable ∧ now < c.LastTransitionTime + Second) →
        TrialReconciler.Reconcile r now (.ok t) =
          { result := { Requeue := false, RequeueAfter := Second }, err := none, trial := t,
            trace := [] }) ∧
      ((¬ ∃ c ∈ t.Status.Conditions,
          c.Type_ = TrialStable ∧ now < c.LastTransitionTime + Second) →
        TrialReconciler.Reconcile r now (.ok t) = TrialReconciler.reconcileJobs r now t)) ∧
    ((∃ c ∈ t.Status.Conditions, c.Type_ = TrialStable ∧ now < c.LastTransitionTime + Second) →
      TrialJobReconciler.runTrialJob r t now =
        { result := some { Requeue := false, RequeueAfter := Second }, err := none, trial := t,
          trace := [] }) ∧
    ((¬ ∃ c ∈ t.Status.Conditions,
        c.Type_ = TrialStable ∧ now < c.LastTransitionTime + Second) →
      TrialJobReconciler.runTrialJob r t now = TrialJobReconciler.runJobs r t now) := by
  have hjob : (t.Status.Conditions.any fun c =>
      decide (c.Type_ = TrialStable) && decide (now < c.LastTransitionTime + 1 * Second)) =
      TrialReconciler.recentlyStable t now := rfl
  refine ⟨fun hfin hdel hwait hB => ?_, fun h => ?_, fun h => ?_⟩
  · have hrec : TrialReconciler.Reconcile r now (.ok t) =
        TrialReconciler.reconcileGuard r now t := by
      rw [Reconcile_unfinished r now t hfin hdel, reconcileWait_not_waiting r now t hwait,
        TrialReconciler.reconcileStable,
        if_neg (fun h => hB ((checkCondition_pending _ _ _).1 h))]
    constructor
    · intro h
      rw [hrec, TrialReconciler.reconcileGuard, if_pos ((recentlyStable_iff t now).2 h),
        one_mul]
    · intro h
      rw [hrec, TrialReconciler.reconcileGuard,
        if_neg (fun h1 => h ((recentlyStable_iff t now).1 h1))]
  · rw [TrialJobReconciler.runTrialJob, hjob, if_pos ((recentlyStable_iff t now).2 h), one_mul]
  · rw [TrialJobReconciler.runTrialJob, hjob,
      if_neg (fun h1 => h ((recentlyStable_iff t now).1 h1))]

/-- C9, witness: `Stable=True` since instant 5 seconds, reconciled half a second later. -/
theorem C9_anti_flicker_witness :
    TrialReconciler.Reconcile Sample.quiet (5 * Second + 500000000)
        (.ok (Sample.trialWith [] [Sample.stable ConditionTrue (5 * Second)])) =
      { result := { Requeue := false, RequeueAfter := Second }, err := none,
        trial := Sample.trialWith [] [Sample.stable ConditionTrue (5 * Second)],
        trace := [] } :=
  ((C9_anti_flicker Sample.quiet (5 * Second + 500000000)
      (Sample.trialWith [] [Sample.stable ConditionTrue (5 * Second)])).1
    (by decide) (by decide) (by decide) (by decide)).1
    ⟨Sample.stable ConditionTrue (5 * Second), by decide, rfl, by decide⟩

/-! ## Workload discovery -/

theorem take_succ_set (l : List Job) (k : Nat) (x : Job) (h : k < l.length) :
    (l.set k x).take (k + 1) = l.take k ++ [x] := by
  induction l generalizing k with
  | nil => simp at h
  | cons a l ih =>
    cases k with
    | zero => simp
    | succ k => simpa using ih k (by simpa using h)

/-- The in-place filter loop computes the filter: what it leaves before position `k` is what
was there, followed by the jobs still to be read that are not setup jobs. -/
theorem filterLoop_spec (n : Nat) :
    ∀ (i : Nat) (arr : List Job) (k : Nat) (rest : List Job),
      arr.drop i = rest → rest.length = n → k ≤ i →
      (TrialJobReconciler.filterLoop n i arr k).1.take
          (TrialJobReconciler.filterLoop n i arr k).2 =
        arr.take k ++
          rest.filter fun job => decide (mapIndex job.Labels LabelTrialRole ≠ "trialSetup") := by
  induction n with
  | zero =>
    intro i arr k rest _ hlen _
    have : rest = [] := List.length_eq_zero.1 hlen
    simp [TrialJobReconciler.filterLoop, this]
  | succ n ih =>
    intro i arr k rest hdrop hlen hk
    cases rest with
    | nil => simp at hlen
    | cons x rest =>
      have hget : arr.get? i = some x := by
        have := List.getElem?_drop arr i 0
        rw [hdrop] at this
        simpa [List.get?_eq_getElem?] using this.symm
      have hi : i < arr.length := by
        have := congrArg List.length hdrop
        simp at this
        omega
      have hdrop1 : arr.drop (i + 1) = rest := by
        rw [← List.tail_drop, hdrop]
        rfl
      have hlen1 : rest.length = n := by simpa using hlen
      unfold TrialJobReconciler.filterLoop
      rw [hget]
      dsimp only
      split_ifs with hkeep
      · rw [ih (i + 1) (arr.set k x) (k + 1) rest
          (by rw [List.drop_set_of_lt x arr (by omega), hdrop1]) hlen1 (by omega),
          take_succ_set arr k x (by omega)]
        simp [List.filter_cons, hkeep]
      · rw [ih (i + 1) arr k rest hdrop1 hlen1 (by omega)]
        simp [List.filter_cons, hkeep]

theorem TrialJobReconciler.listJobs_eq (r : Env) (t : Trial) (sel : Selector)
    (items : List Job) (hsel : r.MatchingSelector (r.GetJobSelector t) = .ok sel)
    (hitems : r.ListJobs sel = .ok items) :
    TrialJobReconciler.listJobs r t =
      (.ok (items.filter fun job =>
        decide (mapIndex job.Labels LabelTrialRole ≠ "trialSetup")), [Event.ListJobs]) := by
  unfold TrialJobReconciler.listJobs
  rw [hsel]
  dsimp only
  rw [hitems]
  dsimp only
  rw [filterLoop_spec items.length 0 items 0 items rfl rfl (le_refl _)]
  simp

theorem TrialReconciler.jobLoop_setup (r : Env) (now : Time) (jobs : List Job)
    (h : ∀ job ∈ jobs, mapIndex job.Labels LabelTrialRole = "trialSetup") :
    ∀ (i : Nat) (t : Trial) (needsJob : Bool),
      TrialReconciler.jobLoop r now i jobs t needsJob = .finished needsJob t [] := by
  induction jobs with
  | nil => intro i t n; rfl
  | cons job jobs ih =>
    intro i t n
    unfold TrialReconciler.jobLoop
    rw [if_neg (by simpa using h job (List.mem_cons_self _ _))]
    exact ih (fun j hj => h j (List.mem_cons_of_mem _ hj)) _ _ _

theorem TrialReconciler.jobLoop_run (r : Env) (now : Time) (jobs : List Job)
    (h : ∃ job ∈ jobs, mapIndex job.Labels LabelTrialRole ≠ "trialSetup") :
    ∀ (i : Nat) (t : Trial) (needsJob n1 : Bool) (t1 : Trial) (es : List Event),
      TrialReconciler.jobLoop r now i jobs t needsJob = .finished n1 t1 es → n1 = false := by
  induction jobs with
  | nil => obtain ⟨j, hj, _⟩ := h; simp at hj
  | cons job jobs ih =>
    intro i t n n1 t1 es hs
    -- a loop entered with `needsJob = false` ends with it
    have hfalse : ∀ (jobs : List Job) (i : Nat) (t : Trial) (n1 : Bool) (t1 : Trial)
        (es : List Event),
        TrialReconciler.jobLoop r now i jobs t false = .finished n1 t1 es → n1 = false := by
      intro jobs
      induction jobs with
      | nil =>
        intro i t n1 t1 es hs
        simp only [TrialReconciler.jobLoop, Scan.finished.injEq] at hs
        exact hs.1.symm
      | cons job jobs ih2 =>
        intro i t n1 t1 es hs
        unfold TrialReconciler.jobLoop at hs
        split_ifs at hs
        · dsimp only at hs
          split_ifs at hs
          obtain ⟨es1, hs⟩ := Scan.after_eq_finished hs
          exact ih2 _ _ _ _ _ hs
        · exact ih2 _ _ _ _ _ hs
    unfold TrialReconciler.jobLoop at hs
    split_ifs at hs with hlabel
    · dsimp only at hs
      split_ifs at hs
      obtain ⟨es1, hs⟩ := Scan.after_eq_finished hs
      exact hfalse _ _ _ _ _ _ hs
    · obtain ⟨j, hj, hjl⟩ := h
      rcases List.mem_cons.1 hj with rfl | hj
      · exact absurd hjl hlabel
      · exact ih ⟨j, hj, hjl⟩ _ _ _ _ _ _ hs

/-- A pass that lists the jobs of the trial is a pass that went straight to workload
discovery: the trial reached it as it was fetched. -/
theorem reaches_discovery (r : Env) (now : Time) (t : Trial)
    (h : Event.ListJobs ∈ (TrialReconciler.Reconcile r now (.ok t)).trace) :
    TrialReconciler.Reconcile r now (.ok t) = TrialReconciler.reconcileJobs r now t := by
  have hfd : ¬ (IsFinished t || !IsZero t.DeletionTimestamp) = true := by
    intro hc
    simp only [TrialReconciler.Reconcile, hc, if_true] at h
    cases h
  have hrec : TrialReconciler.Reconcile r now (.ok t) = TrialReconciler.reconcileWait r now t := by
    simp only [TrialReconciler.Reconcile, hfd, if_false]
    rfl
  rw [hrec] at h ⊢
  have hwait : ∀ p ∈ t.Spec.PatchOperations, p.Wait = false := by
    unfold TrialReconciler.reconcileWait at h
    have hearly := stabilityLoop_early r now t.Spec.PatchOperations 0 t 0
    cases hs : TrialReconciler.stabilityLoop r now 0 t.Spec.PatchOperations t 0 with
    | returned o =>
      rw [hs] at h hearly
      have := hearly _ h
      cases this
    | finished w t1 es =>
      rw [hs] at h hearly
      obtain ⟨_, hpos⟩ := stabilityLoop_finished r now _ 0 t 0 w t1 es hs
      simp only [Scan.andThen, Outcome.after_trace, List.mem_append] at h
      rcases h with h | h
      · have := hearly _ h
        cases this
      · unfold TrialReconciler.afterWait at h
        split_ifs at h with hw
        · simp at h
        · intro p hp
          by_contra hpw
          exact hw (hpos p hp (by simpa using hpw))
  rw [reconcileWait_not_waiting r now t hwait] at h ⊢
  unfold TrialReconciler.reconcileStable at h ⊢
  split_ifs at h ⊢
  · simp at h
  · unfold TrialReconciler.reconcileGuard at h ⊢
    split_ifs at h ⊢
    · simp at h
    · rfl

theorem TrialJobReconciler.runLoop_no_create (r : Env) (now : Time) (jobs : List Job) :
    ∀ (i : Nat) (t : Trial),
      ∀ e ∈ (TrialJobReconciler.jobLoop r now i jobs t).trace, e.isCreate = false := by
  induction jobs with
  | nil => intro i t; simp [TrialJobReconciler.jobLoop]
  | cons job jobs ih =>
    intro i t
    unfold TrialJobReconciler.jobLoop
    have hobs := TrialJobReconciler.jobStatus_trace r.MatchingSelector (r.ListPods i) t job now
    have hc : ∀ e ∈ (TrialJobReconciler.applyJobStatus r.MatchingSelector (r.ListPods i) t job
        now).trace, e.isCreate = false :=
      fun e he => isCollection_not_create (isObservation_collection (hobs e he))
    dsimp only
    split_ifs
    · intro e he
      simp at he
      rcases he with rfl | he | rfl
      · rfl
      · exact hc e he
      · rfl
    · intro e he
      simp at he
      rcases he with rfl | he
      · rfl
      · exact hc e he
    · intro e he
      simp [TrialJobReconciler.JobOutcome.after] at he
      rcases he with rfl | he | he
      · rfl
      · exact hc e he
      · exact ih _ _ e he

/-- C10, counterexample: the listing holds no job at all, hence no run job, and the controller
reference cannot be set; neither reconciler creates a job. -/
theorem C10_counterexample :
    Sample.noOwner.ListJobs { key := "" } = .ok [] ∧
    (TrialReconciler.Reconcile Sample.noOwner 7 (.ok (Sample.trialWith [] []))).trace =
      [Event.ListJobs] ∧
    (TrialReconciler.Reconcile Sample.noOwner 7 (.ok (Sample.trialWith [] []))).err =
      some (Error.Other "no owner") ∧
    (TrialJobReconciler.runTrialJob Sample.noOwner (Sample.trialWith [] []) 7).trace =
      [Event.ListJobs] :=
  ⟨rfl, by decide, by decide, by decide⟩

/-- C10, as amended: in a pass of `TrialReconciler.Reconcile` that lists the jobs of the
trial, only listed jobs whose role label is not `trialSetup` are handed to status
observation; a job is created if and only if no listed job has a role label other than
`trialSetup` and the controller reference can be set on the new job, and then the pass
creates that one job and returns with the outcome of the creation. `listJobs` keeps exactly
the listed jobs whose role label is not `trialSetup`, in their order, and `runTrialJob`
creates a job if and only if that filtered list is empty and the controller reference can be
set. -/
theorem C10_run_job_creation (r : Env) (now : Time) (t : Trial) (sel : Selector)
    (items : List Job) (hsel : r.MatchingSelector (r.GetJobSelector t) = .ok sel)
    (hitems : r.ListJobs sel = .ok items) :
    (Event.ListJobs ∈ (TrialReconciler.Reconcile r now (.ok t)).trace →
      (∀ job, Event.applyJobStatus job ∈ (TrialReconciler.Reconcile r now (.ok t)).trace →
        job ∈ items ∧ mapIndex job.Labels LabelTrialRole ≠ "trialSetup") ∧
      ((∃ job, Event.Create job ∈ (TrialReconciler.Reconcile r now (.ok t)).trace) ↔
        (∀ job ∈ items, mapIndex job.Labels LabelTrialRole = "trialSetup") ∧
          ∃ job, r.SetControllerReference t (r.NewJob t) = .ok job) ∧
      (∀ job, Event.Create job ∈ (TrialReconciler.Reconcile r now (.ok t)).trace →
        TrialReconciler.Reconcile r now (.ok t) =
          { result := { Requeue := false, RequeueAfter := 0 }, err := r.Create job,
            trial := t, trace := [Event.ListJobs, Event.Create job] })) ∧
    (TrialJobReconciler.listJobs r t).1 =
      .ok (items.filter fun job =>
        decide (mapIndex job.Labels LabelTrialRole ≠ "trialSetup")) ∧
    (Event.ListJobs ∈ (TrialJobReconciler.runTrialJob r t now).trace →
      ((∃ job, Event.Create job ∈ (TrialJobReconciler.runTrialJob r t now).trace) ↔
        (items.filter fun job =>
          decide (mapIndex job.Labels LabelTrialRole ≠ "trialSetup")) = [] ∧
          ∃ job, r.SetControllerReference t (r.NewJob t) = .ok job) ∧
      (∀ job, Event.Create job ∈ (TrialJobReconciler.runTrialJob r t now).trace →
        TrialJobReconciler.runTrialJob r t now =
          { result := some { Requeue := false, RequeueAfter := 0 }, err := r.Create job,
            trial := t, trace := [Event.ListJobs, Event.Create job] })) := by
  refine ⟨fun hlist => ?_, ?_, fun hlist => ?_⟩
  · -- the trial reconciler
    have hrec : TrialReconciler.Reconcile r now (.ok t) =
        ((TrialReconciler.jobLoop r now 0 items t true).andThen
          (TrialReconciler.createOrObserve r now)).after [Event.ListJobs] := by
      rw [reaches_discovery r now t hlist, TrialReconciler.reconcileJobs, hsel]
      dsimp only
      rw [hitems]
    have hloop := TrialReconciler.jobLoop_trace r now items 0 t true
    -- with a run job among the listed ones no job is created
    have hrun : (∃ job ∈ items, mapIndex job.Labels LabelTrialRole ≠ "trialSetup") →
        ∀ e ∈ ((TrialReconciler.jobLoop r now 0 items t true).andThen
          (TrialReconciler.createOrObserve r now)).trace, e.isCreate = false := by
      intro hex
      have hn := TrialReconciler.jobLoop_run r now items hex 0 t true
      cases hs : TrialReconciler.jobLoop r now 0 items t true with
      | returned o =>
        rw [hs] at hloop
        intro e he
        rcases hloop e he with ⟨j, _, _, rfl⟩ | h
        · rfl
        · exact isCollection_not_create h
      | finished n1 t1 es =>
        rw [hs] at hloop
        have hn1 : n1 = false := hn n1 t1 es hs
        subst hn1
        intro e he
        simp only [Scan.andThen, Outcome.after_trace, List.mem_append] at he
        rcases he with he | he
        · rcases hloop e he with ⟨j, _, _, rfl⟩ | h
          · rfl
          · exact isCollection_not_create h
        · exact isCollection_not_create
            (TrialReconciler.reconcileMetrics_collection r now t1 e he)
    have hsetup : (∀ job ∈ items, mapIndex job.Labels LabelTrialRole = "trialSetup") →
        TrialReconciler.Reconcile r now (.ok t) =
          (TrialReconciler.createOrObserve r now true t).after [Event.ListJobs] := by
      intro hall
      rw [hrec, TrialReconciler.jobLoop_setup r now items hall 0 t true]
      rfl
    have hcreate : ∀ job, Event.Create job ∈ (TrialReconciler.Reconcile r now (.ok t)).trace →
        (∀ j ∈ items, mapIndex j.Labels LabelTrialRole = "trialSetup") ∧
        r.SetControllerReference t (r.NewJob t) = .ok job := by
      intro job hjob
      have hall : ∀ j ∈ items, mapIndex j.Labels LabelTrialRole = "trialSetup" := by
        by_contra hne
        push_neg at hne
        rw [hrec] at hjob
        simp only [Outcome.after_trace, List.singleton_append, List.mem_cons] at hjob
        rcases hjob with hjob | hjob
        · cases hjob
        · have := hrun hne _ hjob
          cases this
      refine ⟨hall, ?_⟩
      rw [hsetup hall] at hjob
      unfold TrialReconciler.createOrObserve at hjob
      rw [if_pos rfl] at hjob
      cases hscr : r.SetControllerReference t (r.NewJob t) with
      | error err => rw [hscr] at hjob; simp at hjob
      | ok job1 =>
        rw [hscr] at hjob
        simp at hjob
        rw [hjob]
    refine ⟨?_, ⟨?_, ?_⟩, ?_⟩
    · intro job hjob
      rw [hrec] at hjob
      simp only [Outcome.after_trace, List.singleton_append, List.mem_cons] at hjob
      rcases hjob with hjob | hjob
      · cases hjob
      · have hall := Scan.andThen_all
          (fun e => (∃ job ∈ items, mapIndex job.Labels LabelTrialRole ≠ "trialSetup" ∧
            e = Event.applyJobStatus job) ∨ e.isLate = true ∧ ∀ j, e ≠ Event.applyJobStatus j)
          (TrialReconciler.jobLoop r now 0 items t true) (TrialReconciler.createOrObserve r now)
          (fun e he => by
            rcases hloop e he with h | h
            · exact Or.inl h
            · refine Or.inr ⟨isCollection_late h, fun j hj => ?_⟩
              rw [hj] at h
              cases h)
          (fun n t1 e he => by
            refine Or.inr ⟨TrialReconciler.createOrObserve_late r now n t1 e he, fun j hj => ?_⟩
            subst hj
            unfold TrialReconciler.createOrObserve at he
            split_ifs at he
            · split at he <;> simp at he
            · have := TrialReconciler.reconcileMetrics_collection r now t1 _ he
              cases this)
          _ hjob
        rcases hall with ⟨j, hj, hl, he⟩ | ⟨_, hne⟩
        · cases he
          exact ⟨hj, hl⟩
        · exact absurd rfl (hne job)
    · rintro ⟨job, hjob⟩
      exact ⟨(hcreate job hjob).1, job, (hcreate job hjob).2⟩
    · rintro ⟨hall, job, hscr⟩
      refine ⟨job, ?_⟩
      rw [hsetup hall, TrialReconciler.createOrObserve, if_pos rfl, hscr]
      simp
    · intro job hjob
      obtain ⟨hall, hscr⟩ := hcreate job hjob
      rw [hsetup hall, TrialReconciler.createOrObserve, if_pos rfl, hscr]
      rfl
  · rw [TrialJobReconciler.listJobs_eq r t sel items hsel hitems]
  · -- the trial job reconciler
    have hl := TrialJobReconciler.listJobs_eq r t sel items hsel hitems
    have hrec : TrialJobReconciler.runTrialJob r t now = TrialJobReconciler.runJobs r t now := by
      unfold TrialJobReconciler.runTrialJob at hlist ⊢
      split_ifs at hlist ⊢
      · simp at hlist
      · rfl
    have hcreate : ∀ job, Event.Create job ∈ (TrialJobReconciler.runTrialJob r t now).trace →
        (items.filter fun job =>
          decide (mapIndex job.Labels LabelTrialRole ≠ "trialSetup")) = [] ∧
        r.SetControllerReference t (r.NewJob t) = .ok job := by
      intro job hjob
      rw [hrec] at hjob
      unfold TrialJobReconciler.runJobs at hjob
      rw [hl] at hjob
      dsimp only at hjob
      split_ifs at hjob with hlen
      · refine ⟨List.length_eq_zero.1 hlen, ?_⟩
        cases hscr : r.SetControllerReference t (r.NewJob t) with
        | error err => rw [hscr] at hjob; simp at hjob
        | ok job1 =>
          rw [hscr] at hjob
          simp at hjob
          rw [hjob]
      · simp only [TrialJobReconciler.JobOutcome.after, List.singleton_append,
          List.mem_cons] at hjob
        rcases hjob with hjob | hjob
        · cases hjob
        · have := TrialJobReconciler.runLoop_no_create r now _ 0 t _ hjob
          cases this
    have hdo : ∀ job, (items.filter fun job =>
          decide (mapIndex job.Labels LabelTrialRole ≠ "trialSetup")) = [] →
        r.SetControllerReference t (r.NewJob t) = .ok job →
        TrialJobReconciler.runTrialJob r t now =
          { result := some { Requeue := false, RequeueAfter := 0 }, err := r.Create job,
            trial := t, trace := [Event.ListJobs, Event.Create job] } := by
      intro job hnil hscr
      rw [hrec, TrialJobReconciler.runJobs, hl]
      dsimp only
      rw [if_pos (by rw [hnil]; rfl), hscr]
      rfl
    refine ⟨⟨?_, ?_⟩, ?_⟩
    · rintro ⟨job, hjob⟩
      exact ⟨(hcreate job hjob).1, job, (hcreate job hjob).2⟩
    · rintro ⟨hnil, job, hscr⟩
      exact ⟨job, by rw [hdo job hnil hscr]; simp⟩
    · intro job hjob
      exact hdo job (hcreate job hjob).1 (hcreate job hjob).2

/-- C10 as amended, witness: the listing holds one setup job; the trial reconciler creates the
run job. -/
theorem C10_run_job_creation_witness :
    TrialReconciler.Reconcile Sample.setupOnly 7 (.ok (Sample.trialWith [] [])) =
      { result := { Requeue := false, RequeueAfter := 0 }, err := none,
        trial := Sample.trialWith [] [],
        trace := [Event.ListJobs, Event.Create (Sample.setupOnly.NewJob (Sample.trialWith [] []))] } :=
  ((C10_run_job_creation Sample.setupOnly 7 (Sample.trialWith [] []) { key := "" }
      [Sample.setupJob] rfl rfl).1 (by decide)).2.2
    (Sample.setupOnly.NewJob (Sample.trialWith [] [])) (by decide)

/-! ## The time bracket -/

theorem latestTime_mem (c n : Option Time) :
    ∀ x ∈ (latestTime c n none).1.toList, x ∈ c.toList ++ n.toList := by
  intro x hx
  unfold latestTime at hx
  split_ifs at hx with h
  · simp only [List.mem_append]; exact Or.inr hx
  · simp only [List.mem_append]; exact Or.inl hx

theorem latestTime_bound (c n : Option Time) :
    ∀ y ∈ c.toList ++ n.toList, ∃ x ∈ (latestTime c n none).1.toList, y ≤ x := by
  intro y hy
  unfold latestTime
  cases c with
  | none =>
    cases n with
    | none => simp at hy
    | some b =>
      simp at hy
      subst hy
      exact ⟨y, by simp, le_refl _⟩
  | some a =>
    cases n with
    | none =>
      simp at hy
      subst hy
      exact ⟨y, by simp, le_refl _⟩
    | some b =>
      simp only [Option.toList, List.singleton_append, List.mem_cons, List.mem_singleton,
        List.not_mem_nil, or_false] at hy
      by_cases hab : a < b
      · refine ⟨b, by simp [Before, hab], ?_⟩
        rcases hy with rfl | rfl
        · exact le_of_lt hab
        · exact le_refl _
      · refine ⟨a, by simp [Before, hab], ?_⟩
        rcases hy with rfl | rfl
        · exact le_refl _
        · exact not_lt.1 hab

theorem earliestTime_mem (c n : Option Time) :
    ∀ x ∈ (earliestTime c n).1.toList, x ∈ c.toList ++ n.toList := by
  intro x hx
  unfold earliestTime at hx
  split_ifs at hx with h
  · simp only [List.mem_append]; exact Or.inr hx
  · simp only [List.mem_append]; exact Or.inl hx

theorem earliestTime_bound (c n : Option Time) :
    ∀ y ∈ c.toList ++ n.toList, ∃ x ∈ (earliestTime c n).1.toList, x ≤ y := by
  intro y hy
  unfold earliestTime
  cases c with
  | none =>
    cases n with
    | none => simp at hy
    | some b =>
      simp at hy
      subst hy
      exact ⟨y, by simp, le_refl _⟩
  | some a =>
    cases n with
    | none =>
      simp at hy
      subst hy
      exact ⟨y, by simp, le_refl _⟩
    | some b =>
      simp only [Option.toList, List.singleton_append, List.mem_cons, List.mem_singleton,
        List.not_mem_nil, or_false] at hy
      by_cases hab : b < a
      · refine ⟨b, by simp [Before, hab], ?_⟩
        rcases hy with rfl | rfl
        · exact le_of_lt hab
        · exact le_refl _
      · refine ⟨a, by simp [Before, hab], ?_⟩
        rcases hy with rfl | rfl
        · exact le_refl _
        · exact not_lt.1 hab

theorem IsLatest.replace_latest {m : Option Time} {A B L : List Time} (h1 : ∀ x ∈ A, x ∈ B)
    (h2 : ∀ y ∈ B, ∃ x ∈ A, y ≤ x) (h : IsLatest m (A ++ L)) : IsLatest m (B ++ L) := by
  refine ⟨fun x hx => ?_, fun hm => ?_⟩
  · obtain ⟨hmem, hle⟩ := h.1 x hx
    refine ⟨?_, fun y hy => ?_⟩
    · rcases List.mem_append.1 hmem with hA | hL
      · exact List.mem_append.2 (Or.inl (h1 x hA))
      · exact List.mem_append.2 (Or.inr hL)
    · rcases List.mem_append.1 hy with hB | hL
      · obtain ⟨z, hz, hyz⟩ := h2 y hB
        exact le_trans hyz (hle z (List.mem_append.2 (Or.inl hz)))
      · exact hle y (List.mem_append.2 (Or.inr hL))
  · have hnil := h.2 hm
    obtain ⟨hA, hL⟩ := List.append_eq_nil.1 hnil
    have hB : B = [] := by
      rw [List.eq_nil_iff_forall_not_mem]
      intro y hy
      obtain ⟨z, hz, _⟩ := h2 y hy
      rw [hA] at hz
      cases hz
    rw [hB, hL]; rfl

theorem IsEarliest.replace_earliest {m : Option Time} {A B L : List Time} (h1 : ∀ x ∈ A, x ∈ B)
    (h2 : ∀ y ∈ B, ∃ x ∈ A, x ≤ y) (h : IsEarliest m (A ++ L)) : IsEarliest m (B ++ L) := by
  refine ⟨fun x hx => ?_, fun hm => ?_⟩
  · obtain ⟨hmem, hle⟩ := h.1 x hx
    refine ⟨?_, fun y hy => ?_⟩
    · rcases List.mem_append.1 hmem with hA | hL
      · exact List.mem_append.2 (Or.inl (h1 x hA))
      · exact List.mem_append.2 (Or.inr hL)
    · rcases List.mem_append.1 hy with hB | hL
      · obtain ⟨z, hz, hzy⟩ := h2 y hB
        exact le_trans (hle z (List.mem_append.2 (Or.inl hz))) hzy
      · exact hle y (List.mem_append.2 (Or.inr hL))
  · have hnil := h.2 hm
    obtain ⟨hA, hL⟩ := List.append_eq_nil.1 hnil
    have hB : B = [] := by
      rw [List.eq_nil_iff_forall_not_mem]
      intro y hy
      obtain ⟨z, hz, _⟩ := h2 y hy
      rw [hA] at hz
      cases hz
    rw [hB, hL]; rfl

/-- Folding `latestTime` without offset over candidates yields the latest of them and of the
instant the fold started from. -/
theorem foldl_latest {α : Type} (g : α → Option Time) (l : List α) :
    ∀ c : Option Time,
      IsLatest (l.foldl (fun c a => (latestTime c (g a) none).1) c)
        (c.toList ++ l.filterMap g) := by
  induction l with
  | nil =>
    intro c
    cases c with
    | none => exact ⟨fun x hx => (by cases hx), fun _ => rfl⟩
    | some a =>
      refine ⟨fun x hx => ?_, fun h => by cases h⟩
      simp only [List.foldl_nil, Option.some.injEq] at hx
      subst hx
      simp
  | cons a l ih =>
    intro c
    have h := ih (latestTime c (g a) none).1
    have h' := IsLatest.replace_latest (latestTime_mem c (g a)) (latestTime_bound c (g a)) h
    have hl : (g a).toList ++ List.filterMap g l = List.filterMap g (a :: l) := by
      cases hg : g a <;> simp [List.filterMap_cons, hg]
    rw [List.append_assoc, hl] at h'
    exact h'

/-- Folding `earliestTime` over candidates yields the earliest of them and of the instant the
fold started from. -/
theorem foldl_earliest {α : Type} (g : α → Option Time) (l : List α) :
    ∀ c : Option Time,
      IsEarliest (l.foldl (fun c a => (earliestTime c (g a)).1) c)
        (c.toList ++ l.filterMap g) := by
  induction l with
  | nil =>
    intro c
    cases c with
    | none => exact ⟨fun x hx => (by cases hx), fun _ => rfl⟩
    | some a =>
      refine ⟨fun x hx => ?_, fun h => by cases h⟩
      simp only [List.foldl_nil, Option.some.injEq] at hx
      subst hx
      simp
  | cons a l ih =>
    intro c
    have h := ih (earliestTime c (g a)).1
    have h' := IsEarliest.replace_earliest (earliestTime_mem c (g a)) (earliestTime_bound c (g a)) h
    have hl : (g a).toList ++ List.filterMap g l = List.filterMap g (a :: l) := by
      cases hg : g a <;> simp [List.filterMap_cons, hg]
    rw [List.append_assoc, hl] at h'
    exact h'

theorem IsLatest.unique {m m1 : Option Time} {A B : List Time} (hAB : ∀ x, x ∈ A ↔ x ∈ B)
    (h : IsLatest m A) (h1 : IsLatest m1 B) : m = m1 := by
  cases m with
  | none =>
    cases m1 with
    | none => rfl
    | some b =>
      have hA := h.2 rfl
      have := (hAB b).2 (h1.1 b rfl).1
      rw [hA] at this
      cases this
  | some a =>
    cases m1 with
    | none =>
      have hB := h1.2 rfl
      have := (hAB a).1 (h.1 a rfl).1
      rw [hB] at this
      cases this
    | some b =>
      obtain ⟨ha, hale⟩ := h.1 a rfl
      obtain ⟨hb, hble⟩ := h1.1 b rfl
      have h1 := hale b ((hAB b).2 hb)
      have h2 := hble a ((hAB a).1 ha)
      rw [le_antisymm h2 h1]

theorem IsEarliest.unique_earliest {m m1 : Option Time} {A B : List Time}
    (hAB : ∀ x, x ∈ A ↔ x ∈ B) (h : IsEarliest m A) (h1 : IsEarliest m1 B) : m = m1 := by
  cases m with
  | none =>
    cases m1 with
    | none => rfl
    | some b =>
      have hA := h.2 rfl
      have := (hAB b).2 (h1.1 b rfl).1
      rw [hA] at this
      cases this
  | some a =>
    cases m1 with
    | none =>
      have hB := h1.2 rfl
      have := (hAB a).1 (h.1 a rfl).1
      rw [hB] at this
      cases this
    | some b =>
      obtain ⟨ha, hale⟩ := h.1 a rfl
      obtain ⟨hb, hble⟩ := h1.1 b rfl
      have h1 := hale b ((hAB b).2 hb)
      have h2 := hble a ((hAB a).1 ha)
      rw [le_antisymm h1 h2]

theorem mergeTimes_start (t : Trial) (s f : Option Time) (d : Bool) :
    (mergeTimes t s f d).1.Status.StartTime =
      (latestTime t.Status.StartTime s t.Spec.StartTimeOffset).1 := by
  unfold mergeTimes
  dsimp only
  split_ifs with h1 h2 h2
  · rfl
  · rfl
  · unfold latestTime at h1 ⊢
    split_ifs at h1 ⊢ with h3
    · cases hoff : t.Spec.StartTimeOffset <;> simp [hoff] at h1
    · rfl
  · unfold latestTime at h1 ⊢
    split_ifs at h1 ⊢ with h3
    · cases hoff : t.Spec.StartTimeOffset <;> simp [hoff] at h1
    · rfl

theorem mergeTimes_completion (t : Trial) (s f : Option Time) (d : Bool) :
    (mergeTimes t s f d).1.Status.CompletionTime = (earliestTime t.Status.CompletionTime f).1 := by
  unfold mergeTimes
  dsimp only
  split_ifs with h1 h2 h2
  · rfl
  · unfold earliestTime at h2 ⊢
    split_ifs at h2 ⊢ with h3
    · simp at h2
    · rfl
  · rfl
  · unfold earliestTime at h2 ⊢
    split_ifs at h2 ⊢ with h3
    · simp at h2
    · rfl

theorem mergeTimes_Spec (t : Trial) (s f : Option Time) (d : Bool) :
    (mergeTimes t s f d).1.Spec = t.Spec := by
  unfold mergeTimes
  dsimp only
  split_ifs <;> rfl

theorem mergeTimes_Conditions (t : Trial) (s f : Option Time) (d : Bool) :
    (mergeTimes t s f d).1.Status.Conditions = t.Status.Conditions := by
  unfold mergeTimes
  dsimp only
  split_ifs <;> rfl

theorem mergeTimes_dirty (t : Trial) (s f : Option Time) (d : Bool) :
    (mergeTimes t s f d).2 =
      (d || (latestTime t.Status.StartTime s t.Spec.StartTimeOffset).2 ||
        (earliestTime t.Status.CompletionTime f).2) := by
  unfold mergeTimes
  dsimp only
  split_ifs <;> rfl

theorem mergeTimes_unchanged (t : Trial) (s f : Option Time) (d : Bool)
    (h : (mergeTimes t s f d).2 = false) : (mergeTimes t s f d).1 = t := by
  rw [mergeTimes_dirty] at h
  simp only [Bool.or_eq_false_iff] at h
  have h1 := h.1.2
  have h2 := h.2
  unfold mergeTimes
  dsimp only
  rw [h1]
  simp only [Bool.false_eq_true, if_false]
  rw [h2]
  simp only [Bool.false_eq_true, if_false]

theorem mergeAll_Spec (obs : List (Option Time × Option Time)) :
    ∀ t : Trial, (mergeAll t obs).Spec = t.Spec := by
  induction obs with
  | nil => intro t; rfl
  | cons o obs ih =>
    intro t
    unfold mergeAll
    rw [List.foldl_cons]
    exact (ih _).trans (mergeTimes_Spec _ _ _ _)

theorem mergeAll_start (obs : List (Option Time × Option Time)) :
    ∀ t : Trial, (mergeAll t obs).Status.StartTime =
      obs.foldl (fun c o => (latestTime c o.1 t.Spec.StartTimeOffset).1) t.Status.StartTime := by
  induction obs with
  | nil => intro t; rfl
  | cons o obs ih =>
    intro t
    unfold mergeAll
    rw [List.foldl_cons, List.foldl_cons]
    have := ih (mergeTimes t o.1 o.2 false).1
    unfold mergeAll at this
    rw [this, mergeTimes_Spec, mergeTimes_start]

theorem mergeAll_completion (obs : List (Option Time × Option Time)) :
    ∀ t : Trial, (mergeAll t obs).Status.CompletionTime =
      obs.foldl (fun c o => (earliestTime c o.2).1) t.Status.CompletionTime := by
  induction obs with
  | nil => intro t; rfl
  | cons o obs ih =>
    intro t
    unfold mergeAll
    rw [List.foldl_cons, List.foldl_cons]
    have := ih (mergeTimes t o.1 o.2 false).1
    unfold mergeAll at this
    rw [this, mergeTimes_completion]

/-- C12: with no start-time offset and starting from unset times, merging a finite sequence of
`(start, finish)` observations one at a time records as `StartTime` the latest start
candidate and as `CompletionTime` the earliest finish candidate of the sequence (unset when
the sequence has none), and any reordering of the observations records the same two
times. -/
theorem C12_time_bracket (t : Trial) (obs : List (Option Time × Option Time))
    (hstart : t.Status.StartTime = none) (hcompletion : t.Status.CompletionTime = none)
    (hoffset : t.Spec.StartTimeOffset = none) :
    IsLatest (mergeAll t obs).Status.StartTime (obs.filterMap fun o => o.1) ∧
    IsEarliest (mergeAll t obs).Status.CompletionTime (obs.filterMap fun o => o.2) ∧
    ∀ obs1, obs.Perm obs1 →
      (mergeAll t obs1).Status.StartTime = (mergeAll t obs).Status.StartTime ∧
      (mergeAll t obs1).Status.CompletionTime = (mergeAll t obs).Status.CompletionTime := by
  have hs : ∀ l : List (Option Time × Option Time),
      IsLatest (mergeAll t l).Status.StartTime (l.filterMap fun o => o.1) := by
    intro l
    have := foldl_latest (fun o : Option Time × Option Time => o.1) l none
    rw [mergeAll_start, hstart, hoffset]
    simpa using this
  have hc : ∀ l : List (Option Time × Option Time),
      IsEarliest (mergeAll t l).Status.CompletionTime (l.filterMap fun o => o.2) := by
    intro l
    have := foldl_earliest (fun o : Option Time × Option Time => o.2) l none
    rw [mergeAll_completion, hcompletion]
    simpa using this
  refine ⟨hs obs, hc obs, fun obs1 hperm => ⟨?_, ?_⟩⟩
  · exact IsLatest.unique (fun x => (hperm.symm.filterMap _).mem_iff) (hs obs1) (hs obs)
  · exact IsEarliest.unique_earliest (fun x => (hperm.symm.filterMap _).mem_iff) (hc obs1)
      (hc obs)

/-- C12, witness: `(10s, 100s)` then `(5s, 90s)` gives `StartTime = 10s` and
`CompletionTime = 90s`. -/
theorem C12_time_bracket_witness :
    (mergeAll (Sample.timed none none none)
        [(some (10 * Second), some (100 * Second)),
         (some (5 * Second), some (90 * Second))]).Status.StartTime = some (10 * Second) ∧
    (mergeAll (Sample.timed none none none)
        [(some (10 * Second), some (100 * Second)),
         (some (5 * Second), some (90 * Second))]).Status.CompletionTime =
      some (90 * Second) ∧
    IsLatest (mergeAll (Sample.timed none none none)
        [(some (10 * Second), some (100 * Second)),
         (some (5 * Second), some (90 * Second))]).Status.StartTime
      [10 * Second, 5 * Second] :=
  ⟨by decide, by decide,
    (C12_time_bracket (Sample.timed none none none)
      [(some (10 * Second), some (100 * Second)), (some (5 * Second), some (90 * Second))]
      rfl rfl rfl).1⟩

theorem latestTime_ge (a : Time) (n : Option Time) (off : Option Duration)
    (hoff : ∀ d, off = some d → 0 ≤ d) :
    ∃ a1, (latestTime (some a) n off).1 = some a1 ∧ a ≤ a1 := by
  unfold latestTime
  cases n with
  | none => exact ⟨a, by simp, le_refl _⟩
  | some b =>
    by_cases hab : a < b
    · cases off with
      | none => exact ⟨b, by simp [Before, hab], le_of_lt hab⟩
      | some d =>
        have := hoff d rfl
        exact ⟨b + d, by simp [Before, hab],
          le_trans (le_of_lt hab) (le_add_of_nonneg_right this)⟩
    · exact ⟨a, by simp [Before, hab], le_refl _⟩

theorem earliestTime_le (c : Time) (n : Option Time) :
    ∃ c1, (earliestTime (some c) n).1 = some c1 ∧ c1 ≤ c := by
  unfold earliestTime
  cases n with
  | none => exact ⟨c, by simp, le_refl _⟩
  | some b =>
    by_cases hbc : b < c
    · exact ⟨b, by simp [Before, hbc], le_of_lt hbc⟩
    · exact ⟨c, by simp [Before, hbc], le_refl _⟩

theorem latestTime_none (c : Option Time) (off : Option Duration) :
    latestTime c none off = (c, false) := by
  simp [latestTime]

theorem earliestTime_none (c : Option Time) : earliestTime c none = (c, false) := by
  simp [earliestTime]

theorem applyJobConditions_times (now : Time) (cs : List JobCondition) :
    ∀ acc : Trial × Bool × List Event,
      (applyJobConditions now cs acc).1.Spec = acc.1.Spec ∧
      (applyJobConditions now cs acc).1.Status.StartTime = acc.1.Status.StartTime ∧
      (applyJobConditions now cs acc).1.Status.CompletionTime =
        acc.1.Status.CompletionTime := by
  induction cs with
  | nil => intro acc; exact ⟨rfl, rfl, rfl⟩
  | cons c cs ih =>
    rintro ⟨t, dirty, es⟩
    unfold applyJobConditions
    split_ifs
    · exact ih _
    · exact ih _

theorem applyPodFailures_times (now : Time) (pods : List Pod) :
    ∀ acc : Trial × Bool × List Event,
      (TrialJobReconciler.applyPodFailures now pods acc).1.Spec = acc.1.Spec ∧
      (TrialJobReconciler.applyPodFailures now pods acc).1.Status.StartTime =
        acc.1.Status.StartTime ∧
      (TrialJobReconciler.applyPodFailures now pods acc).1.Status.CompletionTime =
        acc.1.Status.CompletionTime := by
  induction pods with
  | nil => intro acc; exact ⟨rfl, rfl, rfl⟩
  | cons p ps ih =>
    rintro ⟨t, dirty, es⟩
    unfold TrialJobReconciler.applyPodFailures
    split_ifs
    · exact ih _
    · exact ih _

theorem finishJobStatus_times (t : Trial) (job : Job) (now : Time) (s f : Option Time)
    (d : Bool) (es : List Event) :
    (finishJobStatus t job now s f d es).trial.Spec = t.Spec ∧
    (finishJobStatus t job now s f d es).trial.Status.StartTime =
      (latestTime t.Status.StartTime s t.Spec.StartTimeOffset).1 ∧
    (finishJobStatus t job now s f d es).trial.Status.CompletionTime =
      (earliestTime t.Status.CompletionTime f).1 := by
  obtain ⟨h1, h2, h3⟩ := applyJobConditions_times now job.Status.Conditions
    ((mergeTimes t s f d).1, (mergeTimes t s f d).2, es)
  exact ⟨h1.trans (mergeTimes_Spec t s f d), h2.trans (mergeTimes_start t s f d),
    h3.trans (mergeTimes_completion t s f d)⟩

/-- Whatever `applyJobStatus` observes, the times of the trial after the call are those of
one merge of some pair of candidates. -/
theorem applyJobStatus_times (m : Option LabelSelector → Except Error Selector)
    (l : String → Selector → Except Error (List Pod)) (t : Trial) (job : Job) (now : Time) :
    ∃ s f, (applyJobStatus m l t job now).trial.Spec = t.Spec ∧
      (applyJobStatus m l t job now).trial.Status.StartTime =
        (latestTime t.Status.StartTime s t.Spec.StartTimeOffset).1 ∧
      (applyJobStatus m l t job now).trial.Status.CompletionTime =
        (earliestTime t.Status.CompletionTime f).1 := by
  unfold applyJobStatus
  split
  · split
    · dsimp only
      split_ifs
      · exact ⟨none, none, rfl, by rw [latestTime_none], by rw [earliestTime_none]⟩
      · exact ⟨_, _, finishJobStatus_times _ _ _ _ _ _ _⟩
    · exact ⟨_, _, finishJobStatus_times _ _ _ _ _ _ _⟩
  · exact ⟨_, _, finishJobStatus_times _ _ _ _ _ _ _⟩

theorem TrialJobReconciler.jobStatus_times (m : Option LabelSelector → Except Error Selector)
    (l : String → Selector → Except Error (List Pod)) (t : Trial) (job : Job) (now : Time) :
    ∃ s f, (TrialJobReconciler.applyJobStatus m l t job now).trial.Spec = t.Spec ∧
      (TrialJobReconciler.applyJobStatus m l t job now).trial.Status.StartTime =
        (latestTime t.Status.StartTime s t.Spec.StartTimeOffset).1 ∧
      (TrialJobReconciler.applyJobStatus m l t job now).trial.Status.CompletionTime =
        (earliestTime t.Status.CompletionTime f).1 := by
  unfold TrialJobReconciler.applyJobStatus
  split
  · split
    · dsimp only
      split_ifs
      · exact ⟨none, none, rfl, by rw [latestTime_none], by rw [earliestTime_none]⟩
      · rename_i pods _ _
        obtain ⟨h1, h2, h3⟩ := applyPodFailures_times now pods (t, false, [Event.ListPods])
        obtain ⟨g1, g2, g3⟩ := finishJobStatus_times
          (TrialJobReconciler.applyPodFailures now pods (t, false, [Event.ListPods])).1 job now
          (containerTime pods).1 (containerTime pods).2
          (TrialJobReconciler.applyPodFailures now pods (t, false, [Event.ListPods])).2.1
          (TrialJobReconciler.applyPodFailures now pods (t, false, [Event.ListPods])).2.2
        refine ⟨(containerTime pods).1, (containerTime pods).2, g1.trans h1, ?_, ?_⟩
        · rw [g2, h1, h2]
        · rw [g3, h3]
    · exact ⟨_, _, finishJobStatus_times _ _ _ _ _ _ _⟩
  · exact ⟨_, _, finishJobStatus_times _ _ _ _ _ _ _⟩

/-- C13, counterexample: recorded start 10s, offset -5s; a container running since 11s is
observed and the recorded start moves back to 6s. -/
theorem C13_counterexample :
    (Sample.timed (some (10 * Second)) (some (100 * Second))
      (some (-5 * Second))).Status.StartTime = some (10 * Second) ∧
    (applyJobStatus Sample.quiet.MatchingSelector (fun _ _ => .ok Sample.runningPods)
      (Sample.timed (some (10 * Second)) (some (100 * Second)) (some (-5 * Second)))
      Sample.runJob 7).trial.Status.StartTime = some (6 * Second) ∧
    (TrialJobReconciler.applyJobStatus Sample.quiet.MatchingSelector
      (fun _ _ => .ok Sample.runningPods)
      (Sample.timed (some (10 * Second)) (some (100 * Second)) (some (-5 * Second)))
      Sample.runJob 7).trial.Status.StartTime = some (6 * Second) := by
  decide

/-- C13, as amended: for a trial whose `StartTime` and `CompletionTime` are set and whose
start-time offset is absent or not negative, after the merge of any candidates, and after
either `applyJobStatus` whatever it observes, the recorded `StartTime` is not earlier and the
recorded `CompletionTime` is not later than before. -/
theorem C13_interval_narrows (t : Trial) (a c : Time) (ha : t.Status.StartTime = some a)
    (hc : t.Status.CompletionTime = some c)
    (hoff : ∀ d, t.Spec.StartTimeOffset = some d → 0 ≤ d) :
    (∀ s f dirty, ∃ a1 c1,
      (mergeTimes t s f dirty).1.Status.StartTime = some a1 ∧ a ≤ a1 ∧
      (mergeTimes t s f dirty).1.Status.CompletionTime = some c1 ∧ c1 ≤ c) ∧
    (∀ m l job now, ∃ a1 c1,
      (applyJobStatus m l t job now).trial.Status.StartTime = some a1 ∧ a ≤ a1 ∧
      (applyJobStatus m l t job now).trial.Status.CompletionTime = some c1 ∧ c1 ≤ c) ∧
    (∀ m l job now, ∃ a1 c1,
      (TrialJobReconciler.applyJobStatus m l t job now).trial.Status.StartTime = some a1 ∧
      a ≤ a1 ∧
      (TrialJobReconciler.applyJobStatus m l t job now).trial.Status.CompletionTime =
        some c1 ∧ c1 ≤ c) := by
  have key : ∀ s f, ∃ a1 c1,
      (latestTime t.Status.StartTime s t.Spec.StartTimeOffset).1 = some a1 ∧ a ≤ a1 ∧
      (earliestTime t.Status.CompletionTime f).1 = some c1 ∧ c1 ≤ c := by
    intro s f
    obtain ⟨a1, h1, h2⟩ := latestTime_ge a s t.Spec.StartTimeOffset hoff
    obtain ⟨c1, h3, h4⟩ := earliestTime_le c f
    exact ⟨a1, c1, by rw [ha, h1], h2, by rw [hc, h3], h4⟩
  refine ⟨fun s f dirty => ?_, fun m l job now => ?_, fun m l job now => ?_⟩
  · obtain ⟨a1, c1, h1, h2, h3, h4⟩ := key s f
    exact ⟨a1, c1, by rw [mergeTimes_start, h1], h2, by rw [mergeTimes_completion, h3], h4⟩
  · obtain ⟨s, f, _, g1, g2⟩ := applyJobStatus_times m l t job now
    obtain ⟨a1, c1, h1, h2, h3, h4⟩ := key s f
    exact ⟨a1, c1, by rw [g1, h1], h2, by rw [g2, h3], h4⟩
  · obtain ⟨s, f, _, g1, g2⟩ := TrialJobReconciler.jobStatus_times m l t job now
    obtain ⟨a1, c1, h1, h2, h3, h4⟩ := key s f
    exact ⟨a1, c1, by rw [g1, h1], h2, by rw [g2, h3], h4⟩

/-- C13 as amended, witness: recorded start 10s, offset +5s, a container running since 11s is
observed. -/
theorem C13_interval_narrows_witness :
    ∃ a1 c1,
      (applyJobStatus Sample.quiet.MatchingSelector (fun _ _ => .ok Sample.runningPods)
        (Sample.timed (some (10 * Second)) (some (100 * Second)) (some (5 * Second)))
        Sample.runJob 7).trial.Status.StartTime = some a1 ∧ 10 * Second ≤ a1 ∧
      (applyJobStatus Sample.quiet.MatchingSelector (fun _ _ => .ok Sample.runningPods)
        (Sample.timed (some (10 * Second)) (some (100 * Second)) (some (5 * Second)))
        Sample.runJob 7).trial.Status.CompletionTime = some c1 ∧ c1 ≤ 100 * Second :=
  (C13_interval_narrows
    (Sample.timed (some (10 * Second)) (some (100 * Second)) (some (5 * Second)))
    (10 * Second) (100 * Second) rfl rfl
    (fun d hd => by
      have : d = 5 * Second := by
        simpa [Sample.timed] using hd.symm
      rw [this]; decide)).2.1
    Sample.quiet.MatchingSelector (fun _ _ => .ok Sample.runningPods) Sample.runJob 7

theorem latestTime_again (c n : Option Time) (off : Option Duration)
    (hoff : ∀ d, off = some d → 0 ≤ d) :
    (latestTime (latestTime c n off).1 n off).2 = false := by
  cases n with
  | none => simp [latestTime]
  | some b =>
    cases c with
    | none =>
      cases off with
      | none => simp [latestTime, Before]
      | some d =>
        have := hoff d rfl
        simp [latestTime, Before, not_lt.2 this]
    | some a =>
      by_cases hab : a < b
      · cases off with
        | none => simp [latestTime, Before, hab]
        | some d =>
          have := hoff d rfl
          simp [latestTime, Before, hab, not_lt.2 this]
      · simp [latestTime, Before, hab]

theorem earliestTime_again (c n : Option Time) :
    (earliestTime (earliestTime c n).1 n).2 = false := by
  cases n with
  | none => simp [earliestTime]
  | some b =>
    cases c with
    | none => simp [earliestTime, Before]
    | some a =>
      by_cases hba : b < a
      · simp [earliestTime, Before, hba]
      · simp [earliestTime, Before, hba]

theorem mergeTimes_again (t : Trial) (s f : Option Time) (d : Bool)
    (hoff : ∀ d, t.Spec.StartTimeOffset = some d → 0 ≤ d) :
    (mergeTimes (mergeTimes t s f d).1 s f false).2 = false := by
  rw [mergeTimes_dirty, mergeTimes_start, mergeTimes_completion, mergeTimes_Spec,
    latestTime_again _ _ _ hoff, earliestTime_again]
  rfl

theorem applyJobConditions_none (now : Time) (cs : List JobCondition)
    (h : ∀ c ∈ cs, ¬ (c.Type_ = JobFailed ∧ c.Status = ConditionTrue)) :
    ∀ acc : Trial × Bool × List Event, applyJobConditions now cs acc = acc := by
  induction cs with
  | nil => intro acc; rfl
  | cons c cs ih =>
    rintro ⟨t, dirty, es⟩
    unfold applyJobConditions
    rw [if_neg (h c (List.mem_cons_self _ _))]
    exact ih (fun c1 hc1 => h c1 (List.mem_cons_of_mem _ hc1)) _

theorem applyPodFailures_none (now : Time) (pods : List Pod)
    (h : ∀ p ∈ pods, p.Phase ≠ PodFailed) :
    ∀ acc : Trial × Bool × List Event,
      TrialJobReconciler.applyPodFailures now pods acc = acc := by
  induction pods with
  | nil => intro acc; rfl
  | cons p ps ih =>
    rintro ⟨t, dirty, es⟩
    unfold TrialJobReconciler.applyPodFailures
    rw [if_neg (h p (List.mem_cons_self _ _))]
    exact ih (fun p1 hp1 => h p1 (List.mem_cons_of_mem _ hp1)) _

theorem finishJobStatus_none (t : Trial) (job : Job) (now : Time) (s f : Option Time)
    (d : Bool) (es : List Event)
    (h : ∀ c ∈ job.Status.Conditions, ¬ (c.Type_ = JobFailed ∧ c.Status = ConditionTrue)) :
    finishJobStatus t job now s f d es =
      { trial := (mergeTimes t s f d).1, update := (mergeTimes t s f d).2, requeue := false,
        trace := es } := by
  unfold finishJobStatus
  dsimp only
  rw [applyJobConditions_none now _ h]

/-- C14, counterexample: offset -5s, candidate 10s; the first merge stores 5s and the second
merge of the same candidate reports an update again. -/
theorem C14_counterexample :
    latestTime none (some (10 * Second)) (some (-5 * Second)) = (some (5 * Second), true) ∧
    latestTime (some (5 * Second)) (some (10 * Second)) (some (-5 * Second)) =
      (some (5 * Second), true) ∧
    (applyJobStatus Sample.quiet.MatchingSelector (fun _ _ => .ok Sample.runningPods)
      (applyJobStatus Sample.quiet.MatchingSelector (fun _ _ => .ok Sample.runningPods)
        (Sample.timed none none (some (-5 * Second))) Sample.runJob 7).trial
      Sample.runJob 8).update = true := by
  decide

/-- C14, as amended: with a start-time offset that is absent or not negative, once a merge
has stored its result, merging the same candidate again with the same offset reports
`updated = false` for `latestTime` and for `earliestTime`; so the merge of the two times
leaves the trial clean, and a second `applyJobStatus` over the same observation of a job
without a `Failed=True` condition (and, for the trial job reconciler, without a failed pod)
reports `update = false`. -/
theorem C14_duplicate_tolerated (off : Option Duration) (hoff : ∀ d, off = some d → 0 ≤ d) :
    (∀ c n : Option Time,
      (latestTime (latestTime c n off).1 n off).2 = false ∧
      (earliestTime (earliestTime c n).1 n).2 = false) ∧
    (∀ (t : Trial) (s f : Option Time) (d : Bool), t.Spec.StartTimeOffset = off →
      (mergeTimes (mergeTimes t s f d).1 s f false).2 = false) ∧
    (∀ m l (t : Trial) (job : Job) (now now1 : Time), t.Spec.StartTimeOffset = off →
      (∀ c ∈ job.Status.Conditions, ¬ (c.Type_ = JobFailed ∧ c.Status = ConditionTrue)) →
      (applyJobStatus m l (applyJobStatus m l t job now).trial job now1).update = false) ∧
    (∀ m l (t : Trial) (job : Job) (now now1 : Time), t.Spec.StartTimeOffset = off →
      (∀ c ∈ job.Status.Conditions, ¬ (c.Type_ = JobFailed ∧ c.Status = ConditionTrue)) →
      (∀ sel pods, m job.Selector = .ok sel → l job.Namespace sel = .ok pods →
        ∀ p ∈ pods, p.Phase ≠ PodFailed) →
      (TrialJobReconciler.applyJobStatus m l
        (TrialJobReconciler.applyJobStatus m l t job now).trial job now1).update = false) := by
  refine ⟨fun c n => ⟨latestTime_again c n off hoff, earliestTime_again c n⟩, ?_, ?_, ?_⟩
  · intro t s f d ht
    exact mergeTimes_again t s f d (by rw [ht]; exact hoff)
  · intro m l t job now now1 ht hjob
    have hoff1 : ∀ d, t.Spec.StartTimeOffset = some d → 0 ≤ d := by rw [ht]; exact hoff
    unfold applyJobStatus
    cases m job.Selector with
    | error e =>
      dsimp only
      rw [finishJobStatus_none _ _ _ _ _ _ _ hjob, finishJobStatus_none _ _ _ _ _ _ _ hjob]
      exact mergeTimes_again t _ _ false hoff1
    | ok sel =>
      dsimp only
      cases l job.Namespace sel with
      | error e =>
        dsimp only
        rw [finishJobStatus_none _ _ _ _ _ _ _ hjob, finishJobStatus_none _ _ _ _ _ _ _ hjob]
        exact mergeTimes_again t _ _ false hoff1
      | ok pods =>
        dsimp only
        split_ifs
        · rfl
        · rw [finishJobStatus_none _ _ _ _ _ _ _ hjob, finishJobStatus_none _ _ _ _ _ _ _ hjob]
          exact mergeTimes_again t _ _ false hoff1
  · intro m l t job now now1 ht hjob hpods
    have hoff1 : ∀ d, t.Spec.StartTimeOffset = some d → 0 ≤ d := by rw [ht]; exact hoff
    unfold TrialJobReconciler.applyJobStatus
    cases hm : m job.Selector with
    | error e =>
      dsimp only
      rw [finishJobStatus_none _ _ _ _ _ _ _ hjob, finishJobStatus_none _ _ _ _ _ _ _ hjob]
      exact mergeTimes_again t _ _ false hoff1
    | ok sel =>
      dsimp only
      cases hl : l job.Namespace sel with
      | error e =>
        dsimp only
        rw [finishJobStatus_none _ _ _ _ _ _ _ hjob, finishJobStatus_none _ _ _ _ _ _ _ hjob]
        exact mergeTimes_again t _ _ false hoff1
      | ok pods =>
        dsimp only
        have hp := hpods sel pods hm hl
        split_ifs
        · rfl
        · rw [applyPodFailures_none now pods hp, applyPodFailures_none now1 pods hp,
            finishJobStatus_none _ _ _ _ _ _ _ hjob, finishJobStatus_none _ _ _ _ _ _ _ hjob]
          exact mergeTimes_again t _ _ false hoff1

/-- C14 as amended, witness: offset +5s, a container running since 11s observed twice. -/
theorem C14_duplicate_tolerated_witness :
    (applyJobStatus Sample.quiet.MatchingSelector (fun _ _ => .ok Sample.runningPods)
      (applyJobStatus Sample.quiet.MatchingSelector (fun _ _ => .ok Sample.runningPods)
        (Sample.timed none none (some (5 * Second))) Sample.runJob 7).trial
      Sample.runJob 8).update = false :=
  (C14_duplicate_tolerated (some (5 * Second))
    (fun d hd => by
      have : d = 5 * Second := by simpa using hd.symm
      rw [this]; decide)).2.2.1
    Sample.quiet.MatchingSelector (fun _ _ => .ok Sample.runningPods)
    (Sample.timed none none (some (5 * Second))) Sample.runJob 7 8 rfl
    (fun c hc => by simp [Sample.runJob] at hc)

/-! ## The container scan -/

theorem containerTimeStep_eq (acc : Option Time × Option Time) (s : ContainerState) :
    containerTimeStep acc s =
      ((earliestTime acc.1 (startCandidate s)).1,
       (latestTime acc.2 (finishCandidate s) none).1) := by
  unfold containerTimeStep startCandidate finishCandidate
  cases s.Running with
  | some running => simp [latestTime_none]
  | none =>
    cases s.Terminated with
    | some terminated => rfl
    | none => simp [latestTime_none, earliestTime_none]

theorem foldl_containerTimeStep (l : List ContainerState) :
    ∀ acc : Option Time × Option Time,
      l.foldl containerTimeStep acc =
        (l.foldl (fun c s => (earliestTime c (startCandidate s)).1) acc.1,
         l.foldl (fun c s => (latestTime c (finishCandidate s) none).1) acc.2) := by
  induction l with
  | nil => intro acc; rfl
  | cons s l ih =>
    intro acc
    rw [List.foldl_cons, List.foldl_cons, List.foldl_cons, ih, containerTimeStep_eq]

theorem containerTime_eq (pods : List Pod) :
    containerTime pods =
      ((containerStates pods).foldl (fun c s => (earliestTime c (startCandidate s)).1) none,
       (containerStates pods).foldl (fun c s => (latestTime c (finishCandidate s) none).1)
        none) := by
  have h := foldl_containerTimeStep (containerStates pods) (none, none)
  rw [← h]
  unfold containerTime containerStates
  rw [List.foldl_flatten, List.foldl_map]

/-- C15, counterexample: one container state with `Running` started at 5s and `Terminated`
started at 1s and finished at 9s; the scan reads only `Running`, so it returns start 5s and
no finish. -/
theorem C15_counterexample :
    Sample.restarted.Terminated = some { StartedAt := 1 * Second, FinishedAt := 9 * Second } ∧
    containerTime [{ Phase := PodRunning, Reason := "",
                     ContainerStatuses := [Sample.restarted] }] =
      (some (5 * Second), none) := by
  decide

/-- C15, as amended: for every pod list `containerTime` returns as `startedAt` the earliest
start over all container states, a state contributing the `StartedAt` of `Running` when that
is set and otherwise the `StartedAt` of `Terminated` when that is set, and as `finishedAt`
the latest `FinishedAt` over all container states that are terminated and not running, each
unset when there is no such state; the pair is the same for every pod list with the same
container states in another order. -/
theorem C15_container_time (pods : List Pod) :
    IsEarliest (containerTime pods).1 ((containerStates pods).filterMap startCandidate) ∧
    IsLatest (containerTime pods).2 ((containerStates pods).filterMap finishCandidate) ∧
    ∀ pods1, (containerStates pods).Perm (containerStates pods1) →
      containerTime pods1 = containerTime pods := by
  have hs : ∀ ps, IsEarliest (containerTime ps).1
      ((containerStates ps).filterMap startCandidate) := by
    intro ps
    have := foldl_earliest startCandidate (containerStates ps) none
    rw [containerTime_eq]
    simpa using this
  have hf : ∀ ps, IsLatest (containerTime ps).2
      ((containerStates ps).filterMap finishCandidate) := by
    intro ps
    have := foldl_latest finishCandidate (containerStates ps) none
    rw [containerTime_eq]
    simpa using this
  refine ⟨hs pods, hf pods, fun pods1 hperm => ?_⟩
  have h1 := IsEarliest.unique_earliest (fun x => (hperm.symm.filterMap _).mem_iff)
    (hs pods1) (hs pods)
  have h2 := IsLatest.unique (fun x => (hperm.symm.filterMap _).mem_iff) (hf pods1) (hf pods)
  exact Prod.ext h1 h2

/-! ## Status observation -/

theorem applyJobConditions_dirty (now : Time) (cs : List JobCondition) :
    ∀ (t : Trial) (es : List Event), (applyJobConditions now cs (t, true, es)).2.1 = true := by
  induction cs with
  | nil => intro t es; rfl
  | cons c cs ih =>
    intro t es
    unfold applyJobConditions
    split_ifs
    · exact ih _ _
    · exact ih _ _

theorem applyJobConditions_clean (now : Time) (cs : List JobCondition) :
    ∀ acc : Trial × Bool × List Event, (applyJobConditions now cs acc).2.1 = false →
      applyJobConditions now cs acc = acc := by
  induction cs with
  | nil => intro acc _; rfl
  | cons c cs ih =>
    rintro ⟨t, dirty, es⟩ h
    unfold applyJobConditions at h ⊢
    split_ifs at h ⊢
    · rw [applyJobConditions_dirty] at h
      cases h
    · exact ih _ h

theorem applyPodFailures_dirty (now : Time) (pods : List Pod) :
    ∀ (t : Trial) (es : List Event),
      (TrialJobReconciler.applyPodFailures now pods (t, true, es)).2.1 = true := by
  induction pods with
  | nil => intro t es; rfl
  | cons p ps ih =>
    intro t es
    unfold TrialJobReconciler.applyPodFailures
    split_ifs
    · exact ih _ _
    · exact ih _ _

theorem applyPodFailures_clean (now : Time) (pods : List Pod) :
    ∀ acc : Trial × Bool × List Event,
      (TrialJobReconciler.applyPodFailures now pods acc).2.1 = false →
      TrialJobReconciler.applyPodFailures now pods acc = acc := by
  induction pods with
  | nil => intro acc _; rfl
  | cons p ps ih =>
    rintro ⟨t, dirty, es⟩ h
    unfold TrialJobReconciler.applyPodFailures at h ⊢
    split_ifs at h ⊢
    · rw [applyPodFailures_dirty] at h
      cases h
    · exact ih _ h

theorem mergeTimes_dirty_of (t : Trial) (s f : Option Time) :
    (mergeTimes t s f true).2 = true := by
  rw [mergeTimes_dirty]; rfl

theorem finishJobStatus_clean (t : Trial) (job : Job) (now : Time) (s f : Option Time)
    (d : Bool) (es : List Event) (h : (finishJobStatus t job now s f d es).update = false) :
    (finishJobStatus t job now s f d es).trial = t ∧
    (finishJobStatus t job now s f d es).trace = es ∧ d = false := by
  unfold finishJobStatus at h ⊢
  dsimp only at h ⊢
  have hc := applyJobConditions_clean now job.Status.Conditions _ h
  rw [hc] at h ⊢
  dsimp only at h ⊢
  refine ⟨mergeTimes_unchanged t s f d h, rfl, ?_⟩
  rw [mergeTimes_dirty] at h
  simp only [Bool.or_eq_false_iff] at h
  exact h.1.1

/-- The two ways `applyJobStatus` ends: consistency lag, or the merge of the observed
times. -/
theorem applyJobStatus_cases (m : Option LabelSelector → Except Error Selector)
    (l : String → Selector → Except Error (List Pod)) (t : Trial) (job : Job) (now : Time) :
    (∃ sel pods, m job.Selector = .ok sel ∧ l job.Namespace sel = .ok pods ∧
      (((containerTime pods).1 = none ∧ job.Status.StartTime ≠ none) ∨
        ((containerTime pods).2 = none ∧ job.Status.CompletionTime ≠ none)) ∧
      applyJobStatus m l t job now =
        { trial := t, update := false, requeue := true, trace := [Event.ListPods] }) ∨
    (∃ es, (∀ e ∈ es, e = Event.ListPods) ∧
      applyJobStatus m l t job now =
        finishJobStatus t job now (observedTimes m l job).1 (observedTimes m l job).2 false
          es) := by
  unfold applyJobStatus observedTimes
  cases hm : m job.Selector with
  | error e => exact Or.inr ⟨[], by simp, rfl⟩
  | ok sel =>
    dsimp only
    cases hl : l job.Namespace sel with
    | error e => exact Or.inr ⟨[Event.ListPods], by simp, rfl⟩
    | ok pods =>
      dsimp only
      split_ifs with hlag
      · exact Or.inl ⟨sel, pods, rfl, hl, hlag, rfl⟩
      · exact Or.inr ⟨[Event.ListPods], by simp, rfl⟩

/-- The ways `TrialJobReconciler.applyJobStatus` ends: consistency lag, the merge of the
times of the container scan behind the look at the pod phases, or the merge of the times of
the job status. -/
theorem TrialJobReconciler.jobStatus_cases (m : Option LabelSelector → Except Error Selector)
    (l : String → Selector → Except Error (List Pod)) (t : Trial) (job : Job) (now : Time) :
    (∃ sel pods, m job.Selector = .ok sel ∧ l job.Namespace sel = .ok pods ∧
      (((containerTime pods).1 = none ∧ job.Status.StartTime ≠ none) ∨
        ((containerTime pods).2 = none ∧ job.Status.CompletionTime ≠ none)) ∧
      TrialJobReconciler.applyJobStatus m l t job now =
        { trial := t, update := false, requeue := true, trace := [Event.ListPods] }) ∨
    (∃ sel pods, m job.Selector = .ok sel ∧ l job.Namespace sel = .ok pods ∧
      TrialJobReconciler.applyJobStatus m l t job now =
        finishJobStatus
          (TrialJobReconciler.applyPodFailures now pods (t, false, [Event.ListPods])).1 job now
          (observedTimes m l job).1 (observedTimes m l job).2
          (TrialJobReconciler.applyPodFailures now pods (t, false, [Event.ListPods])).2.1
          (TrialJobReconciler.applyPodFailures now pods (t, false, [Event.ListPods])).2.2) ∨
    (∃ es, (∀ e ∈ es, e = Event.ListPods) ∧
      TrialJobReconciler.applyJobStatus m l t job now =
        finishJobStatus t job now (observedTimes m l job).1 (observedTimes m l job).2 false
          es) := by
  unfold TrialJobReconciler.applyJobStatus observedTimes
  cases hm : m job.Selector with
  | error e => exact Or.inr (Or.inr ⟨[], by simp, rfl⟩)
  | ok sel =>
    dsimp only
    cases hl : l job.Namespace sel with
    | error e => exact Or.inr (Or.inr ⟨[Event.ListPods], by simp, rfl⟩)
    | ok pods =>
      dsimp only
      split_ifs with hlag
      · exact Or.inl ⟨sel, pods, rfl, hl, hlag, rfl⟩
      · exact Or.inr (Or.inl ⟨sel, pods, rfl, hl, rfl⟩)

/-- An observation that reports no update has not touched the trial and has at most listed
the pods. -/
theorem applyJobStatus_clean (m : Option LabelSelector → Except Error Selector)
    (l : String → Selector → Except Error (List Pod)) (t : Trial) (job : Job) (now : Time)
    (h : (applyJobStatus m l t job now).update = false) :
    (applyJobStatus m l t job now).trial = t ∧
    ∀ e ∈ (applyJobStatus m l t job now).trace, e = Event.ListPods := by
  rcases applyJobStatus_cases m l t job now with ⟨_, _, _, _, _, heq⟩ | ⟨es, hes, heq⟩
  · rw [heq]
    exact ⟨rfl, by simp⟩
  · rw [heq] at h ⊢
    obtain ⟨h1, h2, _⟩ := finishJobStatus_clean _ _ _ _ _ _ _ h
    exact ⟨h1, by rw [h2]; exact hes⟩

theorem TrialJobReconciler.jobStatus_clean (m : Option LabelSelector → Except Error Selector)
    (l : String → Selector → Except Error (List Pod)) (t : Trial) (job : Job) (now : Time)
    (h : (TrialJobReconciler.applyJobStatus m l t job now).update = false) :
    (TrialJobReconciler.applyJobStatus m l t job now).trial = t ∧
    ∀ e ∈ (TrialJobReconciler.applyJobStatus m l t job now).trace, e = Event.ListPods := by
  rcases TrialJobReconciler.jobStatus_cases m l t job now with
    ⟨_, _, _, _, _, heq⟩ | ⟨sel, pods, _, _, heq⟩ | ⟨es, hes, heq⟩
  · rw [heq]
    exact ⟨rfl, by simp⟩
  · rw [heq] at h ⊢
    obtain ⟨h1, h2, h3⟩ := finishJobStatus_clean _ _ _ _ _ _ _ h
    have hp := applyPodFailures_clean now pods (t, false, [Event.ListPods]) h3
    rw [hp] at h1 h2 ⊢
    exact ⟨h1, by rw [h2]; simp⟩
  · rw [heq] at h ⊢
    obtain ⟨h1, h2, _⟩ := finishJobStatus_clean _ _ _ _ _ _ _ h
    exact ⟨h1, by rw [h2]; exact hes⟩

theorem jobLoop_cons (r : Env) (now : Time) (i : Nat) (job : Job) (jobs : List Job)
    (t : Trial) (needsJob : Bool) :
    TrialReconciler.jobLoop r now i (job :: jobs) t needsJob =
      if mapIndex job.Labels LabelTrialRole ≠ "trialSetup" then
        if (applyJobStatus r.MatchingSelector (r.ListPods i) t job now).update then
          .returned ((TrialReconciler.forTrialUpdate r
              (applyJobStatus r.MatchingSelector (r.ListPods i) t job now).trial).after
            (Event.applyJobStatus job ::
              (applyJobStatus r.MatchingSelector (r.ListPods i) t job now).trace))
        else if (applyJobStatus r.MatchingSelector (r.ListPods i) t job now).requeue then
          .returned { result := { Requeue := true, RequeueAfter := 0 }, err := none,
                      trial := (applyJobStatus r.MatchingSelector (r.ListPods i) t job
                        now).trial,
                      trace := Event.applyJobStatus job ::
                        (applyJobStatus r.MatchingSelector (r.ListPods i) t job now).trace }
        else (TrialReconciler.jobLoop r now (i + 1) jobs
            (applyJobStatus r.MatchingSelector (r.ListPods i) t job now).trial false).after
          (Event.applyJobStatus job ::
            (applyJobStatus r.MatchingSelector (r.ListPods i) t job now).trace)
      else TrialReconciler.jobLoop r now (i + 1) jobs t needsJob := by
  rw [TrialReconciler.jobLoop]

theorem runLoop_cons (r : Env) (now : Time) (i : Nat) (job : Job) (jobs : List Job)
    (t : Trial) :
    TrialJobReconciler.jobLoop r now i (job :: jobs) t =
      if (TrialJobReconciler.applyJobStatus r.MatchingSelector (r.ListPods i) t job
          now).update then
        { result := some (RequeueConflict (r.Update
            (TrialJobReconciler.applyJobStatus r.MatchingSelector (r.ListPods i) t job
              now).trial)).1,
          err := (RequeueConflict (r.Update
            (TrialJobReconciler.applyJobStatus r.MatchingSelector (r.ListPods i) t job
              now).trial)).2,
          trial := (TrialJobReconciler.applyJobStatus r.MatchingSelector (r.ListPods i) t job
            now).trial,
          trace := Event.applyJobStatus job ::
            (TrialJobReconciler.applyJobStatus r.MatchingSelector (r.ListPods i) t job
              now).trace ++
            [Event.Update (TrialJobReconciler.applyJobStatus r.MatchingSelector
              (r.ListPods i) t job now).trial] }
      else if (TrialJobReconciler.applyJobStatus r.MatchingSelector (r.ListPods i) t job
          now).requeue then
        { result := some { Requeue := true, RequeueAfter := 0 }, err := none,
          trial := (TrialJobReconciler.applyJobStatus r.MatchingSelector (r.ListPods i) t job
            now).trial,
          trace := Event.applyJobStatus job ::
            (TrialJobReconciler.applyJobStatus r.MatchingSelector (r.ListPods i) t job
              now).trace }
      else (TrialJobReconciler.jobLoop r now (i + 1) jobs
          (TrialJobReconciler.applyJobStatus r.MatchingSelector (r.ListPods i) t job
            now).trial).after
        (Event.applyJobStatus job ::
          (TrialJobReconciler.applyJobStatus r.MatchingSelector (r.ListPods i) t job
            now).trace) := by
  rw [TrialJobReconciler.jobLoop]

/-- Events of an observation that found nothing to do: the job handed over and the pod
listing. -/
theorem quiet_events_not_write {es : List Event}
    (h : ∀ e ∈ es, e = Event.ListPods ∨ ∃ q, e = Event.applyJobStatus q) :
    ∀ e ∈ es, e.isWrite = false := by
  intro e he
  rcases h e he with rfl | ⟨q, rfl⟩ <;> rfl

/-- The job loop of the trial reconciler behind a run of jobs that are setup jobs or are
observed without update and without requeue: the loop goes on with the trial as it was. -/
theorem jobLoop_skip (r : Env) (now : Time) (pre rest : List Job) :
    ∀ (i : Nat) (t : Trial) (n : Bool),
      (∀ j q, pre.get? j = some q →
        mapIndex q.Labels LabelTrialRole = "trialSetup" ∨
        ((applyJobStatus r.MatchingSelector (r.ListPods (i + j)) t q now).update = false ∧
         (applyJobStatus r.MatchingSelector (r.ListPods (i + j)) t q now).requeue = false)) →
      ∃ n1 es, (∀ e ∈ es, e = Event.ListPods ∨ ∃ q, e = Event.applyJobStatus q) ∧
        TrialReconciler.jobLoop r now i (pre ++ rest) t n =
          (TrialReconciler.jobLoop r now (i + pre.length) rest t n1).after es := by
  induction pre with
  | nil => intro i t n _; exact ⟨n, [], by simp, by simp⟩
  | cons q pre ih =>
    intro i t n h
    have hq := h 0 q (by simp)
    have hpre : ∀ j q1, pre.get? j = some q1 →
        mapIndex q1.Labels LabelTrialRole = "trialSetup" ∨
        ((applyJobStatus r.MatchingSelector (r.ListPods (i + 1 + j)) t q1 now).update = false ∧
         (applyJobStatus r.MatchingSelector (r.ListPods (i + 1 + j)) t q1 now).requeue =
          false) := by
      intro j q1 hq1
      have := h (j + 1) q1 (by simpa using hq1)
      rwa [show i + (j + 1) = i + 1 + j by omega] at this
    have hlen : i + (q :: pre).length = i + 1 + pre.length := by simp; omega
    rw [List.cons_append, jobLoop_cons, hlen]
    by_cases hlabel : mapIndex q.Labels LabelTrialRole = "trialSetup"
    · rw [if_neg (by simpa using hlabel)]
      exact ih (i + 1) t n hpre
    · rw [if_pos hlabel]
      rcases hq with hq | ⟨hu, hr⟩
      · exact absurd hq hlabel
      · rw [Nat.add_zero] at hu hr
        obtain ⟨ht, hes⟩ := applyJobStatus_clean _ _ _ _ _ hu
        rw [hu, hr, ht]
        simp only [Bool.false_eq_true, if_false]
        obtain ⟨n1, es, hes1, heq⟩ := ih (i + 1) t false hpre
        refine ⟨n1, (Event.applyJobStatus q ::
          (applyJobStatus r.MatchingSelector (r.ListPods i) t q now).trace) ++ es, ?_, ?_⟩
        · intro e he
          simp only [List.cons_append, List.mem_cons, List.mem_append] at he
          rcases he with rfl | he | he
          · exact Or.inr ⟨q, rfl⟩
          · exact Or.inl (hes e he)
          · exact hes1 e he
        · rw [heq, Scan.after_after]

theorem runLoop_skip (r : Env) (now : Time) (pre rest : List Job) :
    ∀ (i : Nat) (t : Trial),
      (∀ j q, pre.get? j = some q →
        ((TrialJobReconciler.applyJobStatus r.MatchingSelector (r.ListPods (i + j)) t q
            now).update = false ∧
         (TrialJobReconciler.applyJobStatus r.MatchingSelector (r.ListPods (i + j)) t q
            now).requeue = false)) →
      ∃ es, (∀ e ∈ es, e = Event.ListPods ∨ ∃ q, e = Event.applyJobStatus q) ∧
        TrialJobReconciler.jobLoop r now i (pre ++ rest) t =
          (TrialJobReconciler.jobLoop r now (i + pre.length) rest t).after es := by
  induction pre with
  | nil => intro i t _; exact ⟨[], by simp, by simp [TrialJobReconciler.JobOutcome.after]⟩
  | cons q pre ih =>
    intro i t h
    obtain ⟨hu, hr⟩ := h 0 q (by simp)
    have hpre : ∀ j q1, pre.get? j = some q1 →
        ((TrialJobReconciler.applyJobStatus r.MatchingSelector (r.ListPods (i + 1 + j)) t q1
            now).update = false ∧
         (TrialJobReconciler.applyJobStatus r.MatchingSelector (r.ListPods (i + 1 + j)) t q1
            now).requeue = false) := by
      intro j q1 hq1
      have := h (j + 1) q1 (by simpa using hq1)
      rwa [show i + (j + 1) = i + 1 + j by omega] at this
    have hlen : i + (q :: pre).length = i + 1 + pre.length := by simp; omega
    rw [List.cons_append, runLoop_cons, hlen]
    rw [Nat.add_zero] at hu hr
    obtain ⟨ht, hes⟩ := TrialJobReconciler.jobStatus_clean _ _ _ _ _ hu
    rw [hu, hr, ht]
    simp only [Bool.false_eq_true, if_false]
    obtain ⟨es, hes1, heq⟩ := ih (i + 1) t hpre
    refine ⟨(Event.applyJobStatus q ::
      (TrialJobReconciler.applyJobStatus r.MatchingSelector (r.ListPods i) t q now).trace) ++
        es, ?_, ?_⟩
    · intro e he
      simp only [List.cons_append, List.mem_cons, List.mem_append] at he
      rcases he with rfl | he | he
      · exact Or.inr ⟨q, rfl⟩
      · exact Or.inl (hes e he)
      · exact hes1 e he
    · rw [heq]
      simp [TrialJobReconciler.JobOutcome.after]

theorem applyJobStatus_lag (m : Option LabelSelector → Except Error Selector)
    (l : String → Selector → Except Error (List Pod)) (t : Trial) (job : Job) (now : Time)
    (sel : Selector) (pods : List Pod) (hm : m job.Selector = .ok sel)
    (hl : l job.Namespace sel = .ok pods)
    (hlag : ((containerTime pods).1 = none ∧ job.Status.StartTime ≠ none) ∨
      ((containerTime pods).2 = none ∧ job.Status.CompletionTime ≠ none)) :
    applyJobStatus m l t job now =
      { trial := t, update := false, requeue := true, trace := [Event.ListPods] } := by
  unfold applyJobStatus
  rw [hm]
  dsimp only
  rw [hl]
  dsimp only
  rw [if_pos hlag]

theorem TrialJobReconciler.jobStatus_lag (m : Option LabelSelector → Except Error Selector)
    (l : String → Selector → Except Error (List Pod)) (t : Trial) (job : Job) (now : Time)
    (sel : Selector) (pods : List Pod) (hm : m job.Selector = .ok sel)
    (hl : l job.Namespace sel = .ok pods)
    (hlag : ((containerTime pods).1 = none ∧ job.Status.StartTime ≠ none) ∨
      ((containerTime pods).2 = none ∧ job.Status.CompletionTime ≠ none)) :
    TrialJobReconciler.applyJobStatus m l t job now =
      { trial := t, update := false, requeue := true, trace := [Event.ListPods] } := by
  unfold TrialJobReconciler.applyJobStatus
  rw [hm]
  dsimp only
  rw [hl]
  dsimp only
  rw [if_pos hlag]

/-- C11: consistency lag causes no mutation. When the pods of a job are listed and the job
reports a `StartTime` while the container scan finds no start, or a `CompletionTime` while
the scan finds no finish, both `applyJobStatus` return `update = false`, `requeue = true` and
the trial as it was (times and conditions unchanged). A pass of `TrialReconciler.Reconcile`
that hands such a job to status observation (the jobs listed before it being setup jobs or
observed without update and without requeue) returns `Requeue = true`, no error, the trial
unchanged and no write in its trace; so does `runTrialJob`, and with it
`TrialJobReconciler.Reconcile`. -/
theorem C11_consistency_lag (r : Env) (now : Time) (t : Trial) (job : Job) (sel : Selector)
    (pods : List Pod)
    (hlag : ((containerTime pods).1 = none ∧ job.Status.StartTime ≠ none) ∨
      ((containerTime pods).2 = none ∧ job.Status.CompletionTime ≠ none)) :
    (∀ m l, m job.Selector = .ok sel → l job.Namespace sel = .ok pods →
      applyJobStatus m l t job now =
        { trial := t, update := false, requeue := true, trace := [Event.ListPods] } ∧
      TrialJobReconciler.applyJobStatus m l t job now =
        { trial := t, update := false, requeue := true, trace := [Event.ListPods] }) ∧
    (∀ jsel pre post,
      Event.ListJobs ∈ (TrialReconciler.Reconcile r now (.ok t)).trace →
      r.MatchingSelector (r.GetJobSelector t) = .ok jsel →
      r.ListJobs jsel = .ok (pre ++ job :: post) →
      (∀ j q, pre.get? j = some q →
        mapIndex q.Labels LabelTrialRole = "trialSetup" ∨
        ((applyJobStatus r.MatchingSelector (r.ListPods j) t q now).update = false ∧
         (applyJobStatus r.MatchingSelector (r.ListPods j) t q now).requeue = false)) →
      mapIndex job.Labels LabelTrialRole ≠ "trialSetup" →
      r.MatchingSelector job.Selector = .ok sel →
      r.ListPods pre.length job.Namespace sel = .ok pods →
      (TrialReconciler.Reconcile r now (.ok t)).result = { Requeue := true, RequeueAfter := 0 } ∧
      (TrialReconciler.Reconcile r now (.ok t)).err = none ∧
      (TrialReconciler.Reconcile r now (.ok t)).trial = t ∧
      ∀ e ∈ (TrialReconciler.Reconcile r now (.ok t)).trace, e.isWrite = false) ∧
    (∀ jsel items pre post,
      Event.ListJobs ∈ (TrialJobReconciler.runTrialJob r t now).trace →
      r.MatchingSelector (r.GetJobSelector t) = .ok jsel →
      r.ListJobs jsel = .ok items →
      (items.filter fun q => decide (mapIndex q.Labels LabelTrialRole ≠ "trialSetup")) =
        pre ++ job :: post →
      (∀ j q, pre.get? j = some q →
        ((TrialJobReconciler.applyJobStatus r.MatchingSelector (r.ListPods j) t q
            now).update = false ∧
         (TrialJobReconciler.applyJobStatus r.MatchingSelector (r.ListPods j) t q
            now).requeue = false)) →
      r.MatchingSelector job.Selector = .ok sel →
      r.ListPods pre.length job.Namespace sel = .ok pods →
      (TrialJobReconciler.runTrialJob r t now).result =
        some { Requeue := true, RequeueAfter := 0 } ∧
      (TrialJobReconciler.runTrialJob r t now).err = none ∧
      (TrialJobReconciler.runTrialJob r t now).trial = t ∧
      (∀ e ∈ (TrialJobReconciler.runTrialJob r t now).trace, e.isWrite = false) ∧
      (TrialJobReconciler.ignoreTrial r t = false →
        (TrialJobReconciler.Reconcile r now (.ok t)).result =
          { Requeue := true, RequeueAfter := 0 } ∧
        (TrialJobReconciler.Reconcile r now (.ok t)).err = none ∧
        (TrialJobReconciler.Reconcile r now (.ok t)).trial = t ∧
        ∀ e ∈ (TrialJobReconciler.Reconcile r now (.ok t)).trace, e.isWrite = false)) := by
  refine ⟨fun m l hm hl => ⟨applyJobStatus_lag m l t job now sel pods hm hl hlag,
    TrialJobReconciler.jobStatus_lag m l t job now sel pods hm hl hlag⟩, ?_, ?_⟩
  · intro jsel pre post hlist hsel hitems hpre hrun hjsel hpods
    have hpre0 : ∀ j q, pre.get? j = some q →
        mapIndex q.Labels LabelTrialRole = "trialSetup" ∨
        ((applyJobStatus r.MatchingSelector (r.ListPods (0 + j)) t q now).update = false ∧
         (applyJobStatus r.MatchingSelector (r.ListPods (0 + j)) t q now).requeue = false) := by
      intro j q hq
      rw [Nat.zero_add]
      exact hpre j q hq
    obtain ⟨n1, es, hes, hloop⟩ := jobLoop_skip r now pre (job :: post) 0 t true hpre0
    have hstatus := applyJobStatus_lag r.MatchingSelector (r.ListPods (0 + pre.length)) t job
      now sel pods hjsel (by rw [Nat.zero_add]; exact hpods) hlag
    have hrec : TrialReconciler.Reconcile r now (.ok t) =
        { result := { Requeue := true, RequeueAfter := 0 }, err := none, trial := t,
          trace := Event.ListJobs :: (es ++ [Event.applyJobStatus job, Event.ListPods]) } := by
      rw [reaches_discovery r now t hlist, TrialReconciler.reconcileJobs, hsel]
      dsimp only
      rw [hitems]
      dsimp only
      rw [hloop, jobLoop_cons, if_pos hrun, hstatus]
      rfl
    rw [hrec]
    refine ⟨rfl, rfl, rfl, ?_⟩
    intro e he
    simp only [List.mem_cons, List.mem_append, List.mem_singleton, List.not_mem_nil,
      or_false] at he
    rcases he with rfl | he | rfl | rfl
    · rfl
    · exact quiet_events_not_write hes e he
    · rfl
    · rfl
  · intro jsel items pre post hlist hsel hitems hfilter hpre hjsel hpods
    have hpre0 : ∀ j q, pre.get? j = some q →
        ((TrialJobReconciler.applyJobStatus r.MatchingSelector (r.ListPods (0 + j)) t q
            now).update = false ∧
         (TrialJobReconciler.applyJobStatus r.MatchingSelector (r.ListPods (0 + j)) t q
            now).requeue = false) := by
      intro j q hq
      rw [Nat.zero_add]
      exact hpre j q hq
    obtain ⟨es, hes, hloop⟩ := runLoop_skip r now pre (job :: post) 0 t hpre0
    have hstatus := TrialJobReconciler.jobStatus_lag r.MatchingSelector
      (r.ListPods (0 + pre.length)) t job now sel pods hjsel
      (by rw [Nat.zero_add]; exact hpods) hlag
    have hrun : TrialJobReconciler.runTrialJob r t now =
        { result := some { Requeue := true, RequeueAfter := 0 }, err := none, trial := t,
          trace := Event.ListJobs :: (es ++ [Event.applyJobStatus job, Event.ListPods]) } := by
      have hguard : TrialJobReconciler.runTrialJob r t now =
          TrialJobReconciler.runJobs r t now := by
        unfold TrialJobReconciler.runTrialJob at hlist ⊢
        split_ifs at hlist ⊢
        · simp at hlist
        · rfl
      rw [hguard, TrialJobReconciler.runJobs,
        TrialJobReconciler.listJobs_eq r t jsel items hsel hitems, hfilter]
      dsimp only
      rw [if_neg (by simp), hloop, runLoop_cons, hstatus]
      rfl
    have hw : ∀ e ∈ Event.ListJobs :: (es ++ [Event.applyJobStatus job, Event.ListPods]),
        e.isWrite = false := by
      intro e he
      simp only [List.mem_cons, List.mem_append, List.mem_singleton, List.not_mem_nil,
        or_false] at he
      rcases he with rfl | he | rfl | rfl
      · rfl
      · exact quiet_events_not_write hes e he
      · rfl
      · rfl
    refine ⟨by rw [hrun], by rw [hrun], by rw [hrun], by rw [hrun]; exact hw, fun hign => ?_⟩
    have hrec : TrialJobReconciler.Reconcile r now (.ok t) =
        { result := { Requeue := true, RequeueAfter := 0 }, err := none, trial := t,
          trace := Event.ListJobs :: (es ++ [Event.applyJobStatus job, Event.ListPods]) } := by
      unfold TrialJobReconciler.Reconcile
      dsimp only
      rw [hign, hrun]
      rfl
    rw [hrec]
    exact ⟨rfl, rfl, rfl, hw⟩

/-- C11, witness: a job that reports a start at 3s while no pod is listed for it. -/
theorem C11_consistency_lag_witness :
    TrialReconciler.Reconcile (Sample.observing Sample.startedJob []) 7
        (.ok (Sample.trialWith [] [])) =
      { result := { Requeue := true, RequeueAfter := 0 }, err := none,
        trial := Sample.trialWith [] [],
        trace := [Event.ListJobs, Event.applyJobStatus Sample.startedJob, Event.ListPods] } ∧
    applyJobStatus Sample.quiet.MatchingSelector (fun _ _ => .ok []) (Sample.trialWith [] [])
        Sample.startedJob 7 =
      { trial := Sample.trialWith [] [], update := false, requeue := true,
        trace := [Event.ListPods] } :=
  ⟨by decide,
    ((C11_consistency_lag Sample.quiet 7 (Sample.trialWith [] []) Sample.startedJob
      { key := "" } [] (Or.inl ⟨rfl, by decide⟩)).1
      Sample.quiet.MatchingSelector (fun _ _ => .ok []) rfl rfl).1⟩

/-! ## Failures seen by status observation -/

theorem applyJobConditions_cons (now : Time) (c : JobCondition) (cs : List JobCondition)
    (t : Trial) (dirty : Bool) (es : List Event) :
    applyJobConditions now (c :: cs) (t, dirty, es) =
      if c.Type_ = JobFailed ∧ c.Status = ConditionTrue then
        applyJobConditions now cs
          (t.apply TrialFailed ConditionTrue c.Reason c.Message now, true,
           es ++ [Event.ApplyCondition TrialFailed ConditionTrue c.Reason c.Message])
      else applyJobConditions now cs (t, dirty, es) := by
  rw [applyJobConditions]
  rfl

theorem applyJobConditions_append (now : Time) (xs ys : List JobCondition) :
    ∀ acc : Trial × Bool × List Event,
      applyJobConditions now (xs ++ ys) acc =
        applyJobConditions now ys (applyJobConditions now xs acc) := by
  induction xs with
  | nil => intro acc; rfl
  | cons c cs ih =>
    rintro ⟨t, dirty, es⟩
    rw [List.cons_append, applyJobConditions_cons, applyJobConditions_cons]
    split_ifs
    · exact ih _
    · exact ih _

theorem applyJobConditions_events (now : Time) (cs : List JobCondition) :
    ∀ acc : Trial × Bool × List Event, ∀ e ∈ acc.2.2,
      e ∈ (applyJobConditions now cs acc).2.2 := by
  induction cs with
  | nil => intro acc e he; exact he
  | cons c cs ih =>
    rintro ⟨t, dirty, es⟩ e he
    unfold applyJobConditions
    split_ifs
    · exact ih _ e (List.mem_append_left _ he)
    · exact ih _ e he

theorem applyJobConditions_failed (now : Time) (cs : List JobCondition) :
    ∀ acc : Trial × Bool × List Event,
      (∃ stored, findCondition acc.1.Status TrialFailed = some stored ∧
        stored.Status = ConditionTrue) →
      ∃ stored, findCondition (applyJobConditions now cs acc).1.Status TrialFailed =
          some stored ∧ stored.Status = ConditionTrue := by
  induction cs with
  | nil => intro acc h; exact h
  | cons c cs ih =>
    rintro ⟨t, dirty, es⟩ h
    unfold applyJobConditions
    split_ifs
    · apply ih
      obtain ⟨stored, h1, _, h2, _⟩ :=
        findCondition_apply t TrialFailed ConditionTrue c.Reason c.Message now
      exact ⟨stored, h1, h2⟩
    · exact ih _ h

theorem applyPodFailures_events (now : Time) (pods : List Pod) :
    ∀ acc : Trial × Bool × List Event, ∀ e ∈ acc.2.2,
      e ∈ (TrialJobReconciler.applyPodFailures now pods acc).2.2 := by
  induction pods with
  | nil => intro acc e he; exact he
  | cons p ps ih =>
    rintro ⟨t, dirty, es⟩ e he
    unfold TrialJobReconciler.applyPodFailures
    split_ifs
    · exact ih _ e (List.mem_append_left _ he)
    · exact ih _ e he

theorem applyPodFailures_failed (now : Time) (pods : List Pod) :
    ∀ acc : Trial × Bool × List Event,
      (∃ stored, findCondition acc.1.Status TrialFailed = some stored ∧
        stored.Status = ConditionTrue) →
      ∃ stored, findCondition
          (TrialJobReconciler.applyPodFailures now pods acc).1.Status TrialFailed =
          some stored ∧ stored.Status = ConditionTrue := by
  induction pods with
  | nil => intro acc h; exact h
  | cons p ps ih =>
    rintro ⟨t, dirty, es⟩ h
    unfold TrialJobReconciler.applyPodFailures
    split_ifs
    · apply ih
      obtain ⟨stored, h1, _, h2, _⟩ :=
        findCondition_apply t TrialFailed ConditionTrue p.Reason "" now
      exact ⟨stored, h1, h2⟩
    · exact ih _ h

/-- A pod in the failed phase makes the loop over the pods report a change, record the
`Failed=True` update with the reason of the pod, and leave `Failed=True` stored. -/
theorem applyPodFailures_pod (now : Time) (pods : List Pod) (p : Pod) (hp : p ∈ pods)
    (hf : p.Phase = PodFailed) :
    ∀ acc : Trial × Bool × List Event,
      (TrialJobReconciler.applyPodFailures now pods acc).2.1 = true ∧
      Event.ApplyCondition TrialFailed ConditionTrue p.Reason "" ∈
        (TrialJobReconciler.applyPodFailures now pods acc).2.2 ∧
      ∃ stored, findCondition
          (TrialJobReconciler.applyPodFailures now pods acc).1.Status TrialFailed =
          some stored ∧ stored.Status = ConditionTrue := by
  induction pods with
  | nil => cases hp
  | cons q qs ih =>
    rintro ⟨t, dirty, es⟩
    rcases List.mem_cons.1 hp with rfl | hq
    · unfold TrialJobReconciler.applyPodFailures
      rw [if_pos hf]
      refine ⟨applyPodFailures_dirty now qs _ _, ?_, ?_⟩
      · exact applyPodFailures_events now qs _ _ (by simp)
      · apply applyPodFailures_failed
        obtain ⟨stored, h1, _, h2, _⟩ :=
          findCondition_apply t TrialFailed ConditionTrue p.Reason "" now
        exact ⟨stored, h1, h2⟩
    · unfold TrialJobReconciler.applyPodFailures
      split_ifs
      · exact ih hq _
      · exact ih hq _

/-- The tail of both `applyJobStatus` on a job that carries a failed condition `c`. -/
theorem finishJobStatus_failed (t : Trial) (job : Job) (now : Time) (s f : Option Time)
    (d : Bool) (es : List Event) (pre post : List JobCondition) (c : JobCondition)
    (hcs : job.Status.Conditions = pre ++ c :: post)
    (hc : c.Type_ = JobFailed ∧ c.Status = ConditionTrue) :
    (finishJobStatus t job now s f d es).update = true ∧
    (finishJobStatus t job now s f d es).requeue = false ∧
    Event.ApplyCondition TrialFailed ConditionTrue c.Reason c.Message ∈
      (finishJobStatus t job now s f d es).trace ∧
    ∃ stored, findCondition (finishJobStatus t job now s f d es).trial.Status TrialFailed =
        some stored ∧ stored.Status = ConditionTrue ∧
      ((∀ c1 ∈ post, ¬ (c1.Type_ = JobFailed ∧ c1.Status = ConditionTrue)) →
        stored.Reason = c.Reason ∧ stored.Message = c.Message) := by
  unfold finishJobStatus
  dsimp only
  rw [hcs, applyJobConditions_append]
  generalize applyJobConditions now pre ((mergeTimes t s f d).1, (mergeTimes t s f d).2, es)
    = acc
  obtain ⟨t1, d1, es1⟩ := acc
  rw [applyJobConditions_cons, if_pos hc]
  refine ⟨applyJobConditions_dirty now post _ _, rfl, ?_, ?_⟩
  · exact applyJobConditions_events now post _ _ (by simp)
  · obtain ⟨stored, h1, _, h2, h3, h4⟩ :=
      findCondition_apply t1 TrialFailed ConditionTrue c.Reason c.Message now
    by_cases hpost : ∀ c1 ∈ post, ¬ (c1.Type_ = JobFailed ∧ c1.Status = ConditionTrue)
    · rw [applyJobConditions_none now post hpost]
      exact ⟨stored, h1, h2, fun _ => ⟨h3, h4⟩⟩
    · obtain ⟨stored1, g1, g2⟩ := applyJobConditions_failed now post
        (t1.apply TrialFailed ConditionTrue c.Reason c.Message now, true,
          es1 ++ [Event.ApplyCondition TrialFailed ConditionTrue c.Reason c.Message])
        ⟨stored, h1, h2⟩
      exact ⟨stored1, g1, g2, fun h => absurd h hpost⟩

/-- The method of `trial_job_controller.go` on a consistent observation with a pod in the
failed phase: the trial is failed and an update is reported. -/
theorem TrialJobReconciler.jobStatus_pod_failed
    (m : Option LabelSelector → Except Error Selector)
    (l : String → Selector → Except Error (List Pod)) (t : Trial) (job : Job) (now : Time)
    (sel : Selector) (pods : List Pod) (p : Pod)
    (hm : m job.Selector = .ok sel) (hl : l job.Namespace sel = .ok pods)
    (hcons : ¬ (((containerTime pods).1 = none ∧ job.Status.StartTime ≠ none) ∨
      ((containerTime pods).2 = none ∧ job.Status.CompletionTime ≠ none)))
    (hp : p ∈ pods) (hf : p.Phase = PodFailed) :
    (TrialJobReconciler.applyJobStatus m l t job now).update = true ∧
    (TrialJobReconciler.applyJobStatus m l t job now).requeue = false ∧
    Event.ApplyCondition TrialFailed ConditionTrue p.Reason "" ∈
      (TrialJobReconciler.applyJobStatus m l t job now).trace ∧
    CheckConditionIs (TrialJobReconciler.applyJobStatus m l t job now).trial.Status
      TrialFailed ConditionTrue = true := by
  obtain ⟨h1, h2, h3⟩ := applyPodFailures_pod now pods p hp hf (t, false, [Event.ListPods])
  have heq : TrialJobReconciler.applyJobStatus m l t job now =
      finishJobStatus
        (TrialJobReconciler.applyPodFailures now pods (t, false, [Event.ListPods])).1 job now
        (containerTime pods).1 (containerTime pods).2
        (TrialJobReconciler.applyPodFailures now pods (t, false, [Event.ListPods])).2.1
        (TrialJobReconciler.applyPodFailures now pods (t, false, [Event.ListPods])).2.2 := by
    unfold TrialJobReconciler.applyJobStatus
    rw [hm]
    dsimp only
    rw [hl]
    dsimp only
    rw [if_neg hcons]
  rw [heq, h1]
  unfold finishJobStatus
  dsimp only
  refine ⟨?_, rfl, ?_, ?_⟩
  · rw [mergeTimes_dirty_of]
    exact applyJobConditions_dirty now _ _ _
  · exact applyJobConditions_events now _ _ _ h2
  · have hstored : ∃ stored, findCondition (mergeTimes
        (TrialJobReconciler.applyPodFailures now pods (t, false, [Event.ListPods])).1
        (containerTime pods).1 (containerTime pods).2 true).1.Status TrialFailed =
          some stored ∧ stored.Status = ConditionTrue := by
      unfold findCondition
      rw [mergeTimes_Conditions]
      exact h3
    obtain ⟨stored, g1, g2⟩ := applyJobConditions_failed now job.Status.Conditions
      ((mergeTimes
        (TrialJobReconciler.applyPodFailures now pods (t, false, [Event.ListPods])).1
        (containerTime pods).1 (containerTime pods).2 true).1,
       (mergeTimes
        (TrialJobReconciler.applyPodFailures now pods (t, false, [Event.ListPods])).1
        (containerTime pods).1 (containerTime pods).2 true).2,
       (TrialJobReconciler.applyPodFailures now pods (t, false, [Event.ListPods])).2.2)
      hstored
    unfold CheckConditionIs CheckCondition
    rw [g1]
    simp [g2]

/-- C16: a pod in the failed phase is missed by `applyJobStatus` of `trial_controller.go`.
For the run job `Sample.runJob` with the single listed pod in the `Failed` phase (reason
`Evicted`, no container state, so the observation is consistent) the function reports
`update = false` and leaves the trial without a `Failed` condition, and the pass of
`TrialReconciler.Reconcile` commits nothing; `TrialJobReconciler.applyJobStatus`, on the same
input, stores `Failed=True` with reason `Evicted`, reports `update = true`, and its pass
commits. -/
theorem C16_pod_failure_missed :
    applyJobStatus Sample.quiet.MatchingSelector (fun _ _ => .ok Sample.failedPods)
        (Sample.trialWith [] []) Sample.runJob 7 =
      { trial := Sample.trialWith [] [], update := false, requeue := false,
        trace := [Event.ListPods] } ∧
    TrialJobReconciler.applyJobStatus Sample.quiet.MatchingSelector
        (fun _ _ => .ok Sample.failedPods) (Sample.trialWith [] []) Sample.runJob 7 =
      { trial := Sample.trialWith [] [newCondition TrialFailed ConditionTrue "Evicted" "" 7],
        update := true, requeue := false,
        trace := [Event.ListPods, Event.ApplyCondition TrialFailed ConditionTrue "Evicted" ""] } ∧
    TrialReconciler.Reconcile (Sample.observing Sample.runJob Sample.failedPods) 7
        (.ok (Sample.trialWith [] [])) =
      { result := Result.empty, err := none, trial := Sample.trialWith [] [],
        trace := [Event.ListJobs, Event.applyJobStatus Sample.runJob, Event.ListPods] } ∧
    TrialJobReconciler.Reconcile (Sample.observing Sample.runJob Sample.failedPods) 7
        (.ok (Sample.trialWith [] [])) =
      { result := Result.empty, err := none,
        trial := Sample.trialWith [] [newCondition TrialFailed ConditionTrue "Evicted" "" 7],
        trace := [Event.ListJobs, Event.applyJobStatus Sample.runJob, Event.ListPods,
          Event.ApplyCondition TrialFailed ConditionTrue "Evicted" "",
          Event.Update
            (Sample.trialWith [] [newCondition TrialFailed ConditionTrue "Evicted" "" 7])] } := by
  refine ⟨by decide, by decide, by decide, by decide⟩

/-- C17: a failed job fails the trial and its times are still merged. On a consistent
observation (the pods are not listed, or the container scan does not lag behind the job
status) of a job whose conditions hold a condition `c` of type `Failed` with status `True`,
both `applyJobStatus` report `update = true` and no requeue, call `ApplyCondition` with
`Failed=True` and the reason and message of `c`, leave `Failed=True` stored (with the reason
and message of `c` when no failed condition follows `c` in the list), and the start and
completion time of the trial after the call are the merge of the times observed in this
call. -/
theorem C17_job_failure (m : Option LabelSelector → Except Error Selector)
    (l : String → Selector → Except Error (List Pod)) (t : Trial) (job : Job) (now : Time)
    (pre post : List JobCondition) (c : JobCondition)
    (hcons : ∀ sel pods, m job.Selector = .ok sel → l job.Namespace sel = .ok pods →
      ¬ (((containerTime pods).1 = none ∧ job.Status.StartTime ≠ none) ∨
        ((containerTime pods).2 = none ∧ job.Status.CompletionTime ≠ none)))
    (hcs : job.Status.Conditions = pre ++ c :: post)
    (hc : c.Type_ = JobFailed ∧ c.Status = ConditionTrue) :
    ∀ s ∈ [applyJobStatus m l t job now, TrialJobReconciler.applyJobStatus m l t job now],
      s.update = true ∧ s.requeue = false ∧
      Event.ApplyCondition TrialFailed ConditionTrue c.Reason c.Message ∈ s.trace ∧
      (∃ stored, findCondition s.trial.Status TrialFailed = some stored ∧
        stored.Status = ConditionTrue ∧
        ((∀ c1 ∈ post, ¬ (c1.Type_ = JobFailed ∧ c1.Status = ConditionTrue)) →
          stored.Reason = c.Reason ∧ stored.Message = c.Message)) ∧
      s.trial.Status.StartTime =
        (latestTime t.Status.StartTime (observedTimes m l job).1 t.Spec.StartTimeOffset).1 ∧
      s.trial.Status.CompletionTime =
        (earliestTime t.Status.CompletionTime (observedTimes m l job).2).1 := by
  intro s hs
  simp only [List.mem_cons, List.mem_singleton, List.not_mem_nil, or_false] at hs
  rcases hs with rfl | rfl
  · rcases applyJobStatus_cases m l t job now with
      ⟨sel, pods, hm, hl, hlag, _⟩ | ⟨es, _, heq⟩
    · exact absurd hlag (hcons sel pods hm hl)
    · rw [heq]
      obtain ⟨h1, h2, h3, h4⟩ := finishJobStatus_failed t job now (observedTimes m l job).1
        (observedTimes m l job).2 false es pre post c hcs hc
      obtain ⟨_, g2, g3⟩ := finishJobStatus_times t job now (observedTimes m l job).1
        (observedTimes m l job).2 false es
      exact ⟨h1, h2, h3, h4, g2, g3⟩
  · rcases TrialJobReconciler.jobStatus_cases m l t job now with
      ⟨sel, pods, hm, hl, hlag, _⟩ | ⟨sel, pods, _, _, heq⟩ | ⟨es, _, heq⟩
    · exact absurd hlag (hcons sel pods hm hl)
    · rw [heq]
      obtain ⟨h1, h2, h3, h4⟩ := finishJobStatus_failed
        (TrialJobReconciler.applyPodFailures now pods (t, false, [Event.ListPods])).1 job now
        (observedTimes m l job).1 (observedTimes m l job).2
        (TrialJobReconciler.applyPodFailures now pods (t, false, [Event.ListPods])).2.1
        (TrialJobReconciler.applyPodFailures now pods (t, false, [Event.ListPods])).2.2
        pre post c hcs hc
      obtain ⟨g1, g2, g3⟩ := finishJobStatus_times
        (TrialJobReconciler.applyPodFailures now pods (t, false, [Event.ListPods])).1 job now
        (observedTimes m l job).1 (observedTimes m l job).2
        (TrialJobReconciler.applyPodFailures now pods (t, false, [Event.ListPods])).2.1
        (TrialJobReconciler.applyPodFailures now pods (t, false, [Event.ListPods])).2.2
      obtain ⟨p1, p2, p3⟩ := applyPodFailures_times now pods (t, false, [Event.ListPods])
      refine ⟨h1, h2, h3, h4, ?_, ?_⟩
      · rw [g2, p1, p2]
      · rw [g3, p3]
    · rw [heq]
      obtain ⟨h1, h2, h3, h4⟩ := finishJobStatus_failed t job now (observedTimes m l job).1
        (observedTimes m l job).2 false es pre post c hcs hc
      obtain ⟨_, g2, g3⟩ := finishJobStatus_times t job now (observedTimes m l job).1
        (observedTimes m l job).2 false es
      exact ⟨h1, h2, h3, h4, g2, g3⟩

/-! ## Metric collection -/

theorem isLookup_quiet {e : Event} (h : e.isLookup = true) :
    e.isWrite = false ∧ e.isApplyCondition = false ∧ ∀ n, e ≠ Event.CaptureMetric n := by
  cases e <;> simp_all [Event.isLookup, Event.isWrite, Event.isApplyCondition]

/-- The job loop either returns without fetching the experiment, or runs to its end with
the trial as it was and nothing but lookups. -/
theorem jobLoop_lookup (r : Env) (now : Time) (jobs : List Job) :
    ∀ (i : Nat) (t : Trial) (n : Bool),
      (∃ o, TrialReconciler.jobLoop r now i jobs t n = .returned o ∧
        Event.GetExperiment ∉ o.trace) ∨
      (∃ n1 es, TrialReconciler.jobLoop r now i jobs t n = .finished n1 t es ∧
        ∀ e ∈ es, e.isLookup = true ∧ e ≠ Event.GetExperiment) := by
  induction jobs with
  | nil =>
    intro i t n
    exact Or.inr ⟨n, [], by rw [TrialReconciler.jobLoop], by simp⟩
  | cons job jobs ih =>
    intro i t n
    rw [jobLoop_cons]
    have hobs := applyJobStatus_trace r.MatchingSelector (r.ListPods i) t job now
    have hno : Event.GetExperiment ∉
        (applyJobStatus r.MatchingSelector (r.ListPods i) t job now).trace := by
      intro hmem
      have := hobs _ hmem
      cases this
    by_cases hlabel : mapIndex job.Labels LabelTrialRole = "trialSetup"
    · rw [if_neg (by simpa using hlabel)]
      exact ih (i + 1) t n
    · rw [if_pos hlabel]
      cases hu : (applyJobStatus r.MatchingSelector (r.ListPods i) t job now).update with
      | true =>
        rw [if_pos rfl]
        refine Or.inl ⟨_, rfl, ?_⟩
        simp only [Outcome.after_trace, forTrialUpdate_trace, List.mem_append, List.mem_cons,
          List.mem_singleton, List.not_mem_nil, or_false, not_or]
        exact ⟨⟨by simp, hno⟩, by simp⟩
      | false =>
        rw [if_neg (by simp)]
        obtain ⟨ht, hes⟩ := applyJobStatus_clean _ _ _ _ _ hu
        cases hr : (applyJobStatus r.MatchingSelector (r.ListPods i) t job now).requeue with
        | true =>
          rw [if_pos rfl]
          refine Or.inl ⟨_, rfl, ?_⟩
          simp only [List.mem_cons, not_or]
          exact ⟨by simp, hno⟩
        | false =>
          rw [if_neg (by simp), ht]
          have hes1 : ∀ e ∈ Event.applyJobStatus job ::
              (applyJobStatus r.MatchingSelector (r.ListPods i) t job now).trace,
              e.isLookup = true ∧ e ≠ Event.GetExperiment := by
            intro e he
            rcases List.mem_cons.1 he with rfl | he
            · exact ⟨rfl, by simp⟩
            · rw [hes e he]; exact ⟨rfl, by simp⟩
          rcases ih (i + 1) t false with ⟨o, ho, hno1⟩ | ⟨n1, es, hfin, hes2⟩
          · rw [ho]
            refine Or.inl ⟨_, rfl, ?_⟩
            simp only [Outcome.after_trace, List.mem_append, not_or]
            exact ⟨fun hmem => (hes1 _ hmem).2 rfl, hno1⟩
          · rw [hfin]
            refine Or.inr ⟨n1, _, rfl, ?_⟩
            intro e he
            rcases List.mem_append.1 he with he | he
            · exact hes1 e he
            · exact hes2 e he

/-- A pass that fetches the experiment went straight to workload discovery. -/
theorem collection_discovery (r : Env) (now : Time) (t : Trial)
    (h : Event.GetExperiment ∈ (TrialReconciler.Reconcile r now (.ok t)).trace) :
    TrialReconciler.Reconcile r now (.ok t) = TrialReconciler.reconcileJobs r now t := by
  have hfd : ¬ (IsFinished t || !IsZero t.DeletionTimestamp) = true := by
    intro hc
    simp only [TrialReconciler.Reconcile, hc, if_true] at h
    cases h
  have hrec : TrialReconciler.Reconcile r now (.ok t) = TrialReconciler.reconcileWait r now t := by
    simp only [TrialReconciler.Reconcile, hfd, if_false]
    rfl
  rw [hrec] at h ⊢
  have hwait : ∀ p ∈ t.Spec.PatchOperations, p.Wait = false := by
    unfold TrialReconciler.reconcileWait at h
    have hearly := stabilityLoop_early r now t.Spec.PatchOperations 0 t 0
    cases hs : TrialReconciler.stabilityLoop r now 0 t.Spec.PatchOperations t 0 with
    | returned o =>
      rw [hs] at h hearly
      have := hearly _ h
      cases this
    | finished w t1 es =>
      rw [hs] at h hearly
      obtain ⟨_, hpos⟩ := stabilityLoop_finished r now _ 0 t 0 w t1 es hs
      simp only [Scan.andThen, Outcome.after_trace, List.mem_append] at h
      rcases h with h | h
      · have := hearly _ h
        cases this
      · unfold TrialReconciler.afterWait at h
        split_ifs at h with hw
        · simp [TrialReconciler.adjustResponse] at h
          split_ifs at h <;> simp at h
        · intro p hp
          by_contra hpw
          exact hw (hpos p hp (by simpa using hpw))
  rw [reconcileWait_not_waiting r now t hwait] at h ⊢
  unfold TrialReconciler.reconcileStable at h ⊢
  split_ifs at h ⊢
  · simp at h
  · unfold TrialReconciler.reconcileGuard at h ⊢
    split_ifs at h ⊢
    · simp at h
    · rfl

/-- A pass that fetches the experiment reached metric collection with the trial as it was
fetched, behind lookups only. -/
theorem reaches_metrics (r : Env) (now : Time) (t : Trial)
    (h : Event.GetExperiment ∈ (TrialReconciler.Reconcile r now (.ok t)).trace) :
    ∃ es, (∀ e ∈ es, e.isLookup = true ∧ e ≠ Event.GetExperiment) ∧
      TrialReconciler.Reconcile r now (.ok t) =
        (TrialReconciler.reconcileMetrics r now t).after es := by
  have hd := collection_discovery r now t h
  rw [hd] at h ⊢
  unfold TrialReconciler.reconcileJobs at h ⊢
  cases hsel : r.MatchingSelector (r.GetJobSelector t) with
  | error err => rw [hsel] at h; simp at h
  | ok sel =>
    rw [hsel] at h
    dsimp only at h ⊢
    cases hitems : r.ListJobs sel with
    | error err => rw [hitems] at h; simp at h
    | ok items =>
      rw [hitems] at h
      dsimp only at h ⊢
      rcases jobLoop_lookup r now items 0 t true with ⟨o, ho, hno⟩ | ⟨n1, es, hfin, hes⟩
      · rw [ho] at h
        simp [Scan.andThen] at h
        exact absurd h hno
      · rw [hfin] at h ⊢
        cases n1 with
        | true =>
          simp only [Scan.andThen, Outcome.after_trace, List.mem_append,
            TrialReconciler.createOrObserve, if_true] at h
          rcases h with h | h | h
          · simp at h
          · exact absurd rfl (hes _ h).2
          · split at h <;> simp at h
        | false =>
          refine ⟨Event.ListJobs :: es, ?_, ?_⟩
          · intro e he
            rcases List.mem_cons.1 he with rfl | he
            · exact ⟨rfl, by simp⟩
            · exact hes e he
          · simp [Scan.andThen, TrialReconciler.createOrObserve, Outcome.after]

/-- A value without attempts left is a stored value: `findOrCreateValue` adds nothing. -/
theorem budget_zero (t : Trial) (name : String) (h : budget t name = 0) :
    (findOrCreateValue t name).1 = t := by
  unfold budget findOrCreateValue at h
  unfold findOrCreateValue
  cases hf : t.Spec.Values.findIdx? (fun v => decide (v.Name = name)) with
  | some i => rfl
  | none =>
    rw [hf] at h
    simp [valueAt] at h

theorem metricLoop_cons (r : Env) (now : Time) (ns : String) (i : Nat) (m : Metric)
    (ms : List Metric) (t : Trial) :
    TrialReconciler.metricLoop r now ns i (m :: ms) t =
      if budget t m.Name = 0 then
        TrialReconciler.metricLoop r now ns (i + 1) ms (findOrCreateValue t m.Name).1
      else .returned (TrialReconciler.captureStep r now ns i m (findOrCreateValue t m.Name).1
        (findOrCreateValue t m.Name).2) := by
  rw [TrialReconciler.metricLoop]
  rfl

/-- The metric loop passes over the metrics without attempts left. -/
theorem metricLoop_skip (r : Env) (now : Time) (ns : String) (pre rest : List Metric)
    (t : Trial) (hpre : ∀ m1 ∈ pre, budget t m1.Name = 0) :
    ∀ i, TrialReconciler.metricLoop r now ns i (pre ++ rest) t =
      TrialReconciler.metricLoop r now ns (i + pre.length) rest t := by
  induction pre with
  | nil => intro i; rfl
  | cons m pre ih =>
    intro i
    have h0 := hpre m (List.mem_cons_self _ _)
    rw [List.cons_append, metricLoop_cons, if_pos h0, budget_zero t m.Name h0,
      ih (fun m1 hm1 => hpre m1 (List.mem_cons_of_mem _ hm1)) (i + 1)]
    congr 1
    simp only [List.length_cons]
    omega

/-- The pass that reaches the first metric with attempts left is the attempt on that
metric, behind lookups only. -/
theorem reaches_capture (r : Env) (now : Time) (t : Trial) (pre : List Metric) (m : Metric)
    (h : ReachesMetric r now t pre m)
    (hobs : (CheckCondition t.Status TrialObserved ConditionUnknown).2 = true)
    (hopen : budget t m.Name ≠ 0) :
    ∃ es, (∀ e ∈ es, e.isLookup = true) ∧
      TrialReconciler.Reconcile r now (.ok t) =
        (TrialReconciler.captureStep r now (TrialReconciler.metricNamespace t) pre.length m
          (findOrCreateValue t m.Name).1 (findOrCreateValue t m.Name).2).after es := by
  obtain ⟨hget, ⟨post, he⟩, hpre⟩ := h
  obtain ⟨es, hes, heq⟩ := reaches_metrics r now t hget
  rw [heq] at hget ⊢
  have hct : t.Status.CompletionTime ≠ none := by
    intro hc
    simp only [TrialReconciler.reconcileMetrics, hc, ne_eq, not_true_eq_false, if_false,
      Outcome.after_trace, List.append_nil] at hget
    exact (hes _ hget).2 rfl
  refine ⟨es ++ [Event.GetExperiment], ?_, ?_⟩
  · intro e he1
    rcases List.mem_append.1 he1 with he1 | he1
    · exact (hes e he1).1
    · rw [List.mem_singleton.1 he1]; rfl
  · rw [TrialReconciler.reconcileMetrics, if_pos hct, he]
    dsimp only
    rw [TrialReconciler.observe, if_neg (by simp [hobs])]
    dsimp only
    have hloop := metricLoop_skip r now (TrialReconciler.metricNamespace t) pre (m :: post) t
      hpre 0
    rw [Nat.zero_add] at hloop
    rw [hloop, metricLoop_cons, if_neg hopen]
    simp [Scan.andThen, Outcome.after]

/-! ## Values and attempts -/

theorem findOrCreateValue_found (t : Trial) (name : String) (i : Nat)
    (h : t.Spec.Values.findIdx? (fun v => decide (v.Name = name)) = some i) :
    findOrCreateValue t name = (t, i) := by
  unfold findOrCreateValue
  rw [h]

theorem findOrCreateValue_absent (t : Trial) (name : String)
    (h : t.Spec.Values.findIdx? (fun v => decide (v.Name = name)) = none) :
    findOrCreateValue t name =
      ({ t with Spec := { t.Spec with Values := t.Spec.Values ++
          [{ Name := name, Value := "", Error := "", AttemptsRemaining := 3 }] } },
       t.Spec.Values.length) := by
  unfold findOrCreateValue
  rw [h]

/-- The pointer `findOrCreateValue` returns is the first value of that name. -/
theorem findOrCreateValue_idx (t : Trial) (name : String) :
    (findOrCreateValue t name).1.Spec.Values.findIdx? (fun v => decide (v.Name = name)) =
      some (findOrCreateValue t name).2 := by
  cases h : t.Spec.Values.findIdx? (fun v => decide (v.Name = name)) with
  | some i => rw [findOrCreateValue_found t name i h]; exact h
  | none =>
    rw [findOrCreateValue_absent t name h]
    simp [List.findIdx?_append, h, List.findIdx?_cons]

theorem findOrCreateValue_Status (t : Trial) (name : String) :
    (findOrCreateValue t name).1.Status = t.Status := by
  unfold findOrCreateValue
  split <;> rfl

theorem findOrCreateValue_lt (t : Trial) (name : String) :
    (findOrCreateValue t name).2 < (findOrCreateValue t name).1.Spec.Values.length := by
  obtain ⟨h, _⟩ := List.findIdx?_eq_some_iff_getElem.1 (findOrCreateValue_idx t name)
  exact h

theorem valueAt_eq (t : Trial) (i : Nat) (h : i < t.Spec.Values.length) :
    valueAt t i = t.Spec.Values.get ⟨i, h⟩ := by
  unfold valueAt
  rw [List.get?_eq_get h]
  rfl

theorem findOrCreateValue_Name (t : Trial) (name : String) :
    (valueAt (findOrCreateValue t name).1 (findOrCreateValue t name).2).Name = name := by
  obtain ⟨h, hp, _⟩ := List.findIdx?_eq_some_iff_getElem.1 (findOrCreateValue_idx t name)
  rw [valueAt_eq _ _ h]
  simpa using hp

theorem valueAt_setValue (t : Trial) (i : Nat) (v : Value) (h : i < t.Spec.Values.length) :
    valueAt (setValue t i v) i = v := by
  unfold valueAt setValue
  simp [List.getElem?_set, h]

/-- The attempts left depend on the values only. -/
theorem budget_values (t t1 : Trial) (name : String) (h : t1.Spec.Values = t.Spec.Values) :
    budget t1 name = budget t name := by
  unfold budget findOrCreateValue valueAt
  rw [h]
  cases t.Spec.Values.findIdx? (fun v => decide (v.Name = name)) with
  | some i => simp [h]
  | none => simp

theorem budget_found (t : Trial) (name : String) (i : Nat)
    (h : t.Spec.Values.findIdx? (fun v => decide (v.Name = name)) = some i) :
    budget t name = (valueAt t i).AttemptsRemaining := by
  unfold budget
  rw [findOrCreateValue_found t name i h]

/-- A metric without a value has three attempts. -/
theorem budget_absent (t : Trial) (name : String) (h : ∀ v ∈ t.Spec.Values, v.Name ≠ name) :
    budget t name = 3 := by
  have hnone : t.Spec.Values.findIdx? (fun v => decide (v.Name = name)) = none := by
    rw [List.findIdx?_eq_none_iff]
    intro v hv
    simpa using h v hv
  unfold budget
  rw [findOrCreateValue_absent t name hnone]
  simp [valueAt]

/-- Writing a value of the same name through the pointer of `findOrCreateValue` sets the
attempts left of that name. -/
theorem budget_set (t t1 : Trial) (name : String) (v : Value) (hv : v.Name = name)
    (h : t1.Spec.Values =
      (findOrCreateValue t name).1.Spec.Values.set (findOrCreateValue t name).2 v) :
    budget t1 name = v.AttemptsRemaining := by
  obtain ⟨hlt, _, hmin⟩ :=
    List.findIdx?_eq_some_iff_getElem.1 (findOrCreateValue_idx t name)
  have hidx : t1.Spec.Values.findIdx? (fun v => decide (v.Name = name)) =
      some (findOrCreateValue t name).2 := by
    rw [h, List.findIdx?_eq_some_iff_getElem]
    refine ⟨by simpa using hlt, by simp [hv], ?_⟩
    intro j hj
    rw [List.getElem_set_ne (by omega)]
    exact hmin j hj
  rw [budget_found t1 name _ hidx]
  unfold valueAt
  rw [h]
  simp [List.getElem?_set, hlt]

/-- The value `findOrCreateValue` may add changes the attempts left of no metric. -/
theorem budget_findOrCreate (t : Trial) (name n : String) :
    budget (findOrCreateValue t name).1 n = budget t n := by
  cases h : t.Spec.Values.findIdx? (fun v => decide (v.Name = name)) with
  | some i => rw [findOrCreateValue_found t name i h]
  | none =>
    rw [findOrCreateValue_absent t name h]
    by_cases hn : n = name
    · subst hn
      have habs : ∀ v ∈ t.Spec.Values, v.Name ≠ n := by
        intro v hv
        simpa using List.findIdx?_eq_none_iff.1 h v hv
      rw [budget_absent t n habs]
      have hidx := findOrCreateValue_idx t n
      rw [findOrCreateValue_absent t n h] at hidx
      rw [budget_found _ n _ hidx]
      simp [valueAt]
    · cases h1 : t.Spec.Values.findIdx? (fun v => decide (v.Name = n)) with
      | some j =>
        have hidx : (t.Spec.Values ++ [(⟨name, "", "", 3⟩ : Value)]).findIdx?
            (fun v => decide (v.Name = n)) = some j := by
          rw [List.findIdx?_append, h1]
          rfl
        obtain ⟨hlt, _, _⟩ := List.findIdx?_eq_some_iff_getElem.1 h1
        rw [budget_found t n j h1, budget_found _ n j hidx]
        simp [valueAt, List.getElem?_append_left hlt]
      | none =>
        have habs : ∀ v ∈ t.Spec.Values, v.Name ≠ n := by
          intro v hv
          simpa using List.findIdx?_eq_none_iff.1 h1 v hv
        rw [budget_absent t n habs, budget_absent]
        intro v hv
        rcases List.mem_append.1 hv with hv | hv
        · exact habs v hv
        · rw [List.mem_singleton.1 hv]
          exact fun hc => hn hc.symm

/-- A stored value of another name is where it was behind the pointer of
`findOrCreateValue`. -/
theorem findOrCreateValue_other (t : Trial) (name : String) (j : Nat) (v : Value)
    (hj : t.Spec.Values.get? j = some v) (hv : v.Name ≠ name) :
    (findOrCreateValue t name).1.Spec.Values.get? j = some v ∧
    j ≠ (findOrCreateValue t name).2 := by
  have hlt : j < t.Spec.Values.length := by
    rw [List.get?_eq_getElem?] at hj
    exact (List.getElem?_eq_some_iff.1 hj).1
  cases h : t.Spec.Values.findIdx? (fun v => decide (v.Name = name)) with
  | some i =>
    rw [findOrCreateValue_found t name i h]
    refine ⟨hj, ?_⟩
    rintro rfl
    obtain ⟨hi, hp, _⟩ := List.findIdx?_eq_some_iff_getElem.1 h
    rw [List.get?_eq_getElem?, List.getElem?_eq_getElem hi] at hj
    cases hj
    exact hv (by simpa using hp)
  | none =>
    rw [findOrCreateValue_absent t name h]
    refine ⟨?_, by simp; omega⟩
    simp only [List.get?_eq_getElem?] at hj ⊢
    rw [List.getElem?_append_left hlt]
    exact hj

theorem findCondition_apply_ne (t : Trial) (k k1 : TrialConditionType) (h : k1 ≠ k)
    (s : ConditionStatus) (a b : String) (now : Time) :
    findCondition (t.apply k s a b now).Status k1 = findCondition t.Status k1 := by
  unfold findCondition
  rw [find_eq_head_filter, find_eq_head_filter]
  exact congrArg List.head? (conditionsOf_apply t k k1 h s a b now)

/-! ## The attempt on a metric -/

theorem getMetricTarget_lookup (matching : Option LabelSelector → Except Error Selector)
    (listPods : String → Selector → Except Error (List Pod))
    (listServices : Selector → Except Error (List Service)) (ns : String) (m : Metric) :
    ∀ e ∈ (getMetricTarget matching listPods listServices ns m).2, e.isLookup = true := by
  intro e he
  rcases getMetricTarget_trace matching listPods listServices ns m e he with rfl | rfl <;> rfl

/-- An attempt that fails for good goes to the handling of the error. -/
theorem captureStep_fatal (r : Env) (now : Time) (t : Trial) (pre : List Metric) (m : Metric)
    (err : Error) (h : FailsFatally r t pre m err) :
    ∃ es, TrialReconciler.captureStep r now (TrialReconciler.metricNamespace t) pre.length m
        (findOrCreateValue t m.Name).1 (findOrCreateValue t m.Name).2 =
      (TrialReconciler.finishCapture r now (findOrCreateValue t m.Name).1
        (findOrCreateValue t m.Name).2 (some err)).after es := by
  unfold TrialReconciler.captureStep
  unfold FailsFatally metricTarget at h
  dsimp only
  rcases h with h | ⟨tgt, h, hc, hr⟩
  · rw [h]
    exact ⟨_, rfl⟩
  · rw [h]
    dsimp only
    rw [hc]
    dsimp only
    rw [hr]
    exact ⟨_, rfl⟩

/-- An attempt that is to be retried returns the delay and touches nothing. -/
theorem captureStep_retry (r : Env) (now : Time) (t : Trial) (pre : List Metric) (m : Metric)
    (d : Duration) (h : FailsRetry r t pre m d) :
    ∃ es, (∀ e ∈ es, e.isLookup = true) ∧
      TrialReconciler.captureStep r now (TrialReconciler.metricNamespace t) pre.length m
        (findOrCreateValue t m.Name).1 (findOrCreateValue t m.Name).2 =
      { result := { Requeue := false, RequeueAfter := d }, err := none,
        trial := (findOrCreateValue t m.Name).1,
        trace := es ++ [Event.CaptureMetric m.Name] } := by
  unfold TrialReconciler.captureStep
  obtain ⟨tgt, address, query, completionTime, text, h, hc, hd⟩ := h
  unfold metricTarget at h
  dsimp only
  rw [h]
  dsimp only
  rw [hc]
  have hr : captureRetry (Error.CaptureError d address query completionTime text) = some d := by
    simp [captureRetry, Error.asCaptureError, hd]
  dsimp only
  rw [hr]
  exact ⟨_, getMetricTarget_lookup _ _ _ _ _, rfl⟩

/-- A successful attempt stores the value, closes it and commits. -/
theorem captureStep_ok (r : Env) (now : Time) (t : Trial) (pre : List Metric) (m : Metric)
    (tgt : Option Target) (value stddev : Float64)
    (h : (metricTarget r t pre m).1 = .ok tgt)
    (hc : r.CaptureMetric m (findOrCreateValue t m.Name).1 tgt = .ok (value, stddev)) :
    ∃ es, (∀ e ∈ es, e.isLookup = true) ∧
      TrialReconciler.captureStep r now (TrialReconciler.metricNamespace t) pre.length m
        (findOrCreateValue t m.Name).1 (findOrCreateValue t m.Name).2 =
      (TrialReconciler.forTrialUpdate r
        ((setValue (findOrCreateValue t m.Name).1 (findOrCreateValue t m.Name).2
          { valueAt (findOrCreateValue t m.Name).1 (findOrCreateValue t m.Name).2 with
            AttemptsRemaining := 0, Value := r.FormatFloat value,
            Error := if stddev.nonZero then r.FormatFloat stddev
              else (valueAt (findOrCreateValue t m.Name).1
                (findOrCreateValue t m.Name).2).Error }).apply
          TrialObserved ConditionFalse "" "" now)).after
        (es ++ [Event.CaptureMetric m.Name,
          Event.ApplyCondition TrialObserved ConditionFalse "" ""]) := by
  unfold TrialReconciler.captureStep
  unfold metricTarget at h
  dsimp only
  rw [h]
  dsimp only
  rw [hc]
  refine ⟨(getMetricTarget r.MatchingSelector (r.ListPods pre.length)
    (r.ListServices pre.length) (TrialReconciler.metricNamespace t) m).2,
    getMetricTarget_lookup _ _ _ _ _, ?_⟩
  simp [TrialReconciler.finishCapture, Outcome.after]

/-- The handling of an error with more than one attempt left: one attempt is consumed and
the observation goes on. -/
theorem finishCapture_more (r : Env) (now : Time) (t : Trial) (idx : Nat) (err : Error)
    (hidx : idx < t.Spec.Values.length) (hb : 1 < (valueAt t idx).AttemptsRemaining) :
    TrialReconciler.finishCapture r now t idx (some err) =
      (TrialReconciler.forTrialUpdate r
        ((setValue t idx { valueAt t idx with
            AttemptsRemaining := (valueAt t idx).AttemptsRemaining - 1 }).apply
          TrialObserved ConditionFalse "" "" now)).after
        [Event.ApplyCondition TrialObserved ConditionFalse "" ""] := by
  unfold TrialReconciler.finishCapture
  dsimp only
  rw [if_pos (by omega), valueAt_setValue _ _ _ hidx]
  dsimp only
  rw [if_neg (by omega)]

/-- The handling of an error with one attempt left: the attempt is consumed and the trial
fails. -/
theorem finishCapture_last (r : Env) (now : Time) (t : Trial) (idx : Nat) (err : Error)
    (hidx : idx < t.Spec.Values.length) (hb : (valueAt t idx).AttemptsRemaining = 1) :
    TrialReconciler.finishCapture r now t idx (some err) =
      (TrialReconciler.forTrialUpdate r
        (((setValue t idx { valueAt t idx with AttemptsRemaining := 0 }).apply
            TrialFailed ConditionTrue "MetricFailed" err.text now).apply
          TrialObserved ConditionFalse "" "" now)).after
        [Event.ApplyCondition TrialFailed ConditionTrue "MetricFailed" err.text,
         Event.ApplyCondition TrialObserved ConditionFalse "" ""] := by
  unfold TrialReconciler.finishCapture
  dsimp only
  rw [if_pos (by omega), valueAt_setValue _ _ _ hidx]
  dsimp only
  rw [if_pos (by omega), hb]
  rfl

/-! ## Passes of metric collection -/

/-- A pass that fetches the experiment works on a trial that is not finished. -/
theorem collection_unfinished (r : Env) (now : Time) (t : Trial)
    (h : Event.GetExperiment ∈ (TrialReconciler.Reconcile r now (.ok t)).trace) :
    IsFinished t = false := by
  by_contra hc
  have hfin : IsFinished t = true := by simpa using hc
  simp [TrialReconciler.Reconcile, hfin] at h

theorem unfinished_not_failed (t : Trial) (h : IsFinished t = false) :
    ∀ c ∈ conditionsOf TrialFailed t, c.Status ≠ ConditionTrue := by
  intro c hc hs
  unfold conditionsOf at hc
  obtain ⟨hmem, hk⟩ := List.mem_filter.1 hc
  unfold IsFinished at h
  rw [List.any_eq_false] at h
  have := h c hmem
  simp [hs] at this
  exact this.2 (by simpa using hk)

/-- A pass in which the attempt on the first open metric fails for good, with at least one
attempt left: the attempt is consumed, `Observed=False` is stored, the trial is committed;
the `Failed` conditions stay as they were while an attempt is left, and `Failed=True` with
reason `MetricFailed` and the text of the error is stored with the last one. -/
theorem fatal_pass (r : Env) (now : Time) (t : Trial) (pre : List Metric) (m : Metric)
    (err : Error) (h : ReachesMetric r now t pre m)
    (hobs : (CheckCondition t.Status TrialObserved ConditionUnknown).2 = true)
    (hfail : FailsFatally r t pre m err) (hb : 0 < budget t m.Name) :
    budget (TrialReconciler.Reconcile r now (.ok t)).trial m.Name = budget t m.Name - 1 ∧
    (CheckCondition (TrialReconciler.Reconcile r now (.ok t)).trial.Status TrialObserved
      ConditionUnknown).2 = true ∧
    (∃ c, findCondition (TrialReconciler.Reconcile r now (.ok t)).trial.Status TrialObserved =
      some c ∧ c.Status = ConditionFalse) ∧
    Event.Update (TrialReconciler.Reconcile r now (.ok t)).trial ∈
      (TrialReconciler.Reconcile r now (.ok t)).trace ∧
    (1 < budget t m.Name →
      conditionsOf TrialFailed (TrialReconciler.Reconcile r now (.ok t)).trial =
        conditionsOf TrialFailed t) ∧
    (budget t m.Name = 1 →
      ∃ c, findCondition (TrialReconciler.Reconcile r now (.ok t)).trial.Status TrialFailed =
        some c ∧ c.Status = ConditionTrue ∧ c.Reason = "MetricFailed" ∧
        c.Message = err.text) := by
  obtain ⟨es, _, heq⟩ := reaches_capture r now t pre m h hobs (ne_of_gt hb)
  obtain ⟨es1, hcs⟩ := captureStep_fatal r now t pre m err hfail
  have hlt := findOrCreateValue_lt t m.Name
  have hname := findOrCreateValue_Name t m.Name
  have hbud : (valueAt (findOrCreateValue t m.Name).1
      (findOrCreateValue t m.Name).2).AttemptsRemaining = budget t m.Name := rfl
  have hobserved : ∀ x : Trial,
      (CheckCondition (x.apply TrialObserved ConditionFalse "" "" now).Status TrialObserved
        ConditionUnknown).2 = true ∧
      ∃ c, findCondition (x.apply TrialObserved ConditionFalse "" "" now).Status
        TrialObserved = some c ∧ c.Status = ConditionFalse := by
    intro x
    obtain ⟨c, hc, _, hs, _⟩ := findCondition_apply x TrialObserved ConditionFalse "" "" now
    refine ⟨?_, c, hc, hs⟩
    unfold CheckCondition
    rw [hc]
  by_cases hb1 : 1 < budget t m.Name
  · have hp : TrialReconciler.Reconcile r now (.ok t) =
        ((TrialReconciler.forTrialUpdate r
          ((setValue (findOrCreateValue t m.Name).1 (findOrCreateValue t m.Name).2
            { valueAt (findOrCreateValue t m.Name).1 (findOrCreateValue t m.Name).2 with
              AttemptsRemaining := (valueAt (findOrCreateValue t m.Name).1
                (findOrCreateValue t m.Name).2).AttemptsRemaining - 1 }).apply
            TrialObserved ConditionFalse "" "" now)).after
          [Event.ApplyCondition TrialObserved ConditionFalse "" ""]).after (es ++ es1) := by
      rw [heq, hcs, finishCapture_more r now _ _ err hlt (by rw [hbud]; exact hb1)]
      simp [Outcome.after]
    rw [hp]
    simp only [Outcome.after_trial, forTrialUpdate_trial, Outcome.after_trace,
      forTrialUpdate_trace]
    refine ⟨?_, (hobserved _).1, (hobserved _).2, by simp, fun _ => ?_,
      fun h1 => absurd h1 (by omega)⟩
    · exact budget_set t _ m.Name
        { valueAt (findOrCreateValue t m.Name).1 (findOrCreateValue t m.Name).2 with
          AttemptsRemaining := (valueAt (findOrCreateValue t m.Name).1
            (findOrCreateValue t m.Name).2).AttemptsRemaining - 1 } hname rfl
    · rw [conditionsOf_apply _ TrialObserved TrialFailed (by decide)]
      unfold conditionsOf
      rw [show (setValue (findOrCreateValue t m.Name).1 (findOrCreateValue t m.Name).2
        { valueAt (findOrCreateValue t m.Name).1 (findOrCreateValue t m.Name).2 with
          AttemptsRemaining := (valueAt (findOrCreateValue t m.Name).1
            (findOrCreateValue t m.Name).2).AttemptsRemaining - 1 }).Status =
          (findOrCreateValue t m.Name).1.Status from rfl, findOrCreateValue_Status]
  · have hb2 : budget t m.Name = 1 := by omega
    have hp : TrialReconciler.Reconcile r now (.ok t) =
        ((TrialReconciler.forTrialUpdate r
          (((setValue (findOrCreateValue t m.Name).1 (findOrCreateValue t m.Name).2
            { valueAt (findOrCreateValue t m.Name).1 (findOrCreateValue t m.Name).2 with
              AttemptsRemaining := 0 }).apply
              TrialFailed ConditionTrue "MetricFailed" err.text now).apply
            TrialObserved ConditionFalse "" "" now)).after
          [Event.ApplyCondition TrialFailed ConditionTrue "MetricFailed" err.text,
           Event.ApplyCondition TrialObserved ConditionFalse "" ""]).after (es ++ es1) := by
      rw [heq, hcs, finishCapture_last r now _ _ err hlt (by rw [hbud]; exact hb2)]
      simp [Outcome.after]
    rw [hp]
    simp only [Outcome.after_trial, forTrialUpdate_trial, Outcome.after_trace,
      forTrialUpdate_trace]
    refine ⟨?_, (hobserved _).1, (hobserved _).2, by simp, fun h1 => absurd h1 hb1,
      fun _ => ?_⟩
    · rw [hb2]
      exact budget_set t _ m.Name
        { valueAt (findOrCreateValue t m.Name).1 (findOrCreateValue t m.Name).2 with
          AttemptsRemaining := 0 } hname rfl
    · rw [findCondition_apply_ne _ TrialObserved TrialFailed (by decide)]
      obtain ⟨c, hc, _, h1, h2, h3⟩ := findCondition_apply
        (setValue (findOrCreateValue t m.Name).1 (findOrCreateValue t m.Name).2
          { valueAt (findOrCreateValue t m.Name).1 (findOrCreateValue t m.Name).2 with
            AttemptsRemaining := 0 })
        TrialFailed ConditionTrue "MetricFailed" err.text now
      exact ⟨c, hc, h1, h2, h3⟩

/-- A pass in which the capture of the first open metric asks for a retry: the pass returns
the delay behind lookups and the capture, with the trial as `findOrCreateValue` left it. -/
theorem retry_pass (r : Env) (now : Time) (t : Trial) (pre : List Metric) (m : Metric)
    (d : Duration) (h : ReachesMetric r now t pre m)
    (hobs : (CheckCondition t.Status TrialObserved ConditionUnknown).2 = true)
    (hopen : budget t m.Name ≠ 0) (hretry : FailsRetry r t pre m d) :
    ∃ es, (∀ e ∈ es, e.isLookup = true) ∧
      TrialReconciler.Reconcile r now (.ok t) =
        { result := { Requeue := false, RequeueAfter := d }, err := none,
          trial := (findOrCreateValue t m.Name).1,
          trace := es ++ [Event.CaptureMetric m.Name] } := by
  obtain ⟨es, hes, heq⟩ := reaches_capture r now t pre m h hobs hopen
  obtain ⟨es1, hes1, hcs⟩ := captureStep_retry r now t pre m d hretry
  refine ⟨es ++ es1, ?_, ?_⟩
  · intro e he
    rcases List.mem_append.1 he with he | he
    · exact hes e he
    · exact hes1 e he
  · rw [heq, hcs]
    simp [Outcome.after]

/-- What a retry leaves behind: no write, no condition update, the status and the attempts
of every metric as they were. -/
theorem retry_pass_frame (r : Env) (now : Time) (t : Trial) (pre : List Metric) (m : Metric)
    (d : Duration) (h : ReachesMetric r now t pre m)
    (hobs : (CheckCondition t.Status TrialObserved ConditionUnknown).2 = true)
    (hopen : budget t m.Name ≠ 0) (hretry : FailsRetry r t pre m d) :
    (TrialReconciler.Reconcile r now (.ok t)).result = { Requeue := false, RequeueAfter := d } ∧
    (TrialReconciler.Reconcile r now (.ok t)).err = none ∧
    (∀ e ∈ (TrialReconciler.Reconcile r now (.ok t)).trace,
      e.isWrite = false ∧ e.isApplyCondition = false) ∧
    (TrialReconciler.Reconcile r now (.ok t)).trial.Status = t.Status ∧
    ∀ n, budget (TrialReconciler.Reconcile r now (.ok t)).trial n = budget t n := by
  obtain ⟨es, hes, heq⟩ := retry_pass r now t pre m d h hobs hopen hretry
  rw [heq]
  refine ⟨rfl, rfl, ?_, findOrCreateValue_Status t m.Name,
    fun n => budget_findOrCreate t m.Name n⟩
  intro e he
  rcases List.mem_append.1 he with he | he
  · exact ⟨(isLookup_quiet (hes e he)).1, (isLookup_quiet (hes e he)).2.1⟩
  · rw [List.mem_singleton.1 he]
    exact ⟨rfl, rfl⟩

/-- C18: attempt budget exhaustion. A metric `m` without a value on the trial `t` has three
attempts. Three passes of `TrialReconciler.Reconcile`, each on the trial the pass before
committed, each reaching metric collection with `m` the first open metric and failing for
good on it (its target is not resolved, or its capture fails with an error that asks for no
retry), leave 2, 1 and 0 attempts. The first two store `Observed=False`, leave the `Failed`
conditions as they were (none of them `True`) and commit; the third stores `Failed=True`
with reason `MetricFailed` and the text of its error and commits. A pass whose capture of
`m` fails with a `CaptureError` with `RetryAfter > 0` writes nothing and leaves the attempts
of every metric as they were. -/
theorem C18_attempt_budget (m : Metric) (t : Trial) (r1 r2 r3 : Env) (now1 now2 now3 : Time)
    (pre1 pre2 pre3 : List Metric) (err1 err2 err3 : Error)
    (hnew : ∀ v ∈ t.Spec.Values, v.Name ≠ m.Name)
    (hobs : (CheckCondition t.Status TrialObserved ConditionUnknown).2 = true)
    (h1 : ReachesMetric r1 now1 t pre1 m ∧ FailsFatally r1 t pre1 m err1)
    (h2 : ReachesMetric r2 now2 (TrialReconciler.Reconcile r1 now1 (.ok t)).trial pre2 m ∧
      FailsFatally r2 (TrialReconciler.Reconcile r1 now1 (.ok t)).trial pre2 m err2)
    (h3 : ReachesMetric r3 now3
        (TrialReconciler.Reconcile r2 now2
          (.ok (TrialReconciler.Reconcile r1 now1 (.ok t)).trial)).trial pre3 m ∧
      FailsFatally r3
        (TrialReconciler.Reconcile r2 now2
          (.ok (TrialReconciler.Reconcile r1 now1 (.ok t)).trial)).trial pre3 m err3) :
    budget t m.Name = 3 ∧
    (∀ p ∈ [TrialReconciler.Reconcile r1 now1 (.ok t),
        TrialReconciler.Reconcile r2 now2
          (.ok (TrialReconciler.Reconcile r1 now1 (.ok t)).trial)],
      conditionsOf TrialFailed p.trial = conditionsOf TrialFailed t ∧
      (∀ c ∈ conditionsOf TrialFailed p.trial, c.Status ≠ ConditionTrue) ∧
      (∃ c, findCondition p.trial.Status TrialObserved = some c ∧
        c.Status = ConditionFalse) ∧
      Event.Update p.trial ∈ p.trace) ∧
    budget (TrialReconciler.Reconcile r1 now1 (.ok t)).trial m.Name = 2 ∧
    budget (TrialReconciler.Reconcile r2 now2
      (.ok (TrialReconciler.Reconcile r1 now1 (.ok t)).trial)).trial m.Name = 1 ∧
    budget (TrialReconciler.Reconcile r3 now3
      (.ok (TrialReconciler.Reconcile r2 now2
        (.ok (TrialReconciler.Reconcile r1 now1 (.ok t)).trial)).trial)).trial m.Name = 0 ∧
    (∃ c, findCondition (TrialReconciler.Reconcile r3 now3
        (.ok (TrialReconciler.Reconcile r2 now2
          (.ok (TrialReconciler.Reconcile r1 now1 (.ok t)).trial)).trial)).trial.Status
          TrialFailed = some c ∧
      c.Status = ConditionTrue ∧ c.Reason = "MetricFailed" ∧ c.Message = err3.text) ∧
    Event.Update (TrialReconciler.Reconcile r3 now3
        (.ok (TrialReconciler.Reconcile r2 now2
          (.ok (TrialReconciler.Reconcile r1 now1 (.ok t)).trial)).trial)).trial ∈
      (TrialReconciler.Reconcile r3 now3
        (.ok (TrialReconciler.Reconcile r2 now2
          (.ok (TrialReconciler.Reconcile r1 now1 (.ok t)).trial)).trial)).trace ∧
    ∀ (r : Env) (now : Time) (t0 : Trial) (pre : List Metric) (d : Duration),
      ReachesMetric r now t0 pre m →
      (CheckCondition t0.Status TrialObserved ConditionUnknown).2 = true →
      budget t0 m.Name ≠ 0 → FailsRetry r t0 pre m d →
      (∀ e ∈ (TrialReconciler.Reconcile r now (.ok t0)).trace, e.isWrite = false) ∧
      ∀ n, budget (TrialReconciler.Reconcile r now (.ok t0)).trial n = budget t0 n := by
  have hb0 : budget t m.Name = 3 := budget_absent t m.Name hnew
  have hun := unfinished_not_failed t (collection_unfinished r1 now1 t h1.1.1)
  obtain ⟨a1, a2, a3, a4, a5, _⟩ :=
    fatal_pass r1 now1 t pre1 m err1 h1.1 hobs h1.2 (by omega)
  rw [hb0] at a1
  have a5 := a5 (by omega)
  obtain ⟨b1, b2, b3, b4, b5, _⟩ :=
    fatal_pass r2 now2 _ pre2 m err2 h2.1 a2 h2.2 (by omega)
  rw [a1] at b1
  have b5 := b5 (by omega)
  obtain ⟨c1, _, _, c4, _, c6⟩ :=
    fatal_pass r3 now3 _ pre3 m err3 h3.1 b2 h3.2 (by omega)
  rw [b1] at c1
  have c6 := c6 b1
  refine ⟨hb0, ?_, by omega, by omega, by omega, c6, c4, ?_⟩
  · intro p hp
    simp only [List.mem_cons, List.mem_singleton, List.not_mem_nil, or_false] at hp
    rcases hp with rfl | rfl
    · exact ⟨a5, by rw [a5]; exact hun, a3, a4⟩
    · exact ⟨b5.trans a5, by rw [b5, a5]; exact hun, b3, b4⟩
  · intro r now t0 pre d hr ho hopen hretry
    obtain ⟨_, _, hw, _, hbud⟩ := retry_pass_frame r now t0 pre m d hr ho hopen hretry
    exact ⟨fun e he => (hw e he).1, hbud⟩

/-- C19: a capture that asks for a retry consumes nothing. In a pass that reaches metric
collection, with `m` the first metric whose value has attempts left, when the capture of `m`
fails with a `CaptureError` whose `RetryAfter` is `d > 0`, the pass returns
`RequeueAfter = d` without error, its trace holds no write and no condition update, the
status of the trial is as it was, and so are the attempts left of every metric. -/
theorem C19_retry_consumes_nothing (r : Env) (now : Time) (t : Trial) (pre : List Metric)
    (m : Metric) (d : Duration) (h : ReachesMetric r now t pre m)
    (hobs : (CheckCondition t.Status TrialObserved ConditionUnknown).2 = true)
    (hopen : budget t m.Name ≠ 0) (hretry : FailsRetry r t pre m d) :
    (TrialReconciler.Reconcile r now (.ok t)).result = { Requeue := false, RequeueAfter := d } ∧
    (TrialReconciler.Reconcile r now (.ok t)).err = none ∧
    (∀ e ∈ (TrialReconciler.Reconcile r now (.ok t)).trace,
      e.isWrite = false ∧ e.isApplyCondition = false) ∧
    (TrialReconciler.Reconcile r now (.ok t)).trial.Status = t.Status ∧
    ∀ n, budget (TrialReconciler.Reconcile r now (.ok t)).trial n = budget t n :=
  retry_pass_frame r now t pre m d h hobs hopen hretry

theorem finishCapture_no_capture (r : Env) (now : Time) (t : Trial) (idx : Nat)
    (captureError : Option Error) (n : String) :
    Event.CaptureMetric n ∉ (TrialReconciler.finishCapture r now t idx captureError).trace := by
  unfold TrialReconciler.finishCapture
  split
  · dsimp only
    split_ifs <;> simp
  · simp

/-- The only capture of an attempt is that of its metric. -/
theorem captureStep_capture (r : Env) (now : Time) (ns : String) (i : Nat) (m : Metric)
    (t : Trial) (idx : Nat) (n : String)
    (h : Event.CaptureMetric n ∈ (TrialReconciler.captureStep r now ns i m t idx).trace) :
    n = m.Name := by
  have htgt : Event.CaptureMetric n ∉
      (getMetricTarget r.MatchingSelector (r.ListPods i) (r.ListServices i) ns m).2 := by
    intro hmem
    have := getMetricTarget_lookup _ _ _ _ _ _ hmem
    cases this
  unfold TrialReconciler.captureStep at h
  dsimp only at h
  split at h
  · simp only [Outcome.after_trace, List.mem_append] at h
    rcases h with h | h
    · exact absurd h htgt
    · exact absurd h (finishCapture_no_capture _ _ _ _ _ _)
  · split at h
    · split at h
      · simp only [List.mem_append, List.mem_singleton] at h
        rcases h with h | h
        · exact absurd h htgt
        · cases h; rfl
      · simp only [Outcome.after_trace, List.mem_append, List.mem_singleton] at h
        rcases h with (h | h) | h
        · exact absurd h htgt
        · cases h; rfl
        · exact absurd h (finishCapture_no_capture _ _ _ _ _ _)
    · simp only [Outcome.after_trace, List.mem_append, List.mem_singleton] at h
      rcases h with (h | h) | h
      · exact absurd h htgt
      · cases h; rfl
      · exact absurd h (finishCapture_no_capture _ _ _ _ _ _)

/-- A pass in which the capture of the first open metric succeeds. -/
theorem success_pass (r : Env) (now : Time) (t : Trial) (pre : List Metric) (m : Metric)
    (tgt : Option Target) (value stddev : Float64) (h : ReachesMetric r now t pre m)
    (hobs : (CheckCondition t.Status TrialObserved ConditionUnknown).2 = true)
    (hopen : budget t m.Name ≠ 0) (htgt : (metricTarget r t pre m).1 = .ok tgt)
    (hc : r.CaptureMetric m (findOrCreateValue t m.Name).1 tgt = .ok (value, stddev)) :
    ∃ es, (∀ e ∈ es, e.isLookup = true) ∧
      TrialReconciler.Reconcile r now (.ok t) =
      (TrialReconciler.forTrialUpdate r
        ((setValue (findOrCreateValue t m.Name).1 (findOrCreateValue t m.Name).2
          { Name := m.Name, Value := r.FormatFloat value,
            Error := if stddev.nonZero then r.FormatFloat stddev
              else (valueAt (findOrCreateValue t m.Name).1
                (findOrCreateValue t m.Name).2).Error,
            AttemptsRemaining := 0 }).apply
          TrialObserved ConditionFalse "" "" now)).after
        (es ++ [Event.CaptureMetric m.Name,
          Event.ApplyCondition TrialObserved ConditionFalse "" ""]) := by
  obtain ⟨es, hes, heq⟩ := reaches_capture r now t pre m h hobs hopen
  obtain ⟨es1, hes1, hcs⟩ := captureStep_ok r now t pre m tgt value stddev htgt hc
  refine ⟨es ++ es1, ?_, ?_⟩
  · intro e he
    rcases List.mem_append.1 he with he | he
    · exact hes e he
    · exact hes1 e he
  · have hname := findOrCreateValue_Name t m.Name
    rw [heq, hcs]
    simp [Outcome.after, hname]

/-- C20: only the first eligible metric is advanced. In a pass that reaches metric
collection, with `m` the first declared metric whose value has attempts left, every capture
in the trace is that of `m`. When the target of `m` is resolved and its capture succeeds,
the trace ends with that capture, the `Observed=False` update and the one commit, behind
lookups only; the committed trial has, at the position of the value of `m`, the formatted
value, the formatted deviation as error when the deviation is non-zero (the error it had
otherwise) and no attempt left; every stored value of another name is as it was, and
`Observed=False` is stored. -/
theorem C20_first_eligible (r : Env) (now : Time) (t : Trial) (pre : List Metric) (m : Metric)
    (h : ReachesMetric r now t pre m)
    (hobs : (CheckCondition t.Status TrialObserved ConditionUnknown).2 = true)
    (hopen : budget t m.Name ≠ 0) :
    (∀ n, Event.CaptureMetric n ∈ (TrialReconciler.Reconcile r now (.ok t)).trace →
      n = m.Name) ∧
    ∀ tgt value stddev, (metricTarget r t pre m).1 = .ok tgt →
      r.CaptureMetric m (findOrCreateValue t m.Name).1 tgt = .ok (value, stddev) →
      (∃ es, (∀ e ∈ es, e.isLookup = true) ∧
        (TrialReconciler.Reconcile r now (.ok t)).trace =
          es ++ [Event.CaptureMetric m.Name,
            Event.ApplyCondition TrialObserved ConditionFalse "" "",
            Event.Update (TrialReconciler.Reconcile r now (.ok t)).trial]) ∧
      (TrialReconciler.Reconcile r now (.ok t)).trace.countP Event.isWrite = 1 ∧
      (TrialReconciler.Reconcile r now (.ok t)).trial.Spec.Values =
        (findOrCreateValue t m.Name).1.Spec.Values.set (findOrCreateValue t m.Name).2
          { Name := m.Name, Value := r.FormatFloat value,
            Error := if stddev.nonZero then r.FormatFloat stddev
              else (valueAt (findOrCreateValue t m.Name).1
                (findOrCreateValue t m.Name).2).Error,
            AttemptsRemaining := 0 } ∧
      budget (TrialReconciler.Reconcile r now (.ok t)).trial m.Name = 0 ∧
      (∀ j v, t.Spec.Values.get? j = some v → v.Name ≠ m.Name →
        (TrialReconciler.Reconcile r now (.ok t)).trial.Spec.Values.get? j = some v) ∧
      (∃ c, findCondition (TrialReconciler.Reconcile r now (.ok t)).trial.Status
        TrialObserved = some c ∧ c.Status = ConditionFalse) ∧
      (TrialReconciler.Reconcile r now (.ok t)).result =
        (RequeueConflict (r.Update (TrialReconciler.Reconcile r now (.ok t)).trial)).1 ∧
      (TrialReconciler.Reconcile r now (.ok t)).err =
        (RequeueConflict (r.Update (TrialReconciler.Reconcile r now (.ok t)).trial)).2 := by
  refine ⟨?_, ?_⟩
  · intro n hn
    obtain ⟨es, hes, heq⟩ := reaches_capture r now t pre m h hobs hopen
    rw [heq] at hn
    simp only [Outcome.after_trace, List.mem_append] at hn
    rcases hn with hn | hn
    · exact absurd rfl ((isLookup_quiet (hes _ hn)).2.2 n)
    · exact captureStep_capture _ _ _ _ _ _ _ _ hn
  · intro tgt value stddev htgt hc
    obtain ⟨es, hes, heq⟩ := success_pass r now t pre m tgt value stddev h hobs hopen htgt hc
    rw [heq]
    simp only [Outcome.after_trial, forTrialUpdate_trial, Outcome.after_trace,
      forTrialUpdate_trace]
    refine ⟨⟨es, hes, by simp⟩, ?_, rfl, ?_, ?_, ?_, rfl, rfl⟩
    · have hz : es.countP Event.isWrite = 0 := by
        rw [List.countP_eq_zero]
        intro e he
        simp [(isLookup_quiet (hes e he)).1]
      simp [List.countP_append, hz, List.countP_cons, Event.isWrite]
    · exact budget_set t _ m.Name
        { Name := m.Name, Value := r.FormatFloat value,
          Error := if stddev.nonZero then r.FormatFloat stddev
            else (valueAt (findOrCreateValue t m.Name).1
              (findOrCreateValue t m.Name).2).Error,
          AttemptsRemaining := 0 } rfl rfl
    · intro j v hj hv
      obtain ⟨h1, h2⟩ := findOrCreateValue_other t m.Name j v hj hv
      show ((findOrCreateValue t m.Name).1.Spec.Values.set (findOrCreateValue t m.Name).2
        _).get? j = some v
      rw [List.get?_eq_getElem?, List.getElem?_set_ne (Ne.symm h2), ← List.get?_eq_getElem?]
      exact h1
    · obtain ⟨c, hc1, _, hs, _⟩ := findCondition_apply
        (setValue (findOrCreateValue t m.Name).1 (findOrCreateValue t m.Name).2
          { Name := m.Name, Value := r.FormatFloat value,
            Error := if stddev.nonZero then r.FormatFloat stddev
              else (valueAt (findOrCreateValue t m.Name).1
                (findOrCreateValue t m.Name).2).Error,
            AttemptsRemaining := 0 })
        TrialObserved ConditionFalse "" "" now
      exact ⟨c, hc1, hs⟩

/-! ## Witnesses -/

/-- C17, witness: the failed job `Sample.failedJob`, one container running since 11 seconds:
the update is reported and the start time is merged. -/
theorem C17_job_failure_witness :
    (applyJobStatus Sample.quiet.MatchingSelector (fun _ _ => .ok Sample.runningPods)
        (Sample.trialWith [] []) Sample.failedJob 7).update = true ∧
    (applyJobStatus Sample.quiet.MatchingSelector (fun _ _ => .ok Sample.runningPods)
        (Sample.trialWith [] []) Sample.failedJob 7).trial.Status.StartTime =
      some (11 * Second) :=
  ⟨(C17_job_failure Sample.quiet.MatchingSelector (fun _ _ => .ok Sample.runningPods)
      (Sample.trialWith [] []) Sample.failedJob 7 [] []
      { Type_ := JobFailed, Status := ConditionTrue, Reason := "BackoffLimitExceeded",
        Message := "too many retries" }
      (fun _ pods _ hl => by cases hl; decide) rfl ⟨rfl, rfl⟩ _
      (List.mem_cons_self _ _)).1,
   by decide⟩

/-- C18, witness: the capture of `cost` fails for good in three passes in a row. -/
theorem C18_attempt_budget_witness :
    budget (TrialReconciler.Reconcile Sample.failing (20 * Second)
      (.ok (TrialReconciler.Reconcile Sample.failing (20 * Second)
        (.ok (TrialReconciler.Reconcile Sample.failing (20 * Second)
          (.ok (Sample.collecting []))).trial)).trial)).trial Sample.cost.Name = 0 :=
  (C18_attempt_budget Sample.cost (Sample.collecting []) Sample.failing Sample.failing
    Sample.failing (20 * Second) (20 * Second) (20 * Second) [] [] []
    (Error.Other "no data") (Error.Other "no data") (Error.Other "no data")
    (by intro v hv; cases hv) (by decide)
    ⟨⟨by decide, ⟨[Sample.latency], rfl⟩, by intro m1 hm1; cases hm1⟩,
      Or.inr ⟨none, rfl, rfl, rfl⟩⟩
    ⟨⟨by decide, ⟨[Sample.latency], rfl⟩, by intro m1 hm1; cases hm1⟩,
      Or.inr ⟨none, rfl, rfl, rfl⟩⟩
    ⟨⟨by decide, ⟨[Sample.latency], rfl⟩, by intro m1 hm1; cases hm1⟩,
      Or.inr ⟨none, rfl, rfl, rfl⟩⟩).2.2.2.2.1

/-- C19, witness: the capture of `cost` asks for a retry after five seconds. -/
theorem C19_retry_consumes_nothing_witness :
    (TrialReconciler.Reconcile Sample.retrying (20 * Second)
      (.ok (Sample.collecting []))).result =
        { Requeue := false, RequeueAfter := 5 * Second } :=
  (C19_retry_consumes_nothing Sample.retrying (20 * Second) (Sample.collecting []) []
    Sample.cost (5 * Second)
    ⟨by decide, ⟨[Sample.latency], rfl⟩, by intro m1 hm1; cases hm1⟩ (by decide) (by decide)
    ⟨none, "prometheus", "up", 0, "not yet", rfl, rfl, by decide⟩).1

/-- C20, witness: `cost` is closed, `latency` is measured. -/
theorem C20_first_eligible_witness :
    budget (TrialReconciler.Reconcile Sample.measuring (20 * Second)
      (.ok (Sample.collecting
        [{ Name := "cost", Value := "1.5", Error := "", AttemptsRemaining := 0 }]))).trial
      Sample.latency.Name = 0 :=
  ((C20_first_eligible Sample.measuring (20 * Second)
    (Sample.collecting [{ Name := "cost", Value := "1.5", Error := "", AttemptsRemaining := 0 }])
    [Sample.cost] Sample.latency
    ⟨by decide, ⟨[], rfl⟩, by decide⟩ (by decide) (by decide)).2
    none { bits := 1 } { bits := 0 } rfl rfl).2.2.2.1

/-! ## Target resolution -/

/-- C26: metric target resolution is a closed dispatch on the metric kind. For the pods kind
`getMetricTarget` resolves the selector and lists the pods of the given namespace; for the
Prometheus and JSONPath kinds it resolves the selector and lists the services, and its result
is the same for every namespace argument (and every pod listing); for every other kind it
returns no target and no error without any call. A selector error or a list error is returned
as the error, in place of a target. -/
theorem C26_target_dispatch (matching : Option LabelSelector → Except Error Selector)
    (listPods : String → Selector → Except Error (List Pod))
    (listServices : Selector → Except Error (List Service)) (ns name : String)
    (selector : Option LabelSelector) :
    getMetricTarget matching listPods listServices ns
        { Name := name, Type_ := MetricPods, Selector := selector } =
      (match matching selector with
        | .error err => (.error err, [])
        | .ok sel =>
          match listPods ns sel with
          | .error err => (.error err, [Event.ListPods])
          | .ok pods => (.ok (some (Target.PodList pods)), [Event.ListPods])) ∧
    (∀ kind ∈ [MetricPrometheus, MetricJSONPath],
      getMetricTarget matching listPods listServices ns
          { Name := name, Type_ := kind, Selector := selector } =
        (match matching selector with
          | .error err => (.error err, [])
          | .ok sel =>
            match listServices sel with
            | .error err => (.error err, [Event.ListServices])
            | .ok services =>
              (.ok (some (Target.ServiceList services)), [Event.ListServices])) ∧
      ∀ (ns1 : String) (listPods1 : String → Selector → Except Error (List Pod)),
        getMetricTarget matching listPods1 listServices ns1
            { Name := name, Type_ := kind, Selector := selector } =
          getMetricTarget matching listPods listServices ns
            { Name := name, Type_ := kind, Selector := selector }) ∧
    (∀ kind, kind ∉ [MetricPods, MetricPrometheus, MetricJSONPath] →
      getMetricTarget matching listPods listServices ns
          { Name := name, Type_ := kind, Selector := selector } = (.ok none, [])) := by
  refine ⟨?_, ?_, ?_⟩
  · unfold getMetricTarget
    cases matching selector with
    | error err => rfl
    | ok sel => rfl
  · intro kind hk
    simp only [List.mem_cons, List.mem_singleton, List.not_mem_nil, or_false] at hk
    rcases hk with rfl | rfl
    · refine ⟨?_, fun ns1 listPods1 => rfl⟩
      unfold getMetricTarget
      cases matching selector with
      | error err => rfl
      | ok sel => rfl
    · refine ⟨?_, fun ns1 listPods1 => rfl⟩
      unfold getMetricTarget
      cases matching selector with
      | error err => rfl
      | ok sel => rfl
  · intro kind hk
    cases kind with
    | MetricLocal => rfl
    | MetricPods => simp at hk
    | MetricPrometheus => simp at hk
    | MetricJSONPath => simp at hk

/-! ## The condition upsert -/

theorem upsertCondition_again (k : TrialConditionType) (st : ConditionStatus) (a b : String)
    (now1 now2 : Time) (cs : List TrialCondition) :
    upsertCondition k st a b now2 (upsertCondition k st a b now1 cs) =
      upsertCondition k st a b now1 cs := by
  induction cs with
  | nil => simp [upsertCondition, newCondition]
  | cons c cs ih =>
    by_cases hk : c.Type_ = k
    · by_cases hs : c.Status = st ∧ c.Reason = a ∧ c.Message = b
      · have h1 : upsertCondition k st a b now1 (c :: cs) = c :: cs := by
          rw [upsertCondition, if_pos hk, if_pos hs]
        rw [h1, upsertCondition, if_pos hk, if_pos hs]
      · have h1 : upsertCondition k st a b now1 (c :: cs) =
            newCondition k st a b now1 :: cs := by
          rw [upsertCondition, if_pos hk, if_neg hs]
        rw [h1, upsertCondition, if_pos (show (newCondition k st a b now1).Type_ = k from rfl),
          if_pos (show (newCondition k st a b now1).Status = st ∧
            (newCondition k st a b now1).Reason = a ∧
            (newCondition k st a b now1).Message = b from ⟨rfl, rfl, rfl⟩)]
    · have h1 : upsertCondition k st a b now1 (c :: cs) =
          c :: upsertCondition k st a b now1 cs := by
        rw [upsertCondition, if_neg hk]
      rw [h1, upsertCondition, if_neg hk, ih]

theorem upsertCondition_same (k : TrialConditionType) (st : ConditionStatus) (a b : String)
    (now : Time) (cs : List TrialCondition) (c : TrialCondition)
    (hfind : cs.find? (fun c => decide (c.Type_ = k)) = some c)
    (hs : c.Status = st ∧ c.Reason = a ∧ c.Message = b) :
    upsertCondition k st a b now cs = cs := by
  induction cs with
  | nil => simp at hfind
  | cons c1 cs ih =>
    by_cases hk : c1.Type_ = k
    · rw [List.find?_cons_of_pos _ (by simpa using hk)] at hfind
      cases hfind
      rw [upsertCondition, if_pos hk, if_pos hs]
    · rw [List.find?_cons_of_neg _ (by simpa using hk)] at hfind
      rw [upsertCondition, if_neg hk, ih hfind]

theorem upsertCondition_changed (k : TrialConditionType) (st : ConditionStatus) (a b : String)
    (now : Time) (cs : List TrialCondition)
    (h : ∀ c, cs.find? (fun c => decide (c.Type_ = k)) = some c →
      ¬ (c.Status = st ∧ c.Reason = a ∧ c.Message = b)) :
    (upsertCondition k st a b now cs).find? (fun c => decide (c.Type_ = k)) =
      some (newCondition k st a b now) := by
  induction cs with
  | nil => simp [upsertCondition, newCondition]
  | cons c1 cs ih =>
    by_cases hk : c1.Type_ = k
    · have hs := h c1 (List.find?_cons_of_pos _ (by simpa using hk))
      rw [upsertCondition, if_pos hk, if_neg hs]
      simp [newCondition]
    · rw [upsertCondition, if_neg hk, List.find?_cons_of_neg _ (by simpa using hk)]
      apply ih
      intro c hc
      exact h c (by rw [List.find?_cons_of_neg _ (by simpa using hk)]; exact hc)

/-- C27: idempotent condition upsert. A second `ApplyCondition` with the same status, reason
and message leaves the status object as the first call left it, whatever its `now`, so the
transition time of the condition is the one the first call left. A call on a status whose
stored condition of the kind already has the three values changes nothing. A call on a
status whose stored condition of the kind differs in status, reason or message, or that has
no condition of the kind, leaves as the stored condition of the kind the one with the three
values of the call and its `now` as transition time. -/
theorem C27_idempotent_upsert (s : TrialStatus) (k : TrialConditionType) (st : ConditionStatus)
    (a b : String) (now1 now2 : Time) :
    ApplyCondition (ApplyCondition s k st a b now1) k st a b now2 =
      ApplyCondition s k st a b now1 ∧
    findCondition (ApplyCondition (ApplyCondition s k st a b now1) k st a b now2) k =
      findCondition (ApplyCondition s k st a b now1) k ∧
    (∀ c, findCondition s k = some c → c.Status = st ∧ c.Reason = a ∧ c.Message = b →
      ApplyCondition s k st a b now2 = s) ∧
    ((∀ c, findCondition s k = some c → ¬ (c.Status = st ∧ c.Reason = a ∧ c.Message = b)) →
      findCondition (ApplyCondition s k st a b now2) k =
        some { Type_ := k, Status := st, Reason := a, Message := b,
               LastTransitionTime := now2 }) := by
  have h1 : ApplyCondition (ApplyCondition s k st a b now1) k st a b now2 =
      ApplyCondition s k st a b now1 := by
    unfold ApplyCondition
    simp only [upsertCondition_again]
  refine ⟨h1, by rw [h1], ?_, ?_⟩
  · intro c hc hs
    unfold ApplyCondition
    rw [upsertCondition_same k st a b now2 s.Conditions c hc hs]
  · intro h
    exact upsertCondition_changed k st a b now2 s.Conditions h

/-! ## The finish of the container scan -/

theorem isLatest_set {m : Option Time} {candidates : List Time} (h : IsLatest m candidates) :
    m ≠ none ↔ candidates ≠ [] := by
  constructor
  · intro hm hc
    cases hx : m with
    | none => exact hm hx
    | some x =>
      have := (h.1 x hx).1
      rw [hc] at this
      cases this
  · intro hc hm
    exact hc (h.2 hm)

theorem isEarliest_set {m : Option Time} {candidates : List Time}
    (h : IsEarliest m candidates) : m ≠ none ↔ candidates ≠ [] := by
  constructor
  · intro hm hc
    cases hx : m with
    | none => exact hm hx
    | some x =>
      have := (h.1 x hx).1
      rw [hc] at this
      cases this
  · intro hc hm
    exact hc (h.2 hm)

theorem filterMap_ne_nil {α β : Type} (g : α → Option β) (l : List α) :
    l.filterMap g ≠ [] ↔ ∃ a ∈ l, g a ≠ none := by
  induction l with
  | nil => simp
  | cons a l ih =>
    cases hg : g a with
    | none =>
      rw [List.filterMap_cons_none hg, ih]
      constructor
      · rintro ⟨x, hx, hne⟩
        exact ⟨x, List.mem_cons_of_mem _ hx, hne⟩
      · rintro ⟨x, hx, hne⟩
        rcases List.mem_cons.1 hx with rfl | hx
        · exact absurd hg hne
        · exact ⟨x, hx, hne⟩
    | some b =>
      rw [List.filterMap_cons_some hg]
      exact ⟨fun _ => ⟨a, List.mem_cons_self _ _, by rw [hg]; simp⟩, fun _ => by simp⟩

/-- C29: the container scan sets `finishedAt` exactly when some container state is
terminated and not running, and then `startedAt` is set as well. For the two pods of
`Sample.oneDone`, one container terminated at 5s and one still running, the scan returns the
finish 5s and both `applyJobStatus` record it as the `CompletionTime` of the trial. -/
theorem C29_finish_while_running :
    (∀ pods : List Pod,
      ((containerTime pods).2 ≠ none ↔
        ∃ s ∈ containerStates pods, s.Running = none ∧ s.Terminated ≠ none) ∧
      ((containerTime pods).2 ≠ none → (containerTime pods).1 ≠ none)) ∧
    (∃ s ∈ containerStates Sample.oneDone, s.Running ≠ none) ∧
    containerTime Sample.oneDone = (some (1 * Second), some (5 * Second)) ∧
    (applyJobStatus Sample.quiet.MatchingSelector (fun _ _ => .ok Sample.oneDone)
      (Sample.trialWith [] []) Sample.runJob 7).trial.Status.CompletionTime =
        some (5 * Second) ∧
    (TrialJobReconciler.applyJobStatus Sample.quiet.MatchingSelector
      (fun _ _ => .ok Sample.oneDone)
      (Sample.trialWith [] []) Sample.runJob 7).trial.Status.CompletionTime =
        some (5 * Second) := by
  refine ⟨fun pods => ?_, by decide, by decide, by decide, by decide⟩
  have hs : IsEarliest (containerTime pods).1
      ((containerStates pods).filterMap startCandidate) := by
    have := foldl_earliest startCandidate (containerStates pods) none
    rw [containerTime_eq]
    simpa using this
  have hf : IsLatest (containerTime pods).2
      ((containerStates pods).filterMap finishCandidate) := by
    have := foldl_latest finishCandidate (containerStates pods) none
    rw [containerTime_eq]
    simpa using this
  have hfin : ∀ s : ContainerState,
      finishCandidate s ≠ none ↔ s.Running = none ∧ s.Terminated ≠ none := by
    intro s
    unfold finishCandidate
    cases s.Running <;> cases s.Terminated <;> simp
  have hiff : (containerTime pods).2 ≠ none ↔
      ∃ s ∈ containerStates pods, s.Running = none ∧ s.Terminated ≠ none := by
    rw [isLatest_set hf, filterMap_ne_nil]
    constructor
    · rintro ⟨s, hs1, hs2⟩
      exact ⟨s, hs1, (hfin s).1 hs2⟩
    · rintro ⟨s, hs1, hs2⟩
      exact ⟨s, hs1, (hfin s).2 hs2⟩
  refine ⟨hiff, fun h => ?_⟩
  obtain ⟨s, hs1, hrun, hterm⟩ := hiff.1 h
  rw [isEarliest_set hs, filterMap_ne_nil]
  refine ⟨s, hs1, ?_⟩
  unfold startCandidate
  rw [hrun]
  cases hT : s.Terminated with
  | none => exact absurd hT hterm
  | some x => simp

/-! ## The merge of policy rules -/

theorem differsAt_false (s1 : List String) :
    ∀ s2 : List String, s1.length = s2.length → differsAt s1 s2 = false → s1 = s2 := by
  induction s1 with
  | nil =>
    intro s2 hlen _
    cases s2 with
    | nil => rfl
    | cons b s2 => simp at hlen
  | cons a s1 ih =>
    intro s2 hlen h
    cases s2 with
    | nil => simp at hlen
    | cons b s2 =>
      unfold differsAt at h
      split_ifs at h with hab
      have hab1 : a = b := by simpa using hab
      rw [hab1, ih s2 (by simpa using hlen) h]

theorem doesNotMatch_false {s1 s2 : List String} (h : doesNotMatch s1 s2 = false) : s1 = s2 := by
  unfold doesNotMatch at h
  split_ifs at h with hlen
  exact differsAt_false s1 s2 (by simpa using hlen) h

theorem mem_sortStrings (x : String) (s : List String) : x ∈ sortStrings s ↔ x ∈ s :=
  (List.perm_insertionSort _ s).mem_iff

theorem mem_appendMissing (x e : String) (s : List String) :
    x ∈ appendMissing s e ↔ x ∈ s ∨ x = e := by
  unfold appendMissing
  split_ifs with h
  · constructor
    · exact Or.inl
    · rintro (hx | rfl)
      · exact hx
      · simpa using h
  · simp

theorem mem_foldl_appendMissing (x : String) (l : List String) :
    ∀ s : List String, x ∈ l.foldl appendMissing s ↔ x ∈ s ∨ x ∈ l := by
  induction l with
  | nil => intro s; simp
  | cons e l ih =>
    intro s
    rw [List.foldl_cons, ih, mem_appendMissing, List.mem_cons, or_assoc]

theorem mem_mergeInto_Resources (r rule : PolicyRule) (x : String) :
    x ∈ (mergeInto r rule).Resources ↔ x ∈ r.Resources ∨ x ∈ rule.Resources := by
  unfold mergeInto
  rw [mem_sortStrings, mem_foldl_appendMissing]

theorem mem_mergeInto_Names (r rule : PolicyRule) (x : String) :
    x ∈ (mergeInto r rule).ResourceNames ↔ x ∈ r.ResourceNames ∨ x ∈ rule.ResourceNames := by
  unfold mergeInto
  rw [mem_sortStrings, mem_foldl_appendMissing]

theorem mergeRule_cons (r : PolicyRule) (rules : List PolicyRule) (rule : PolicyRule) :
    mergeRule (r :: rules) rule =
      if doesNotMatch r.Verbs rule.Verbs then r :: mergeRule rules rule
      else if doesNotMatch r.APIGroups rule.APIGroups then r :: mergeRule rules rule
      else if r.ResourceNames.length > 0 && doesNotMatch r.Resources rule.Resources then
        r :: mergeRule rules rule
      else mergeInto r rule :: rules := by
  rw [mergeRule]

/-- The merge keeps the length of the list or appends one rule. -/
theorem mergeRule_length (rule : PolicyRule) (rules : List PolicyRule) :
    (mergeRule rules rule).length = rules.length ∨
      (mergeRule rules rule).length = rules.length + 1 := by
  induction rules with
  | nil => right; rfl
  | cons r rules ih =>
    rw [mergeRule_cons]
    split_ifs
    · simpa using ih
    · simpa using ih
    · simpa using ih
    · left; rfl

/-- The merge loses no access when no rule of the list differs from the supplied rule in
having resource names. -/
theorem mergeRule_keeps (rule : PolicyRule) (rules : List PolicyRule)
    (h : ∀ r ∈ rules, (r.ResourceNames = [] ↔ rule.ResourceNames = []))
    (verb group resource name : String)
    (hg : (∃ r ∈ rules, r.grants verb group resource name) ∨
      rule.grants verb group resource name) :
    ∃ r ∈ mergeRule rules rule, r.grants verb group resource name := by
  induction rules with
  | nil =>
    rcases hg with ⟨r, hr, _⟩ | hg
    · cases hr
    · exact ⟨rule, by simp [mergeRule], hg⟩
  | cons r rules ih =>
    have ih1 := ih (fun r1 hr1 => h r1 (List.mem_cons_of_mem _ hr1))
    have hskip : ∃ r1 ∈ r :: mergeRule rules rule, r1.grants verb group resource name := by
      rcases hg with ⟨r1, hr1, hg1⟩ | hg
      · rcases List.mem_cons.1 hr1 with rfl | hr1
        · exact ⟨r1, List.mem_cons_self _ _, hg1⟩
        · obtain ⟨r2, hr2, hg2⟩ := ih1 (Or.inl ⟨r1, hr1, hg1⟩)
          exact ⟨r2, List.mem_cons_of_mem _ hr2, hg2⟩
      · obtain ⟨r2, hr2, hg2⟩ := ih1 (Or.inr hg)
        exact ⟨r2, List.mem_cons_of_mem _ hr2, hg2⟩
    rw [mergeRule_cons]
    split_ifs with hv ha hn
    · exact hskip
    · exact hskip
    · exact hskip
    · have hverbs : r.Verbs = rule.Verbs := doesNotMatch_false (by simpa using hv)
      have hgroups : r.APIGroups = rule.APIGroups := doesNotMatch_false (by simpa using ha)
      have hnames := h r (List.mem_cons_self _ _)
      have hmerged : ∀ r0 : PolicyRule, r0.Verbs = r.Verbs → r0.APIGroups = r.APIGroups →
          (∀ x ∈ r0.Resources, x ∈ (mergeInto r rule).Resources) →
          (r0.ResourceNames = [] ↔ r.ResourceNames = []) →
          (∀ x ∈ r0.ResourceNames, x ∈ (mergeInto r rule).ResourceNames) →
          r0.grants verb group resource name →
          (mergeInto r rule).grants verb group resource name := by
        intro r0 h1 h2 h3 h4 h5 ⟨g1, g2, g3, g4⟩
        refine ⟨show verb ∈ r.Verbs by rw [← h1]; exact g1,
          show group ∈ r.APIGroups by rw [← h2]; exact g2, h3 _ g3, ?_⟩
        rcases g4 with g4 | g4
        · left
          have hr : r.ResourceNames = [] := h4.1 g4
          have hrule : rule.ResourceNames = [] := hnames.1 hr
          unfold mergeInto
          rw [hr, hrule]
          rfl
        · exact Or.inr (h5 _ g4)
      rcases hg with ⟨r1, hr1, hg1⟩ | hg
      · rcases List.mem_cons.1 hr1 with rfl | hr1
        · exact ⟨_, List.mem_cons_self _ _, hmerged r1 rfl rfl
            (fun x hx => (mem_mergeInto_Resources _ _ _).2 (Or.inl hx)) Iff.rfl
            (fun x hx => (mem_mergeInto_Names _ _ _).2 (Or.inl hx)) hg1⟩
        · exact ⟨r1, List.mem_cons_of_mem _ hr1, hg1⟩
      · exact ⟨_, List.mem_cons_self _ _, hmerged rule hverbs.symm hgroups.symm
          (fun x hx => (mem_mergeInto_Resources _ _ _).2 (Or.inr hx)) hnames.symm
          (fun x hx => (mem_mergeInto_Names _ _ _).2 (Or.inr hx)) hg⟩

/-- C30: `mergeRule` loses a permission when it merges a rule with resource names and a
rule without. The list `[Sample.patchAll]` grants `get` on every deployment of the group
`apps`, among them `db`; merging `Sample.patchWeb` into it returns the one rule
`Sample.patchWeb`, which grants the deployment `web` only. In the other order the supplied
rule `Sample.patchAll` grants `db` and the returned list `[Sample.patchWeb]` does not. In
both cases the returned list has the length of the input. -/
theorem C30_permission_lost :
    Sample.patchAll.grants "get" "apps" "deployments" "db" ∧
    mergeRule [Sample.patchAll] Sample.patchWeb = [Sample.patchWeb] ∧
    mergeRule [Sample.patchWeb] Sample.patchAll = [Sample.patchWeb] ∧
    ¬ ∃ r ∈ mergeRule [Sample.patchAll] Sample.patchWeb,
      r.grants "get" "apps" "deployments" "db" := by
  refine ⟨?_, by decide, by decide, ?_⟩
  · simp [PolicyRule.grants, Sample.patchAll]
  · rw [show mergeRule [Sample.patchAll] Sample.patchWeb = [Sample.patchWeb] by decide]
    simp [PolicyRule.grants, Sample.patchWeb]

/-! ## The pass before the fetch of the experiment -/

theorem EarlyFrame.keep_refl (t : Trial) : EarlyFrame t t := ⟨rfl, rfl, rfl⟩

theorem EarlyFrame.keep_trans {a b c : Trial} (h1 : EarlyFrame a b) (h2 : EarlyFrame b c) :
    EarlyFrame a c :=
  ⟨h2.1.trans h1.1, h2.2.1.trans h1.2.1, h2.2.2.trans h1.2.2⟩

theorem EarlyFrame.keep_of_apply (t : Trial) (k : TrialConditionType) (h1 : k ≠ TrialObserved)
    (h2 : k ≠ TrialComplete) (s : ConditionStatus) (a b : String) (now : Time) :
    EarlyFrame t (t.apply k s a b now) :=
  ⟨rfl, conditionsOf_apply t k TrialObserved (Ne.symm h1) s a b now,
    conditionsOf_apply t k TrialComplete (Ne.symm h2) s a b now⟩

theorem EarlyFrame.keep_of_mergeTimes (t : Trial) (s f : Option Time) (d : Bool) :
    EarlyFrame t (mergeTimes t s f d).1 := by
  unfold Redsky.mergeTimes
  dsimp only
  split_ifs <;> exact ⟨rfl, rfl, rfl⟩

theorem EarlyFrame.keep_of_applyJobConditions (now : Time) (cs : List JobCondition) :
    ∀ acc : Trial × Bool × List Event, EarlyFrame acc.1 (applyJobConditions now cs acc).1 := by
  induction cs with
  | nil => intro acc; exact EarlyFrame.keep_refl _
  | cons c cs ih =>
    rintro ⟨t, dirty, es⟩
    unfold Redsky.applyJobConditions
    split_ifs
    · exact (EarlyFrame.keep_of_apply t TrialFailed (by decide) (by decide) ConditionTrue _ _
        now).keep_trans (ih _)
    · exact ih _

theorem EarlyFrame.keep_of_finishJobStatus (t : Trial) (job : Job) (now : Time) (s f : Option Time)
    (d : Bool) (es : List Event) : EarlyFrame t (finishJobStatus t job now s f d es).trial :=
  (EarlyFrame.keep_of_mergeTimes t s f d).keep_trans (EarlyFrame.keep_of_applyJobConditions now _ _)

theorem EarlyFrame.keep_of_applyJobStatus (m : Option LabelSelector → Except Error Selector)
    (l : String → Selector → Except Error (List Pod)) (t : Trial) (job : Job) (now : Time) :
    EarlyFrame t (applyJobStatus m l t job now).trial := by
  rcases applyJobStatus_cases m l t job now with ⟨_, _, _, _, _, heq⟩ | ⟨es, _, heq⟩
  · rw [heq]
    exact EarlyFrame.keep_refl t
  · rw [heq]
    exact EarlyFrame.keep_of_finishJobStatus _ _ _ _ _ _ _

theorem isEarly_discovery {e : Event} (h : e.isEarly = true) : e.isDiscovery = true := by
  cases e with
  | ApplyCondition k s a b => cases k <;> cases s <;> simp_all [Event.isEarly, Event.isDiscovery]
  | _ => simp_all [Event.isEarly, Event.isDiscovery]

theorem isObservation_discovery {e : Event} (h : e.isObservation = true) :
    e.isDiscovery = true := by
  cases e with
  | ApplyCondition k s a b =>
    cases k <;> cases s <;> simp_all [Event.isObservation, Event.isDiscovery]
  | _ => simp_all [Event.isObservation, Event.isDiscovery]

theorem Scan.Early.scan_behind {α : Type} {t : Trial} {es : List Event} {s : Scan α}
    (hes : ∀ e ∈ es, e.isDiscovery = true) (h : s.Early t) : (s.after es).Early t := by
  cases s with
  | returned o =>
    refine ⟨h.1, fun e he => ?_⟩
    rcases List.mem_append.1 he with he | he
    · exact hes e he
    · exact h.2 e he
  | finished a t1 es1 =>
    refine ⟨h.1, fun e he => ?_⟩
    rcases List.mem_append.1 he with he | he
    · exact hes e he
    · exact h.2 e he

theorem Scan.Early.scan_of_keep {α : Type} {a b : Trial} {s : Scan α} (h1 : EarlyFrame a b)
    (h2 : s.Early b) : s.Early a := by
  cases s with
  | returned o => exact ⟨h1.keep_trans h2.1, h2.2⟩
  | finished x t1 es => exact ⟨h1.keep_trans h2.1, h2.2⟩

theorem Outcome.Early.of_scan {α : Type} {t : Trial} {s : Scan α} (k : α → Trial → Outcome)
    (hs : s.Early t) (hk : ∀ a t1, (k a t1).Early t1) : (s.andThen k).Early t := by
  cases s with
  | returned o => exact Or.inl hs
  | finished a t1 es =>
    rcases hk a t1 with ⟨h1, h2⟩ | h
    · refine Or.inl ⟨hs.1.keep_trans h1, fun e he => ?_⟩
      simp only [Scan.andThen, Outcome.after_trace, List.mem_append] at he
      rcases he with he | he
      · exact hs.2 e he
      · exact h2 e he
    · refine Or.inr ?_
      simp only [Scan.andThen, Outcome.after_trace, List.mem_append]
      exact Or.inr h

theorem Outcome.Early.pass_behind {t : Trial} {o : Outcome} {es : List Event}
    (hes : ∀ e ∈ es, e.isDiscovery = true) (h : o.Early t) : (o.after es).Early t := by
  rcases h with ⟨h1, h2⟩ | h
  · refine Or.inl ⟨h1, fun e he => ?_⟩
    rcases List.mem_append.1 he with he | he
    · exact hes e he
    · exact h2 e he
  · exact Or.inr (List.mem_append_right _ h)

theorem Outcome.Early.same (t : Trial) (result : Result) (err : Option Error)
    (es : List Event) (hes : ∀ e ∈ es, e.isDiscovery = true) :
    Outcome.Early t { result := result, err := err, trial := t, trace := es } :=
  Or.inl ⟨EarlyFrame.keep_refl t, hes⟩

theorem Outcome.Early.update (r : Env) (t t1 : Trial) (h : EarlyFrame t t1) :
    (TrialReconciler.forTrialUpdate r t1).Early t :=
  Or.inl ⟨h, by simp [Event.isDiscovery]⟩

theorem stabilityLoop_keeps (r : Env) (now : Time) (ops : List PatchOperation) :
    ∀ (i : Nat) (t : Trial) (w : Duration),
      (TrialReconciler.stabilityLoop r now i ops t w).Early t := by
  induction ops with
  | nil =>
    intro i t w
    rw [TrialReconciler.stabilityLoop]
    exact ⟨EarlyFrame.keep_refl t, by simp⟩
  | cons p ps ih =>
    intro i t w
    rw [stabilityLoop_cons]
    split_ifs
    · exact ih _ _ _
    · split
      · split
        · split_ifs
          · exact Scan.Early.scan_behind (by simp [Event.isDiscovery])
              (Scan.Early.scan_of_keep
                (EarlyFrame.keep_of_apply t TrialStable (by decide) (by decide) _ _ _ now)
                (ih _ _ _))
          · exact Scan.Early.scan_behind (by simp [Event.isDiscovery]) (ih _ _ _)
        · refine ⟨EarlyFrame.keep_of_apply t TrialFailed (by decide) (by decide) _ _ _ now, ?_⟩
          simp [Event.isDiscovery]
      · refine ⟨?_, ?_⟩
        · exact ⟨rfl,
            conditionsOf_apply _ TrialStable TrialObserved (by decide) _ _ _ now,
            conditionsOf_apply _ TrialStable TrialComplete (by decide) _ _ _ now⟩
        · simp [Event.isDiscovery]

theorem jobLoop_keeps (r : Env) (now : Time) (jobs : List Job) :
    ∀ (i : Nat) (t : Trial) (n : Bool),
      (TrialReconciler.jobLoop r now i jobs t n).Early t := by
  induction jobs with
  | nil =>
    intro i t n
    rw [TrialReconciler.jobLoop]
    exact ⟨EarlyFrame.keep_refl t, by simp⟩
  | cons job jobs ih =>
    intro i t n
    rw [jobLoop_cons]
    have hf := EarlyFrame.keep_of_applyJobStatus r.MatchingSelector (r.ListPods i) t job now
    have hes : ∀ e ∈ Event.applyJobStatus job ::
        (applyJobStatus r.MatchingSelector (r.ListPods i) t job now).trace,
        e.isDiscovery = true := by
      intro e he
      rcases List.mem_cons.1 he with rfl | he
      · rfl
      · exact isObservation_discovery (applyJobStatus_trace _ _ _ _ _ e he)
    split_ifs
    · refine ⟨hf, fun e he => ?_⟩
      simp only [Outcome.after_trace, forTrialUpdate_trace, List.mem_append,
        List.mem_singleton] at he
      rcases he with he | rfl
      · exact hes e he
      · rfl
    · exact ⟨hf, hes⟩
    · exact Scan.Early.scan_of_keep hf (Scan.Early.scan_behind hes (ih _ _ _))
    · exact ih _ _ _

theorem createOrObserve_early (r : Env) (now : Time) (n : Bool) (t : Trial) :
    (TrialReconciler.createOrObserve r now n t).Early t := by
  unfold TrialReconciler.createOrObserve
  split_ifs
  · split
    · exact Outcome.Early.same t _ _ _ (by simp)
    · exact Outcome.Early.same t _ _ _ (by simp [Event.isDiscovery])
  · unfold TrialReconciler.reconcileMetrics
    split_ifs
    · split
      · exact Or.inr (by simp)
      · exact Or.inr (by simp)
    · exact Outcome.Early.same t _ _ _ (by simp)

theorem reconcileJobs_early (r : Env) (now : Time) (t : Trial) :
    (TrialReconciler.reconcileJobs r now t).Early t := by
  unfold TrialReconciler.reconcileJobs
  split
  · exact Outcome.Early.same t _ _ _ (by simp)
  · split
    · exact Outcome.Early.same t _ _ _ (by simp [Event.isDiscovery])
    · exact Outcome.Early.pass_behind (by simp [Event.isDiscovery])
        (Outcome.Early.of_scan _ (jobLoop_keeps r now _ 0 t true)
          (createOrObserve_early r now))

theorem reconcileStable_early (r : Env) (now : Time) (t : Trial) :
    (TrialReconciler.reconcileStable r now t).Early t := by
  unfold TrialReconciler.reconcileStable
  split_ifs
  · exact Outcome.Early.pass_behind (by simp [Event.isDiscovery])
      (Outcome.Early.update r t _
        (EarlyFrame.keep_of_apply t TrialStable (by decide) (by decide) _ _ _ now))
  · unfold TrialReconciler.reconcileGuard
    split_ifs
    · exact Outcome.Early.same t _ _ _ (by simp)
    · exact reconcileJobs_early r now t

theorem afterWait_early (r : Env) (now : Time) (w : Duration) (t : Trial) :
    (TrialReconciler.afterWait r now w t).Early t := by
  unfold TrialReconciler.afterWait
  split_ifs
  · refine Or.inl ⟨?_, ?_⟩
    · rw [adjustResponse_trial]
      exact EarlyFrame.keep_refl t
    · rw [adjustResponse_trace]
      simp [Event.isDiscovery]
  · exact reconcileStable_early r now t

/-- A pass of the trial reconciler leaves the values and the `Observed` and `Complete`
conditions alone and produces events of discovery only, or it fetches the experiment. -/
theorem Reconcile_early (r : Env) (now : Time) (t : Trial) :
    (TrialReconciler.Reconcile r now (.ok t)).Early t := by
  unfold TrialReconciler.Reconcile
  dsimp only
  split_ifs
  · exact Outcome.Early.same t _ _ _ (by simp)
  · exact Outcome.Early.of_scan _ (stabilityLoop_keeps r now _ 0 t 0) (afterWait_early r now)

/-! ## The pass behind the fetch of the experiment -/

theorem checkCondition_absent (s : TrialStatus) (k : TrialConditionType)
    (st : ConditionStatus) : (CheckCondition s k st).2 = false ↔ findCondition s k = none := by
  unfold CheckCondition
  cases findCondition s k <;> simp

theorem metricLoop_nil (r : Env) (now : Time) (ns : String) (i : Nat) (t : Trial) :
    TrialReconciler.metricLoop r now ns i [] t = .finished () t [] := by
  rw [TrialReconciler.metricLoop]

/-- The metric loop ends behind metrics without attempts left, with the trial as it was, or
it returns from the attempt on the first metric with attempts left. -/
theorem metricLoop_cases (r : Env) (now : Time) (ns : String) (ms : List Metric) (t : Trial) :
    ∀ i : Nat,
      ((∀ m ∈ ms, budget t m.Name = 0) ∧
        TrialReconciler.metricLoop r now ns i ms t = .finished () t []) ∨
      (∃ pre m post, ms = pre ++ m :: post ∧ (∀ m1 ∈ pre, budget t m1.Name = 0) ∧
        budget t m.Name ≠ 0 ∧
        TrialReconciler.metricLoop r now ns i ms t =
          .returned (TrialReconciler.captureStep r now ns (i + pre.length) m
            (findOrCreateValue t m.Name).1 (findOrCreateValue t m.Name).2)) := by
  induction ms with
  | nil => intro i; exact Or.inl ⟨by simp, metricLoop_nil r now ns i t⟩
  | cons m ms ih =>
    intro i
    rw [metricLoop_cons]
    by_cases h0 : budget t m.Name = 0
    · rw [if_pos h0, budget_zero t m.Name h0]
      rcases ih (i + 1) with ⟨hall, heq⟩ | ⟨pre, m1, post, hsplit, hpre, hopen, heq⟩
      · refine Or.inl ⟨?_, heq⟩
        intro m1 hm1
        rcases List.mem_cons.1 hm1 with rfl | hm1
        · exact h0
        · exact hall m1 hm1
      · refine Or.inr ⟨m :: pre, m1, post, by rw [hsplit]; rfl, ?_, hopen, ?_⟩
        · intro m2 hm2
          rcases List.mem_cons.1 hm2 with rfl | hm2
          · exact h0
          · exact hpre m2 hm2
        · rw [heq]
          congr 2
          simp only [List.length_cons]
          omega
    · rw [if_neg h0]
      exact Or.inr ⟨[], m, ms, rfl, by simp, h0, by simp⟩

/-- The pass once the experiment is fetched: the observation gate, the completion, or the
attempt on the first metric with attempts left. -/
theorem observe_cases (r : Env) (now : Time) (t : Trial) (e : Experiment) :
    (e.Metrics ≠ [] ∧ findCondition t.Status TrialObserved = none ∧
      TrialReconciler.observe r now t e =
        (TrialReconciler.forTrialUpdate r
          (t.apply TrialObserved ConditionUnknown "" "" now)).after
          [Event.ApplyCondition TrialObserved ConditionUnknown "" ""]) ∨
    ((e.Metrics = [] ∨ findCondition t.Status TrialObserved ≠ none) ∧
      (∀ m ∈ e.Metrics, budget t m.Name = 0) ∧
      TrialReconciler.observe r now t e = TrialReconciler.completeTrial r now t) ∨
    ((e.Metrics = [] ∨ findCondition t.Status TrialObserved ≠ none) ∧
      ∃ pre m post, e.Metrics = pre ++ m :: post ∧ (∀ m1 ∈ pre, budget t m1.Name = 0) ∧
        budget t m.Name ≠ 0 ∧
        TrialReconciler.observe r now t e =
          TrialReconciler.captureStep r now (TrialReconciler.metricNamespace t) pre.length m
            (findOrCreateValue t m.Name).1 (findOrCreateValue t m.Name).2) := by
  unfold TrialReconciler.observe
  by_cases hgate : e.Metrics.length > 0 ∧
      (CheckCondition t.Status TrialObserved ConditionUnknown).2 = false
  · rw [if_pos hgate]
    refine Or.inl ⟨?_, (checkCondition_absent _ _ _).1 hgate.2, rfl⟩
    intro hnil
    rw [hnil] at hgate
    simp at hgate
  · rw [if_neg hgate]
    have hpassed : e.Metrics = [] ∨ findCondition t.Status TrialObserved ≠ none := by
      by_cases hm : e.Metrics = []
      · exact Or.inl hm
      · right
        intro hnone
        apply hgate
        exact ⟨List.length_pos.2 hm, (checkCondition_absent _ _ _).2 hnone⟩
    rcases metricLoop_cases r now (TrialReconciler.metricNamespace t) e.Metrics t 0 with
      ⟨hall, heq⟩ | ⟨pre, m, post, hsplit, hpre, hopen, heq⟩
    · refine Or.inr (Or.inl ⟨hpassed, hall, ?_⟩)
      rw [heq]
      simp [Scan.andThen]
    · refine Or.inr (Or.inr ⟨hpassed, pre, m, post, hsplit, hpre, hopen, ?_⟩)
      rw [heq, Nat.zero_add]
      rfl

/-- A pass that fetches the experiment: the fetch fails, or the pass goes on with the trial
as it was fetched. -/
theorem fetch_cases (r : Env) (now : Time) (t : Trial)
    (h : Event.GetExperiment ∈ (TrialReconciler.Reconcile r now (.ok t)).trace) :
    ∃ es, (∀ e ∈ es, e.isLookup = true ∧ e ≠ Event.GetExperiment) ∧
      t.Status.CompletionTime ≠ none ∧
      ((∃ err, r.GetExperiment t = .error err ∧
        TrialReconciler.Reconcile r now (.ok t) =
          { result := Result.empty, err := some err, trial := t,
            trace := es ++ [Event.GetExperiment] }) ∨
       (∃ e, r.GetExperiment t = .ok e ∧
        TrialReconciler.Reconcile r now (.ok t) =
          (TrialReconciler.observe r now t e).after (es ++ [Event.GetExperiment]))) := by
  obtain ⟨es, hes, heq⟩ := reaches_metrics r now t h
  rw [heq] at h
  have hct : t.Status.CompletionTime ≠ none := by
    intro hc
    simp only [TrialReconciler.reconcileMetrics, hc, ne_eq, not_true_eq_false, if_false,
      Outcome.after_trace, List.append_nil] at h
    exact (hes _ h).2 rfl
  refine ⟨es, hes, hct, ?_⟩
  rw [heq, TrialReconciler.reconcileMetrics, if_pos hct]
  cases he : r.GetExperiment t with
  | error err => exact Or.inl ⟨err, rfl, by simp [Outcome.after]⟩
  | ok e => exact Or.inr ⟨e, rfl, by simp [Outcome.after]⟩

/-- The completion with an `Observed` condition that is not yet `True`. -/
theorem completeTrial_pending (r : Env) (now : Time) (t : Trial) (c : TrialCondition)
    (hc : findCondition t.Status TrialObserved = some c) (hs : c.Status ≠ ConditionTrue) :
    TrialReconciler.completeTrial r now t =
      (TrialReconciler.forTrialUpdate r
        ((t.apply TrialObserved ConditionTrue "" "" now).apply
          TrialComplete ConditionTrue "" "" now)).after
        [Event.ApplyCondition TrialObserved ConditionTrue "" "",
         Event.ApplyCondition TrialComplete ConditionTrue "" ""] := by
  unfold TrialReconciler.completeTrial
  rw [if_pos ((checkCondition_pending _ _ _).2 ⟨c, hc, hs⟩)]

/-- The completion without an `Observed` condition, or with one that is `True`. -/
theorem completeTrial_plain (r : Env) (now : Time) (t : Trial)
    (h : ∀ c, findCondition t.Status TrialObserved = some c → c.Status = ConditionTrue) :
    TrialReconciler.completeTrial r now t =
      (TrialReconciler.forTrialUpdate r
        (t.apply TrialComplete ConditionTrue "" "" now)).after
        [Event.ApplyCondition TrialComplete ConditionTrue "" ""] := by
  unfold TrialReconciler.completeTrial
  rw [if_neg]
  intro hp
  obtain ⟨c, hc, hs⟩ := (checkCondition_pending _ _ _).1 hp
  exact hs (h c hc)

theorem conditionsOf_setValue (k : TrialConditionType) (t : Trial) (idx : Nat) (v : Value) :
    conditionsOf k (setValue t idx v) = conditionsOf k t := rfl

theorem finishCapture_keeps (r : Env) (now : Time) (t : Trial) (idx : Nat)
    (ce : Option Error) (k : TrialConditionType) (h1 : k ≠ TrialFailed)
    (h2 : k ≠ TrialObserved) :
    conditionsOf k (TrialReconciler.finishCapture r now t idx ce).trial = conditionsOf k t := by
  unfold TrialReconciler.finishCapture
  split
  · dsimp only
    split_ifs
    · simp only [Outcome.after_trial, forTrialUpdate_trial]
      rw [conditionsOf_apply _ TrialObserved k h2, conditionsOf_apply _ TrialFailed k h1,
        conditionsOf_setValue]
    · simp only [Outcome.after_trial, forTrialUpdate_trial]
      rw [conditionsOf_apply _ TrialObserved k h2, conditionsOf_setValue]
    · simp only [Outcome.after_trial, forTrialUpdate_trial]
      rw [conditionsOf_apply _ TrialObserved k h2]
  · simp only [Outcome.after_trial, forTrialUpdate_trial]
    rw [conditionsOf_apply _ TrialObserved k h2]

/-- The attempt on a metric touches no condition but `Failed` and `Observed`. -/
theorem captureStep_keeps (r : Env) (now : Time) (ns : String) (i : Nat) (m : Metric)
    (t : Trial) (idx : Nat) (k : TrialConditionType) (h1 : k ≠ TrialFailed)
    (h2 : k ≠ TrialObserved) :
    conditionsOf k (TrialReconciler.captureStep r now ns i m t idx).trial =
      conditionsOf k t := by
  unfold TrialReconciler.captureStep
  dsimp only
  split
  · rw [Outcome.after_trial, finishCapture_keeps _ _ _ _ _ k h1 h2]
  · split
    · split
      · rfl
      · rw [Outcome.after_trial, finishCapture_keeps _ _ _ _ _ k h1 h2]
    · rw [Outcome.after_trial, finishCapture_keeps _ _ _ _ _ k h1 h2, conditionsOf_setValue]

theorem finishCapture_conditions (r : Env) (now : Time) (t : Trial) (idx : Nat)
    (ce : Option Error) (k : TrialConditionType) (s : ConditionStatus) (a b : String)
    (h : Event.ApplyCondition k s a b ∈ (TrialReconciler.finishCapture r now t idx ce).trace) :
    (k = TrialFailed ∧ s = ConditionTrue) ∨ (k = TrialObserved ∧ s = ConditionFalse) := by
  unfold TrialReconciler.finishCapture at h
  split at h
  · dsimp only at h
    split_ifs at h
    · simp at h
      rcases h with ⟨rfl, rfl, _⟩ | ⟨rfl, rfl, _⟩
      · exact Or.inl ⟨rfl, rfl⟩
      · exact Or.inr ⟨rfl, rfl⟩
    · simp at h
      exact Or.inr ⟨h.1, h.2.1⟩
    · simp at h
      exact Or.inr ⟨h.1, h.2.1⟩
  · simp at h
    exact Or.inr ⟨h.1, h.2.1⟩

/-- The condition updates of the attempt on a metric are `Failed=True` and
`Observed=False`. -/
theorem captureStep_conditions (r : Env) (now : Time) (ns : String) (i : Nat) (m : Metric)
    (t : Trial) (idx : Nat) (k : TrialConditionType) (s : ConditionStatus) (a b : String)
    (h : Event.ApplyCondition k s a b ∈
      (TrialReconciler.captureStep r now ns i m t idx).trace) :
    (k = TrialFailed ∧ s = ConditionTrue) ∨ (k = TrialObserved ∧ s = ConditionFalse) := by
  have htgt : Event.ApplyCondition k s a b ∉
      (getMetricTarget r.MatchingSelector (r.ListPods i) (r.ListServices i) ns m).2 := by
    intro hmem
    have := getMetricTarget_lookup _ _ _ _ _ _ hmem
    cases this
  unfold TrialReconciler.captureStep at h
  dsimp only at h
  split at h
  · simp only [Outcome.after_trace, List.mem_append] at h
    rcases h with h | h
    · exact absurd h htgt
    · exact finishCapture_conditions _ _ _ _ _ _ _ _ _ h
  · split at h
    · split at h
      · simp only [List.mem_append, List.mem_singleton] at h
        rcases h with h | h
        · exact absurd h htgt
        · cases h
      · simp only [Outcome.after_trace, List.mem_append, List.mem_singleton] at h
        rcases h with (h | h) | h
        · exact absurd h htgt
        · cases h
        · exact finishCapture_conditions _ _ _ _ _ _ _ _ _ h
    · simp only [Outcome.after_trace, List.mem_append, List.mem_singleton] at h
      rcases h with (h | h) | h
      · exact absurd h htgt
      · cases h
      · exact finishCapture_conditions _ _ _ _ _ _ _ _ _ h

theorem finishCapture_values (r : Env) (now : Time) (t : Trial) (idx : Nat)
    (ce : Option Error) (hpos : 0 < (valueAt t idx).AttemptsRemaining) :
    (TrialReconciler.finishCapture r now t idx ce).trial.Spec.Values = t.Spec.Values ∨
    ∃ v, v.Name = (valueAt t idx).Name ∧ 0 ≤ v.AttemptsRemaining ∧
      v.AttemptsRemaining < (valueAt t idx).AttemptsRemaining ∧
      (TrialReconciler.finishCapture r now t idx ce).trial.Spec.Values =
        t.Spec.Values.set idx v := by
  unfold TrialReconciler.finishCapture
  split
  · dsimp only
    rw [if_pos hpos]
    right
    refine ⟨{ valueAt t idx with
      AttemptsRemaining := (valueAt t idx).AttemptsRemaining - 1 }, rfl, ?_, ?_, ?_⟩
    · show 0 ≤ (valueAt t idx).AttemptsRemaining - 1
      omega
    · show (valueAt t idx).AttemptsRemaining - 1 < (valueAt t idx).AttemptsRemaining
      omega
    · split_ifs <;> rfl
  · left
    rfl

/-- The attempt on a metric with attempts left leaves the values as they are or replaces
the value of the metric by one of the same name with fewer attempts. -/
theorem captureStep_values (r : Env) (now : Time) (ns : String) (i : Nat) (m : Metric)
    (t : Trial) (idx : Nat) (hpos : 0 < (valueAt t idx).AttemptsRemaining) :
    (TrialReconciler.captureStep r now ns i m t idx).trial.Spec.Values = t.Spec.Values ∨
    ∃ v, v.Name = (valueAt t idx).Name ∧ 0 ≤ v.AttemptsRemaining ∧
      v.AttemptsRemaining < (valueAt t idx).AttemptsRemaining ∧
      (TrialReconciler.captureStep r now ns i m t idx).trial.Spec.Values =
        t.Spec.Values.set idx v := by
  unfold TrialReconciler.captureStep
  dsimp only
  split
  · rw [Outcome.after_trial]
    exact finishCapture_values r now t idx _ hpos
  · split
    · split
      · left; rfl
      · rw [Outcome.after_trial]
        exact finishCapture_values r now t idx _ hpos
    · right
      rename_i value stddev _
      refine ⟨{ valueAt t idx with
        AttemptsRemaining := 0, Value := r.FormatFloat value,
        Error := if stddev.nonZero then r.FormatFloat stddev else (valueAt t idx).Error },
        rfl, le_refl _, hpos, ?_⟩
      rw [Outcome.after_trial]
      unfold TrialReconciler.finishCapture
      rfl

/-! ## The conditions a pass sets -/

theorem holds_iff (t : Trial) (k : TrialConditionType) :
    Holds t k ↔ ∃ c, findCondition t.Status k = some c ∧ c.Status = ConditionTrue := by
  unfold Holds CheckConditionIs CheckCondition
  cases findCondition t.Status k with
  | none => simp
  | some c => simp

theorem holds_congr {t t1 : Trial} (k : TrialConditionType)
    (h : conditionsOf k t1 = conditionsOf k t) : Holds t1 k ↔ Holds t k := by
  unfold conditionsOf at h
  rw [holds_iff, holds_iff, findCondition_eq_head, findCondition_eq_head, h]

theorem holds_apply (t : Trial) (k : TrialConditionType) (a b : String) (now : Time) :
    Holds (t.apply k ConditionTrue a b now) k := by
  obtain ⟨c, hc, _, hs, _⟩ := findCondition_apply t k ConditionTrue a b now
  exact (holds_iff _ _).2 ⟨c, hc, hs⟩

theorem unfinished_not_holds (t : Trial) (h : IsFinished t = false) :
    ¬ Holds t TrialFailed ∧ ¬ Holds t TrialComplete := by
  unfold IsFinished at h
  rw [List.any_eq_false] at h
  have key : ∀ k, (k = TrialComplete ∨ k = TrialFailed) → ¬ Holds t k := by
    intro k hk hh
    obtain ⟨c, hc, hs⟩ := (holds_iff t k).1 hh
    unfold findCondition at hc
    have hmem := List.mem_of_find?_eq_some hc
    have hkind : c.Type_ = k := by simpa using List.find?_some hc
    have := h c hmem
    rw [hs, hkind] at this
    rcases hk with rfl | rfl <;> simp at this
  exact ⟨key _ (Or.inr rfl), key _ (Or.inl rfl)⟩

theorem completeTrial_conditions (r : Env) (now : Time) (t : Trial) (k : TrialConditionType)
    (s : ConditionStatus) (a b : String)
    (h : Event.ApplyCondition k s a b ∈ (TrialReconciler.completeTrial r now t).trace) :
    s = ConditionTrue ∧ (k = TrialObserved ∨ k = TrialComplete) := by
  unfold TrialReconciler.completeTrial at h
  split_ifs at h
  · simp at h
    rcases h with ⟨rfl, rfl, _⟩ | ⟨rfl, rfl, _⟩
    · exact ⟨rfl, Or.inl rfl⟩
    · exact ⟨rfl, Or.inr rfl⟩
  · simp at h
    exact ⟨h.2.1, Or.inr h.1⟩

theorem completeTrial_failed (r : Env) (now : Time) (t : Trial) :
    conditionsOf TrialFailed (TrialReconciler.completeTrial r now t).trial =
      conditionsOf TrialFailed t := by
  unfold TrialReconciler.completeTrial
  split_ifs
  · simp only [Outcome.after_trial, forTrialUpdate_trial]
    rw [conditionsOf_apply _ TrialComplete TrialFailed (by decide),
      conditionsOf_apply _ TrialObserved TrialFailed (by decide)]
  · simp only [Outcome.after_trial, forTrialUpdate_trial]
    rw [conditionsOf_apply _ TrialComplete TrialFailed (by decide)]

theorem completeTrial_Spec (r : Env) (now : Time) (t : Trial) :
    (TrialReconciler.completeTrial r now t).trial.Spec = t.Spec := by
  unfold TrialReconciler.completeTrial
  split_ifs <;> rfl

theorem conditionsOf_findOrCreateValue (k : TrialConditionType) (t : Trial) (name : String) :
    conditionsOf k (findOrCreateValue t name).1 = conditionsOf k t := by
  unfold conditionsOf
  rw [findOrCreateValue_Status]

/-- A pass leaves the `Complete` conditions or the `Failed` conditions as they were. -/
theorem pass_terminal (r : Env) (now : Time) (t : Trial) :
    conditionsOf TrialComplete (TrialReconciler.Reconcile r now (.ok t)).trial =
        conditionsOf TrialComplete t ∨
    conditionsOf TrialFailed (TrialReconciler.Reconcile r now (.ok t)).trial =
        conditionsOf TrialFailed t := by
  rcases Reconcile_early r now t with ⟨hf, _⟩ | hget
  · exact Or.inl hf.2.2
  · obtain ⟨es, _, _, hcase⟩ := fetch_cases r now t hget
    rcases hcase with ⟨err, _, heq⟩ | ⟨e, _, heq⟩
    · rw [heq]
      exact Or.inl rfl
    · rw [heq, Outcome.after_trial]
      rcases observe_cases r now t e with ⟨_, _, ho⟩ | ⟨_, _, ho⟩ |
        ⟨_, pre, m, post, _, _, _, ho⟩
      · rw [ho]
        exact Or.inl (conditionsOf_apply t TrialObserved TrialComplete (by decide) _ _ _ now)
      · rw [ho]
        exact Or.inr (completeTrial_failed r now t)
      · rw [ho]
        left
        rw [captureStep_keeps _ _ _ _ _ _ _ TrialComplete (by decide) (by decide),
          conditionsOf_findOrCreateValue]

/-- A pass on an unfinished trial does not leave both terminal conditions set. -/
theorem pass_exclusive (r : Env) (now : Time) (t : Trial) (h : IsFinished t = false) :
    ¬ (Holds (TrialReconciler.Reconcile r now (.ok t)).trial TrialFailed ∧
      Holds (TrialReconciler.Reconcile r now (.ok t)).trial TrialComplete) := by
  rintro ⟨hf, hc⟩
  obtain ⟨h1, h2⟩ := unfinished_not_holds t h
  rcases pass_terminal r now t with hsame | hsame
  · exact h2 ((holds_congr TrialComplete hsame).1 hc)
  · exact h1 ((holds_congr TrialFailed hsame).1 hf)

theorem finished_pass (r : Env) (now : Time) (t : Trial) (h : IsFinished t = true) :
    TrialReconciler.Reconcile r now (.ok t) =
      { result := Result.empty, err := none, trial := t, trace := [] } := by
  simp [TrialReconciler.Reconcile, h]

theorem iterate_cons (p : Env × Time) (passes : List (Env × Time)) (t : Trial) :
    iterate (p :: passes) t =
      iterate passes (TrialReconciler.Reconcile p.1 p.2 (.ok t)).trial := rfl

theorem iterate_exclusive (passes : List (Env × Time)) :
    ∀ t : Trial, ¬ (Holds t TrialFailed ∧ Holds t TrialComplete) →
      ¬ (Holds (iterate passes t) TrialFailed ∧ Holds (iterate passes t) TrialComplete) := by
  induction passes with
  | nil => intro t h; exact h
  | cons p passes ih =>
    intro t h
    rw [iterate_cons]
    apply ih
    cases hfin : IsFinished t with
    | true => rw [finished_pass p.1 p.2 t hfin]; exact h
    | false => exact pass_exclusive p.1 p.2 t hfin

/-- C28: the terminal conditions exclude each other. A pass of `TrialReconciler.Reconcile` on
a trial that has neither `Failed=True` nor `Complete=True` leaves at most one of them set;
hence the trial after any sequence of passes, in any worlds, from a trial without
conditions never has both. -/
theorem C28_terminal_exclusive (r : Env) (now : Time) (t : Trial)
    (h : IsFinished t = false) :
    ¬ (Holds (TrialReconciler.Reconcile r now (.ok t)).trial TrialFailed ∧
      Holds (TrialReconciler.Reconcile r now (.ok t)).trial TrialComplete) ∧
    ∀ (passes : List (Env × Time)) (t0 : Trial), t0.Status.Conditions = [] →
      ¬ (Holds (iterate passes t0) TrialFailed ∧ Holds (iterate passes t0) TrialComplete) := by
  refine ⟨pass_exclusive r now t h, fun passes t0 h0 => ?_⟩
  apply iterate_exclusive
  rintro ⟨hf, _⟩
  obtain ⟨c, hc, _⟩ := (holds_iff t0 TrialFailed).1 hf
  unfold findCondition at hc
  rw [h0] at hc
  simp at hc

/-- C28, witness: the last attempt on the metric `cost` fails; the trial is failed and not
complete. -/
theorem C28_terminal_exclusive_witness :
    IsFinished (Sample.collecting [Sample.attempts "cost" 1]) = false ∧
    ¬ (Holds (TrialReconciler.Reconcile Sample.failing (20 * Second)
        (.ok (Sample.collecting [Sample.attempts "cost" 1]))).trial TrialFailed ∧
      Holds (TrialReconciler.Reconcile Sample.failing (20 * Second)
        (.ok (Sample.collecting [Sample.attempts "cost" 1]))).trial TrialComplete) :=
  ⟨by decide, (C28_terminal_exclusive Sample.failing (20 * Second) _ (by decide)).1⟩

/-! ## The observation gate -/

theorem findCondition_apply_new (t : Trial) (k : TrialConditionType) (s : ConditionStatus)
    (a b : String) (now : Time) (h : findCondition t.Status k = none) :
    findCondition (t.apply k s a b now).Status k =
      some { Type_ := k, Status := s, Reason := a, Message := b,
             LastTransitionTime := now } := by
  unfold findCondition at h
  exact upsertCondition_changed k s a b now t.Status.Conditions
    (fun c hc => by rw [h] at hc; cases hc)

/-- A pass on a trial with an `Observed` condition does not set `Observed=Unknown`. -/
theorem no_unknown_again (r : Env) (now : Time) (t : Trial)
    (h : findCondition t.Status TrialObserved ≠ none) (a b : String) :
    Event.ApplyCondition TrialObserved ConditionUnknown a b ∉
      (TrialReconciler.Reconcile r now (.ok t)).trace := by
  intro hmem
  rcases Reconcile_early r now t with ⟨_, hd⟩ | hget
  · have := hd _ hmem
    cases this
  · obtain ⟨es, hes, _, hcase⟩ := fetch_cases r now t hget
    have hpre : Event.ApplyCondition TrialObserved ConditionUnknown a b ∉
        es ++ [Event.GetExperiment] := by
      intro hm
      rcases List.mem_append.1 hm with hm | hm
      · have := (hes _ hm).1
        cases this
      · simp at hm
    rcases hcase with ⟨err, _, heq⟩ | ⟨e, _, heq⟩
    · rw [heq] at hmem
      exact hpre hmem
    · rw [heq, Outcome.after_trace] at hmem
      rcases List.mem_append.1 hmem with hm | hm
      · exact hpre hm
      · rcases observe_cases r now t e with ⟨_, hnone, _⟩ | ⟨_, _, ho⟩ |
          ⟨_, pre, m, post, _, _, _, ho⟩
        · exact h hnone
        · rw [ho] at hm
          have := (completeTrial_conditions _ _ _ _ _ _ _ hm).1
          cases this
        · rw [ho] at hm
          rcases captureStep_conditions _ _ _ _ _ _ _ _ _ _ _ hm with ⟨hk, _⟩ | ⟨_, hs⟩
          · cases hk
          · cases hs

/-- C22, counterexample: the run of the trial is over, the experiment declares the metric
`cost` and the trial has no `Observed` condition, but no job is listed for it; the pass
creates a job and sets no condition. -/
theorem C22_counterexample :
    (Sample.ended [] []).Status.CompletionTime = some (9 * Second) ∧
    findCondition (Sample.ended [] []).Status TrialObserved = none ∧
    TrialReconciler.Reconcile (Sample.declaring [Sample.cost]) (20 * Second)
        (.ok (Sample.ended [] [])) =
      { result := Result.empty, err := none, trial := Sample.ended [] [],
        trace := [Event.ListJobs, Event.Create (Sample.quiet.NewJob (Sample.ended [] []))] } := by
  decide

/-- C22, as amended: in a pass of `TrialReconciler.Reconcile` that fetches the experiment,
when the experiment declares at least one metric and the trial has no `Observed` condition,
the pass stores `Observed=Unknown` with its `now`, commits that trial and returns; behind the
fetch its trace holds nothing but this update and the commit, and the values are as they
were. Whether or not the experiment is fetched, a pass on a trial that has an `Observed`
condition, of any status, never calls for `Observed=Unknown`. -/
theorem C22_observation_gate (r : Env) (now : Time) (t : Trial) (e : Experiment)
    (hget : Event.GetExperiment ∈ (TrialReconciler.Reconcile r now (.ok t)).trace)
    (he : r.GetExperiment t = .ok e) (hm : e.Metrics ≠ [])
    (hnone : findCondition t.Status TrialObserved = none) :
    (∃ es, (∀ e ∈ es, e.isLookup = true ∧ e ≠ Event.GetExperiment) ∧
      TrialReconciler.Reconcile r now (.ok t) =
        { result := (RequeueConflict
            (r.Update (t.apply TrialObserved ConditionUnknown "" "" now))).1,
          err := (RequeueConflict
            (r.Update (t.apply TrialObserved ConditionUnknown "" "" now))).2,
          trial := t.apply TrialObserved ConditionUnknown "" "" now,
          trace := es ++ [Event.GetExperiment,
            Event.ApplyCondition TrialObserved ConditionUnknown "" "",
            Event.Update (t.apply TrialObserved ConditionUnknown "" "" now)] }) ∧
    findCondition (TrialReconciler.Reconcile r now (.ok t)).trial.Status TrialObserved =
      some { Type_ := TrialObserved, Status := ConditionUnknown, Reason := "", Message := "",
             LastTransitionTime := now } ∧
    (TrialReconciler.Reconcile r now (.ok t)).trial.Spec.Values = t.Spec.Values ∧
    (∀ n, Event.CaptureMetric n ∉ (TrialReconciler.Reconcile r now (.ok t)).trace) ∧
    ∀ (r1 : Env) (now1 : Time) (t1 : Trial),
      findCondition t1.Status TrialObserved ≠ none →
      ∀ a b, Event.ApplyCondition TrialObserved ConditionUnknown a b ∉
        (TrialReconciler.Reconcile r1 now1 (.ok t1)).trace := by
  obtain ⟨es, hes, _, hcase⟩ := fetch_cases r now t hget
  have heq : TrialReconciler.Reconcile r now (.ok t) =
      { result := (RequeueConflict
          (r.Update (t.apply TrialObserved ConditionUnknown "" "" now))).1,
        err := (RequeueConflict
          (r.Update (t.apply TrialObserved ConditionUnknown "" "" now))).2,
        trial := t.apply TrialObserved ConditionUnknown "" "" now,
        trace := es ++ [Event.GetExperiment,
          Event.ApplyCondition TrialObserved ConditionUnknown "" "",
          Event.Update (t.apply TrialObserved ConditionUnknown "" "" now)] } := by
    rcases hcase with ⟨err, herr, _⟩ | ⟨e1, he1, heq⟩
    · rw [he] at herr
      cases herr
    · rw [he] at he1
      cases he1
      rcases observe_cases r now t e with ⟨_, _, ho⟩ | ⟨hp, _, _⟩ | ⟨hp, _⟩
      · rw [heq, ho]
        simp [Outcome.after, TrialReconciler.forTrialUpdate, UpdateStatus]
      · rcases hp with hp | hp
        · exact absurd hp hm
        · exact absurd hnone hp
      · rcases hp with hp | hp
        · exact absurd hp hm
        · exact absurd hnone hp
  refine ⟨⟨es, hes, heq⟩, ?_, ?_, ?_, fun r1 now1 t1 h1 a b => no_unknown_again r1 now1 t1 h1 a b⟩
  · rw [heq]
    exact findCondition_apply_new t TrialObserved ConditionUnknown "" "" now hnone
  · rw [heq]
    rfl
  · intro n hn
    rw [heq] at hn
    simp only [List.mem_append, List.mem_cons, List.mem_singleton, List.not_mem_nil,
      or_false] at hn
    rcases hn with hn | hn | hn | hn
    · have := (hes _ hn).1
      cases this
    · cases hn
    · cases hn
    · cases hn

/-- C22 as amended, witness: a finished run job is listed and the experiment declares two
metrics. -/
theorem C22_observation_gate_witness :
    findCondition (TrialReconciler.Reconcile Sample.measuring (20 * Second)
        (.ok (Sample.ended [] []))).trial.Status TrialObserved =
      some { Type_ := TrialObserved, Status := ConditionUnknown, Reason := "", Message := "",
             LastTransitionTime := 20 * Second } :=
  (C22_observation_gate Sample.measuring (20 * Second) (Sample.ended [] [])
    { Metrics := [Sample.cost, Sample.latency] } (by decide) rfl (by simp) (by decide)).2.1

/-! ## Completion -/

/-- A pass that calls for `Complete=True` has fetched an experiment all of whose metrics
have no attempt left, for a trial whose completion time is set. -/
theorem complete_only_closed (r : Env) (now : Time) (t : Trial) (s : ConditionStatus)
    (a b : String)
    (h : Event.ApplyCondition TrialComplete s a b ∈
      (TrialReconciler.Reconcile r now (.ok t)).trace) :
    t.Status.CompletionTime ≠ none ∧
    ∃ e, r.GetExperiment t = .ok e ∧ ∀ m ∈ e.Metrics, budget t m.Name = 0 := by
  rcases Reconcile_early r now t with ⟨_, hd⟩ | hget
  · have := hd _ h
    cases this
  · obtain ⟨es, hes, hct, hcase⟩ := fetch_cases r now t hget
    have hpre : Event.ApplyCondition TrialComplete s a b ∉ es ++ [Event.GetExperiment] := by
      intro hm
      rcases List.mem_append.1 hm with hm | hm
      · have := (hes _ hm).1
        cases this
      · simp at hm
    rcases hcase with ⟨err, _, heq⟩ | ⟨e, he, heq⟩
    · rw [heq] at h
      exact absurd h hpre
    · rw [heq, Outcome.after_trace] at h
      rcases List.mem_append.1 h with hm | hm
      · exact absurd hm hpre
      · rcases observe_cases r now t e with ⟨_, _, ho⟩ | ⟨_, hall, _⟩ |
          ⟨_, pre, m, post, _, _, _, ho⟩
        · rw [ho] at hm
          simp at hm
        · exact ⟨hct, e, he, hall⟩
        · rw [ho] at hm
          rcases captureStep_conditions _ _ _ _ _ _ _ _ _ _ _ hm with ⟨hk, _⟩ | ⟨hk, _⟩
          · cases hk
          · cases hk

/-- The pass that completes the trial: the experiment is fetched, the gate is behind and no
declared metric has an attempt left. -/
theorem completion_pass (r : Env) (now : Time) (t : Trial) (e : Experiment)
    (hget : Event.GetExperiment ∈ (TrialReconciler.Reconcile r now (.ok t)).trace)
    (he : r.GetExperiment t = .ok e)
    (hgate : e.Metrics = [] ∨ findCondition t.Status TrialObserved ≠ none)
    (hclosed : ∀ m ∈ e.Metrics, budget t m.Name = 0) :
    ∃ es, (∀ e ∈ es, e.isLookup = true) ∧
      TrialReconciler.Reconcile r now (.ok t) =
        (TrialReconciler.completeTrial r now t).after es := by
  obtain ⟨es, hes, _, hcase⟩ := fetch_cases r now t hget
  refine ⟨es ++ [Event.GetExperiment], ?_, ?_⟩
  · intro e1 he1
    rcases List.mem_append.1 he1 with he1 | he1
    · exact (hes e1 he1).1
    · rw [List.mem_singleton.1 he1]; rfl
  · rcases hcase with ⟨err, herr, _⟩ | ⟨e1, he1, heq⟩
    · rw [he] at herr
      cases herr
    · rw [he] at he1
      cases he1
      rcases observe_cases r now t e with ⟨hm, hnone, _⟩ | ⟨_, _, ho⟩ |
        ⟨_, pre, m, post, hsplit, _, hopen, _⟩
      · rcases hgate with hgate | hgate
        · exact absurd hgate hm
        · exact absurd hnone hgate
      · rw [heq, ho]
      · exact absurd (hclosed m (by rw [hsplit]; simp)) hopen

/-- C23, counterexample: the run of the trial is over, the observation has begun and the
only declared metric `cost` has no attempt left, but no job is listed for the trial; the
pass creates a job and does not complete the trial. -/
theorem C23_counterexample :
    (Sample.ended [Sample.observed ConditionFalse] [Sample.closed "cost"]).Status.CompletionTime =
      some (9 * Second) ∧
    budget (Sample.ended [Sample.observed ConditionFalse] [Sample.closed "cost"]) "cost" = 0 ∧
    TrialReconciler.Reconcile (Sample.declaring [Sample.cost]) (20 * Second)
        (.ok (Sample.ended [Sample.observed ConditionFalse] [Sample.closed "cost"])) =
      { result := Result.empty, err := none,
        trial := Sample.ended [Sample.observed ConditionFalse] [Sample.closed "cost"],
        trace := [Event.ListJobs, Event.Create (Sample.quiet.NewJob
          (Sample.ended [Sample.observed ConditionFalse] [Sample.closed "cost"]))] } := by
  decide

/-- C23, as amended: in a pass of `TrialReconciler.Reconcile` that fetches the experiment,
when the observation gate is behind (the experiment declares no metric, or the trial has an
`Observed` condition) and the value of every declared metric has no attempt left, the pass
stores `Complete=True`, stores `Observed=True` when an `Observed` condition exists (creating
none otherwise), and commits the trial with these conditions in the one write of the pass,
the last event of its trace; the spec of the trial is as it was. Whether or not the
experiment is fetched, a pass that calls for a `Complete` condition has a trial with a
completion time and a fetched experiment all of whose metrics have no attempt left. -/
theorem C23_completion (r : Env) (now : Time) (t : Trial) (e : Experiment)
    (hget : Event.GetExperiment ∈ (TrialReconciler.Reconcile r now (.ok t)).trace)
    (he : r.GetExperiment t = .ok e)
    (hgate : e.Metrics = [] ∨ findCondition t.Status TrialObserved ≠ none)
    (hclosed : ∀ m ∈ e.Metrics, budget t m.Name = 0) :
    Holds (TrialReconciler.Reconcile r now (.ok t)).trial TrialComplete ∧
    (findCondition t.Status TrialObserved ≠ none →
      Holds (TrialReconciler.Reconcile r now (.ok t)).trial TrialObserved) ∧
    (findCondition t.Status TrialObserved = none →
      findCondition (TrialReconciler.Reconcile r now (.ok t)).trial.Status TrialObserved =
        none) ∧
    (∃ es, (∀ e ∈ es, e.isWrite = false) ∧
      (TrialReconciler.Reconcile r now (.ok t)).trace =
        es ++ [Event.Update (TrialReconciler.Reconcile r now (.ok t)).trial]) ∧
    (TrialReconciler.Reconcile r now (.ok t)).trial.Spec = t.Spec ∧
    ∀ (r1 : Env) (now1 : Time) (t1 : Trial) (s : ConditionStatus) (a b : String),
      Event.ApplyCondition TrialComplete s a b ∈
        (TrialReconciler.Reconcile r1 now1 (.ok t1)).trace →
      t1.Status.CompletionTime ≠ none ∧
      ∃ e1, r1.GetExperiment t1 = .ok e1 ∧ ∀ m ∈ e1.Metrics, budget t1 m.Name = 0 := by
  obtain ⟨es, hes, heq⟩ := completion_pass r now t e hget he hgate hclosed
  have hw : ∀ e ∈ es, e.isWrite = false := fun e he1 => (isLookup_quiet (hes e he1)).1
  refine ⟨?_, ?_, ?_, ?_, ?_,
    fun r1 now1 t1 s a b h1 => complete_only_closed r1 now1 t1 s a b h1⟩
  · rw [heq, Outcome.after_trial]
    unfold TrialReconciler.completeTrial
    split_ifs <;> exact holds_apply _ _ _ _ _
  · intro hsome
    rw [heq, Outcome.after_trial]
    cases hc : findCondition t.Status TrialObserved with
    | none => exact absurd hc hsome
    | some c =>
      by_cases hs : c.Status = ConditionTrue
      · rw [completeTrial_plain r now t (fun c1 hc1 => by rw [hc] at hc1; cases hc1; exact hs)]
        rw [Outcome.after_trial, forTrialUpdate_trial, holds_iff,
          findCondition_apply_ne _ TrialComplete TrialObserved (by decide)]
        exact ⟨c, hc, hs⟩
      · rw [completeTrial_pending r now t c hc hs]
        rw [Outcome.after_trial, forTrialUpdate_trial, holds_iff,
          findCondition_apply_ne _ TrialComplete TrialObserved (by decide)]
        obtain ⟨c1, h1, _, h2, _⟩ := findCondition_apply t TrialObserved ConditionTrue "" "" now
        exact ⟨c1, h1, h2⟩
  · intro hnone
    rw [heq, Outcome.after_trial,
      completeTrial_plain r now t (fun c1 hc1 => by rw [hnone] at hc1; cases hc1)]
    rw [Outcome.after_trial, forTrialUpdate_trial,
      findCondition_apply_ne _ TrialComplete TrialObserved (by decide)]
    exact hnone
  · rw [heq]
    unfold TrialReconciler.completeTrial
    split_ifs
    · refine ⟨es ++ [Event.ApplyCondition TrialObserved ConditionTrue "" "",
        Event.ApplyCondition TrialComplete ConditionTrue "" ""], ?_, by simp⟩
      intro e1 he1
      rcases List.mem_append.1 he1 with he1 | he1
      · exact hw e1 he1
      · simp at he1
        rcases he1 with rfl | rfl <;> rfl
    · refine ⟨es ++ [Event.ApplyCondition TrialComplete ConditionTrue "" ""], ?_, by simp⟩
      intro e1 he1
      rcases List.mem_append.1 he1 with he1 | he1
      · exact hw e1 he1
      · simp at he1
        rw [he1]; rfl
  · rw [heq, Outcome.after_trial]
    exact completeTrial_Spec r now t

/-- C23 as amended, witness: both declared metrics are closed and `Observed` is `False`. -/
theorem C23_completion_witness :
    Holds (TrialReconciler.Reconcile Sample.measuring (20 * Second)
      (.ok (Sample.ended [Sample.observed ConditionFalse]
        [Sample.closed "cost", Sample.closed "latency"]))).trial TrialComplete ∧
    Holds (TrialReconciler.Reconcile Sample.measuring (20 * Second)
      (.ok (Sample.ended [Sample.observed ConditionFalse]
        [Sample.closed "cost", Sample.closed "latency"]))).trial TrialObserved :=
  ⟨(C23_completion Sample.measuring (20 * Second)
      (Sample.ended [Sample.observed ConditionFalse]
        [Sample.closed "cost", Sample.closed "latency"])
      { Metrics := [Sample.cost, Sample.latency] } (by decide) rfl
      (Or.inr (by decide)) (by decide)).1,
    (C23_completion Sample.measuring (20 * Second)
      (Sample.ended [Sample.observed ConditionFalse]
        [Sample.closed "cost", Sample.closed "latency"])
      { Metrics := [Sample.cost, Sample.latency] } (by decide) rfl
      (Or.inr (by decide)) (by decide)).2.1 (by decide)⟩

/-- C24, counterexample: the run of the trial is over, the experiment declares no metric and
the trial has no `Observed` condition, but the job listing fails; the pass returns the error
and sets no condition. -/
theorem C24_counterexample :
    (Sample.ended [] []).Status.CompletionTime = some (9 * Second) ∧
    findCondition (Sample.ended [] []).Status TrialObserved = none ∧
    TrialReconciler.Reconcile
        { Sample.quiet with ListJobs := fun _ => .error (Error.Other "timeout") }
        (20 * Second) (.ok (Sample.ended [] [])) =
      { result := Result.empty, err := some (Error.Other "timeout"),
        trial := Sample.ended [] [], trace := [Event.ListJobs] } := by
  decide

/-- C24, as amended: in a pass of `TrialReconciler.Reconcile` that fetches the experiment,
when the experiment declares no metric and the trial has no `Observed` condition, the pass
stores `Complete=True` with its `now` and commits that trial; behind the fetch its trace
holds nothing but this update and the commit, the trial still has no `Observed` condition
and its values are as they were. -/
theorem C24_no_metric (r : Env) (now : Time) (t : Trial) (e : Experiment)
    (hget : Event.GetExperiment ∈ (TrialReconciler.Reconcile r now (.ok t)).trace)
    (he : r.GetExperiment t = .ok e) (hm : e.Metrics = [])
    (hnone : findCondition t.Status TrialObserved = none) :
    (∃ es, (∀ e ∈ es, e.isLookup = true) ∧
      TrialReconciler.Reconcile r now (.ok t) =
        { result := (RequeueConflict
            (r.Update (t.apply TrialComplete ConditionTrue "" "" now))).1,
          err := (RequeueConflict
            (r.Update (t.apply TrialComplete ConditionTrue "" "" now))).2,
          trial := t.apply TrialComplete ConditionTrue "" "" now,
          trace := es ++ [Event.ApplyCondition TrialComplete ConditionTrue "" "",
            Event.Update (t.apply TrialComplete ConditionTrue "" "" now)] }) ∧
    Holds (TrialReconciler.Reconcile r now (.ok t)).trial TrialComplete ∧
    findCondition (TrialReconciler.Reconcile r now (.ok t)).trial.Status TrialObserved =
      none ∧
    conditionsOf TrialObserved (TrialReconciler.Reconcile r now (.ok t)).trial = [] ∧
    (TrialReconciler.Reconcile r now (.ok t)).trial.Spec.Values = t.Spec.Values := by
  obtain ⟨es, hes, heq⟩ := completion_pass r now t e hget he (Or.inl hm)
    (by rw [hm]; simp)
  have hplain := completeTrial_plain r now t (fun c1 hc1 => by rw [hnone] at hc1; cases hc1)
  have heq1 : TrialReconciler.Reconcile r now (.ok t) =
      { result := (RequeueConflict
          (r.Update (t.apply TrialComplete ConditionTrue "" "" now))).1,
        err := (RequeueConflict
          (r.Update (t.apply TrialComplete ConditionTrue "" "" now))).2,
        trial := t.apply TrialComplete ConditionTrue "" "" now,
        trace := es ++ [Event.ApplyCondition TrialComplete ConditionTrue "" "",
          Event.Update (t.apply TrialComplete ConditionTrue "" "" now)] } := by
    rw [heq, hplain]
    simp [Outcome.after, TrialReconciler.forTrialUpdate, UpdateStatus]
  have hobs : findCondition (t.apply TrialComplete ConditionTrue "" "" now).Status
      TrialObserved = none := by
    rw [findCondition_apply_ne _ TrialComplete TrialObserved (by decide)]
    exact hnone
  refine ⟨⟨es, hes, heq1⟩, ?_, ?_, ?_, ?_⟩
  · rw [heq1]
    exact holds_apply _ _ _ _ _
  · rw [heq1]
    exact hobs
  · rw [heq1]
    have h1 := hobs
    rw [findCondition_eq_head] at h1
    exact List.head?_eq_none_iff.1 h1
  · rw [heq1]
    rfl

/-- C24 as amended, witness: a finished run job is listed and the experiment declares no
metric. -/
theorem C24_no_metric_witness :
    (TrialReconciler.Reconcile (Sample.observing Sample.runJob []) (20 * Second)
      (.ok (Sample.ended [] []))).trial.Status.Conditions =
      [{ Type_ := TrialComplete, Status := ConditionTrue, Reason := "", Message := "",
         LastTransitionTime := 20 * Second }] ∧
    conditionsOf TrialObserved (TrialReconciler.Reconcile (Sample.observing Sample.runJob [])
      (20 * Second) (.ok (Sample.ended [] []))).trial = [] :=
  ⟨by decide,
    (C24_no_metric (Sample.observing Sample.runJob []) (20 * Second) (Sample.ended [] [])
      { Metrics := [] } (by decide) rfl rfl (by decide)).2.2.2.1⟩

/-! ## Bookkeeping of the values -/

theorem budget_nonneg (t : Trial) (name : String)
    (hnn : ∀ v ∈ t.Spec.Values, 0 ≤ v.AttemptsRemaining) : 0 ≤ budget t name := by
  cases h : t.Spec.Values.findIdx? (fun v => decide (v.Name = name)) with
  | some i =>
    rw [budget_found t name i h]
    obtain ⟨hlt, _, _⟩ := List.findIdx?_eq_some_iff_getElem.1 h
    rw [valueAt_eq t i hlt]
    exact hnn _ (List.get_mem _ _ _)
  | none =>
    have habs : ∀ v ∈ t.Spec.Values, v.Name ≠ name := by
      intro v hv
      have := List.findIdx?_eq_none_iff.1 h v hv
      simpa using this
    rw [budget_absent t name habs]
    decide

theorem mem_of_getElem_some {α : Type} {l : List α} {j : Nat} {a : α} (h : l[j]? = some a) :
    a ∈ l := by
  obtain ⟨hlt, heq⟩ := List.getElem?_eq_some_iff.1 h
  rw [← heq]
  exact List.getElem_mem hlt

/-- The two outcomes of `findOrCreateValue`: the first value of the name is returned and the
trial is as it was, or no value has the name and one with three attempts is appended. -/
theorem findOrCreateValue_shape (t : Trial) (name : String) :
    (∃ i u, t.Spec.Values[i]? = some u ∧ u.Name = name ∧ findOrCreateValue t name = (t, i)) ∨
    ((∀ u ∈ t.Spec.Values, u.Name ≠ name) ∧
      (findOrCreateValue t name).1.Spec.Values = t.Spec.Values ++
        [{ Name := name, Value := "", Error := "", AttemptsRemaining := 3 }] ∧
      (findOrCreateValue t name).2 = t.Spec.Values.length) := by
  cases h : t.Spec.Values.findIdx? (fun v => decide (v.Name = name)) with
  | some i =>
    left
    obtain ⟨hlt, hp, _⟩ := List.findIdx?_eq_some_iff_getElem.1 h
    exact ⟨i, t.Spec.Values[i], List.getElem?_eq_getElem hlt, by simpa using hp,
      findOrCreateValue_found t name i h⟩
  | none =>
    right
    refine ⟨?_, ?_, ?_⟩
    · intro v hv
      have := List.findIdx?_eq_none_iff.1 h v hv
      simpa using this
    · rw [findOrCreateValue_absent t name h]
    · rw [findOrCreateValue_absent t name h]

/-- A second call of `findOrCreateValue` with the same name returns the same position and
changes nothing. -/
theorem findOrCreateValue_again (t : Trial) (name : String) :
    findOrCreateValue (findOrCreateValue t name).1 name = findOrCreateValue t name :=
  findOrCreateValue_found _ name _ (findOrCreateValue_idx t name)

/-- The values after a pass: those before it, those `findOrCreateValue` leaves for a metric
with attempts left, or the latter with the value of the metric replaced by one with fewer
attempts. -/
theorem pass_values (r : Env) (now : Time) (t : Trial)
    (hnn : ∀ v ∈ t.Spec.Values, 0 ≤ v.AttemptsRemaining) :
    (TrialReconciler.Reconcile r now (.ok t)).trial.Spec.Values = t.Spec.Values ∨
    ∃ name, 0 < budget t name ∧
      ((TrialReconciler.Reconcile r now (.ok t)).trial.Spec.Values =
          (findOrCreateValue t name).1.Spec.Values ∨
       ∃ v, v.Name = name ∧ 0 ≤ v.AttemptsRemaining ∧ v.AttemptsRemaining < budget t name ∧
        (TrialReconciler.Reconcile r now (.ok t)).trial.Spec.Values =
          (findOrCreateValue t name).1.Spec.Values.set (findOrCreateValue t name).2 v) := by
  rcases Reconcile_early r now t with ⟨hf, _⟩ | hget
  · exact Or.inl hf.1
  · obtain ⟨es, _, _, hcase⟩ := fetch_cases r now t hget
    rcases hcase with ⟨err, _, heq⟩ | ⟨e, _, heq⟩
    · rw [heq]
      exact Or.inl rfl
    · rw [heq, Outcome.after_trial]
      rcases observe_cases r now t e with ⟨_, _, ho⟩ | ⟨_, _, ho⟩ |
        ⟨_, pre, m, post, _, _, hopen, ho⟩
      · rw [ho]
        exact Or.inl rfl
      · rw [ho, completeTrial_Spec]
        exact Or.inl rfl
      · rw [ho]
        have hpos : 0 < budget t m.Name :=
          lt_of_le_of_ne (budget_nonneg t m.Name hnn) (Ne.symm hopen)
        right
        refine ⟨m.Name, hpos, ?_⟩
        rcases captureStep_values r now (TrialReconciler.metricNamespace t) pre.length m
          (findOrCreateValue t m.Name).1 (findOrCreateValue t m.Name).2 hpos with
          h | ⟨v, hv, h0, hlt, h⟩
        · exact Or.inl h
        · exact Or.inr ⟨v, by rw [hv, findOrCreateValue_Name], h0, hlt, h⟩

/-- The values after a pass, position by position. -/
theorem pass_values_shape (r : Env) (now : Time) (t : Trial)
    (hnn : ∀ v ∈ t.Spec.Values, 0 ≤ v.AttemptsRemaining) :
    (TrialReconciler.Reconcile r now (.ok t)).trial.Spec.Values = t.Spec.Values ∨
    (∃ i u v, t.Spec.Values[i]? = some u ∧ 0 < u.AttemptsRemaining ∧ v.Name = u.Name ∧
      0 ≤ v.AttemptsRemaining ∧ v.AttemptsRemaining < u.AttemptsRemaining ∧
      (TrialReconciler.Reconcile r now (.ok t)).trial.Spec.Values = t.Spec.Values.set i v) ∨
    (∃ v, (∀ u ∈ t.Spec.Values, u.Name ≠ v.Name) ∧
      0 ≤ v.AttemptsRemaining ∧ v.AttemptsRemaining ≤ 3 ∧
      (TrialReconciler.Reconcile r now (.ok t)).trial.Spec.Values = t.Spec.Values ++ [v]) := by
  rcases pass_values r now t hnn with h | ⟨name, hpos, h⟩
  · exact Or.inl h
  · rcases findOrCreateValue_shape t name with ⟨i, u, hu, hname, hf⟩ | ⟨habs, hvals, hidx⟩
    · have hb : budget t name = u.AttemptsRemaining := by
        unfold budget
        rw [hf]
        unfold valueAt
        rw [List.get?_eq_getElem?, hu]
        rfl
      rw [hf] at h
      rcases h with h | ⟨v, hv, h0, hlt, h⟩
      · exact Or.inl h
      · refine Or.inr (Or.inl ⟨i, u, v, hu, ?_, ?_, h0, ?_, h⟩)
        · rw [← hb]; exact hpos
        · rw [hv, hname]
        · rw [← hb]; exact hlt
    · rw [budget_absent t name habs] at h
      rw [hvals, hidx] at h
      rcases h with h | ⟨v, hv, h0, hlt, h⟩
      · refine Or.inr (Or.inr ⟨_, habs, ?_, ?_, h⟩)
        · show (0 : Int) ≤ 3
          decide
        · show (3 : Int) ≤ 3
          decide
      · refine Or.inr (Or.inr ⟨v, ?_, h0, le_of_lt hlt, ?_⟩)
        · rw [hv]; exact habs
        · rw [h]
          simp

/-- C21: for a trial whose values all have `AttemptsRemaining ≥ 0`, a pass of
`TrialReconciler.Reconcile` keeps each value at its position with its name and an
`AttemptsRemaining` that is not larger and not negative, and leaves a value whose
`AttemptsRemaining` is 0 as it is; the number of values stays or grows by one, the new value
being the one `findOrCreateValue` created with three attempts for a name not stored before
(it has between 0 and 3 attempts behind the pass); no value is negative behind the pass.
`findOrCreateValue` leaves the trial as it is or appends one value of the name with three
attempts, and a second call with the same name returns the same position and adds nothing. -/
theorem C21_value_bookkeeping (r : Env) (now : Time) (t : Trial)
    (hnn : ∀ v ∈ t.Spec.Values, 0 ≤ v.AttemptsRemaining) :
    (∀ (j : Nat) (v : Value), t.Spec.Values[j]? = some v →
      ∃ v1, (TrialReconciler.Reconcile r now (.ok t)).trial.Spec.Values[j]? = some v1 ∧
        v1.Name = v.Name ∧ v1.AttemptsRemaining ≤ v.AttemptsRemaining ∧
        0 ≤ v1.AttemptsRemaining ∧ (v.AttemptsRemaining = 0 → v1 = v)) ∧
    ((TrialReconciler.Reconcile r now (.ok t)).trial.Spec.Values.length =
        t.Spec.Values.length ∨
      ∃ v, (TrialReconciler.Reconcile r now (.ok t)).trial.Spec.Values.length =
          t.Spec.Values.length + 1 ∧
        (TrialReconciler.Reconcile r now (.ok t)).trial.Spec.Values[t.Spec.Values.length]? =
          some v ∧
        (∀ u ∈ t.Spec.Values, u.Name ≠ v.Name) ∧
        (findOrCreateValue t v.Name).1.Spec.Values = t.Spec.Values ++
          [{ Name := v.Name, Value := "", Error := "", AttemptsRemaining := 3 }] ∧
        0 ≤ v.AttemptsRemaining ∧ v.AttemptsRemaining ≤ 3) ∧
    (∀ v ∈ (TrialReconciler.Reconcile r now (.ok t)).trial.Spec.Values,
      0 ≤ v.AttemptsRemaining) ∧
    ∀ (t1 : Trial) (name : String),
      ((findOrCreateValue t1 name).1 = t1 ∨
        ((∀ u ∈ t1.Spec.Values, u.Name ≠ name) ∧
          (findOrCreateValue t1 name).1.Spec.Values = t1.Spec.Values ++
            [{ Name := name, Value := "", Error := "", AttemptsRemaining := 3 }])) ∧
      findOrCreateValue (findOrCreateValue t1 name).1 name = findOrCreateValue t1 name ∧
      (findOrCreateValue (findOrCreateValue t1 name).1 name).1.Spec.Values.length ≤
        t1.Spec.Values.length + 1 := by
  have hfoc : ∀ (t1 : Trial) (name : String),
      (findOrCreateValue t1 name).1 = t1 ∨
        ((∀ u ∈ t1.Spec.Values, u.Name ≠ name) ∧
          (findOrCreateValue t1 name).1.Spec.Values = t1.Spec.Values ++
            [{ Name := name, Value := "", Error := "", AttemptsRemaining := 3 }]) := by
    intro t1 name
    rcases findOrCreateValue_shape t1 name with ⟨i, u, _, _, hf⟩ | ⟨habs, hvals, _⟩
    · left; rw [hf]
    · exact Or.inr ⟨habs, hvals⟩
  have hlast : ∀ (t1 : Trial) (name : String),
      ((findOrCreateValue t1 name).1 = t1 ∨
        ((∀ u ∈ t1.Spec.Values, u.Name ≠ name) ∧
          (findOrCreateValue t1 name).1.Spec.Values = t1.Spec.Values ++
            [{ Name := name, Value := "", Error := "", AttemptsRemaining := 3 }])) ∧
      findOrCreateValue (findOrCreateValue t1 name).1 name = findOrCreateValue t1 name ∧
      (findOrCreateValue (findOrCreateValue t1 name).1 name).1.Spec.Values.length ≤
        t1.Spec.Values.length + 1 := by
    intro t1 name
    refine ⟨hfoc t1 name, findOrCreateValue_again t1 name, ?_⟩
    rw [findOrCreateValue_again]
    rcases hfoc t1 name with h | ⟨_, h⟩
    · rw [h]; omega
    · rw [h]; simp
  rcases pass_values_shape r now t hnn with h | ⟨i, u, v, hu, hpos, hname, h0, hlt, h⟩ |
    ⟨v, habs, h0, h3, h⟩
  · rw [h]
    refine ⟨fun j v hv => ⟨v, hv, rfl, le_refl _, hnn v (mem_of_getElem_some hv), fun _ => rfl⟩,
      Or.inl rfl, hnn, hlast⟩
  · rw [h]
    have hi : i < t.Spec.Values.length := (List.getElem?_eq_some_iff.1 hu).1
    refine ⟨?_, Or.inl (by simp), ?_, hlast⟩
    · intro j w hw
      by_cases hij : i = j
      · subst hij
        rw [hu] at hw
        cases hw
        refine ⟨v, by simp [List.getElem?_set, hi], hname, le_of_lt hlt, h0, ?_⟩
        intro hz
        omega
      · refine ⟨w, by rw [List.getElem?_set_ne hij]; exact hw, rfl, le_refl _,
          hnn w (mem_of_getElem_some hw), fun _ => rfl⟩
    · intro w hw
      rcases List.mem_or_eq_of_mem_set hw with hw | hw
      · exact hnn w hw
      · rw [hw]; exact h0
  · rw [h]
    refine ⟨?_, Or.inr ⟨v, by simp, by simp, habs, ?_, h0, h3⟩, ?_, hlast⟩
    · intro j w hw
      have hj : j < t.Spec.Values.length := (List.getElem?_eq_some_iff.1 hw).1
      refine ⟨w, by rw [List.getElem?_append_left hj]; exact hw, rfl, le_refl _,
        hnn w (mem_of_getElem_some hw), fun _ => rfl⟩
    · rcases hfoc t v.Name with hsame | ⟨_, hvals⟩
      · exfalso
        have := findOrCreateValue_idx t v.Name
        rw [hsame] at this
        obtain ⟨hlt, hp, _⟩ := List.findIdx?_eq_some_iff_getElem.1 this
        exact habs _ (List.getElem_mem hlt) (by simpa using hp)
      · exact hvals
    · intro w hw
      rcases List.mem_append.1 hw with hw | hw
      · exact hnn w hw
      · rw [List.mem_singleton.1 hw]; exact h0

/-- C21, witness: the capture of `cost` fails for good on a trial that stores `latency` as
closed and `cost` with two attempts; `cost` keeps its position with one attempt. -/
theorem C21_value_bookkeeping_witness :
    (∀ v ∈ (Sample.collecting [Sample.closed "latency", Sample.attempts "cost" 2]).Spec.Values,
      0 ≤ v.AttemptsRemaining) ∧
    (TrialReconciler.Reconcile Sample.failing (20 * Second)
      (.ok (Sample.collecting [Sample.closed "latency", Sample.attempts "cost" 2]))).trial.Spec.Values
      = [Sample.closed "latency", Sample.attempts "cost" 1] ∧
    ∀ v ∈ (TrialReconciler.Reconcile Sample.failing (20 * Second)
      (.ok (Sample.collecting [Sample.closed "latency", Sample.attempts "cost" 2]))).trial.Spec.Values,
      0 ≤ v.AttemptsRemaining :=
  ⟨by decide, by decide,
    (C21_value_bookkeeping Sample.failing (20 * Second)
      (Sample.collecting [Sample.closed "latency", Sample.attempts "cost" 2])
      (by decide)).2.2.1⟩

/-! ## The end-to-end run -/

/-- A pass on a trial without waiting operation and without `Stable` condition leaves it
without waiting operation and without `Stable` condition. -/
theorem pass_no_stable (r : Env) (now : Time) (t : Trial)
    (hops : ∀ p ∈ t.Spec.PatchOperations, p.Wait = false)
    (hnone : findCondition t.Status TrialStable = none) :
    (∀ p ∈ (TrialReconciler.Reconcile r now (.ok t)).trial.Spec.PatchOperations,
      p.Wait = false) ∧
    findCondition (TrialReconciler.Reconcile r now (.ok t)).trial.Status TrialStable =
      none := by
  by_cases hrun : IsFinished t = false ∧ IsZero t.DeletionTimestamp = true
  · have hrec : TrialReconciler.Reconcile r now (.ok t) =
        TrialReconciler.reconcileGuard r now t := by
      rw [Reconcile_unfinished r now t hrun.1 hrun.2, reconcileWait_not_waiting r now t hops,
        TrialReconciler.reconcileStable, if_neg]
      intro h
      obtain ⟨c, hc, _⟩ := (checkCondition_pending _ _ _).1 h
      rw [hnone] at hc
      cases hc
    have hframe := TrialReconciler.reconcileGuard_frame r now t
    rw [hrec, hframe.1, findCondition_of_frame hframe]
    exact ⟨hops, hnone⟩
  · have hrec : (TrialReconciler.Reconcile r now (.ok t)).trial = t := by
      unfold TrialReconciler.Reconcile
      dsimp only
      split_ifs with h
      · rfl
      · exfalso
        apply hrun
        simp only [Bool.or_eq_true, Bool.not_eq_true', not_or, Bool.not_eq_true,
          Bool.not_eq_false] at h
        exact h
    rw [hrec]
    exact ⟨hops, hnone⟩

/-- No sequence of passes stores a `Stable` condition on a trial that has no waiting
operation and no `Stable` condition. -/
theorem iterate_no_stable (passes : List (Env × Time)) :
    ∀ t : Trial, (∀ p ∈ t.Spec.PatchOperations, p.Wait = false) →
      findCondition t.Status TrialStable = none →
      findCondition (iterate passes t).Status TrialStable = none := by
  induction passes with
  | nil => intro t _ h; exact h
  | cons p ps ih =>
    intro t hops hnone
    rw [iterate_cons]
    exact ih _ (pass_no_stable p.1 p.2 t hops hnone).1 (pass_no_stable p.1 p.2 t hops hnone).2

/-- C25, counterexample: the end-to-end run, from a fresh trial without patch operations,
conditions and values, with the single metric `latency`, a job that is created, observed
running and observed finished at instant 5 seconds, and a capture that succeeds, ends in a
state without any `Stable` condition, and no sequence of passes whatever from the fresh trial
reaches a state in which `Stable=True` holds. -/
theorem C25_counterexample :
    Sample.fresh.Spec.PatchOperations = [] ∧ Sample.fresh.Status.Conditions = [] ∧
    Sample.fresh.Spec.Values = [] ∧
    findCondition (iterate Sample.run Sample.fresh).Status TrialStable = none ∧
    ¬ Holds (iterate Sample.run Sample.fresh) TrialStable ∧
    ∀ passes : List (Env × Time), ¬ Holds (iterate passes Sample.fresh) TrialStable := by
  refine ⟨rfl, rfl, rfl, by decide, by unfold Holds; decide, ?_⟩
  intro passes h
  obtain ⟨c, hc, _⟩ := (holds_iff _ _).1 h
  rw [iterate_no_stable passes Sample.fresh (by decide) (by decide)] at hc
  cases hc

/-- C25, as amended: the end-to-end run of `TrialReconciler.Reconcile` from the fresh trial
(the job is created, observed running since instant 1 second, observed finished at instant
5 seconds, then the observation begins, `latency` is captured as 12.3 and the trial is
completed) reaches a state with start time 1 second and completion time 5 seconds in which
`Observed=True` and `Complete=True` hold, no `Stable` condition is stored, and the values are
the single entry `latency` with text "12.3" and no attempt left; no further pass, in any
world and at any instant, changes that state or does anything. In general a pass on a trial
with no waiting operation and no `Stable` condition stores no `Stable` condition. -/
theorem C25_end_to_end :
    (TrialReconciler.Reconcile (Sample.endToEnd [] []) 0 (.ok Sample.fresh)).trace =
      [Event.ListJobs, Event.Create Sample.runJob] ∧
    (iterate (Sample.run.take 2) Sample.fresh).Status =
      { StartTime := some (1 * Second), CompletionTime := none, Conditions := [] } ∧
    (iterate (Sample.run.take 3) Sample.fresh).Status =
      { StartTime := some (1 * Second), CompletionTime := some (5 * Second),
        Conditions := [] } ∧
    iterate Sample.run Sample.fresh = Sample.final ∧
    Holds (iterate Sample.run Sample.fresh) TrialObserved ∧
    Holds (iterate Sample.run Sample.fresh) TrialComplete ∧
    findCondition (iterate Sample.run Sample.fresh).Status TrialStable = none ∧
    (iterate Sample.run Sample.fresh).Spec.Values =
      [{ Name := "latency", Value := "12.3", Error := "", AttemptsRemaining := 0 }] ∧
    (∀ (r : Env) (now : Time),
      TrialReconciler.Reconcile r now (.ok (iterate Sample.run Sample.fresh)) =
        { result := Result.empty, err := none, trial := iterate Sample.run Sample.fresh,
          trace := [] }) ∧
    ∀ (r : Env) (now : Time) (t : Trial), (∀ p ∈ t.Spec.PatchOperations, p.Wait = false) →
      findCondition t.Status TrialStable = none →
      findCondition (TrialReconciler.Reconcile r now (.ok t)).trial.Status TrialStable =
        none := by
  refine ⟨by decide, by decide, by decide, by decide, by unfold Holds; decide,
    by unfold Holds; decide, by decide, by decide, ?_, fun r now t hops hnone => (pass_no_stable r now t hops hnone).2⟩
  intro r now
  exact finished_pass r now _ (by decide)

end Redsky
